import Mathlib

/-!
# Buffer pools and batched transmit queues

A shallow embedding of

* `dpdk-2.1.0/lib/librte_mempool/rte_mempool_ext.c` (the stack pool backend and the
  jump-table dispatch), and
* `ovs-master/lib/netdev-dpdk.c` (the per-queue transmit batch and the send paths),

followed by the properties established about them.

Conventions of the embedding.

* A `void *` handle (an mbuf address) is a natural number; `0` is `NULL`.
* A C array reached through a pointer is a function from slot index to handle; a store
  is `Function.update`.
* `unsigned` / `uint32_t` values are naturals, every arithmetic result of the source is
  reduced `% 2^32` where the source computes in 32 bits.
* Locks are not modelled: every function is run sequentially.
-/

set_option autoImplicit false

namespace Mempool

/-- A `void *` object handle, as an address. -/
abbrev Handle := Nat

/-- An `obj_table` / `objs[]` array seen through its base pointer. -/
abbrev Table := Nat → Handle

/-- The modulus of `unsigned` / `uint32_t` arithmetic. -/
def U32 : Nat := 4294967296

/-- The value of `ENOENT` in `errno.h` (the header is outside the sources). -/
def ENOENT : Int := 2

/-- Conversion of an `unsigned` value to `int` (the `return n;` of an `int` function). -/
def int_of_unsigned (n : Nat) : Int :=
  if n % U32 < 2147483648 then ((n % U32 : Nat) : Int) else ((n % U32 : Nat) : Int) - 4294967296

/-- The `struct rte_mempool_common_stack`: capacity, current length, object slots.
The spinlock is not modelled. -/
structure rte_mempool_common_stack where
  size : Nat
  len : Nat
  objs : Table

/-- The copy loop of `common_stack_put`:
`for (index = 0; index < n; ++index, obj_table++) cache_objs[index] = *obj_table;`
with `cache_objs = &s->objs[s->len]` (`base` is `s->len`).  The first argument counts the
iterations still to run, `n - index`. -/
def common_stack_put_loop (obj_table : Table) (base : Nat) : Nat → Nat → Table → Table
  | 0, _, objs => objs
  | k + 1, index, objs =>
      common_stack_put_loop obj_table base k (index + 1)
        (Function.update objs (base + index) (obj_table index))

/-- The function `common_stack_put`: returns the `int` result and the stack afterwards. -/
def common_stack_put (s : rte_mempool_common_stack) (obj_table : Table) (n : Nat) :
    Int × rte_mempool_common_stack :=
  if (s.len + n) % U32 > s.size then
    (-ENOENT, s)
  else
    (0, { s with
            objs := common_stack_put_loop obj_table s.len n 0 s.objs
            len := (s.len + n) % U32 })

/-- The copy loop of `common_stack_get`:
`for (index = 0, len = s->len - 1; index < n; ++index, len--, obj_table++)
   *obj_table = cache_objs[len];`
The first argument counts the iterations still to run; `len` is a 32-bit `unsigned`. -/
def common_stack_get_loop (cache_objs : Table) : Nat → Nat → Nat → Table → Table
  | 0, _, _, obj_table => obj_table
  | k + 1, index, len, obj_table =>
      common_stack_get_loop cache_objs k (index + 1) ((len + (U32 - 1)) % U32)
        (Function.update obj_table index (cache_objs len))

/-- The function `common_stack_get`: returns the `int` result, the stack afterwards and the
caller's table afterwards. -/
def common_stack_get (s : rte_mempool_common_stack) (obj_table : Table) (n : Nat) :
    Int × rte_mempool_common_stack × Table :=
  if n > s.len then
    (-ENOENT, s, obj_table)
  else
    (int_of_unsigned n,
     { s with len := (s.len + (U32 - n % U32)) % U32 },
     common_stack_get_loop s.objs n 0 ((s.len + (U32 - 1)) % U32) obj_table)

/-- The function `common_stack_get_count`. -/
def common_stack_get_count (s : rte_mempool_common_stack) : Nat :=
  s.len

/-- The backend object behind `mp->rt_pool` (a `void *` in the source): either the ring
wrapper `struct rte_mempool_common_ring` (its ring has the abstract type `R`) or the
stack. -/
inductive rte_mempool_rt_pool (R : Type) where
  | common_ring (r : R)
  | common_stack (s : rte_mempool_common_stack)

/-- The operations of the `rte_ring` library that the ring backend calls; the library is
outside the sources, so its functions are parameters of the embedding. -/
structure rte_ring_api (R : Type) where
  rte_ring_mp_enqueue_bulk : R → Table → Nat → Int × R
  rte_ring_sp_enqueue_bulk : R → Table → Nat → Int × R
  rte_ring_mc_dequeue_bulk : R → Table → Nat → Int × R × Table
  rte_ring_sc_dequeue_bulk : R → Table → Nat → Int × R × Table
  rte_ring_count : R → Nat

/-- The fields of `struct rte_mempool` that `rte_mempool_ext.c` reads and writes. -/
structure rte_mempool (R : Type) where
  rt_pool : rte_mempool_rt_pool R
  put_idx : Nat
  get_idx : Nat
  get_count_idx : Nat

/-- The handler type `rte_mempool_put_t`; `none` is a handler applied to a pool that is
not of the struct type it casts `p` to. -/
abbrev rte_mempool_put_t (R : Type) :=
  rte_mempool_rt_pool R → Table → Nat → Option (Int × rte_mempool_rt_pool R)

/-- The handler type `rte_mempool_get_t`. -/
abbrev rte_mempool_get_t (R : Type) :=
  rte_mempool_rt_pool R → Table → Nat → Option (Int × rte_mempool_rt_pool R × Table)

/-- The handler type `rte_mempool_get_count`. -/
abbrev rte_mempool_get_count (R : Type) :=
  rte_mempool_rt_pool R → Option Nat

/-- The `enum rte_mempool_put_jump_idx`. -/
def RTE_MEMPOOL_COMMON_RING_MPPUT : Nat := 0

/-- See `RTE_MEMPOOL_COMMON_RING_MPPUT`. -/
def RTE_MEMPOOL_COMMON_RING_SPPUT : Nat := 1

/-- See `RTE_MEMPOOL_COMMON_RING_MPPUT`. -/
def RTE_MEMPOOL_COMMON_STACK_PUT : Nat := 2

/-- See `RTE_MEMPOOL_COMMON_RING_MPPUT`. -/
def RTE_MEMPOOL_PUT_MAX_IDX : Nat := 3

/-- The `enum rte_mempool_get_jump_idx`. -/
def RTE_MEMPOOL_COMMON_RING_MCGET : Nat := 0

/-- See `RTE_MEMPOOL_COMMON_RING_MCGET`. -/
def RTE_MEMPOOL_COMMON_RING_SCGET : Nat := 1

/-- See `RTE_MEMPOOL_COMMON_RING_MCGET`. -/
def RTE_MEMPOOL_COMMON_STACK_GET : Nat := 2

/-- See `RTE_MEMPOOL_COMMON_RING_MCGET`. -/
def RTE_MEMPOOL_GET_MAX_IDX : Nat := 3

/-- The `enum rte_mempool_get_count_idx`. -/
def RTE_MEMPOOL_COMMON_RING_GETCOUNT : Nat := 0

/-- See `RTE_MEMPOOL_COMMON_RING_GETCOUNT`. -/
def RTE_MEMPOOL_COMMON_STACK_GETCOUNT : Nat := 1

/-- See `RTE_MEMPOOL_COMMON_RING_GETCOUNT`. -/
def RTE_MEMPOOL_GET_COUNT_MAX_IDX : Nat := 2

/-- The size of the three handler arrays. -/
def RTE_MEMPOOL_MAX_JUMP_IDX : Nat := 8

/-- The function `common_ring_mp_put`, applied to the `void *` pool. -/
def common_ring_mp_put {R : Type} (api : rte_ring_api R) : rte_mempool_put_t R
  | .common_ring r, obj_table, n =>
      let res := api.rte_ring_mp_enqueue_bulk r obj_table n
      some (res.1, .common_ring res.2)
  | .common_stack _, _, _ => none

/-- The function `common_ring_sp_put`, applied to the `void *` pool. -/
def common_ring_sp_put {R : Type} (api : rte_ring_api R) : rte_mempool_put_t R
  | .common_ring r, obj_table, n =>
      let res := api.rte_ring_sp_enqueue_bulk r obj_table n
      some (res.1, .common_ring res.2)
  | .common_stack _, _, _ => none

/-- The function `common_ring_mc_get`, applied to the `void *` pool. -/
def common_ring_mc_get {R : Type} (api : rte_ring_api R) : rte_mempool_get_t R
  | .common_ring r, obj_table, n =>
      let res := api.rte_ring_mc_dequeue_bulk r obj_table n
      some (res.1, .common_ring res.2.1, res.2.2)
  | .common_stack _, _, _ => none

/-- The function `common_ring_sc_get`, applied to the `void *` pool. -/
def common_ring_sc_get {R : Type} (api : rte_ring_api R) : rte_mempool_get_t R
  | .common_ring r, obj_table, n =>
      let res := api.rte_ring_sc_dequeue_bulk r obj_table n
      some (res.1, .common_ring res.2.1, res.2.2)
  | .common_stack _, _, _ => none

/-- The function `common_ring_get_count`, applied to the `void *` pool. -/
def common_ring_get_count {R : Type} (api : rte_ring_api R) : rte_mempool_get_count R
  | .common_ring r => some (api.rte_ring_count r)
  | .common_stack _ => none

/-- The handler `common_stack_put` behind its cast of `p` to the stack struct. -/
def common_stack_put_handler {R : Type} : rte_mempool_put_t R
  | .common_stack s, obj_table, n =>
      let res := common_stack_put s obj_table n
      some (res.1, .common_stack res.2)
  | .common_ring _, _, _ => none

/-- The handler `common_stack_get` behind its cast of `p` to the stack struct. -/
def common_stack_get_handler {R : Type} : rte_mempool_get_t R
  | .common_stack s, obj_table, n =>
      let res := common_stack_get s obj_table n
      some (res.1, .common_stack res.2.1, res.2.2)
  | .common_ring _, _, _ => none

/-- The handler `common_stack_get_count` behind its cast of `p` to the stack struct. -/
def common_stack_get_count_handler {R : Type} : rte_mempool_get_count R
  | .common_stack s => some (common_stack_get_count s)
  | .common_ring _ => none

/-- The `struct rte_mempool_jump_table` (without its spinlock); a `NULL` entry, and a slot
beyond the eight of each array, is `none`. -/
structure rte_mempool_jump_table (R : Type) where
  num_put : Nat
  num_get : Nat
  num_get_count : Nat
  put : Nat → Option (rte_mempool_put_t R)
  get : Nat → Option (rte_mempool_get_t R)
  get_count : Nat → Option (rte_mempool_get_count R)

/-- The initialised global `mempool_jump_table`. -/
def mempool_jump_table {R : Type} (api : rte_ring_api R) : rte_mempool_jump_table R where
  num_put := RTE_MEMPOOL_PUT_MAX_IDX
  put := fun idx =>
    if idx = RTE_MEMPOOL_COMMON_RING_MPPUT then some (common_ring_mp_put api)
    else if idx = RTE_MEMPOOL_COMMON_RING_SPPUT then some (common_ring_sp_put api)
    else if idx = RTE_MEMPOOL_COMMON_STACK_PUT then some common_stack_put_handler
    else none
  num_get := RTE_MEMPOOL_GET_MAX_IDX
  get := fun idx =>
    if idx = RTE_MEMPOOL_COMMON_RING_MCGET then some (common_ring_mc_get api)
    else if idx = RTE_MEMPOOL_COMMON_RING_SCGET then some (common_ring_sc_get api)
    else if idx = RTE_MEMPOOL_COMMON_STACK_GET then some common_stack_get_handler
    else none
  num_get_count := RTE_MEMPOOL_GET_COUNT_MAX_IDX
  get_count := fun idx =>
    if idx = RTE_MEMPOOL_COMMON_RING_GETCOUNT then some (common_ring_get_count api)
    else if idx = RTE_MEMPOOL_COMMON_STACK_GETCOUNT then some common_stack_get_count_handler
    else none

/-- The function `rte_mempool_common_stack_alloc`.  `zmalloc_ok` is whether
`rte_zmalloc_socket` returned memory (which is zeroed: `len = 0`, every slot `NULL`).
Returns the pointer handed back (`none` for `NULL`) and the mempool afterwards.  The byte
size handed to the allocator, `sizeof(*s) + (n+16)*sizeof(void*)` held in an `int`, is not
modelled: the slots of the stack are an unbounded table. -/
def rte_mempool_common_stack_alloc {R : Type} (mp : rte_mempool R) (n : Nat)
    (zmalloc_ok : Bool) : Option rte_mempool_common_stack × rte_mempool R :=
  if !zmalloc_ok then
    (none, mp)
  else
    let s : rte_mempool_common_stack := { size := n, len := 0, objs := fun _ => 0 }
    (some s,
     { mp with
         rt_pool := .common_stack s
         put_idx := RTE_MEMPOOL_COMMON_STACK_PUT
         get_idx := RTE_MEMPOOL_COMMON_STACK_GET
         get_count_idx := RTE_MEMPOOL_COMMON_STACK_GETCOUNT })

/-- The function `rte_mempool_ext_get_bulk`; `none` is a call through a `NULL` entry or a
handler applied to the wrong kind of pool. -/
def rte_mempool_ext_get_bulk {R : Type} (api : rte_ring_api R) (mp : rte_mempool R)
    (obj_table : Table) (n : Nat) : Option (Int × rte_mempool R × Table) :=
  match (mempool_jump_table api).get mp.get_idx with
  | none => none
  | some f =>
      match f mp.rt_pool obj_table n with
      | none => none
      | some res => some (res.1, { mp with rt_pool := res.2.1 }, res.2.2)

/-- The function `rte_mempool_ext_put_bulk`. -/
def rte_mempool_ext_put_bulk {R : Type} (api : rte_ring_api R) (mp : rte_mempool R)
    (obj_table : Table) (n : Nat) : Option (Int × rte_mempool R) :=
  match (mempool_jump_table api).put mp.put_idx with
  | none => none
  | some f =>
      match f mp.rt_pool obj_table n with
      | none => none
      | some res => some (res.1, { mp with rt_pool := res.2 })

/-- The function `rte_mempool_ext_get_count`. -/
def rte_mempool_ext_get_count {R : Type} (api : rte_ring_api R) (mp : rte_mempool R) :
    Option Int :=
  match (mempool_jump_table api).get_count mp.get_count_idx with
  | none => none
  | some f => (f mp.rt_pool).map int_of_unsigned

/-- One call on a stack pool, with its arguments: the handles (or the caller's output
table) and the request size. -/
inductive stack_call where
  | put (obj_table : Table) (n : Nat)
  | get (obj_table : Table) (n : Nat)

/-- The stack after one call. -/
def stack_call.run (s : rte_mempool_common_stack) : stack_call → rte_mempool_common_stack
  | .put obj_table n => (common_stack_put s obj_table n).2
  | .get obj_table n => (common_stack_get s obj_table n).2.1

/-- The stack after a finite sequence of calls, run in order. -/
def run_stack_calls (s : rte_mempool_common_stack) (calls : List stack_call) :
    rte_mempool_common_stack :=
  calls.foldl stack_call.run s

/-- The table whose first slots hold the handles of the list `xs`. -/
def table_of_list (xs : List Handle) : Table :=
  fun i => xs.getD i 0

/-- The first `n` slots of a table, as a list. -/
def table_prefix_list (t : Table) (n : Nat) : List Handle :=
  (List.range n).map t

/-- A small stack used for concrete evaluations: capacity 4, one handle (`5`) stored. -/
def demo_stack : rte_mempool_common_stack :=
  { size := 4, len := 1, objs := fun i => if i = 0 then 5 else 0 }

/-- A caller table used for concrete evaluations: slot `i` holds `10 + i`. -/
def demo_table : Table :=
  fun i => 10 + i

/-- A stand-in for the ring library, used only to evaluate the dispatch functions on
concrete stack pools: its ring is `Unit` and every operation reports failure. -/
def demo_ring_api : rte_ring_api Unit where
  rte_ring_mp_enqueue_bulk := fun r _ _ => (-ENOENT, r)
  rte_ring_sp_enqueue_bulk := fun r _ _ => (-ENOENT, r)
  rte_ring_mc_dequeue_bulk := fun r t _ => (-ENOENT, r, t)
  rte_ring_sc_dequeue_bulk := fun r t _ => (-ENOENT, r, t)
  rte_ring_count := fun _ => 0

/-- The demo stack behind a mempool whose indices select the stack handlers. -/
def demo_pool : rte_mempool Unit :=
  { rt_pool := .common_stack demo_stack
    put_idx := RTE_MEMPOOL_COMMON_STACK_PUT
    get_idx := RTE_MEMPOOL_COMMON_STACK_GET
    get_count_idx := RTE_MEMPOOL_COMMON_STACK_GETCOUNT }

/-- An empty stack pool of capacity `2^31` behind a mempool. -/
def demo_big_pool : rte_mempool Unit :=
  { rt_pool := .common_stack { size := 2147483648, len := 0, objs := fun _ => 0 }
    put_idx := RTE_MEMPOOL_COMMON_STACK_PUT
    get_idx := RTE_MEMPOOL_COMMON_STACK_GET
    get_count_idx := RTE_MEMPOOL_COMMON_STACK_GETCOUNT }

/-- What `rte_mempool_common_ring_alloc` uses from outside the sources: the flag constants
of `rte_mempool.h` and `rte_ring.h`, the function `rte_align32pow2`, whether `rte_zmalloc`
returns memory, and the ring that `rte_ring_create` returns (`none` for `NULL`), given the
count and the flags handed to it. -/
structure rte_ring_create_env (R : Type) where
  MEMPOOL_F_SP_PUT : Nat
  MEMPOOL_F_SC_GET : Nat
  RING_F_SP_ENQ : Nat
  RING_F_SC_DEQ : Nat
  rte_align32pow2 : Nat → Nat
  rte_zmalloc_ok : Bool
  rte_ring_create : Nat → Nat → Option R

/-- The function `rte_mempool_common_ring_alloc`; `n` and `flags` are `unsigned`.  Returns
the pointer handed back (the ring behind the wrapper, `none` for `NULL`) and the mempool
afterwards. -/
def rte_mempool_common_ring_alloc {R : Type} (lib : rte_ring_create_env R)
    (mp : rte_mempool R) (n flags : Nat) : Option R × rte_mempool R :=
  let rg_flags0 : Nat := 0
  let rg_flags1 : Nat :=
    if flags &&& lib.MEMPOOL_F_SP_PUT ≠ 0 then rg_flags0 ||| lib.RING_F_SP_ENQ else rg_flags0
  let rg_flags2 : Nat :=
    if flags &&& lib.MEMPOOL_F_SC_GET ≠ 0 then rg_flags1 ||| lib.RING_F_SC_DEQ else rg_flags1
  if !lib.rte_zmalloc_ok then
    (none, mp)
  else
    match lib.rte_ring_create (lib.rte_align32pow2 ((n + 1) % U32)) rg_flags2 with
    | none => (none, mp)
    | some r =>
        (some r,
         { mp with
             rt_pool := .common_ring r
             put_idx :=
               if flags &&& lib.MEMPOOL_F_SP_PUT ≠ 0 then RTE_MEMPOOL_COMMON_RING_SPPUT
               else RTE_MEMPOOL_COMMON_RING_MPPUT
             get_idx :=
               if flags &&& lib.MEMPOOL_F_SC_GET ≠ 0 then RTE_MEMPOOL_COMMON_RING_SCGET
               else RTE_MEMPOOL_COMMON_RING_MCGET
             get_count_idx := RTE_MEMPOOL_COMMON_RING_GETCOUNT })

/-- A stand-in for the ring creation, used for concrete evaluations: the flag values of
DPDK 2.1, an allocation that succeeds and a ring of type `Unit`. -/
def demo_ring_create_env : rte_ring_create_env Unit where
  MEMPOOL_F_SP_PUT := 4
  MEMPOOL_F_SC_GET := 8
  RING_F_SP_ENQ := 1
  RING_F_SC_DEQ := 2
  rte_align32pow2 := fun x => x
  rte_zmalloc_ok := true
  rte_ring_create := fun _ _ => some ()

end Mempool

namespace NetdevDpdk

/-!
## The transmit path of `netdev-dpdk.c`

Conventions of this part of the embedding.

* A packet (`struct rte_mbuf *`, equally `struct dp_packet *`) is its address, a natural
  number; `0` is `NULL`.  An array of `cnt` packet pointers is a list of length `cnt`.
* The DPDK primitives are outside the sources.  Their results are read from an `Env`:
  the `k`-th call of a primitive returns the `k`-th value of its stream.  Every call of a
  primitive is appended to the `trace` of the `World`, together with the two internal
  steps the properties speak about (the copy into the batch and the entry of a flush).
* A loop that need not terminate takes a `fuel` argument, the number of times its
  condition may be evaluated, and returns `none` when the fuel runs out.  `none` is also
  the result of behaviour that C leaves undefined (a `memcpy` of negative length, a
  division by zero, a read through `pkts[0]` of an empty array).
* `int` values are integers (no `int` computation of the source overflows on the states
  considered); `uint32_t` arithmetic is reduced `% 2^32`, `uint64_t` time stamps
  `% 2^64`.  The 64-bit statistics counters are kept as unreduced integers.
* Locks and the per-thread mempool mutex are not modelled.
-/

/-- A packet buffer address. -/
abbrev Mbuf := Nat

/-- The modulus of `uint32_t` arithmetic. -/
def U32 : Nat := 4294967296

/-- The modulus of `uint64_t` arithmetic. -/
def U64 : Nat := 18446744073709551616

/-- The constant `enum { MAX_TX_QUEUE_LEN = 384 }`. -/
def MAX_TX_QUEUE_LEN : Int := 384

/-- The constant `enum { DRAIN_TSC = 200000ULL }`. -/
def DRAIN_TSC : Nat := 200000

/-- The flag `VIRTIO_DEV_RUNNING` of `rte_virtio_net.h` (outside the sources). -/
def VIRTIO_DEV_RUNNING : Nat := 1

/-- The `enum dpdk_dev_type`. -/
inductive dpdk_dev_type where
  | DPDK_DEV_ETH
  | DPDK_DEV_VHOST
  deriving DecidableEq, Repr

/-- Conversion of an `int` to `uint32_t`. -/
def u32_of_int (c : Int) : Nat :=
  (c % 4294967296).toNat

/-- Conversion of a `uint32_t` to `int`. -/
def int_of_u32 (n : Nat) : Int :=
  if n % U32 < 2147483648 then ((n % U32 : Nat) : Int) else ((n % U32 : Nat) : Int) - 4294967296

/-- The `uint64_t` difference `a - b`. -/
def u64_sub (a b : Nat) : Nat :=
  (a % U64 + (U64 - b % U64)) % U64

/-- The `struct dpdk_tx_queue` (without its spinlock). -/
structure dpdk_tx_queue where
  flush_tx : Bool
  count : Int
  tsc : Nat
  burst_pkts : Nat → Mbuf

/-- The counters of `struct netdev_stats` (a `uint64_t` each): first the three that the
transmit path updates, then the others that the statistics functions read and write.  A
counter left out of a structure literal is zero. -/
structure netdev_stats where
  tx_packets : Int
  tx_bytes : Int
  tx_dropped : Int
  rx_packets : Int := 0
  rx_bytes : Int := 0
  rx_errors : Int := 0
  rx_dropped : Int := 0
  tx_errors : Int := 0
  multicast : Int := 0
  collisions : Int := 0
  rx_length_errors : Int := 0
  rx_over_errors : Int := 0
  rx_crc_errors : Int := 0
  rx_frame_errors : Int := 0
  rx_fifo_errors : Int := 0
  rx_missed_errors : Int := 0
  tx_aborted_errors : Int := 0
  tx_carrier_errors : Int := 0
  tx_fifo_errors : Int := 0
  tx_heartbeat_errors : Int := 0
  tx_window_errors : Int := 0

/-- The `struct rte_eth_link` of `rte_ethdev.h` (outside the sources): speed, duplex and
the status bit (`1` link up, `0` link down). -/
structure rte_eth_link where
  link_speed : Nat
  link_duplex : Nat
  link_status : Nat
  deriving DecidableEq, Repr

/-- The fields of the member `up` (a `struct netdev`) that the functions below read and
write: the requested queue counts. -/
structure netdev where
  n_txq : Int
  n_rxq : Int

/-- The fields of `struct netdev_dpdk` that the functions below read and write.  `tx_q` is
the array of queues, indexed by the `int` queue id; `virtio_dev` is the session pointer
(`0` for `NULL`); `vhost_id` is the string held in the `char` array, as its characters
before the terminating `NUL`.  A field left out of a structure literal is zero, as in the
memory that `netdev_dpdk_alloc` returns. -/
structure netdev_dpdk where
  max_packet_len : Int
  type : dpdk_dev_type
  tx_q : Int → dpdk_tx_queue
  stats : netdev_stats
  real_n_txq : Int
  txq_needs_locking : Bool
  virtio_dev : Nat
  up : netdev := { n_txq := 0, n_rxq := 0 }
  port_id : Int := 0
  socket_id : Int := 0
  mtu : Int := 0
  vhost_id : List Nat := []
  dpdk_mp : Option Nat := none
  link : rte_eth_link := { link_speed := 0, link_duplex := 0, link_status := 0 }
  link_reset_cnt : Int := 0

/-- One entry of the trace. -/
inductive Event where
  /-- The `memcpy` of `dpdk_queue_pkts`: `pkts` stored from slot `slot` of queue `qid`. -/
  | queue_copy (qid : Int) (slot : Int) (pkts : List Mbuf)
  /-- Entry of `dpdk_queue_flush__` on queue `qid`. -/
  | flush (qid : Int)
  /-- A call of `rte_eth_tx_burst` offering `offered`, which returned `ret`. -/
  | tx_burst (qid : Int) (offered : List Mbuf) (ret : Nat)
  /-- A call of `rte_pktmbuf_free_seg`. -/
  | free_seg (pkt : Mbuf)
  /-- A call of `dp_packet_delete`. -/
  | packet_delete (pkt : Mbuf)
  /-- A call of `rte_pktmbuf_alloc`, which returned `mbuf`. -/
  | pktmbuf_alloc (mbuf : Mbuf)
  /-- A call of `rte_vhost_enqueue_burst` offering `offered`, which returned `ret`. -/
  | vhost_enqueue (session : Nat) (offered : List Mbuf) (ret : Nat)
  /-- A call of `rte_pktmbuf_bulk_free`. -/
  | bulk_free (pkts : List Mbuf)
  /-- A call of `rte_vhost_dequeue_burst` on a session, which returned `ret`. -/
  | vhost_dequeue (session : Nat) (ret : Nat)
  deriving DecidableEq, Repr

/-- The behaviour of the primitives outside the sources.  The first argument of a stream is
the number of earlier calls of that primitive; the second argument of the two burst
primitives is the number of packets offered. -/
structure Env where
  rte_eth_tx_burst : Nat → Nat → Nat
  rte_get_timer_cycles : Nat → Nat
  rte_pktmbuf_alloc : Nat → Mbuf
  rte_vhost_enqueue_burst : Nat → Nat → Nat
  rte_vring_available_entries : Nat → Nat
  /-- The value of `VHOST_ENQ_RETRY_USECS * rte_get_timer_hz() / 1E6` as a `uint64_t`. -/
  vhost_enq_timeout : Nat
  /-- Whether `p->source == DPBUF_DPDK`. -/
  source_is_dpdk : Mbuf → Bool
  /-- The results of `rte_vhost_dequeue_burst`, a `uint16_t` each. -/
  rte_vhost_dequeue_burst : Nat → Nat := fun _ => 0
  /-- The packets that `rte_eth_rx_burst` stores in the caller's array, in array order; its
  result is their number. -/
  rte_eth_rx_burst : Nat → List Mbuf := fun _ => []
  /-- The value of `parse_lookup2` on a packet. -/
  parse_lookup2 : Nat → Mbuf → Int := fun _ _ => 0
  /-- The value of `rte_lcore_id()`. -/
  rte_lcore_id : Nat := 0

/-- The state outside the device: how often each primitive has been called, the size of
every packet (`dp_packet_size`), the `flags` word of every session, and the trace. -/
structure World where
  tx_burst_calls : Nat
  timer_calls : Nat
  alloc_calls : Nat
  enqueue_calls : Nat
  avail_calls : Nat
  pkt_size : Mbuf → Int
  virtio_flags : Nat → Nat
  trace : List Event
  dequeue_calls : Nat := 0
  /-- The `ifname` of every session, as a string. -/
  virtio_ifname : Nat → List Nat := fun _ => []
  rx_burst_calls : Nat := 0
  lookup_calls : Nat := 0

/-- The world with one more trace entry. -/
def World.log (w : World) (e : Event) : World :=
  { w with trace := w.trace ++ [e] }

/-- The `n` array slots from `start` on, as a list. -/
def slots (a : Nat → Mbuf) (start n : Nat) : List Mbuf :=
  (List.range n).map (fun j => a (start + j))

/-- The array after `memcpy(&dst[base], src, src.length * sizeof (struct rte_mbuf *))`. -/
def memcpy_slots (dst : Nat → Mbuf) (base : Nat) (src : List Mbuf) : Nat → Mbuf :=
  fun j => if base ≤ j ∧ j < base + src.length then src.getD (j - base) 0 else dst j

/-- The `while (nb_tx != txq->count)` loop of `dpdk_queue_flush__`; returns the final
`nb_tx`. -/
def dpdk_queue_flush_loop (env : Env) (qid : Int) (txq : dpdk_tx_queue) :
    Nat → Nat → World → Option (Nat × World)
  | 0, _, _ => none
  | fuel + 1, nb_tx, w =>
      if nb_tx ≠ u32_of_int txq.count then
        let n := ((u32_of_int txq.count + (U32 - nb_tx)) % U32) % 65536
        let ret := env.rte_eth_tx_burst w.tx_burst_calls n
        let w1 := { w with tx_burst_calls := w.tx_burst_calls + 1 }.log
          (Event.tx_burst qid (slots txq.burst_pkts nb_tx n) ret)
        if ret = 0 then
          some (nb_tx, w1)
        else
          dpdk_queue_flush_loop env qid txq fuel ((nb_tx + ret) % U32) w1
      else
        some (nb_tx, w)

/-- The loop `for (i = nb_tx; i < txq->count; i++) rte_pktmbuf_free_seg(txq->burst_pkts[i]);`
of `dpdk_queue_flush__`.  The first argument counts the iterations still to run. -/
def dpdk_queue_free_loop (txq : dpdk_tx_queue) : Nat → Int → World → World
  | 0, _, w => w
  | k + 1, i, w =>
      dpdk_queue_free_loop txq k (i + 1) (w.log (Event.free_seg (txq.burst_pkts i.toNat)))

/-- The function `dpdk_queue_flush__`. -/
def dpdk_queue_flush__ (env : Env) (fuel : Nat) (dev : netdev_dpdk) (qid : Int) (w : World) :
    Option (netdev_dpdk × World) :=
  let txq := dev.tx_q qid
  match dpdk_queue_flush_loop env qid txq fuel 0 (w.log (Event.flush qid)) with
  | none => none
  | some (nb_tx, w1) =>
      let w2 :=
        if nb_tx ≠ u32_of_int txq.count then
          dpdk_queue_free_loop txq (txq.count - int_of_u32 nb_tx).toNat (int_of_u32 nb_tx) w1
        else w1
      let stats1 :=
        if nb_tx ≠ u32_of_int txq.count then
          { dev.stats with
              tx_dropped := dev.stats.tx_dropped
                + (((u32_of_int txq.count + (U32 - nb_tx)) % U32 : Nat) : Int) }
        else dev.stats
      let txq1 := { txq with count := 0, tsc := env.rte_get_timer_cycles w2.timer_calls }
      some ({ dev with stats := stats1, tx_q := Function.update dev.tx_q qid txq1 },
            { w2 with timer_calls := w2.timer_calls + 1 })

/-- The function `dpdk_queue_flush`. -/
def dpdk_queue_flush (env : Env) (fuel : Nat) (dev : netdev_dpdk) (qid : Int) (w : World) :
    Option (netdev_dpdk × World) :=
  if (dev.tx_q qid).count = 0 then some (dev, w)
  else dpdk_queue_flush__ env fuel dev qid w

/-- The first half of one iteration of the `while (i < cnt)` loop of `dpdk_queue_pkts`
(with `cnt = pkts.length`): `freeslots`, `tocopy`, the `memcpy` into the batch,
`txq->count += tocopy` and `i += tocopy`.  Returns the new `i`, the device and the world. -/
def dpdk_queue_pkts_copy (qid : Int) (pkts : List Mbuf) (i : Nat) (dev : netdev_dpdk)
    (w : World) : Option (Nat × netdev_dpdk × World) :=
  let txq := dev.tx_q qid
  let freeslots : Int := MAX_TX_QUEUE_LEN - txq.count
  let tocopy : Int := min freeslots ((pkts.length : Int) - (i : Int))
  if tocopy < 0 ∨ txq.count < 0 then
    none
  else
    let chunk := (pkts.drop i).take tocopy.toNat
    let txq1 := { txq with
      burst_pkts := memcpy_slots txq.burst_pkts txq.count.toNat chunk
      count := txq.count + tocopy }
    some (i + tocopy.toNat,
          { dev with tx_q := Function.update dev.tx_q qid txq1 },
          w.log (Event.queue_copy qid txq.count chunk))

/-- The second half of one iteration of the loop of `dpdk_queue_pkts`: the flush when the
batch is full or `flush_tx` is set, then the timer reading and the flush when `DRAIN_TSC`
cycles have passed since the time stamp of the queue.  `ffuel` is the fuel handed to each
flush. -/
def dpdk_queue_pkts_drain (env : Env) (ffuel : Nat) (dev : netdev_dpdk) (qid : Int)
    (w : World) : Option (netdev_dpdk × World) :=
  match (if (dev.tx_q qid).count = MAX_TX_QUEUE_LEN ∨ (dev.tx_q qid).flush_tx = true then
           dpdk_queue_flush__ env ffuel dev qid w
         else some (dev, w)) with
  | none => none
  | some (dev2, w2) =>
      let diff_tsc := u64_sub (env.rte_get_timer_cycles w2.timer_calls) (dev2.tx_q qid).tsc
      let w3 := { w2 with timer_calls := w2.timer_calls + 1 }
      if diff_tsc ≥ DRAIN_TSC then dpdk_queue_flush__ env ffuel dev2 qid w3
      else some (dev2, w3)

/-- The `while (i < cnt)` loop of `dpdk_queue_pkts`, with `cnt = pkts.length`: each
iteration is `dpdk_queue_pkts_copy` followed by `dpdk_queue_pkts_drain`. -/
def dpdk_queue_pkts_loop (env : Env) (ffuel : Nat) (qid : Int) (pkts : List Mbuf) :
    Nat → Nat → netdev_dpdk → World → Option (netdev_dpdk × World)
  | 0, _, _, _ => none
  | fuel + 1, i, dev, w =>
      if i < pkts.length then
        match dpdk_queue_pkts_copy qid pkts i dev w with
        | none => none
        | some (i1, dev1, w1) =>
            match dpdk_queue_pkts_drain env ffuel dev1 qid w1 with
            | none => none
            | some (dev3, w4) => dpdk_queue_pkts_loop env ffuel qid pkts fuel i1 dev3 w4
      else
        some (dev, w)

/-- The function `dpdk_queue_pkts`, on the `cnt = pkts.length` packets `pkts`. -/
def dpdk_queue_pkts (env : Env) (fuel : Nat) (dev : netdev_dpdk) (qid : Int)
    (pkts : List Mbuf) (w : World) : Option (netdev_dpdk × World) :=
  dpdk_queue_pkts_loop env fuel qid pkts fuel 0 dev w

/-- The function `is_vhost_running`: the session pointer is not `NULL` and its `flags`
have `VIRTIO_DEV_RUNNING` set. -/
def is_vhost_running (w : World) (virtio_dev : Nat) : Bool :=
  virtio_dev != 0 && (w.virtio_flags virtio_dev &&& VIRTIO_DEV_RUNNING) != 0

/-- The function `netdev_dpdk_vhost_update_tx_counters`; `tx_bytes` grows by the sizes of
`packets[0 .. sent - 1]`. -/
def netdev_dpdk_vhost_update_tx_counters (w : World) (stats : netdev_stats)
    (packets : List Mbuf) (attempted dropped : Int) : netdev_stats :=
  let sent := attempted - dropped
  { stats with
      tx_packets := stats.tx_packets + sent
      tx_dropped := stats.tx_dropped + dropped
      tx_bytes := stats.tx_bytes + ((packets.take sent.toNat).map w.pkt_size).sum }

/-- The inner loop of `__netdev_dpdk_vhost_send`,
`while (!rte_vring_available_entries(..)) { if (rte_get_timer_cycles() - start > timeout)
{ expired = 1; break; } }`; returns `expired`. -/
def vhost_wait_loop (env : Env) (start : Nat) : Nat → World → Option (Bool × World)
  | 0, _ => none
  | fuel + 1, w =>
      let avail := env.rte_vring_available_entries w.avail_calls
      let w1 := { w with avail_calls := w.avail_calls + 1 }
      if avail = 0 then
        let now := env.rte_get_timer_cycles w1.timer_calls
        let w2 := { w1 with timer_calls := w1.timer_calls + 1 }
        if u64_sub now start > env.vhost_enq_timeout then
          some (true, w2)
        else
          vhost_wait_loop env start fuel w2
      else
        some (false, w1)

/-- The `do { .. } while (cnt);` loop of `__netdev_dpdk_vhost_send`.  `cur` is the offset
of `cur_pkts` in `pkts`; returns the final `cnt`.  `wfuel` is the fuel handed to each
wait loop. -/
def vhost_send_loop (env : Env) (wfuel : Nat) (virtio_dev : Nat) (pkts : List Mbuf) :
    Nat → Nat → Int → Nat → World → Option (Int × World)
  | 0, _, _, _, _ => none
  | fuel + 1, cur, cnt, start, w =>
      let n := u32_of_int cnt % 65536
      let tx_pkts := env.rte_vhost_enqueue_burst w.enqueue_calls n
      let w1 := { w with enqueue_calls := w.enqueue_calls + 1 }.log
        (Event.vhost_enqueue virtio_dev ((pkts.drop cur).take n) tx_pkts)
      if tx_pkts ≠ 0 then
        let cnt1 := int_of_u32 ((u32_of_int cnt + (U32 - tx_pkts % U32)) % U32)
        if cnt1 ≠ 0 then vhost_send_loop env wfuel virtio_dev pkts fuel (cur + tx_pkts) cnt1 start w1
        else some (cnt1, w1)
      else
        let start1 := if start = 0 then env.rte_get_timer_cycles w1.timer_calls else start
        let w2 := if start = 0 then { w1 with timer_calls := w1.timer_calls + 1 } else w1
        match vhost_wait_loop env start1 wfuel w2 with
        | none => none
        | some (expired, w3) =>
            if expired = true then some (cnt, w3)
            else if cnt ≠ 0 then vhost_send_loop env wfuel virtio_dev pkts fuel cur cnt start1 w3
            else some (cnt, w3)

/-- The function `__netdev_dpdk_vhost_send`, on the `cnt = pkts.length` packets `pkts`. -/
def __netdev_dpdk_vhost_send (env : Env) (fuel : Nat) (vhost_dev : netdev_dpdk)
    (pkts : List Mbuf) (may_steal : Bool) (w : World) : Option (netdev_dpdk × World) :=
  let virtio_dev := vhost_dev.virtio_dev
  let cnt : Int := (pkts.length : Int)
  let total_pkts : Nat := u32_of_int cnt
  let out := fun (w : World) =>
    if may_steal = true ∧ total_pkts ≠ 0 then w.log (Event.bulk_free (pkts.take total_pkts))
    else w
  if is_vhost_running w virtio_dev = false then
    some ({ vhost_dev with
              stats := { vhost_dev.stats with tx_dropped := vhost_dev.stats.tx_dropped + cnt } },
          out w)
  else
    match vhost_send_loop env fuel virtio_dev pkts fuel 0 cnt 0 w with
    | none => none
    | some (cnt1, w1) =>
        some ({ vhost_dev with
                  stats := netdev_dpdk_vhost_update_tx_counters w1 vhost_dev.stats pkts
                    (int_of_u32 total_pkts) cnt1 },
              out w1)

/-- The `for (i = 0; i < cnt; i++)` loop of `dpdk_do_tx_copy`, with `cnt = pkts.length`.  The
first argument counts the iterations still to run; `mbufs` is `mbufs[0 .. newcnt - 1]`.
Returns `mbufs`, `dropped` and the world. -/
def dpdk_do_tx_copy_loop (env : Env) (max_packet_len : Int) (pkts : List Mbuf) :
    Nat → Nat → List Mbuf → Int → World → List Mbuf × Int × World
  | 0, _, mbufs, dropped, w => (mbufs, dropped, w)
  | k + 1, i, mbufs, dropped, w =>
      let size := w.pkt_size (pkts.getD i 0)
      if size > max_packet_len then
        dpdk_do_tx_copy_loop env max_packet_len pkts k (i + 1) mbufs (dropped + 1) w
      else
        let m := env.rte_pktmbuf_alloc w.alloc_calls
        let w1 := { w with alloc_calls := w.alloc_calls + 1 }.log (Event.pktmbuf_alloc m)
        if m = 0 then
          (mbufs, dropped + ((pkts.length : Int) - (i : Int)), w1)
        else
          dpdk_do_tx_copy_loop env max_packet_len pkts k (i + 1) (mbufs ++ [m]) dropped
            { w1 with pkt_size := Function.update w1.pkt_size m size }

/-- The function `dpdk_do_tx_copy`, on the `cnt = pkts.length` packets `pkts`.  The local
array `mbufs[cnt]` is the list built by the loop (it is taken to exist also for `cnt = 0`). -/
def dpdk_do_tx_copy (env : Env) (fuel : Nat) (dev : netdev_dpdk) (qid : Int)
    (pkts : List Mbuf) (w : World) : Option (netdev_dpdk × World) :=
  let res := dpdk_do_tx_copy_loop env dev.max_packet_len pkts pkts.length 0 [] 0 w
  let mbufs := res.1
  let dropped := res.2.1
  let w1 := res.2.2
  let dev1 :=
    if dropped ≠ 0 then
      { dev with stats := { dev.stats with tx_dropped := dev.stats.tx_dropped + dropped } }
    else dev
  if dev1.type = dpdk_dev_type.DPDK_DEV_VHOST then
    __netdev_dpdk_vhost_send env fuel dev1 mbufs true w1
  else
    match dpdk_queue_pkts env fuel dev1 qid mbufs w1 with
    | none => none
    | some (dev2, w2) => dpdk_queue_flush env fuel dev2 qid w2

/-- The `for (i = 0; i < cnt; i++)` loop of the stealing branch of `netdev_dpdk_send__`.
The first argument counts the iterations still to run.  Returns `next_tx_idx`, `dropped`,
the device and the world. -/
def netdev_dpdk_send_loop (env : Env) (fuel : Nat) (qid : Int) (pkts : List Mbuf) :
    Nat → Nat → Nat → Int → netdev_dpdk → World → Option (Nat × Int × netdev_dpdk × World)
  | 0, _, next_tx_idx, dropped, dev, w => some (next_tx_idx, dropped, dev, w)
  | k + 1, i, next_tx_idx, dropped, dev, w =>
      let size := w.pkt_size (pkts.getD i 0)
      if size > dev.max_packet_len then
        match (if next_tx_idx ≠ i then
                 dpdk_queue_pkts env fuel dev qid ((pkts.drop next_tx_idx).take (i - next_tx_idx)) w
               else some (dev, w)) with
        | none => none
        | some (dev1, w1) =>
            netdev_dpdk_send_loop env fuel qid pkts k (i + 1) (i + 1) (dropped + 1) dev1
              (w1.log (Event.packet_delete (pkts.getD i 0)))
      else
        netdev_dpdk_send_loop env fuel qid pkts k (i + 1) next_tx_idx dropped dev w

/-- The queue id that `netdev_dpdk_send__` works on:
`if (dev->txq_needs_locking) qid = qid % dev->real_n_txq;` (the C remainder). -/
def netdev_dpdk_send_qid (dev : netdev_dpdk) (qid : Int) : Int :=
  if dev.txq_needs_locking = true then qid.tmod dev.real_n_txq else qid

/-- The function `netdev_dpdk_send__`, on the `cnt = pkts.length` packets `pkts`. -/
def netdev_dpdk_send__ (env : Env) (fuel : Nat) (dev : netdev_dpdk) (qid : Int)
    (pkts : List Mbuf) (may_steal : Bool) (w : World) : Option (netdev_dpdk × World) :=
  if dev.txq_needs_locking = true ∧ dev.real_n_txq = 0 then
    none
  else
    let qid1 := netdev_dpdk_send_qid dev qid
    if may_steal = false then
      dpdk_do_tx_copy env fuel dev qid1 pkts w
    else
      match pkts.head? with
      | none => none
      | some p0 =>
          if env.source_is_dpdk p0 = false then
            match dpdk_do_tx_copy env fuel dev qid1 pkts w with
            | none => none
            | some (dev1, w1) =>
                some (dev1, { w1 with trace := w1.trace ++ pkts.map Event.packet_delete })
          else
            match netdev_dpdk_send_loop env fuel qid1 pkts pkts.length 0 0 0 dev w with
            | none => none
            | some (next_tx_idx, dropped, dev1, w1) =>
                match (if next_tx_idx ≠ pkts.length then
                         dpdk_queue_pkts env fuel dev1 qid1 (pkts.drop next_tx_idx) w1
                       else some (dev1, w1)) with
                | none => none
                | some (dev2, w2) =>
                    some (if dropped ≠ 0 then
                            { dev2 with
                                stats := { dev2.stats with
                                  tx_dropped := dev2.stats.tx_dropped + dropped } }
                          else dev2,
                          w2)

/-- One call on a transmit queue: `dpdk_queue_pkts` with its packets, or
`dpdk_queue_flush`. -/
inductive queue_call where
  | queue_pkts (pkts : List Mbuf)
  | flush

/-- Runs a sequence of calls on queue `qid` of the device, in order. -/
def run_queue_calls (env : Env) (fuel : Nat) (qid : Int) :
    List queue_call → netdev_dpdk → World → Option (netdev_dpdk × World)
  | [], dev, w => some (dev, w)
  | .queue_pkts pkts :: rest, dev, w =>
      match dpdk_queue_pkts env fuel dev qid pkts w with
      | none => none
      | some (dev1, w1) => run_queue_calls env fuel qid rest dev1 w1
  | .flush :: rest, dev, w =>
      match dpdk_queue_flush env fuel dev qid w with
      | none => none
      | some (dev1, w1) => run_queue_calls env fuel qid rest dev1 w1

/-- The packets copied into the batch of queue `qid`, in trace order. -/
def enqueued_of (qid : Int) : List Event → List Mbuf
  | [] => []
  | Event.queue_copy q _ pkts :: rest =>
      if q = qid then pkts ++ enqueued_of qid rest else enqueued_of qid rest
  | _ :: rest => enqueued_of qid rest

/-- The packets accepted by `rte_eth_tx_burst` on queue `qid`, in trace order: of each call
the first `ret` packets offered. -/
def accepted_of (qid : Int) : List Event → List Mbuf
  | [] => []
  | Event.tx_burst q offered ret :: rest =>
      if q = qid then offered.take ret ++ accepted_of qid rest else accepted_of qid rest
  | _ :: rest => accepted_of qid rest

/-- The packets released with `rte_pktmbuf_free_seg`, in trace order. -/
def freed_of : List Event → List Mbuf
  | [] => []
  | Event.free_seg p :: rest => p :: freed_of rest
  | _ :: rest => freed_of rest

/-- The number of `rte_eth_tx_burst` calls in a trace. -/
def tx_burst_count : List Event → Nat
  | [] => 0
  | Event.tx_burst _ _ _ :: rest => tx_burst_count rest + 1
  | _ :: rest => tx_burst_count rest

/-- The number of entries of `dpdk_queue_flush__` in a trace. -/
def flush_count : List Event → Nat
  | [] => 0
  | Event.flush _ :: rest => flush_count rest + 1
  | _ :: rest => flush_count rest

/-- The batch of a queue: the packets in slots `0 .. count - 1`. -/
def dpdk_tx_queue.batch (txq : dpdk_tx_queue) : List Mbuf :=
  slots txq.burst_pkts 0 txq.count.toNat

/-- A run of transmit bursts over `batch` that starts with `nb_tx` packets already accepted
and ends with `s` accepted: every call offers exactly the packets not yet accepted, in
batch order; a positive result `ret` (at most the number offered) moves on by `ret`; the
run ends when everything is accepted or with the first call that returns zero. -/
inductive burst_run (qid : Int) (batch : List Mbuf) : Nat → List Event → Nat → Prop where
  | done : burst_run qid batch batch.length [] batch.length
  | stalled (nb_tx : Nat) : nb_tx < batch.length →
      burst_run qid batch nb_tx [Event.tx_burst qid (batch.drop nb_tx) 0] nb_tx
  | step (nb_tx ret : Nat) (evs : List Event) (s : Nat) : nb_tx < batch.length → 0 < ret →
      ret ≤ batch.length - nb_tx → burst_run qid batch (nb_tx + ret) evs s →
      burst_run qid batch nb_tx (Event.tx_burst qid (batch.drop nb_tx) ret :: evs) s

/-- The device and the world left by a flush of queue `qid` whose bursts were `bursts` and
accepted `s` packets in all: the rest of the batch is released and counted as dropped, the
queue is empty and stamped with the next timer reading. -/
def flush_outcome (env : Env) (dev : netdev_dpdk) (qid : Int) (w : World)
    (bursts : List Event) (s : Nat) : netdev_dpdk × World :=
  ({ dev with
       stats := { dev.stats with
         tx_dropped := dev.stats.tx_dropped + (((dev.tx_q qid).batch.length - s : Nat) : Int) }
       tx_q := Function.update dev.tx_q qid
         { dev.tx_q qid with count := 0, tsc := env.rte_get_timer_cycles w.timer_calls } },
   { w with
       tx_burst_calls := w.tx_burst_calls + bursts.length
       timer_calls := w.timer_calls + 1
       trace := w.trace ++ [Event.flush qid] ++ bursts
         ++ ((dev.tx_q qid).batch.drop s).map Event.free_seg })

/-- A trace of queue `qid` that starts with the batch `pending` and ends with the batch
`pending'`: a sequence of copies into the batch, each appending a chunk that fits in the
384 slots, and of flushes, each a `burst_run` over the whole batch followed by the release
of the packets that were not accepted, after which the batch is empty. -/
inductive queue_run (qid : Int) : List Mbuf → List Event → List Mbuf → Prop where
  | nil (pending : List Mbuf) : queue_run qid pending [] pending
  | copy (pending chunk : List Mbuf) (evs : List Event) (pending' : List Mbuf) :
      pending.length + chunk.length ≤ 384 →
      queue_run qid (pending ++ chunk) evs pending' →
      queue_run qid pending
        (Event.queue_copy qid (pending.length : Int) chunk :: evs) pending'
  | flush (pending : List Mbuf) (bursts : List Event) (s : Nat) (evs : List Event)
      (pending' : List Mbuf) :
      burst_run qid pending 0 bursts s →
      queue_run qid [] evs pending' →
      queue_run qid pending
        ([Event.flush qid] ++ bursts ++ (pending.drop s).map Event.free_seg ++ evs) pending'

/-- Scans a trace with the packets enqueued so far (`enq`) and accepted so far (`acc`) on
queue `qid`: at every transmit burst the packets accepted so far followed by the packets
offered form a subsequence of the packets enqueued so far (so nothing offered was enqueued
before a packet already accepted, and packets are offered in enqueue order), and the result
is at most the number offered. -/
def offers_follow_accepts (qid : Int) : List Mbuf → List Mbuf → List Event → Prop
  | _, _, [] => True
  | enq, acc, Event.queue_copy q _ chunk :: rest =>
      if q = qid then offers_follow_accepts qid (enq ++ chunk) acc rest
      else offers_follow_accepts qid enq acc rest
  | enq, acc, Event.tx_burst q offered ret :: rest =>
      if q = qid then
        (acc ++ offered).Sublist enq ∧ ret ≤ offered.length ∧
          offers_follow_accepts qid enq (acc ++ offered.take ret) rest
      else offers_follow_accepts qid enq acc rest
  | enq, acc, _ :: rest => offers_follow_accepts qid enq acc rest

/-- The device `dev'` differs from `dev` at most in queue `qid` (its batch, count and time
stamp) and in the counter `stats.tx_dropped`. -/
def same_outside_queue (qid : Int) (dev dev' : netdev_dpdk) : Prop :=
  dev'.max_packet_len = dev.max_packet_len ∧ dev'.type = dev.type ∧
  dev'.real_n_txq = dev.real_n_txq ∧ dev'.txq_needs_locking = dev.txq_needs_locking ∧
  dev'.virtio_dev = dev.virtio_dev ∧
  dev'.stats.tx_packets = dev.stats.tx_packets ∧ dev'.stats.tx_bytes = dev.stats.tx_bytes ∧
  (∀ q, q ≠ qid → dev'.tx_q q = dev.tx_q q) ∧
  (dev'.tx_q qid).flush_tx = (dev.tx_q qid).flush_tx

/-- The world `w'` differs from `w` at most in its trace and in the number of calls made to
the transmit burst and to the timer. -/
def same_outside_trace (w w' : World) : Prop :=
  w'.pkt_size = w.pkt_size ∧ w'.virtio_flags = w.virtio_flags ∧
  w'.alloc_calls = w.alloc_calls ∧ w'.enqueue_calls = w.enqueue_calls ∧
  w'.avail_calls = w.avail_calls

/-- What a piece of queue code that ran from `(dev, w)` to `(dev', w')` appending the
events `evs` is shown to respect: the events form a `queue_run` from the old batch to the
new one, every released packet is counted once in `tx_dropped`, the fill count stays within
`0 .. 384`, and nothing else changes. -/
def queue_step (qid : Int) (dev : netdev_dpdk) (w : World) (dev' : netdev_dpdk) (w' : World)
    (evs : List Event) : Prop :=
  w'.trace = w.trace ++ evs ∧
  queue_run qid (dev.tx_q qid).batch evs (dev'.tx_q qid).batch ∧
  dev'.stats.tx_dropped = dev.stats.tx_dropped + ((freed_of evs).length : Int) ∧
  0 ≤ (dev'.tx_q qid).count ∧ (dev'.tx_q qid).count ≤ MAX_TX_QUEUE_LEN ∧
  same_outside_queue qid dev dev' ∧ same_outside_trace w w'

/-- The packets handed to `dpdk_queue_pkts` by a sequence of calls, in call order. -/
def enqueued_by : List queue_call → List Mbuf
  | [] => []
  | .queue_pkts pkts :: rest => pkts ++ enqueued_by rest
  | .flush :: rest => enqueued_by rest

/-- The calls `dpdk_queue_pkts(.., &p, 1)`, one for each packet of `pkts`, in order. -/
def single_calls (pkts : List Mbuf) : List queue_call :=
  pkts.map (fun p => queue_call.queue_pkts [p])

/-- The trace of `n` copies of one packet each, packet `j` of `pkts` going to slot `j`. -/
def single_copies (qid : Int) (pkts : List Mbuf) (n : Nat) : List Event :=
  (List.range n).map (fun (j : Nat) => Event.queue_copy qid (j : Int) [pkts.getD j 0])

/-- The packets released with `dp_packet_delete`, in trace order. -/
def deleted_of : List Event → List Mbuf
  | [] => []
  | Event.packet_delete p :: rest => p :: deleted_of rest
  | _ :: rest => deleted_of rest

/-- The packets handed out by `rte_pktmbuf_alloc`, in trace order (`0` for a failed
allocation). -/
def allocated_of : List Event → List Mbuf
  | [] => []
  | Event.pktmbuf_alloc m :: rest => m :: allocated_of rest
  | _ :: rest => allocated_of rest

/-- Whether the size of packet `p` is at most `max_packet_len` (the negation of the test
`size > dev->max_packet_len` of the send paths). -/
def fits (w : World) (dev : netdev_dpdk) (p : Mbuf) : Bool :=
  decide (w.pkt_size p ≤ dev.max_packet_len)

/-- An environment used for concrete evaluations: the transmit burst accepts at most two
packets per call, the timer stands at 100, every allocation returns the buffer `900 + k`,
the vhost ring accepts everything, every packet is a pool buffer. -/
def demo_env : Env where
  rte_eth_tx_burst := fun _ n => min n 2
  rte_get_timer_cycles := fun _ => 100
  rte_pktmbuf_alloc := fun k => 5000 + k
  rte_vhost_enqueue_burst := fun _ n => n
  rte_vring_available_entries := fun _ => 1
  vhost_enq_timeout := 1000
  source_is_dpdk := fun _ => true

/-- An environment whose buffer allocation always fails and whose transmit burst never
accepts a packet; otherwise like `demo_env`. -/
def demo_env_starved : Env :=
  { demo_env with
      rte_eth_tx_burst := fun _ _ => 0
      rte_pktmbuf_alloc := fun _ => 0
      source_is_dpdk := fun _ => false }

/-- A world used for concrete evaluations: no call made yet, packet `p` has size
`p`, no session is running, empty trace. -/
def demo_world : World where
  tx_burst_calls := 0
  timer_calls := 0
  alloc_calls := 0
  enqueue_calls := 0
  avail_calls := 0
  pkt_size := fun p => (p : Int)
  virtio_flags := fun _ => 0
  trace := []

/-- A queue holding the three packets `11, 12, 13`, stamped at time 100. -/
def demo_queue : dpdk_tx_queue where
  flush_tx := false
  count := 3
  tsc := 100
  burst_pkts := fun j => 11 + j

/-- A physical device used for concrete evaluations: `max_packet_len = 1518`, every queue
is `demo_queue`. -/
def demo_dev : netdev_dpdk where
  max_packet_len := 1518
  type := dpdk_dev_type.DPDK_DEV_ETH
  tx_q := fun _ => demo_queue
  stats := { tx_packets := 0, tx_bytes := 0, tx_dropped := 0 }
  real_n_txq := 1
  txq_needs_locking := false
  virtio_dev := 0

/-- The device `demo_dev` with every queue full (`count = 384`). -/
def demo_full_dev : netdev_dpdk :=
  { demo_dev with tx_q := fun _ => { demo_queue with count := 384 } }

/-- The device `demo_dev` with every queue empty (`count = 0`). -/
def demo_empty_dev : netdev_dpdk :=
  { demo_dev with tx_q := fun _ => { demo_queue with count := 0 } }

/-- An environment whose transmit burst reports two packets sent whatever it is offered;
otherwise like `demo_env`. -/
def demo_env_greedy : Env :=
  { demo_env with rte_eth_tx_burst := fun _ _ => 2 }

/-- The device `demo_dev` with every queue empty and its `flush_tx` flag set. -/
def demo_eager_dev : netdev_dpdk :=
  { demo_dev with tx_q := fun _ => { demo_queue with count := 0, flush_tx := true } }

/-!
## Device set-up, queue negotiation and the pool registry

Conventions of this part of the embedding.

* The calls into the Ethernet device library and the mempool library are outside the
  sources.  Their results are read from an `EthEnv`, as streams indexed by the number of
  earlier calls; every call is appended to the `trace` of the `EthWorld`.
* `dpdk_rte_mzalloc` either returns zeroed memory or ends the process (`out_of_memory`);
  the embedding follows the runs in which it returns.
* The global lists `dpdk_list` and `dpdk_mp_list` are lists of structure values, in list
  order; a pointer to a list element is its position in the list.
* A C string is the list of its characters before the terminating `NUL`.
-/

/-- The value of `ENODEV` in `errno.h` (the header is outside the sources). -/
def ENODEV : Int := 19

/-- The value of `ENOMEM` in `errno.h` (the header is outside the sources). -/
def ENOMEM : Int := 12

/-- The value of `EAGAIN` in `errno.h` (the header is outside the sources). -/
def EAGAIN : Int := 11

/-- The constant `ETHER_MTU` of `rte_ether.h` (outside the sources). -/
def ETHER_MTU : Int := 1500

/-- The constant `ETHER_HDR_LEN` of `rte_ether.h` (outside the sources). -/
def ETHER_HDR_LEN : Int := 14

/-- The constant `ETHER_CRC_LEN` of `rte_ether.h` (outside the sources). -/
def ETHER_CRC_LEN : Int := 4

/-- The expression `MTU_TO_MAX_LEN(mtu)`. -/
def MTU_TO_MAX_LEN (mtu : Int) : Int :=
  mtu + ETHER_HDR_LEN + ETHER_CRC_LEN

/-- The constant `SOCKET0`. -/
def SOCKET0 : Int := 0

/-- The constant `MAX_NB_MBUF`, `4096 * 64`. -/
def MAX_NB_MBUF : Nat := 4096 * 64

/-- The constant `MIN_NB_MBUF`, `4096 * 4`. -/
def MIN_NB_MBUF : Nat := 4096 * 4

/-- The `struct dpdk_mp` (without its list node): the pool pointer, the key and the
reference count. -/
structure dpdk_mp where
  mp : Nat
  mtu : Int
  socket_id : Int
  refcount : Int
  deriving DecidableEq, Repr

/-- One entry of the trace of the set-up path. -/
inductive EthEvent where
  /-- A call `rte_eth_dev_configure(port, n_rxq, n_txq, ..)`, which returned `diag`. -/
  | configure (n_rxq n_txq : Int) (diag : Int)
  /-- A call `rte_eth_tx_queue_setup(port, i, ..)`, which returned `diag`. -/
  | tx_queue_setup (i : Int) (diag : Int)
  /-- A call `rte_eth_rx_queue_setup(port, i, ..)`, which returned `diag`. -/
  | rx_queue_setup (i : Int) (diag : Int)
  /-- A call `rte_eth_dev_start(port)`, which returned `diag`. -/
  | dev_start (diag : Int)
  /-- A call `rte_eth_dev_stop(port)`. -/
  | dev_stop
  /-- A call `rte_mempool_create(.., mp_size, ..)`, which returned `mp` (`0` for `NULL`). -/
  | mempool_create (mp_size : Nat) (mp : Nat)
  deriving DecidableEq, Repr

/-- The behaviour of the libraries that the set-up path calls.  The first argument of a
stream is the number of earlier calls of that function. -/
structure EthEnv where
  /-- The value of `rte_eth_dev_count()`. -/
  rte_eth_dev_count : Int
  /-- The `max_rx_queues` and `max_tx_queues` (a `uint16_t` each) that
  `rte_eth_dev_info_get` reports. -/
  rte_eth_dev_info_get : Nat → Nat × Nat
  /-- The result of `rte_eth_dev_configure`, given the two counts passed. -/
  rte_eth_dev_configure : Nat → Int → Int → Int
  /-- The result of `rte_eth_tx_queue_setup`, given the queue index. -/
  rte_eth_tx_queue_setup : Nat → Int → Int
  /-- The result of `rte_eth_rx_queue_setup`, given the queue index. -/
  rte_eth_rx_queue_setup : Nat → Int → Int
  rte_eth_dev_start : Nat → Int
  /-- The value of `rte_eth_dev_socket_id(port_no)`. -/
  rte_eth_dev_socket_id : Nat → Int
  /-- The value of `rte_lcore_to_socket_id(rte_get_master_lcore())`. -/
  master_lcore_socket_id : Int
  /-- The value of `ovs_numa_get_numa_id(i)`. -/
  ovs_numa_get_numa_id : Nat → Int
  /-- The result of the `snprintf` that builds the pool name. -/
  snprintf : Nat → Int
  /-- The result of `rte_mempool_create`, given `mp_size` (`0` for `NULL`). -/
  rte_mempool_create : Nat → Nat → Nat
  /-- The value of `rte_errno` after the call of `rte_mempool_create`. -/
  rte_errno : Nat → Int

/-- The state of the set-up path outside the device: how often each library function has
been called, and the trace. -/
structure EthWorld where
  info_calls : Nat
  configure_calls : Nat
  tx_setup_calls : Nat
  rx_setup_calls : Nat
  start_calls : Nat
  snprintf_calls : Nat
  create_calls : Nat
  trace : List EthEvent

/-- The world with one more trace entry. -/
def EthWorld.log (w : EthWorld) (e : EthEvent) : EthWorld :=
  { w with trace := w.trace ++ [e] }

/-- The search `LIST_FOR_EACH (dmp, list_node, &dpdk_mp_list)` of `dpdk_mp_get`: at the
first entry with the key, `dmp->refcount++; return dmp;`.  Returns the position of that
entry and the list afterwards, or `none` when the loop runs to the end of the list. -/
def dpdk_mp_list_lookup (socket_id mtu : Int) : List dpdk_mp → Option (Nat × List dpdk_mp)
  | [] => none
  | dmp :: rest =>
      if dmp.socket_id = socket_id ∧ dmp.mtu = mtu then
        some (0, { dmp with refcount := dmp.refcount + 1 } :: rest)
      else
        match dpdk_mp_list_lookup socket_id mtu rest with
        | none => none
        | some (i, rest1) => some (i + 1, dmp :: rest1)

/-- The loop `do { .. } while (!dmp->mp && rte_errno == ENOMEM &&
(mp_size /= 2) >= MIN_NB_MBUF);` of `dpdk_mp_get`.  Returns `dmp->mp` (`0` for `NULL`, also
when the function leaves through `return NULL` after a failed `snprintf`). -/
def dpdk_mp_create_loop (env : EthEnv) : Nat → Nat → EthWorld → Option (Nat × EthWorld)
  | 0, _, _ => none
  | fuel + 1, mp_size, w =>
      let r := env.snprintf w.snprintf_calls
      let w0 := { w with snprintf_calls := w.snprintf_calls + 1 }
      if r < 0 then
        some (0, w0)
      else
        let mp := env.rte_mempool_create w0.create_calls mp_size
        let rte_errno := env.rte_errno w0.create_calls
        let w1 := { w0 with create_calls := w0.create_calls + 1 }.log
          (EthEvent.mempool_create mp_size mp)
        if mp = 0 ∧ rte_errno = ENOMEM ∧ mp_size / 2 ≥ MIN_NB_MBUF then
          dpdk_mp_create_loop env fuel (mp_size / 2) w1
        else
          some (mp, w1)

/-- The function `dpdk_mp_get`.  Returns the pointer handed back (the position of the entry
in the list, `none` for `NULL`), the list `dpdk_mp_list` afterwards and the world. -/
def dpdk_mp_get (env : EthEnv) (fuel : Nat) (socket_id mtu : Int)
    (dpdk_mp_list : List dpdk_mp) (w : EthWorld) :
    Option (Option Nat × List dpdk_mp × EthWorld) :=
  match dpdk_mp_list_lookup socket_id mtu dpdk_mp_list with
  | some (i, list1) => some (some i, list1, w)
  | none =>
      match dpdk_mp_create_loop env fuel MAX_NB_MBUF w with
      | none => none
      | some (mp, w1) =>
          if mp = 0 then
            some (none, dpdk_mp_list, w1)
          else
            some (some dpdk_mp_list.length,
                  dpdk_mp_list ++ [{ mp := mp, mtu := mtu, socket_id := socket_id,
                                     refcount := 1 }],
                  w1)

/-- The loop `for (i = 0; i < n_txq; i++) { diag = rte_eth_tx_queue_setup(.., i, ..);
if (diag) break; }` of `dpdk_eth_dev_queue_setup`.  The first argument counts the
iterations still to run; returns `i`, `diag` and the world. -/
def dpdk_eth_dev_txq_loop (env : EthEnv) : Nat → Int → Int → EthWorld → Int × Int × EthWorld
  | 0, i, diag, w => (i, diag, w)
  | k + 1, i, _, w =>
      let diag := env.rte_eth_tx_queue_setup w.tx_setup_calls i
      let w1 := { w with tx_setup_calls := w.tx_setup_calls + 1 }.log
        (EthEvent.tx_queue_setup i diag)
      if diag ≠ 0 then (i, diag, w1)
      else dpdk_eth_dev_txq_loop env k (i + 1) diag w1

/-- The loop `for (i = 0; i < n_rxq; i++) { diag = rte_eth_rx_queue_setup(.., i, ..);
if (diag) break; }` of `dpdk_eth_dev_queue_setup`. -/
def dpdk_eth_dev_rxq_loop (env : EthEnv) : Nat → Int → Int → EthWorld → Int × Int × EthWorld
  | 0, i, diag, w => (i, diag, w)
  | k + 1, i, _, w =>
      let diag := env.rte_eth_rx_queue_setup w.rx_setup_calls i
      let w1 := { w with rx_setup_calls := w.rx_setup_calls + 1 }.log
        (EthEvent.rx_queue_setup i diag)
      if diag ≠ 0 then (i, diag, w1)
      else dpdk_eth_dev_rxq_loop env k (i + 1) diag w1

/-- The loop `while (n_rxq && n_txq)` of `dpdk_eth_dev_queue_setup`, entered with the
current `diag`; returns the value the function returns, the device and the world. -/
def dpdk_eth_dev_queue_setup_loop (env : EthEnv) :
    Nat → netdev_dpdk → Int → Int → Int → EthWorld → Option (Int × netdev_dpdk × EthWorld)
  | 0, _, _, _, _, _ => none
  | fuel + 1, dev, n_rxq, n_txq, diag, w =>
      if n_rxq ≠ 0 ∧ n_txq ≠ 0 then
        let diag1 := env.rte_eth_dev_configure w.configure_calls n_rxq n_txq
        let w1 := { w with configure_calls := w.configure_calls + 1 }.log
          (EthEvent.configure n_rxq n_txq diag1)
        if diag1 ≠ 0 then
          some (diag1, dev, w1)
        else
          let tx := dpdk_eth_dev_txq_loop env n_txq.toNat 0 diag1 w1
          if tx.1 ≠ n_txq then
            dpdk_eth_dev_queue_setup_loop env fuel dev n_rxq tx.1 tx.2.1 tx.2.2
          else
            let rx := dpdk_eth_dev_rxq_loop env n_rxq.toNat 0 tx.2.1 tx.2.2
            if rx.1 ≠ n_rxq then
              dpdk_eth_dev_queue_setup_loop env fuel dev rx.1 n_txq rx.2.1 rx.2.2
            else
              some (0, { dev with up := { dev.up with n_rxq := n_rxq }, real_n_txq := n_txq },
                    rx.2.2)
      else
        some (diag, dev, w)

/-- The function `dpdk_eth_dev_queue_setup`. -/
def dpdk_eth_dev_queue_setup (env : EthEnv) (fuel : Nat) (dev : netdev_dpdk)
    (n_rxq n_txq : Int) (w : EthWorld) : Option (Int × netdev_dpdk × EthWorld) :=
  dpdk_eth_dev_queue_setup_loop env fuel dev n_rxq n_txq 0 w

/-- The function `dpdk_eth_dev_init`.  After a successful start the function stores the
hardware address, `buf_size` and `flags`, fields that are not part of the embedding, and
the link state that `rte_eth_link_get_nowait` reports; that last store is not modelled
here (the field `link` is read only by the link check and the statistics functions, whose
properties take the stored link state as arbitrary). -/
def dpdk_eth_dev_init (env : EthEnv) (fuel : Nat) (dev : netdev_dpdk) (w : EthWorld) :
    Option (Int × netdev_dpdk × EthWorld) :=
  if dev.port_id < 0 ∨ dev.port_id ≥ env.rte_eth_dev_count then
    some (ENODEV, dev, w)
  else
    let info := env.rte_eth_dev_info_get w.info_calls
    let w0 := { w with info_calls := w.info_calls + 1 }
    let n_rxq : Int := min (info.1 : Int) dev.up.n_rxq
    let n_txq : Int := min (info.2 : Int) dev.up.n_txq
    match dpdk_eth_dev_queue_setup env fuel dev n_rxq n_txq w0 with
    | none => none
    | some (diag, dev1, w1) =>
        if diag ≠ 0 then
          some (-diag, dev1, w1)
        else
          let diag2 := env.rte_eth_dev_start w1.start_calls
          let w2 := { w1 with start_calls := w1.start_calls + 1 }.log
            (EthEvent.dev_start diag2)
          if diag2 ≠ 0 then some (-diag2, dev1, w2)
          else some (0, dev1, w2)

/-- A queue in zeroed memory. -/
def dpdk_tx_queue.zero : dpdk_tx_queue :=
  { flush_tx := false, count := 0, tsc := 0, burst_pkts := fun _ => 0 }

/-- The function `netdev_dpdk_alloc_txq`: a fresh zeroed array of `n_txqs` queues, whose
`flush_tx` flags are set from the NUMA placement.  A slot outside the array reads as a
zeroed queue. -/
def netdev_dpdk_alloc_txq (env : EthEnv) (netdev : netdev_dpdk) (n_txqs : Nat) :
    netdev_dpdk :=
  { netdev with
      tx_q := fun q =>
        if 0 ≤ q ∧ q < (n_txqs : Int) then
          { dpdk_tx_queue.zero with
              flush_tx :=
                if netdev.txq_needs_locking = false then
                  decide (netdev.socket_id = env.ovs_numa_get_numa_id q.toNat)
                else true }
        else dpdk_tx_queue.zero }

/-- The function `netdev_dpdk_init`.  `NR_QUEUE` is a constant defined outside the sources
and is a parameter here; `port_no` is an `unsigned int`.  Returns `err`, the device, the
lists `dpdk_list` and `dpdk_mp_list` afterwards and the world.  (`flags = 0` is a store to
a field that is not part of the embedding.) -/
def netdev_dpdk_init (env : EthEnv) (fuel : Nat) (NR_QUEUE : Int) (netdev : netdev_dpdk)
    (port_no : Nat) (type : dpdk_dev_type) (dpdk_list : List netdev_dpdk)
    (dpdk_mp_list : List dpdk_mp) (w : EthWorld) :
    Option (Int × netdev_dpdk × List netdev_dpdk × List dpdk_mp × EthWorld) :=
  let sid : Int :=
    if type = dpdk_dev_type.DPDK_DEV_ETH then env.rte_eth_dev_socket_id port_no
    else env.master_lcore_socket_id
  let netdev1 : netdev_dpdk :=
    { netdev with
        socket_id := if sid < 0 then SOCKET0 else sid
        port_id := int_of_u32 port_no
        type := type
        mtu := ETHER_MTU
        max_packet_len := MTU_TO_MAX_LEN ETHER_MTU }
  match dpdk_mp_get env fuel netdev1.socket_id netdev1.mtu dpdk_mp_list w with
  | none => none
  | some (none, mp_list1, w1) =>
      some (ENOMEM, { netdev1 with dpdk_mp := none }, dpdk_list, mp_list1, w1)
  | some (some i, mp_list1, w1) =>
      let netdev2 : netdev_dpdk :=
        { netdev1 with
            dpdk_mp := some i
            up := { netdev1.up with n_txq := NR_QUEUE, n_rxq := NR_QUEUE }
            real_n_txq := NR_QUEUE }
      if type = dpdk_dev_type.DPDK_DEV_ETH then
        let netdev3 := netdev_dpdk_alloc_txq env netdev2 (u32_of_int NR_QUEUE)
        match dpdk_eth_dev_init env fuel netdev3 w1 with
        | none => none
        | some (err, netdev4, w2) =>
            if err ≠ 0 then some (err, netdev4, dpdk_list, mp_list1, w2)
            else some (0, netdev4, dpdk_list ++ [netdev4], mp_list1, w2)
      else
        some (0, netdev2, dpdk_list ++ [netdev2], mp_list1, w1)

/-- The function `netdev_dpdk_set_multiq`; `n_txq` and `n_rxq` are `unsigned int`. -/
def netdev_dpdk_set_multiq (env : EthEnv) (fuel : Nat) (netdev : netdev_dpdk)
    (n_txq n_rxq : Nat) (w : EthWorld) : Option (Int × netdev_dpdk × EthWorld) :=
  if u32_of_int netdev.up.n_txq = n_txq ∧ u32_of_int netdev.up.n_rxq = n_rxq then
    some (0, netdev, w)
  else
    let w0 := w.log EthEvent.dev_stop
    let old_txq := netdev.up.n_txq
    let old_rxq := netdev.up.n_rxq
    let netdev1 : netdev_dpdk :=
      { netdev with up := { netdev.up with n_txq := int_of_u32 n_txq,
                                           n_rxq := int_of_u32 n_rxq } }
    match dpdk_eth_dev_init env fuel netdev1 w0 with
    | none => none
    | some (err, netdev2, w1) =>
        let netdev3 := netdev_dpdk_alloc_txq env netdev2 (u32_of_int netdev2.real_n_txq)
        let netdev4 : netdev_dpdk :=
          if err ≠ 0 then
            { netdev3 with up := { netdev3.up with n_txq := old_txq, n_rxq := old_rxq } }
          else netdev3
        some (err,
              { netdev4 with
                  txq_needs_locking := decide (netdev4.real_n_txq ≠ netdev4.up.n_txq) },
              w1)

/-- The function `netdev_dpdk_vhost_set_multiq`; `n_txq` and `n_rxq` are `unsigned int`. -/
def netdev_dpdk_vhost_set_multiq (netdev : netdev_dpdk) (n_txq n_rxq : Nat) :
    Int × netdev_dpdk :=
  if u32_of_int netdev.up.n_txq = n_txq ∧ u32_of_int netdev.up.n_rxq = n_rxq then
    (0, netdev)
  else
    (0, { netdev with
            up := { netdev.up with n_txq := int_of_u32 n_txq, n_rxq := 1 }
            real_n_txq := 1 })

/-- One reconfiguration call on a device, with the requested counts. -/
inductive multiq_call where
  | set_multiq (n_txq n_rxq : Nat)
  | vhost_set_multiq (n_txq n_rxq : Nat)

/-- Runs a sequence of reconfiguration calls on a device, in order, whatever each call
returns. -/
def run_multiq_calls (env : EthEnv) (fuel : Nat) :
    List multiq_call → netdev_dpdk → EthWorld → Option (netdev_dpdk × EthWorld)
  | [], dev, w => some (dev, w)
  | .set_multiq n_txq n_rxq :: rest, dev, w =>
      match netdev_dpdk_set_multiq env fuel dev n_txq n_rxq w with
      | none => none
      | some (_, dev1, w1) => run_multiq_calls env fuel rest dev1 w1
  | .vhost_set_multiq n_txq n_rxq :: rest, dev, w =>
      run_multiq_calls env fuel rest (netdev_dpdk_vhost_set_multiq dev n_txq n_rxq).2 w

/-- The library function `strncmp` on two strings (given by their characters before the
`NUL`): the sign of the first difference within the first `n` characters. -/
def strncmp : List Nat → List Nat → Nat → Int
  | _, _, 0 => 0
  | [], [], _ + 1 => 0
  | [], _ :: _, _ + 1 => -1
  | _ :: _, [], _ + 1 => 1
  | a :: s1, b :: s2, n + 1 =>
      if a = b then strncmp s1 s2 n else if a < b then -1 else 1

/-- The loop `LIST_FOR_EACH(netdev, list_node, &dpdk_list)` of `new_device`: at the first
device whose `vhost_id` compares equal to `ifname`, store the session pointer and `break`.
Returns the list afterwards, or `none` when no device matched (`exists` stays false). -/
def new_device_loop (IF_NAME_SZ : Nat) (ifname : List Nat) (dev : Nat) :
    List netdev_dpdk → Option (List netdev_dpdk)
  | [] => none
  | netdev :: rest =>
      if strncmp ifname netdev.vhost_id IF_NAME_SZ = 0 then
        some ({ netdev with virtio_dev := dev } :: rest)
      else
        match new_device_loop IF_NAME_SZ ifname dev rest with
        | none => none
        | some rest1 => some (netdev :: rest1)

/-- The function `new_device` on the session `dev` (a non-`NULL` pointer).  `IF_NAME_SZ` is
a constant of the vhost library and is a parameter.  Returns the `int` result, the list
`dpdk_list` afterwards and the world, whose `virtio_flags` hold `dev->flags`.
(`set_irq_status` writes to the virtqueues, which are not part of the embedding.) -/
def new_device (IF_NAME_SZ : Nat) (dev : Nat) (dpdk_list : List netdev_dpdk) (w : World) :
    Int × List netdev_dpdk × World :=
  match new_device_loop IF_NAME_SZ (w.virtio_ifname dev) dev dpdk_list with
  | some list1 =>
      let flags1 := w.virtio_flags dev ||| VIRTIO_DEV_RUNNING
      (0, list1, { w with virtio_flags := Function.update w.virtio_flags dev flags1 })
  | none => (-1, dpdk_list, w)

/-- The loop `LIST_FOR_EACH (vhost_dev, list_node, &dpdk_list)` of `destroy_device`: at
every device whose session pointer is `dev`, `dev->flags &= ~VIRTIO_DEV_RUNNING` and the
pointer is set to `NULL`. -/
def destroy_device_loop (dev : Nat) : List netdev_dpdk → World → List netdev_dpdk × World
  | [], w => ([], w)
  | vhost_dev :: rest, w =>
      if vhost_dev.virtio_dev = dev then
        let flags1 := w.virtio_flags dev &&& (U32 - 1 - VIRTIO_DEV_RUNNING)
        let w1 := { w with virtio_flags := Function.update w.virtio_flags dev flags1 }
        let r := destroy_device_loop dev rest w1
        ({ vhost_dev with virtio_dev := 0 } :: r.1, r.2)
      else
        let r := destroy_device_loop dev rest w
        (vhost_dev :: r.1, r.2)

/-- The function `destroy_device` on the session `dev` (a non-`NULL` pointer).  The waits
`ovsrcu_synchronize` and `ovsrcu_quiesce_start` have no effect on the sequential state. -/
def destroy_device (dev : Nat) (dpdk_list : List netdev_dpdk) (w : World) :
    List netdev_dpdk × World :=
  destroy_device_loop dev dpdk_list w

/-- The function `netdev_dpdk_vhost_rxq_recv` up to its call of `rte_vhost_dequeue_burst`:
`EAGAIN` when the session is not running, otherwise the dequeue (a `uint16_t` result).
What the function does with the packets dequeued (the lookup of every packet, the
hand-over to the peer device, the counters) is the parameter `after_dequeue`, applied to
the device, `nb_rx` and the world. -/
def netdev_dpdk_vhost_rxq_recv (env : Env)
    (after_dequeue : netdev_dpdk → Nat → World → Int × netdev_dpdk × World)
    (vhost_dev : netdev_dpdk) (w : World) : Int × netdev_dpdk × World :=
  let virtio_dev := vhost_dev.virtio_dev
  if is_vhost_running w virtio_dev = false then
    (EAGAIN, vhost_dev, w)
  else
    let nb_rx := env.rte_vhost_dequeue_burst w.dequeue_calls % 65536
    let w1 := { w with dequeue_calls := w.dequeue_calls + 1 }.log
      (Event.vhost_dequeue virtio_dev nb_rx)
    after_dequeue vhost_dev nb_rx w1

/-- The events of `n` successful tx queue set-ups, of the queues `0 .. n - 1` in order. -/
def tx_setups_ok (n : Nat) : List EthEvent :=
  (List.range n).map (fun (i : Nat) => EthEvent.tx_queue_setup (i : Int) 0)

/-- The events of `n` successful rx queue set-ups, of the queues `0 .. n - 1` in order. -/
def rx_setups_ok (n : Nat) : List EthEvent :=
  (List.range n).map (fun (i : Nat) => EthEvent.rx_queue_setup (i : Int) 0)

/-- The events of one configure attempt with the counts `n_rxq`, `n_txq` in which the
configure call, every one of the `n_txq` tx queue set-ups and every one of the `n_rxq` rx
queue set-ups succeeded. -/
def full_attempt (n_rxq n_txq : Int) : List EthEvent :=
  [EthEvent.configure n_rxq n_txq 0] ++ tx_setups_ok n_txq.toNat ++ rx_setups_ok n_rxq.toNat

/-- What a run of the loop of `dpdk_eth_dev_queue_setup` looks like, from the counts
`n_rxq`, `n_txq` and the current `diag`: the events it appends, the value it returns, and
the counts it stores on the device (`none` when it stores nothing).

* `stop`: a count is zero, the loop ends and returns the current `diag`;
* `configure_fail`: the configure call fails, its result is returned;
* `tx_fail`: tx queue `i` is the first that fails (the queues `0 .. i - 1` were set up);
  the run goes on with the counts `n_rxq`, `i`;
* `rx_fail`: every tx queue is set up and rx queue `j` is the first that fails; the run
  goes on with the counts `j`, `n_txq`;
* `success`: everything is set up, the counts are stored and 0 is returned. -/
inductive queue_setup_run : Int → Int → Int → List EthEvent → Int → Option (Int × Int) → Prop
  | stop (n_rxq n_txq diag : Int) (h : n_rxq = 0 ∨ n_txq = 0) :
      queue_setup_run n_rxq n_txq diag [] diag none
  | configure_fail (n_rxq n_txq diag d : Int) (hr : n_rxq ≠ 0) (ht : n_txq ≠ 0) (hd : d ≠ 0) :
      queue_setup_run n_rxq n_txq diag [EthEvent.configure n_rxq n_txq d] d none
  | tx_fail (n_rxq n_txq diag : Int) (i : Nat) (d : Int) (rest : List EthEvent) (out : Int)
      (stored : Option (Int × Int)) (hr : n_rxq ≠ 0) (ht : n_txq ≠ 0) (hi : (i : Int) < n_txq)
      (hd : d ≠ 0) (h : queue_setup_run n_rxq (i : Int) d rest out stored) :
      queue_setup_run n_rxq n_txq diag
        ([EthEvent.configure n_rxq n_txq 0] ++ tx_setups_ok i
          ++ [EthEvent.tx_queue_setup (i : Int) d] ++ rest) out stored
  | rx_fail (n_rxq n_txq diag : Int) (j : Nat) (d : Int) (rest : List EthEvent) (out : Int)
      (stored : Option (Int × Int)) (hr : n_rxq ≠ 0) (ht : n_txq ≠ 0) (hj : (j : Int) < n_rxq)
      (hd : d ≠ 0) (h : queue_setup_run (j : Int) n_txq d rest out stored) :
      queue_setup_run n_rxq n_txq diag
        ([EthEvent.configure n_rxq n_txq 0] ++ tx_setups_ok n_txq.toNat ++ rx_setups_ok j
          ++ [EthEvent.rx_queue_setup (j : Int) d] ++ rest) out stored
  | success (n_rxq n_txq diag : Int) (hr : n_rxq ≠ 0) (ht : n_txq ≠ 0) :
      queue_setup_run n_rxq n_txq diag (full_attempt n_rxq n_txq) 0 (some (n_rxq, n_txq))

/-- The pairs `(n_rxq, n_txq)` passed to `rte_eth_dev_configure`, in call order. -/
def configured_of : List EthEvent → List (Int × Int)
  | [] => []
  | EthEvent.configure n_rxq n_txq _ :: rest => (n_rxq, n_txq) :: configured_of rest
  | _ :: rest => configured_of rest

/-- The number of calls of `rte_eth_dev_start` in a trace. -/
def start_count : List EthEvent → Nat
  | [] => 0
  | EthEvent.dev_start _ :: rest => start_count rest + 1
  | _ :: rest => start_count rest

/-- The pool sizes passed to `rte_mempool_create`, in call order. -/
def created_of : List EthEvent → List Nat
  | [] => []
  | EthEvent.mempool_create mp_size _ :: rest => mp_size :: created_of rest
  | _ :: rest => created_of rest

/-- One retry of the queue set-up, between the pair `a` of one configure call and the pair
`b` of the next: one count is kept and the other is lowered (never below zero). -/
def retry_step (a b : Int × Int) : Prop :=
  (b.1 = a.1 ∧ 0 ≤ b.2 ∧ b.2 < a.2) ∨ (b.2 = a.2 ∧ 0 ≤ b.1 ∧ b.1 < a.1)

/-- The device with the counts that a successful queue set-up stores (`none`: nothing is
stored). -/
def store_counts (dev : netdev_dpdk) : Option (Int × Int) → netdev_dpdk
  | none => dev
  | some (n_rxq, n_txq) =>
      { dev with up := { dev.up with n_rxq := n_rxq }, real_n_txq := n_txq }

/-- A library environment used for concrete evaluations: two ports of 4 rx and 4 tx queues
each, every call succeeds, the pool is created at the first attempt. -/
def demo_eth_env : EthEnv where
  rte_eth_dev_count := 2
  rte_eth_dev_info_get := fun _ => (4, 4)
  rte_eth_dev_configure := fun _ _ _ => 0
  rte_eth_tx_queue_setup := fun _ _ => 0
  rte_eth_rx_queue_setup := fun _ _ => 0
  rte_eth_dev_start := fun _ => 0
  rte_eth_dev_socket_id := fun _ => 0
  master_lcore_socket_id := 0
  ovs_numa_get_numa_id := fun _ => 0
  snprintf := fun _ => 16
  rte_mempool_create := fun _ _ => 77
  rte_errno := fun _ => 0

/-- A world of the set-up path in which no call has been made. -/
def demo_eth_world : EthWorld where
  info_calls := 0
  configure_calls := 0
  tx_setup_calls := 0
  rx_setup_calls := 0
  start_calls := 0
  snprintf_calls := 0
  create_calls := 0
  trace := []

/-- The result that a library call of the set-up path returned (`0` for the calls that
return nothing or a pointer). -/
def EthEvent.diag : EthEvent → Int
  | .configure _ _ d => d
  | .tx_queue_setup _ d => d
  | .rx_queue_setup _ d => d
  | .dev_start d => d
  | .dev_stop => 0
  | .mempool_create _ _ => 0

/-- The function `netdev_dpdk_alloc`: a `struct netdev_dpdk` in zeroed memory. -/
def netdev_dpdk_alloc : netdev_dpdk where
  max_packet_len := 0
  type := dpdk_dev_type.DPDK_DEV_ETH
  tx_q := fun _ => dpdk_tx_queue.zero
  stats := { tx_packets := 0, tx_bytes := 0, tx_dropped := 0 }
  real_n_txq := 0
  txq_needs_locking := false
  virtio_dev := 0

/-- The environment `demo_eth_env` with a port that reports no rx queue (and 4 tx
queues). -/
def demo_eth_env_no_rx : EthEnv :=
  { demo_eth_env with rte_eth_dev_info_get := fun _ => (0, 4) }

/-- The environment `demo_eth_env` with a port of 8 rx and 8 tx queues whose second
`rte_eth_dev_start` fails. -/
def demo_eth_env_restart_fails : EthEnv :=
  { demo_eth_env with
      rte_eth_dev_info_get := fun _ => (8, 8)
      rte_eth_dev_start := fun k => if k = 1 then -5 else 0 }

/-- The environment `demo_eth_env` with a port that reports 4 rx and 4 tx queues at the
first two `rte_eth_dev_info_get` calls and no rx queue afterwards. -/
def demo_eth_env_shrinking : EthEnv :=
  { demo_eth_env with
      rte_eth_dev_info_get := fun k => if k < 2 then (4, 4) else (0, 4) }

/-- The environment `demo_eth_env` in which the set-up of tx queue 2 and of rx queue 3
fails. -/
def demo_eth_env_reserved : EthEnv :=
  { demo_eth_env with
      rte_eth_dev_info_get := fun _ => (8, 8)
      rte_eth_tx_queue_setup := fun _ i => if i < 2 then 0 else -5
      rte_eth_rx_queue_setup := fun _ i => if i < 3 then 0 else -7 }

/-- A device that requests 8 rx and 8 tx queues on port 0 and holds 8 as its negotiated tx
count. -/
def demo_eth_dev : netdev_dpdk :=
  { netdev_dpdk_alloc with up := { n_txq := 8, n_rxq := 8 }, real_n_txq := 8 }

/-- The requested counts that the queue negotiation is built for: on a physical device
both counts lie within `1 .. 2^31 - 1`, on a vhost device the tx count does. -/
def multiq_call.admissible : multiq_call → Prop
  | .set_multiq n_txq n_rxq =>
      1 ≤ n_txq ∧ n_txq < 2147483648 ∧ 1 ≤ n_rxq ∧ n_rxq < 2147483648
  | .vhost_set_multiq n_txq _ => 1 ≤ n_txq ∧ n_txq < 2147483648

/-- What the enqueue calls of one `__netdev_dpdk_vhost_send` on the burst `pkts` look like,
from the cursor `cur` to the final cursor: each call offers the packets from the cursor on
(as many as the remaining count, cut to the 16 bits of the parameter), and the cursor
advances by the result of the call. -/
inductive vhost_run (session : Nat) (pkts : List Mbuf) : Nat → List Event → Nat → Prop where
  | done (cur : Nat) : vhost_run session pkts cur [] cur
  | step (cur ret : Nat) (rest : List Event) (s : Nat)
      (hret : ret ≤ (pkts.length - cur) % 65536)
      (h : vhost_run session pkts (cur + ret) rest s) :
      vhost_run session pkts cur
        (Event.vhost_enqueue session ((pkts.drop cur).take ((pkts.length - cur) % 65536)) ret
          :: rest) s

/-- The packets that the calls of `rte_vhost_enqueue_burst` in a trace accepted, in
order. -/
def vhost_accepted_of : List Event → List Mbuf
  | [] => []
  | Event.vhost_enqueue _ offered ret :: rest => offered.take ret ++ vhost_accepted_of rest
  | _ :: rest => vhost_accepted_of rest

/-- The number of calls of `rte_vhost_enqueue_burst` in a trace. -/
def vhost_enqueue_count : List Event → Nat
  | [] => 0
  | Event.vhost_enqueue _ _ _ :: rest => vhost_enqueue_count rest + 1
  | _ :: rest => vhost_enqueue_count rest

/-- The number of calls of `rte_vhost_dequeue_burst` in a trace. -/
def vhost_dequeue_count : List Event → Nat
  | [] => 0
  | Event.vhost_dequeue _ _ :: rest => vhost_dequeue_count rest + 1
  | _ :: rest => vhost_dequeue_count rest

/-- The world `demo_world` with the session at address 7 running, named `[118, 49]`. -/
def demo_vhost_world : World :=
  { demo_world with
      virtio_flags := fun d => if d = 7 then VIRTIO_DEV_RUNNING else 0
      virtio_ifname := fun d => if d = 7 then [118, 49] else [] }

/-- A vhost device bound to the session at address 7, whose `vhost_id` is `[118, 49]`. -/
def demo_vhost_dev : netdev_dpdk :=
  { demo_dev with
      type := dpdk_dev_type.DPDK_DEV_VHOST
      virtio_dev := 7
      vhost_id := [118, 49] }

/-- An environment whose vhost enqueue accepts at most two packets per call; otherwise
like `demo_env`. -/
def demo_env_slow : Env :=
  { demo_env with rte_vhost_enqueue_burst := fun _ n => min n 2 }

/-- An environment whose vhost enqueue accepts two packets at the first call and nothing
afterwards, whose ring never has a free entry, and whose timer advances by 600 cycles per
reading; otherwise like `demo_env`. -/
def demo_env_stalled : Env :=
  { demo_env with
      rte_vhost_enqueue_burst := fun k n => if k = 0 then min n 2 else 0
      rte_vring_available_entries := fun _ => 0
      rte_get_timer_cycles := fun k => 100 + 600 * k }

/-- The key `(socket_id, mtu)` of a registry entry. -/
def dpdk_mp.key (dmp : dpdk_mp) : Int × Int :=
  (dmp.socket_id, dmp.mtu)

/-- The function `dpdk_mp_put`.  The argument is the pointer to an entry of `dpdk_mp_list`
(its position in the list, `none` for `NULL`).  Returns the list afterwards and the value
of the condition `dmp->refcount >= 0` handed to `ovs_assert`, a macro defined outside the
sources that ends the process when its condition is false (`true` when the function
returns before the assertion).  `none` is a pointer that is not an entry of the list. -/
def dpdk_mp_put (dmp : Option Nat) (dpdk_mp_list : List dpdk_mp) :
    Option (List dpdk_mp × Bool) :=
  match dmp with
  | none => some (dpdk_mp_list, true)
  | some i =>
      match dpdk_mp_list[i]? with
      | none => none
      | some e =>
          let e1 : dpdk_mp := { e with refcount := e.refcount - 1 }
          some (dpdk_mp_list.set i e1, decide (e1.refcount ≥ 0))

/-- One call on the pool registry, with its arguments. -/
inductive mp_call where
  | get (socket_id mtu : Int)
  | put (dmp : Option Nat)

/-- Runs a sequence of registry calls in order.  `none` is a run that does not come to its
end: a `dpdk_mp_get` out of fuel, a `dpdk_mp_put` on a pointer that is no entry, or one whose
`ovs_assert` fails. -/
def run_mp_calls (env : EthEnv) (fuel : Nat) :
    List mp_call → List dpdk_mp → EthWorld → Option (List dpdk_mp × EthWorld)
  | [], dpdk_mp_list, w => some (dpdk_mp_list, w)
  | mp_call.get socket_id mtu :: rest, dpdk_mp_list, w =>
      match dpdk_mp_get env fuel socket_id mtu dpdk_mp_list w with
      | none => none
      | some (_, list1, w1) => run_mp_calls env fuel rest list1 w1
  | mp_call.put dmp :: rest, dpdk_mp_list, w =>
      match dpdk_mp_put dmp dpdk_mp_list with
      | some (list1, true) => run_mp_calls env fuel rest list1 w
      | _ => none

/-- What the pool-creation attempts of one `dpdk_mp_get` look like, from the pool size
`mp_size` on: `sc` and `cc` are the numbers of earlier `snprintf` and `rte_mempool_create`
calls, the list holds the `rte_mempool_create` calls made and the last argument is
`dmp->mp` at the end (`0` for `NULL`).  No attempt is made once `snprintf` fails; an attempt
is followed by another one, for half the size, exactly when it returned `NULL` with
`rte_errno == ENOMEM` and half the size is at least `MIN_NB_MBUF`. -/
inductive pool_create_run (env : EthEnv) : Nat → Nat → Nat → List EthEvent → Nat → Prop where
  | name_failed (mp_size sc cc : Nat) (hname : env.snprintf sc < 0) :
      pool_create_run env mp_size sc cc [] 0
  | last (mp_size sc cc : Nat) (hname : ¬ env.snprintf sc < 0)
      (hstop : ¬ (env.rte_mempool_create cc mp_size = 0 ∧ env.rte_errno cc = ENOMEM ∧
        mp_size / 2 ≥ MIN_NB_MBUF)) :
      pool_create_run env mp_size sc cc
        [EthEvent.mempool_create mp_size (env.rte_mempool_create cc mp_size)]
        (env.rte_mempool_create cc mp_size)
  | retry (mp_size sc cc : Nat) (rest : List EthEvent) (mp : Nat)
      (hname : ¬ env.snprintf sc < 0)
      (hnull : env.rte_mempool_create cc mp_size = 0) (herrno : env.rte_errno cc = ENOMEM)
      (hmin : mp_size / 2 ≥ MIN_NB_MBUF)
      (hrest : pool_create_run env (mp_size / 2) (sc + 1) (cc + 1) rest mp) :
      pool_create_run env mp_size sc cc (EthEvent.mempool_create mp_size 0 :: rest) mp

/-- The sizes `mp_size`, `mp_size / 2`, .. that are at least `MIN_NB_MBUF` after the first,
at most `k` of them. -/
def halving_sizes : Nat → Nat → List Nat
  | 0, _ => []
  | k + 1, mp_size =>
      mp_size :: (if mp_size / 2 ≥ MIN_NB_MBUF then halving_sizes k (mp_size / 2) else [])

/-- The pools that the `rte_mempool_create` calls of a trace returned, in call order. -/
def pools_of : List EthEvent → List Nat
  | [] => []
  | EthEvent.mempool_create _ mp :: rest => mp :: pools_of rest
  | _ :: rest => pools_of rest

/-- The environment `demo_eth_env` in which the first two `rte_mempool_create` calls fail
for lack of memory. -/
def demo_eth_env_low_memory : EthEnv :=
  { demo_eth_env with
      rte_mempool_create := fun k _ => if k < 2 then 0 else 77
      rte_errno := fun _ => ENOMEM }

/-- The environment `demo_eth_env` in which `rte_mempool_create` fails with an error other
than `ENOMEM`. -/
def demo_eth_env_no_pool : EthEnv :=
  { demo_eth_env with
      rte_mempool_create := fun _ _ => 0
      rte_errno := fun _ => 22 }

/-- The constant `UINT64_MAX`. -/
def UINT64_MAX : Int := 18446744073709551615

/-- The fields of the `struct rte_eth_stats` of `rte_ethdev.h` (outside the sources) that
`netdev_dpdk_get_stats` reads, a `uint64_t` each. -/
structure rte_eth_stats where
  ipackets : Nat
  opackets : Nat
  ibytes : Nat
  obytes : Nat
  imissed : Nat
  ibadcrc : Nat
  ibadlen : Nat
  ierrors : Nat
  oerrors : Nat
  imcasts : Nat
  rx_nombuf : Nat

/-- The function `check_link_status`.  `link` is the link state that
`rte_eth_link_get_nowait(dev->port_id, &link)` stores; `netdev_change_seq_changed`, defined
outside the sources, is a parameter: what it does to the member `up`.  The two log lines are
not modelled. -/
def check_link_status (netdev_change_seq_changed : netdev → netdev) (link : rte_eth_link)
    (dev : netdev_dpdk) : netdev_dpdk :=
  if dev.link.link_status ≠ link.link_status then
    let dev1 : netdev_dpdk := { dev with up := netdev_change_seq_changed dev.up }
    let dev2 : netdev_dpdk := { dev1 with link_reset_cnt := dev1.link_reset_cnt + 1 }
    { dev2 with link := link }
  else dev

/-- The function `netdev_dpdk_get_carrier`.  Returns the return value, the device and
`*carrier`. -/
def netdev_dpdk_get_carrier (netdev_change_seq_changed : netdev → netdev)
    (link : rte_eth_link) (dev : netdev_dpdk) : Int × netdev_dpdk × Bool :=
  let dev1 := check_link_status netdev_change_seq_changed link dev
  (0, dev1, decide (dev1.link.link_status ≠ 0))

/-- The function `netdev_dpdk_vhost_get_stats`.  Returns the return value, the device and
the caller's `*stats`, which the `memset` clears first. -/
def netdev_dpdk_vhost_get_stats (dev : netdev_dpdk) : Int × netdev_dpdk × netdev_stats :=
  let stats : netdev_stats :=
    { tx_packets := 0 + dev.stats.tx_packets
      tx_bytes := dev.stats.tx_bytes
      tx_dropped := 0 + dev.stats.tx_dropped
      rx_packets := 0 + dev.stats.rx_packets
      rx_bytes := dev.stats.rx_bytes
      rx_errors := dev.stats.rx_errors
      rx_dropped := 0 + UINT64_MAX
      tx_errors := UINT64_MAX
      multicast := dev.stats.multicast
      collisions := UINT64_MAX
      rx_length_errors := dev.stats.rx_length_errors
      rx_over_errors := UINT64_MAX
      rx_crc_errors := UINT64_MAX
      rx_frame_errors := UINT64_MAX
      rx_fifo_errors := UINT64_MAX
      rx_missed_errors := UINT64_MAX
      tx_aborted_errors := UINT64_MAX
      tx_carrier_errors := UINT64_MAX
      tx_fifo_errors := UINT64_MAX
      tx_heartbeat_errors := UINT64_MAX
      tx_window_errors := UINT64_MAX }
  (0, dev, stats)

/-- The function `netdev_dpdk_get_stats`.  `link` is the link state that the query inside
`netdev_dpdk_get_carrier` reports and `rte_stats` the counters that `rte_eth_stats_get`
stores.  Returns the return value, the device and the caller's `*stats`; the two sums and
the difference are `uint64_t` arithmetic. -/
def netdev_dpdk_get_stats (netdev_change_seq_changed : netdev → netdev)
    (link : rte_eth_link) (rte_stats : rte_eth_stats) (dev : netdev_dpdk) :
    Int × netdev_dpdk × netdev_stats :=
  let dev1 := (netdev_dpdk_get_carrier netdev_change_seq_changed link dev).2.1
  let stats : netdev_stats :=
    { rx_packets := rte_stats.ipackets
      tx_packets := rte_stats.opackets
      rx_bytes := rte_stats.ibytes
      tx_bytes := rte_stats.obytes
      rx_errors := ((rte_stats.ierrors : Int) - (rte_stats.imissed : Int)) % 18446744073709551616
      tx_errors := rte_stats.oerrors
      multicast := rte_stats.imcasts
      tx_dropped := dev1.stats.tx_dropped
      rx_dropped := ((rte_stats.rx_nombuf + rte_stats.imissed : Nat) : Int) % 18446744073709551616
      collisions := UINT64_MAX
      rx_length_errors := rte_stats.ibadlen
      rx_over_errors := UINT64_MAX
      rx_crc_errors := rte_stats.ibadcrc
      rx_frame_errors := UINT64_MAX
      rx_fifo_errors := UINT64_MAX
      rx_missed_errors := rte_stats.imissed
      tx_aborted_errors := UINT64_MAX
      tx_carrier_errors := UINT64_MAX
      tx_fifo_errors := UINT64_MAX
      tx_heartbeat_errors := UINT64_MAX
      tx_window_errors := UINT64_MAX }
  (0, dev1, stats)

/-- A link report used for concrete evaluations: link up at 10000 Mbps, full duplex. -/
def demo_link_up : rte_eth_link :=
  { link_speed := 10000, link_duplex := 2, link_status := 1 }

/-- Hardware counters used for concrete evaluations. -/
def demo_rte_stats : rte_eth_stats :=
  { ipackets := 32, opackets := 0, ibytes := 2048, obytes := 0, imissed := 0, ibadcrc := 0,
    ibadlen := 0, ierrors := 0, oerrors := 0, imcasts := 0, rx_nombuf := 0 }

/-- The environment `demo_eth_env` on a machine with two NUMA nodes: core `i` is on node
`i`. -/
def demo_eth_env_two_nodes : EthEnv :=
  { demo_eth_env with ovs_numa_get_numa_id := fun i => (i : Int) }

/-- The function `netdev_dpdk_set_mtu`.  `netdev_change_seq_changed`, defined outside the
sources, is a parameter: what it does to the member `up`.  Returns `err`, the device, the
list `dpdk_mp_list` afterwards and the world; `none` is also a `dpdk_mp_put` whose
`ovs_assert` fails. -/
def netdev_dpdk_set_mtu (netdev_change_seq_changed : netdev → netdev) (env : EthEnv)
    (fuel : Nat) (dev : netdev_dpdk) (mtu : Int) (dpdk_mp_list : List dpdk_mp)
    (w : EthWorld) : Option (Int × netdev_dpdk × List dpdk_mp × EthWorld) :=
  if dev.mtu = mtu then
    some (0, dev, dpdk_mp_list, w)
  else
    match dpdk_mp_get env fuel dev.socket_id dev.mtu dpdk_mp_list w with
    | none => none
    | some (none, list1, w1) => some (ENOMEM, dev, list1, w1)
    | some (some mp, list1, w1) =>
        let w2 := w1.log EthEvent.dev_stop
        let old_mtu := dev.mtu
        let old_mp := dev.dpdk_mp
        let dev1 : netdev_dpdk := { dev with dpdk_mp := some mp }
        let dev2 : netdev_dpdk := { dev1 with mtu := mtu }
        let dev3 : netdev_dpdk := { dev2 with max_packet_len := MTU_TO_MAX_LEN dev2.mtu }
        match dpdk_eth_dev_init env fuel dev3 w2 with
        | none => none
        | some (err, dev4, w3) =>
            if err ≠ 0 then
              match dpdk_mp_put (some mp) list1 with
              | some (list2, true) =>
                  let dev5 : netdev_dpdk := { dev4 with mtu := old_mtu }
                  let dev6 : netdev_dpdk := { dev5 with dpdk_mp := old_mp }
                  let dev7 : netdev_dpdk :=
                    { dev6 with max_packet_len := MTU_TO_MAX_LEN dev6.mtu }
                  match dpdk_eth_dev_init env fuel dev7 w3 with
                  | none => none
                  | some (_, dev8, w4) => some (err, dev8, list2, w4)
              | _ => none
            else
              match dpdk_mp_put old_mp list1 with
              | some (list2, true) =>
                  some (0, { dev4 with up := netdev_change_seq_changed dev4.up }, list2, w3)
              | _ => none

/-- The function `netdev_dpdk_destruct` on the device at position `i` of `dpdk_list`.
Returns the lists `dpdk_list` and `dpdk_mp_list` afterwards and the world; `none` is a
device that is not in the list, or a `dpdk_mp_put` whose `ovs_assert` fails. -/
def netdev_dpdk_destruct (i : Nat) (dpdk_list : List netdev_dpdk)
    (dpdk_mp_list : List dpdk_mp) (w : EthWorld) :
    Option (List netdev_dpdk × List dpdk_mp × EthWorld) :=
  match dpdk_list[i]? with
  | none => none
  | some dev =>
      let w1 := w.log EthEvent.dev_stop
      match dpdk_mp_put dev.dpdk_mp dpdk_mp_list with
      | some (list1, true) => some (dpdk_list.eraseIdx i, list1, w1)
      | _ => none

/-- The function `netdev_dpdk_vhost_destruct` on the device at position `i` of
`dpdk_list`. -/
def netdev_dpdk_vhost_destruct (i : Nat) (dpdk_list : List netdev_dpdk)
    (dpdk_mp_list : List dpdk_mp) : Option (List netdev_dpdk × List dpdk_mp) :=
  match dpdk_list[i]? with
  | none => none
  | some dev =>
      if dev.virtio_dev ≠ 0 then
        some (dpdk_list, dpdk_mp_list)
      else
        match dpdk_mp_put dev.dpdk_mp dpdk_mp_list with
        | some (list1, true) => some (dpdk_list.eraseIdx i, list1)
        | _ => none

/-- The number of devices of `dpdk_list` whose `dpdk_mp` is the registry entry at position
`j`. -/
def pool_users (dpdk_list : List netdev_dpdk) (j : Nat) : Nat :=
  (dpdk_list.filter (fun d => decide (d.dpdk_mp = some j))).length

end NetdevDpdk

/-! ## Properties of the stack backend -/

namespace Mempool

theorem common_stack_put_loop_apply (obj_table : Table) (base : Nat) :
    ∀ (k index : Nat) (objs : Table) (j : Nat),
      common_stack_put_loop obj_table base k index objs j =
        if base + index ≤ j ∧ j < base + index + k then obj_table (j - base) else objs j := by
  intro k
  induction k with
  | zero =>
      intro index objs j
      have h0 : ¬ (base + index ≤ j ∧ j < base + index + 0) := by omega
      rw [if_neg h0]
      rfl
  | succ k ih =>
      intro index objs j
      rw [common_stack_put_loop, ih]
      by_cases h1 : base + (index + 1) ≤ j ∧ j < base + (index + 1) + k
      · have h2 : base + index ≤ j ∧ j < base + index + (k + 1) := by omega
        rw [if_pos h1, if_pos h2]
      · rw [if_neg h1]
        by_cases h3 : j = base + index
        · have h2 : base + index ≤ j ∧ j < base + index + (k + 1) := by omega
          rw [if_pos h2, h3, Function.update_same]
          congr 1
          omega
        · have h2 : ¬ (base + index ≤ j ∧ j < base + index + (k + 1)) := by omega
          rw [if_neg h2, Function.update_noteq h3]

theorem common_stack_get_loop_apply (cache_objs : Table) :
    ∀ (k index len : Nat) (obj_table : Table) (j : Nat), len < U32 → k ≤ len + 1 →
      common_stack_get_loop cache_objs k index len obj_table j =
        if index ≤ j ∧ j < index + k then cache_objs (len - (j - index)) else obj_table j := by
  intro k
  induction k with
  | zero =>
      intro index len obj_table j _ _
      have h0 : ¬ (index ≤ j ∧ j < index + 0) := by omega
      rw [if_neg h0]
      rfl
  | succ k ih =>
      intro index len obj_table j hlen hk
      have hU : U32 = 4294967296 := rfl
      have hnext_lt : (len + (U32 - 1)) % U32 < U32 := Nat.mod_lt _ (by rw [hU]; omega)
      have hnext : 1 ≤ len → (len + (U32 - 1)) % U32 = len - 1 := by
        intro h1
        rw [hU] at hlen ⊢
        omega
      have hk2 : k ≤ (len + (U32 - 1)) % U32 + 1 := by
        rcases Nat.eq_zero_or_pos len with h0 | h0
        · omega
        · rw [hnext h0]
          omega
      rw [common_stack_get_loop, ih _ _ _ _ hnext_lt hk2]
      by_cases h1 : index + 1 ≤ j ∧ j < index + 1 + k
      · have h2 : index ≤ j ∧ j < index + (k + 1) := by omega
        rw [if_pos h1, if_pos h2, hnext (by omega)]
        congr 1
        omega
      · rw [if_neg h1]
        by_cases h3 : j = index
        · have h2 : index ≤ j ∧ j < index + (k + 1) := by omega
          rw [if_pos h2, h3, Function.update_same]
          congr 1
          omega
        · have h2 : ¬ (index ≤ j ∧ j < index + (k + 1)) := by omega
          rw [if_neg h2, Function.update_noteq h3]

theorem common_stack_put_fst (s : rte_mempool_common_stack) (obj_table : Table) (n : Nat) :
    (common_stack_put s obj_table n).1 = if (s.len + n) % U32 > s.size then -ENOENT else 0 := by
  unfold common_stack_put
  split <;> rfl

theorem common_stack_put_fail (s : rte_mempool_common_stack) (obj_table : Table) (n : Nat)
    (h : (s.len + n) % U32 > s.size) : common_stack_put s obj_table n = (-ENOENT, s) := by
  unfold common_stack_put
  rw [if_pos h]

theorem common_stack_put_ok (s : rte_mempool_common_stack) (obj_table : Table) (n : Nat)
    (h : ¬ (s.len + n) % U32 > s.size) :
    common_stack_put s obj_table n =
      (0, { size := s.size
            len := (s.len + n) % U32
            objs := common_stack_put_loop obj_table s.len n 0 s.objs }) := by
  unfold common_stack_put
  rw [if_neg h]

theorem common_stack_get_fail (s : rte_mempool_common_stack) (obj_table : Table) (n : Nat)
    (h : n > s.len) : common_stack_get s obj_table n = (-ENOENT, s, obj_table) := by
  unfold common_stack_get
  rw [if_pos h]

theorem common_stack_get_ok (s : rte_mempool_common_stack) (obj_table : Table) (n : Nat)
    (h : ¬ n > s.len) :
    common_stack_get s obj_table n =
      (int_of_unsigned n,
       { size := s.size, len := (s.len + (U32 - n % U32)) % U32, objs := s.objs },
       common_stack_get_loop s.objs n 0 ((s.len + (U32 - 1)) % U32) obj_table) := by
  unfold common_stack_get
  rw [if_neg h]

theorem neg_ENOENT_neg : -ENOENT < 0 := by decide

theorem int_of_unsigned_small (n : Nat) (h : n < 2147483648) : int_of_unsigned n = (n : Int) := by
  unfold int_of_unsigned
  have hU : U32 = 4294967296 := rfl
  have hm : n % U32 = n := Nat.mod_eq_of_lt (by rw [hU]; omega)
  rw [hm, if_pos h]

/-- C1: when `len + n` does not overflow 32 bits, `common_stack_put` either returns 0
(exactly when `len + n <= size`), after which `common_stack_get_count` reports `len + n`,
the `n` handles occupy slots `len .. len + n - 1` and every other slot is untouched, or
returns the negative code `-ENOENT` and leaves the whole stack as it was. -/
theorem common_stack_put_all_or_nothing (s : rte_mempool_common_stack) (obj_table : Table)
    (n : Nat) (hfit : s.len + n < U32) :
    ((common_stack_put s obj_table n).1 = 0 ∧
      s.len + n ≤ s.size ∧
      common_stack_get_count (common_stack_put s obj_table n).2 = s.len + n ∧
      (common_stack_put s obj_table n).2.size = s.size ∧
      (∀ i, i < n → (common_stack_put s obj_table n).2.objs (s.len + i) = obj_table i) ∧
      (∀ j, j < s.len ∨ s.len + n ≤ j →
        (common_stack_put s obj_table n).2.objs j = s.objs j))
    ∨
    ((common_stack_put s obj_table n).1 = -ENOENT ∧
      (common_stack_put s obj_table n).1 < 0 ∧
      s.size < s.len + n ∧
      (common_stack_put s obj_table n).2 = s) := by
  have hmod : (s.len + n) % U32 = s.len + n := Nat.mod_eq_of_lt hfit
  by_cases h : (s.len + n) % U32 > s.size
  · right
    rw [common_stack_put_fail s obj_table n h]
    refine ⟨rfl, neg_ENOENT_neg, by omega, rfl⟩
  · left
    rw [common_stack_put_ok s obj_table n h]
    refine ⟨rfl, by omega, ?_, rfl, ?_, ?_⟩
    · show (s.len + n) % U32 = s.len + n
      exact hmod
    · intro i hi
      show common_stack_put_loop obj_table s.len n 0 s.objs (s.len + i) = obj_table i
      rw [common_stack_put_loop_apply, if_pos (by omega)]
      congr 1
      omega
    · intro j hj
      show common_stack_put_loop obj_table s.len n 0 s.objs j = s.objs j
      rw [common_stack_put_loop_apply, if_neg (by omega)]

/-- Witness for C1: putting two handles on the demo stack (capacity 4, length 1). -/
theorem common_stack_put_all_or_nothing_witness :
    demo_stack.len + 2 < U32 ∧
    (((common_stack_put demo_stack demo_table 2).1 = 0 ∧
      demo_stack.len + 2 ≤ demo_stack.size ∧
      common_stack_get_count (common_stack_put demo_stack demo_table 2).2 = demo_stack.len + 2 ∧
      (common_stack_put demo_stack demo_table 2).2.size = demo_stack.size ∧
      (∀ i, i < 2 → (common_stack_put demo_stack demo_table 2).2.objs (demo_stack.len + i)
        = demo_table i) ∧
      (∀ j, j < demo_stack.len ∨ demo_stack.len + 2 ≤ j →
        (common_stack_put demo_stack demo_table 2).2.objs j = demo_stack.objs j))
    ∨
    ((common_stack_put demo_stack demo_table 2).1 = -ENOENT ∧
      (common_stack_put demo_stack demo_table 2).1 < 0 ∧
      demo_stack.size < demo_stack.len + 2 ∧
      (common_stack_put demo_stack demo_table 2).2 = demo_stack)) :=
  ⟨by decide, common_stack_put_all_or_nothing demo_stack demo_table 2 (by decide)⟩

/-- C2: on a stack holding `len` handles, `common_stack_get` of `n > len` handles returns
the negative code `-ENOENT` and changes neither the stack nor the caller's table; for
`n <= len` it writes exactly the slots `0 .. n - 1` of the caller's table, slot `i`
receiving the handle stored at `len - 1 - i`, and the length becomes `len - n` with the
capacity and the stored slots as before. -/
theorem common_stack_get_all_or_nothing (s : rte_mempool_common_stack) (obj_table : Table)
    (n : Nat) (hlen : s.len < U32) :
    (s.len < n →
      (common_stack_get s obj_table n).1 = -ENOENT ∧
      (common_stack_get s obj_table n).1 < 0 ∧
      (common_stack_get s obj_table n).2.1 = s ∧
      (common_stack_get s obj_table n).2.2 = obj_table) ∧
    (n ≤ s.len →
      (common_stack_get s obj_table n).1 = int_of_unsigned n ∧
      (common_stack_get s obj_table n).2.1.len = s.len - n ∧
      (common_stack_get s obj_table n).2.1.size = s.size ∧
      (common_stack_get s obj_table n).2.1.objs = s.objs ∧
      (∀ i, i < n → (common_stack_get s obj_table n).2.2 i = s.objs (s.len - 1 - i)) ∧
      (∀ i, n ≤ i → (common_stack_get s obj_table n).2.2 i = obj_table i)) := by
  have hU : U32 = 4294967296 := rfl
  constructor
  · intro h
    rw [common_stack_get_fail s obj_table n h]
    exact ⟨rfl, neg_ENOENT_neg, rfl, rfl⟩
  · intro h
    rw [common_stack_get_ok s obj_table n (by omega)]
    refine ⟨rfl, ?_, rfl, rfl, ?_, ?_⟩
    · show (s.len + (U32 - n % U32)) % U32 = s.len - n
      rw [hU] at hlen ⊢
      omega
    · intro i hi
      show common_stack_get_loop s.objs n 0 ((s.len + (U32 - 1)) % U32) obj_table i = _
      have h1 : (s.len + (U32 - 1)) % U32 = s.len - 1 := by
        rw [hU] at hlen ⊢
        omega
      have h2 : s.len - 1 < U32 := by omega
      rw [h1, common_stack_get_loop_apply _ _ _ _ _ _ h2 (by omega), if_pos (by omega)]
      rfl
    · intro i hi
      show common_stack_get_loop s.objs n 0 ((s.len + (U32 - 1)) % U32) obj_table i = _
      have h1 : (s.len + (U32 - 1)) % U32 < U32 := Nat.mod_lt _ (by rw [hU]; omega)
      have h3 : n ≤ (s.len + (U32 - 1)) % U32 + 1 := by
        rw [hU] at hlen ⊢
        omega
      rw [common_stack_get_loop_apply _ _ _ _ _ _ h1 h3, if_neg (by omega)]

/-- Witness for C2: on the demo stack (one handle stored) a request of 3 is refused and a
request of 1 is served. -/
theorem common_stack_get_all_or_nothing_witness :
    demo_stack.len < U32 ∧ demo_stack.len < 3 ∧ 1 ≤ demo_stack.len ∧
    (common_stack_get demo_stack demo_table 3).1 = -ENOENT ∧
    (common_stack_get demo_stack demo_table 3).2.1 = demo_stack ∧
    (common_stack_get demo_stack demo_table 1).2.1.len = demo_stack.len - 1 ∧
    (∀ i, i < 1 → (common_stack_get demo_stack demo_table 1).2.2 i
      = demo_stack.objs (demo_stack.len - 1 - i)) :=
  ⟨by decide, by decide, by decide,
   ((common_stack_get_all_or_nothing demo_stack demo_table 3 (by decide)).1 (by decide)).1,
   ((common_stack_get_all_or_nothing demo_stack demo_table 3 (by decide)).1 (by decide)).2.2.1,
   ((common_stack_get_all_or_nothing demo_stack demo_table 1 (by decide)).2 (by decide)).2.1,
   ((common_stack_get_all_or_nothing demo_stack demo_table 1 (by decide)).2 (by decide)).2.2.2.2.1⟩

theorem table_prefix_list_length (t : Table) (n : Nat) : (table_prefix_list t n).length = n := by
  simp [table_prefix_list]

theorem table_prefix_list_of_list (xs : List Handle) :
    table_prefix_list (table_of_list xs) xs.length = xs := by
  apply List.ext_getElem
  · simp [table_prefix_list]
  · intro i h1 h2
    simp [table_prefix_list, table_of_list, List.getElem?_eq_getElem h2]

theorem table_prefix_list_congr (t u : Table) (n : Nat) (h : ∀ i, i < n → t i = u i) :
    table_prefix_list t n = table_prefix_list u n := by
  unfold table_prefix_list
  apply List.map_congr_left
  intro i hi
  exact h i (List.mem_range.mp hi)

theorem table_prefix_list_rev (t : Table) (n k : Nat) (hk : k ≤ n) :
    table_prefix_list (fun i => t (n - 1 - i)) k
      = ((table_prefix_list t n).drop (n - k)).reverse := by
  apply List.ext_getElem
  · simp [table_prefix_list]
    omega
  · intro i h1 h2
    simp only [table_prefix_list, List.length_map, List.length_range] at h1
    simp [table_prefix_list, List.getElem_reverse, List.getElem_drop]
    congr 1
    omega

theorem common_stack_put_then_get (s : rte_mempool_common_stack) (tbl out : Table) (n k : Nat)
    (hfit : s.len + n < U32) (hput : (common_stack_put s tbl n).1 = 0) (hk : k ≤ n) :
    (common_stack_get (common_stack_put s tbl n).2 out k).1 = int_of_unsigned k ∧
    (common_stack_get (common_stack_put s tbl n).2 out k).2.1.len = s.len + n - k ∧
    (common_stack_get (common_stack_put s tbl n).2 out k).2.1.size = s.size ∧
    (∀ j, j < s.len →
      (common_stack_get (common_stack_put s tbl n).2 out k).2.1.objs j = s.objs j) ∧
    table_prefix_list (common_stack_get (common_stack_put s tbl n).2 out k).2.2 k
      = ((table_prefix_list tbl n).drop (n - k)).reverse ∧
    (∀ i, k ≤ i → (common_stack_get (common_stack_put s tbl n).2 out k).2.2 i = out i) := by
  have hU : U32 = 4294967296 := rfl
  have hmod : (s.len + n) % U32 = s.len + n := Nat.mod_eq_of_lt hfit
  have hroom : ¬ (s.len + n) % U32 > s.size := by
    intro h
    rw [common_stack_put_fail s tbl n h] at hput
    exact absurd hput (show ¬ (-ENOENT : Int) = 0 by decide)
  rw [common_stack_put_ok s tbl n hroom, hmod]
  have hget : ¬ k > (⟨s.size, s.len + n, common_stack_put_loop tbl s.len n 0 s.objs⟩ :
      rte_mempool_common_stack).len := by
    show ¬ k > s.len + n
    omega
  rw [common_stack_get_ok _ out k hget]
  have h1 : (s.len + n + (U32 - 1)) % U32 < U32 := Nat.mod_lt _ (by rw [hU]; omega)
  have h3 : k ≤ (s.len + n + (U32 - 1)) % U32 + 1 := by
    rw [hU] at hfit ⊢
    omega
  refine ⟨rfl, ?_, rfl, ?_, ?_, ?_⟩
  · show (s.len + n + (U32 - k % U32)) % U32 = s.len + n - k
    rw [hU] at hfit ⊢
    omega
  · intro j hj
    show common_stack_put_loop tbl s.len n 0 s.objs j = s.objs j
    rw [common_stack_put_loop_apply, if_neg (by omega)]
  · show table_prefix_list
      (common_stack_get_loop (common_stack_put_loop tbl s.len n 0 s.objs) k 0
        ((s.len + n + (U32 - 1)) % U32) out) k = _
    rw [← table_prefix_list_rev tbl n k hk]
    apply table_prefix_list_congr
    intro i hi
    have h4 : (s.len + n + (U32 - 1)) % U32 = s.len + n - 1 := by
      rw [hU] at hfit ⊢
      omega
    rw [common_stack_get_loop_apply _ _ _ _ _ _ h1 h3, if_pos (by omega), h4,
      common_stack_put_loop_apply, if_pos (by omega)]
    have e : s.len + n - 1 - (i - 0) - s.len = n - 1 - i := by omega
    rw [e]
  · intro i hi
    show common_stack_get_loop (common_stack_put_loop tbl s.len n 0 s.objs) k 0
        ((s.len + n + (U32 - 1)) % U32) out i = out i
    rw [common_stack_get_loop_apply _ _ _ _ _ _ h1 h3, if_neg (by omega)]

/-- C3 (amended): when `len + |xs|` does not overflow 32 bits and `common_stack_put` of the
handle list `xs` returns 0, the immediately following `common_stack_get` of `k` handles,
`1 <= k <= |xs|`, returns `k` and fills the caller's table with the last `k` handles of
`xs` in reverse order, the most recently put handle first. -/
theorem common_stack_put_get_lifo (s : rte_mempool_common_stack) (xs : List Handle)
    (out : Table) (k : Nat) (hfit : s.len + xs.length < U32) (hk1 : 1 ≤ k)
    (hk : k ≤ xs.length)
    (hput : (common_stack_put s (table_of_list xs) xs.length).1 = 0) :
    xs ≠ [] ∧
    (common_stack_get (common_stack_put s (table_of_list xs) xs.length).2 out k).1
      = int_of_unsigned k ∧
    table_prefix_list
        (common_stack_get (common_stack_put s (table_of_list xs) xs.length).2 out k).2.2 k
      = (xs.drop (xs.length - k)).reverse := by
  have h := common_stack_put_then_get s (table_of_list xs) out xs.length k hfit hput hk
  refine ⟨?_, h.1, ?_⟩
  · intro hnil
    rw [hnil] at hk
    simp at hk
    omega
  · rw [h.2.2.2.2.1, table_prefix_list_of_list]

/-- Witness for C3: `put([A, B])` followed by `get(1)` yields `[B]` (with `A = 11`,
`B = 22`, on the demo stack). -/
theorem common_stack_put_get_lifo_witness :
    demo_stack.len + [11, 22].length < U32 ∧
    (common_stack_put demo_stack (table_of_list [11, 22]) [11, 22].length).1 = 0 ∧
    table_prefix_list
        (common_stack_get
          (common_stack_put demo_stack (table_of_list [11, 22]) [11, 22].length).2
          demo_table 1).2.2 1
      = [22] :=
  ⟨by decide, by decide,
   (common_stack_put_get_lifo demo_stack [11, 22] demo_table 1 (by decide) (by decide)
      (by decide) (by decide)).2.2⟩

/-- Counterexample to C3 as stated: on the demo stack (capacity 4, length 1) a put of
`2^32 - 1` handles returns 0, because `len + n` wraps to 0, and the following get of one
handle returns `-ENOENT` and leaves the caller's slot (`10`) as it was instead of
returning the last handle put (`7`). -/
theorem common_stack_put_get_lifo_counterexample :
    List.replicate 4294967295 (7 : Handle) ≠ [] ∧
    1 ≤ (List.replicate 4294967295 (7 : Handle)).length ∧
    (common_stack_put demo_stack (table_of_list (List.replicate 4294967295 7))
      (List.replicate 4294967295 (7 : Handle)).length).1 = 0 ∧
    (common_stack_get
      (common_stack_put demo_stack (table_of_list (List.replicate 4294967295 7))
        (List.replicate 4294967295 (7 : Handle)).length).2 demo_table 1).1 = -ENOENT ∧
    table_prefix_list
      (common_stack_get
        (common_stack_put demo_stack (table_of_list (List.replicate 4294967295 7))
          (List.replicate 4294967295 (7 : Handle)).length).2 demo_table 1).2.2 1 = [10] ∧
    ((List.replicate 4294967295 (7 : Handle)).drop
      ((List.replicate 4294967295 (7 : Handle)).length - 1)).reverse = [7] := by
  have hlen : (List.replicate 4294967295 (7 : Handle)).length = 4294967295 :=
    List.length_replicate _ _
  have hroom : ¬ (demo_stack.len + 4294967295) % U32 > demo_stack.size := by decide
  have hget : (1 : Nat) >
      (⟨demo_stack.size, (demo_stack.len + 4294967295) % U32,
        common_stack_put_loop (table_of_list (List.replicate 4294967295 7)) demo_stack.len
          4294967295 0 demo_stack.objs⟩ : rte_mempool_common_stack).len := by decide
  rw [hlen, common_stack_put_ok _ _ _ hroom, common_stack_get_fail _ _ _ hget]
  refine ⟨?_, by decide, rfl, rfl, rfl, ?_⟩
  · intro h
    have h2 := congrArg List.length h
    rw [hlen] at h2
    exact absurd h2 (by decide)
  · rw [List.drop_replicate]
    rfl

theorem rte_mempool_ext_put_bulk_stack {R : Type} (api : rte_ring_api R) (mp : rte_mempool R)
    (s : rte_mempool_common_stack) (obj_table : Table) (n : Nat)
    (hpool : mp.rt_pool = .common_stack s)
    (hidx : mp.put_idx = RTE_MEMPOOL_COMMON_STACK_PUT) :
    rte_mempool_ext_put_bulk api mp obj_table n =
      some ((common_stack_put s obj_table n).1,
            { mp with rt_pool := .common_stack (common_stack_put s obj_table n).2 }) := by
  simp [rte_mempool_ext_put_bulk, mempool_jump_table, hidx, hpool, common_stack_put_handler,
    RTE_MEMPOOL_COMMON_STACK_PUT, RTE_MEMPOOL_COMMON_RING_MPPUT, RTE_MEMPOOL_COMMON_RING_SPPUT]

theorem rte_mempool_ext_get_bulk_stack {R : Type} (api : rte_ring_api R) (mp : rte_mempool R)
    (s : rte_mempool_common_stack) (obj_table : Table) (n : Nat)
    (hpool : mp.rt_pool = .common_stack s)
    (hidx : mp.get_idx = RTE_MEMPOOL_COMMON_STACK_GET) :
    rte_mempool_ext_get_bulk api mp obj_table n =
      some ((common_stack_get s obj_table n).1,
            { mp with rt_pool := .common_stack (common_stack_get s obj_table n).2.1 },
            (common_stack_get s obj_table n).2.2) := by
  simp [rte_mempool_ext_get_bulk, mempool_jump_table, hidx, hpool, common_stack_get_handler,
    RTE_MEMPOOL_COMMON_STACK_GET, RTE_MEMPOOL_COMMON_RING_MCGET, RTE_MEMPOOL_COMMON_RING_SCGET]

/-- C4 (amended): for a mempool whose backend is a stack (its indices select the stack
handlers), when `len + n` does not overflow 32 bits and `n < 2^31`, if
`rte_mempool_ext_put_bulk` of `n` handles returns 0 then the immediately following
`rte_mempool_ext_get_bulk` of `n` handles returns the non-negative value `n`, hands back
the handles that were put in reverse order (so the same multiset), and leaves the pool
with the length, capacity and stored handles it had before the put. -/
theorem rte_mempool_ext_put_get_roundtrip {R : Type} (api : rte_ring_api R)
    (mp mp1 : rte_mempool R) (s : rte_mempool_common_stack) (obj_table out : Table) (n : Nat)
    (hpool : mp.rt_pool = .common_stack s)
    (hput_idx : mp.put_idx = RTE_MEMPOOL_COMMON_STACK_PUT)
    (hget_idx : mp.get_idx = RTE_MEMPOOL_COMMON_STACK_GET)
    (hfit : s.len + n < U32) (hint : n < 2147483648)
    (hput : rte_mempool_ext_put_bulk api mp obj_table n = some (0, mp1)) :
    ∃ (mp2 : rte_mempool R) (out2 : Table) (s2 : rte_mempool_common_stack),
      rte_mempool_ext_get_bulk api mp1 out n = some ((n : Int), mp2, out2) ∧
      (0 : Int) ≤ (n : Int) ∧
      table_prefix_list out2 n = (table_prefix_list obj_table n).reverse ∧
      (table_prefix_list out2 n).Perm (table_prefix_list obj_table n) ∧
      (∀ i, n ≤ i → out2 i = out i) ∧
      mp2.rt_pool = .common_stack s2 ∧
      s2.len = s.len ∧ s2.size = s.size ∧ (∀ j, j < s.len → s2.objs j = s.objs j) ∧
      mp2.put_idx = mp.put_idx ∧ mp2.get_idx = mp.get_idx ∧
      mp2.get_count_idx = mp.get_count_idx := by
  rw [rte_mempool_ext_put_bulk_stack api mp s obj_table n hpool hput_idx] at hput
  have hput2 := Option.some.inj hput
  have hret : (common_stack_put s obj_table n).1 = 0 := congrArg Prod.fst hput2
  have hmp1 : mp1 = { mp with rt_pool := .common_stack (common_stack_put s obj_table n).2 } :=
    (congrArg Prod.snd hput2).symm
  have h := common_stack_put_then_get s obj_table out n n hfit hret (le_refl n)
  have hrev : table_prefix_list
      (common_stack_get (common_stack_put s obj_table n).2 out n).2.2 n
        = (table_prefix_list obj_table n).reverse := by
    rw [h.2.2.2.2.1, Nat.sub_self, List.drop_zero]
  refine ⟨{ mp1 with
              rt_pool := .common_stack
                (common_stack_get (common_stack_put s obj_table n).2 out n).2.1 },
          (common_stack_get (common_stack_put s obj_table n).2 out n).2.2,
          (common_stack_get (common_stack_put s obj_table n).2 out n).2.1,
          ?_, Int.natCast_nonneg n, hrev, ?_, h.2.2.2.2.2, rfl, ?_, h.2.2.1, h.2.2.2.1,
          ?_, ?_, ?_⟩
  · rw [rte_mempool_ext_get_bulk_stack api mp1 (common_stack_put s obj_table n).2 out n
      (by rw [hmp1]) (by rw [hmp1]; exact hget_idx), h.1, int_of_unsigned_small n hint]
  · rw [hrev]
    exact List.reverse_perm _
  · rw [h.2.1]
    omega
  · rw [hmp1]
  · rw [hmp1]
  · rw [hmp1]

/-- Witness for C4: two handles put on the demo pool and taken back. -/
theorem rte_mempool_ext_put_get_roundtrip_witness :
    demo_stack.len + 2 < U32 ∧ (2 : Nat) < 2147483648 ∧
    rte_mempool_ext_put_bulk demo_ring_api demo_pool demo_table 2
      = some (0, { demo_pool with
                     rt_pool := .common_stack (common_stack_put demo_stack demo_table 2).2 }) ∧
    ∃ (mp2 : rte_mempool Unit) (out2 : Table) (s2 : rte_mempool_common_stack),
      rte_mempool_ext_get_bulk demo_ring_api
          { demo_pool with
              rt_pool := .common_stack (common_stack_put demo_stack demo_table 2).2 }
          demo_table 2 = some (((2 : Nat) : Int), mp2, out2) ∧
      (0 : Int) ≤ ((2 : Nat) : Int) ∧
      table_prefix_list out2 2 = (table_prefix_list demo_table 2).reverse ∧
      (table_prefix_list out2 2).Perm (table_prefix_list demo_table 2) ∧
      (∀ i, 2 ≤ i → out2 i = demo_table i) ∧
      mp2.rt_pool = .common_stack s2 ∧
      s2.len = demo_stack.len ∧ s2.size = demo_stack.size ∧
      (∀ j, j < demo_stack.len → s2.objs j = demo_stack.objs j) ∧
      mp2.put_idx = demo_pool.put_idx ∧ mp2.get_idx = demo_pool.get_idx ∧
      mp2.get_count_idx = demo_pool.get_count_idx :=
  ⟨by decide, by decide, rfl,
   rte_mempool_ext_put_get_roundtrip demo_ring_api demo_pool _ demo_stack demo_table
     demo_table 2 rfl rfl rfl (by decide) (by decide) rfl⟩

/-- Counterexample to C4 as stated.  On the demo pool (capacity 4, length 1) a put of
`2^32 - 1` handles returns 0 because `len + n` wraps to 0, and the following get of the same
`n` returns `-ENOENT`.  On an empty pool of capacity `2^31` a put of `2^31` handles returns
0 and the following get of `2^31` handles returns `n` converted to `int`, which is the
negative value `-2^31`. -/
theorem rte_mempool_ext_put_get_roundtrip_counterexample :
    ((rte_mempool_ext_put_bulk demo_ring_api demo_pool demo_table 4294967295).bind
      (fun r => (rte_mempool_ext_get_bulk demo_ring_api r.2 demo_table 4294967295).map
        (fun g => (r.1, g.1)))) = some (0, -ENOENT) ∧
    ((rte_mempool_ext_put_bulk demo_ring_api demo_big_pool demo_table 2147483648).bind
      (fun r => (rte_mempool_ext_get_bulk demo_ring_api r.2 demo_table 2147483648).map
        (fun g => (r.1, g.1)))) = some (0, -2147483648) := by
  constructor
  · rw [rte_mempool_ext_put_bulk_stack demo_ring_api demo_pool demo_stack _ _ rfl rfl]
    rw [Option.some_bind]
    rw [rte_mempool_ext_get_bulk_stack demo_ring_api _
      (common_stack_put demo_stack demo_table 4294967295).2 _ _ rfl rfl]
    have hroom : ¬ (demo_stack.len + 4294967295) % U32 > demo_stack.size := by decide
    have hget : (4294967295 : Nat) >
        (⟨demo_stack.size, (demo_stack.len + 4294967295) % U32,
          common_stack_put_loop demo_table demo_stack.len 4294967295 0 demo_stack.objs⟩ :
            rte_mempool_common_stack).len := by decide
    rw [common_stack_put_ok _ _ _ hroom, common_stack_get_fail _ _ _ hget]
    rfl
  · rw [rte_mempool_ext_put_bulk_stack demo_ring_api demo_big_pool
      ⟨2147483648, 0, fun _ => 0⟩ _ _ rfl rfl]
    rw [Option.some_bind]
    rw [rte_mempool_ext_get_bulk_stack demo_ring_api _
      (common_stack_put ⟨2147483648, 0, fun _ => 0⟩ demo_table 2147483648).2 _ _ rfl rfl]
    have hroom : ¬ ((⟨2147483648, 0, fun _ => 0⟩ : rte_mempool_common_stack).len
        + 2147483648) % U32 > (⟨2147483648, 0, fun _ => 0⟩ : rte_mempool_common_stack).size := by
      decide
    have hget : ¬ (2147483648 : Nat) >
        (⟨2147483648, (0 + 2147483648) % U32,
          common_stack_put_loop demo_table 0 2147483648 0 (fun _ => 0)⟩ :
            rte_mempool_common_stack).len := by decide
    rw [common_stack_put_ok _ _ _ hroom, common_stack_get_ok _ _ _ hget]
    rfl

theorem stack_call_run_invariant (s : rte_mempool_common_stack) (c : stack_call)
    (hinv : s.len ≤ s.size ∧ s.len < U32) :
    (c.run s).size = s.size ∧ (c.run s).len ≤ (c.run s).size ∧ (c.run s).len < U32 := by
  have hU : U32 = 4294967296 := rfl
  cases c with
  | put obj_table n =>
      show (common_stack_put s obj_table n).2.size = s.size ∧
        (common_stack_put s obj_table n).2.len ≤ (common_stack_put s obj_table n).2.size ∧
        (common_stack_put s obj_table n).2.len < U32
      by_cases h : (s.len + n) % U32 > s.size
      · rw [common_stack_put_fail s obj_table n h]
        exact ⟨rfl, hinv.1, hinv.2⟩
      · rw [common_stack_put_ok s obj_table n h]
        refine ⟨rfl, ?_, ?_⟩
        · show (s.len + n) % U32 ≤ s.size
          omega
        · show (s.len + n) % U32 < U32
          exact Nat.mod_lt _ (by rw [hU]; omega)
  | get obj_table n =>
      show (common_stack_get s obj_table n).2.1.size = s.size ∧
        (common_stack_get s obj_table n).2.1.len ≤ (common_stack_get s obj_table n).2.1.size ∧
        (common_stack_get s obj_table n).2.1.len < U32
      by_cases h : n > s.len
      · rw [common_stack_get_fail s obj_table n h]
        exact ⟨rfl, hinv.1, hinv.2⟩
      · rw [common_stack_get_ok s obj_table n h]
        have hl := hinv.2
        have hs := hinv.1
        refine ⟨rfl, ?_, ?_⟩
        · show (s.len + (U32 - n % U32)) % U32 ≤ s.size
          rw [hU] at hl ⊢
          omega
        · show (s.len + (U32 - n % U32)) % U32 < U32
          exact Nat.mod_lt _ (by rw [hU]; omega)

theorem run_stack_calls_invariant (calls : List stack_call) :
    ∀ (s : rte_mempool_common_stack), s.len ≤ s.size ∧ s.len < U32 →
      (run_stack_calls s calls).size = s.size ∧
      (run_stack_calls s calls).len ≤ (run_stack_calls s calls).size ∧
      (run_stack_calls s calls).len < U32 := by
  induction calls with
  | nil =>
      intro s hinv
      exact ⟨rfl, hinv.1, hinv.2⟩
  | cons c rest ih =>
      intro s hinv
      have h1 := stack_call_run_invariant s c hinv
      have h2 := ih (c.run s) ⟨h1.2.1, h1.2.2⟩
      show (run_stack_calls (c.run s) rest).size = s.size ∧ _
      exact ⟨h2.1.trans h1.1, h2.2.1, h2.2.2⟩

/-- C5 (amended): on a stack created by `rte_mempool_common_stack_alloc` with capacity
`cap`, after every finite sequence of `common_stack_put` and `common_stack_get` calls with
arbitrary request sizes (arithmetic modulo `2^32` as in the code) the capacity is still
`cap` and `len <= size`; a put whose `len + n` does not overflow 32 bits on a pool that
lacks room (`len + n > size`) returns `-ENOENT` and leaves the stack unchanged; and no put,
whatever its request size, leaves `len` above `size`. -/
theorem common_stack_len_le_size {R : Type} (mp : rte_mempool R) (cap : Nat)
    (zmalloc_ok : Bool) (s0 : rte_mempool_common_stack)
    (halloc : (rte_mempool_common_stack_alloc mp cap zmalloc_ok).1 = some s0)
    (calls : List stack_call) :
    s0.len = 0 ∧
    (run_stack_calls s0 calls).size = cap ∧
    (run_stack_calls s0 calls).len ≤ (run_stack_calls s0 calls).size ∧
    (∀ (obj_table : Table) (n : Nat),
      (run_stack_calls s0 calls).len + n < U32 →
      (run_stack_calls s0 calls).size < (run_stack_calls s0 calls).len + n →
      common_stack_put (run_stack_calls s0 calls) obj_table n
        = (-ENOENT, run_stack_calls s0 calls)) ∧
    (∀ (obj_table : Table) (n : Nat),
      (common_stack_put (run_stack_calls s0 calls) obj_table n).2.len
        ≤ (common_stack_put (run_stack_calls s0 calls) obj_table n).2.size) := by
  have hs0 : s0 = { size := cap, len := 0, objs := fun _ => 0 } := by
    unfold rte_mempool_common_stack_alloc at halloc
    cases zmalloc_ok with
    | false => simp at halloc
    | true =>
        simp at halloc
        exact halloc.symm
  have hinv0 : s0.len ≤ s0.size ∧ s0.len < U32 := by
    rw [hs0]
    exact ⟨Nat.zero_le _, show (0 : Nat) < U32 by decide⟩
  have h := run_stack_calls_invariant calls s0 hinv0
  refine ⟨by rw [hs0], ?_, h.2.1, ?_, ?_⟩
  · rw [h.1, hs0]
  · intro obj_table n hfit hfull
    apply common_stack_put_fail
    rw [Nat.mod_eq_of_lt hfit]
    exact hfull
  · intro obj_table n
    have h2 := run_stack_calls_invariant [.put obj_table n] (run_stack_calls s0 calls)
      ⟨h.2.1, h.2.2⟩
    exact h2.2.1

/-- Witness for C5: a stack of capacity 4 after one put of 2 handles and one get of 1
handle refuses a put of 4 more handles. -/
theorem common_stack_len_le_size_witness :
    (rte_mempool_common_stack_alloc demo_pool 4 true).1
      = some { size := 4, len := 0, objs := fun _ => 0 } ∧
    (run_stack_calls { size := 4, len := 0, objs := fun _ => 0 }
      [.put demo_table 2, .get demo_table 1]).len + 4 < U32 ∧
    (run_stack_calls { size := 4, len := 0, objs := fun _ => 0 }
      [.put demo_table 2, .get demo_table 1]).size
      < (run_stack_calls { size := 4, len := 0, objs := fun _ => 0 }
          [.put demo_table 2, .get demo_table 1]).len + 4 ∧
    common_stack_put
        (run_stack_calls { size := 4, len := 0, objs := fun _ => 0 }
          [.put demo_table 2, .get demo_table 1]) demo_table 4
      = (-ENOENT, run_stack_calls { size := 4, len := 0, objs := fun _ => 0 }
          [.put demo_table 2, .get demo_table 1]) :=
  ⟨rfl, by decide, by decide,
   (common_stack_len_le_size demo_pool 4 true _ rfl
      [.put demo_table 2, .get demo_table 1]).2.2.2.1 demo_table 4 (by decide) (by decide)⟩

/-- Counterexample to C5 as stated: a stack allocated with capacity 4 holds one handle
after a put of one handle; a further put of `2^32 - 1` handles, for which the pool lacks
room, does not fail: it returns 0 and the length wraps to 0. -/
theorem common_stack_len_le_size_counterexample :
    (rte_mempool_common_stack_alloc demo_pool 4 true).1.map
      (fun s0 =>
        ((run_stack_calls s0 [.put demo_table 1]).size,
         (run_stack_calls s0 [.put demo_table 1]).len,
         (common_stack_put (run_stack_calls s0 [.put demo_table 1]) demo_table 4294967295).1,
         (common_stack_put (run_stack_calls s0 [.put demo_table 1]) demo_table
            4294967295).2.len))
      = some (4, 1, 0, 0) := by
  decide

end Mempool

/-! ## Properties of the transmit batch -/

namespace NetdevDpdk

theorem slots_length (a : Nat → Mbuf) (start n : Nat) : (slots a start n).length = n := by
  simp [slots]

theorem slots_succ (a : Nat → Mbuf) (start n : Nat) :
    slots a start (n + 1) = a start :: slots a (start + 1) n := by
  unfold slots
  rw [List.range_succ_eq_map, List.map_cons, List.map_map]
  congr 1
  apply List.map_congr_left
  intro j _
  show a (start + (j + 1)) = a (start + 1 + j)
  congr 1
  omega

theorem slots_append (a : Nat → Mbuf) (n : Nat) :
    ∀ (start m : Nat), slots a start (n + m) = slots a start n ++ slots a (start + n) m := by
  induction n with
  | zero =>
      intro start m
      simp [slots]
  | succ n ih =>
      intro start m
      have e : n + 1 + m = (n + m) + 1 := by omega
      rw [e, slots_succ, slots_succ, ih (start + 1) m, List.cons_append]
      congr 3
      omega

theorem slots_drop (a : Nat → Mbuf) (c k : Nat) (hk : k ≤ c) :
    (slots a 0 c).drop k = slots a k (c - k) := by
  have e : c = k + (c - k) := by omega
  conv_lhs => rw [e, slots_append]
  rw [List.drop_left' (slots_length a 0 k), Nat.zero_add]

theorem slots_take (a : Nat → Mbuf) (c k : Nat) (hk : k ≤ c) :
    (slots a 0 c).take k = slots a 0 k := by
  have e : c = k + (c - k) := by omega
  conv_lhs => rw [e, slots_append]
  rw [List.take_left' (slots_length a 0 k)]

theorem u32_of_int_small (c : Int) (h0 : 0 ≤ c) (h1 : c < 4294967296) :
    u32_of_int c = c.toNat := by
  unfold u32_of_int
  congr 1
  omega

theorem int_of_u32_small (n : Nat) (h : n < 2147483648) : int_of_u32 n = (n : Int) := by
  unfold int_of_u32
  have hU : U32 = 4294967296 := rfl
  have hm : n % U32 = n := Nat.mod_eq_of_lt (by rw [hU]; omega)
  rw [hm, if_pos h]

end NetdevDpdk

namespace NetdevDpdk

theorem batch_length (txq : dpdk_tx_queue) : txq.batch.length = txq.count.toNat := by
  simp [dpdk_tx_queue.batch, slots_length]

theorem dpdk_queue_flush_loop_spec (env : Env) (qid : Int) (txq : dpdk_tx_queue)
    (hc0 : 0 ≤ txq.count) (hc1 : txq.count ≤ MAX_TX_QUEUE_LEN)
    (henv : ∀ k n, env.rte_eth_tx_burst k n ≤ n) :
    ∀ (fuel nb_tx : Nat) (w : World), nb_tx ≤ txq.count.toNat →
      txq.count.toNat - nb_tx + 1 ≤ fuel →
      ∃ (s : Nat) (evs : List Event),
        dpdk_queue_flush_loop env qid txq fuel nb_tx w
          = some (s, { w with tx_burst_calls := w.tx_burst_calls + evs.length
                              trace := w.trace ++ evs }) ∧
        s ≤ txq.count.toNat ∧ burst_run qid txq.batch nb_tx evs s := by
  have hM : MAX_TX_QUEUE_LEN = 384 := rfl
  have hU : U32 = 4294967296 := rfl
  have hcu : u32_of_int txq.count = txq.count.toNat :=
    u32_of_int_small _ hc0 (by omega)
  have hc384 : txq.count.toNat ≤ 384 := by omega
  intro fuel
  induction fuel with
  | zero =>
      intro nb_tx w _ hfuel
      omega
  | succ fuel ih =>
      intro nb_tx w hnb hfuel
      rw [dpdk_queue_flush_loop, hcu]
      by_cases h : nb_tx = txq.count.toNat
      · rw [if_neg (by simpa using h)]
        refine ⟨txq.count.toNat, [], ?_, le_refl _, ?_⟩
        · subst h
          simp
        · have hb := batch_length txq
          rw [h, ← hb]
          exact burst_run.done
      · rw [if_pos h]
        have hn : ((txq.count.toNat + (U32 - nb_tx)) % U32) % 65536 = txq.count.toNat - nb_tx := by
          rw [hU]
          omega
        simp only [hn]
        have hret := henv w.tx_burst_calls (txq.count.toNat - nb_tx)
        have hoff : slots txq.burst_pkts nb_tx (txq.count.toNat - nb_tx) = txq.batch.drop nb_tx := by
          rw [dpdk_tx_queue.batch, slots_drop _ _ _ hnb]
        rw [hoff]
        by_cases hz : env.rte_eth_tx_burst w.tx_burst_calls (txq.count.toNat - nb_tx) = 0
        · rw [if_pos hz, hz]
          refine ⟨nb_tx, [Event.tx_burst qid (txq.batch.drop nb_tx) 0], ?_, hnb, ?_⟩
          · simp [World.log]
          · apply burst_run.stalled
            rw [batch_length]
            omega
        · rw [if_neg hz]
          have hmod : (nb_tx + env.rte_eth_tx_burst w.tx_burst_calls (txq.count.toNat - nb_tx)) % U32
              = nb_tx + env.rte_eth_tx_burst w.tx_burst_calls (txq.count.toNat - nb_tx) := by
            rw [hU]
            omega
          rw [hmod]
          obtain ⟨s, evs, h1, h2, h3⟩ := ih
            (nb_tx + env.rte_eth_tx_burst w.tx_burst_calls (txq.count.toNat - nb_tx))
            ({ w with tx_burst_calls := w.tx_burst_calls + 1 }.log
              (Event.tx_burst qid (txq.batch.drop nb_tx)
                (env.rte_eth_tx_burst w.tx_burst_calls (txq.count.toNat - nb_tx))))
            (by omega) (by omega)
          refine ⟨s, Event.tx_burst qid (txq.batch.drop nb_tx)
                (env.rte_eth_tx_burst w.tx_burst_calls (txq.count.toNat - nb_tx)) :: evs,
                ?_, h2, ?_⟩
          · rw [h1]
            simp [World.log]
            omega
          · apply burst_run.step _ _ _ _ _ (by omega) _ h3
            · rw [batch_length]
              omega
            · rw [batch_length]
              omega

end NetdevDpdk

namespace NetdevDpdk

theorem dpdk_queue_free_loop_spec (txq : dpdk_tx_queue) :
    ∀ (k i : Nat) (w : World),
      dpdk_queue_free_loop txq k (i : Int) w
        = { w with trace := w.trace ++ (slots txq.burst_pkts i k).map Event.free_seg } := by
  intro k
  induction k with
  | zero =>
      intro i w
      simp [dpdk_queue_free_loop, slots]
  | succ k ih =>
      intro i w
      have e : ((i : Int) + 1) = ((i + 1 : Nat) : Int) := by push_cast; rfl
      rw [dpdk_queue_free_loop, e, ih, slots_succ]
      simp [World.log]

theorem dpdk_queue_flush___spec (env : Env) (fuel : Nat) (dev : netdev_dpdk) (qid : Int)
    (w : World) (hc0 : 0 ≤ (dev.tx_q qid).count)
    (hc1 : (dev.tx_q qid).count ≤ MAX_TX_QUEUE_LEN)
    (henv : ∀ k n, env.rte_eth_tx_burst k n ≤ n)
    (hfuel : (dev.tx_q qid).count.toNat + 1 ≤ fuel) :
    ∃ (s : Nat) (bursts : List Event),
      dpdk_queue_flush__ env fuel dev qid w = some (flush_outcome env dev qid w bursts s) ∧
      s ≤ (dev.tx_q qid).batch.length ∧
      burst_run qid (dev.tx_q qid).batch 0 bursts s := by
  have hM : MAX_TX_QUEUE_LEN = 384 := rfl
  have hU : U32 = 4294967296 := rfl
  have hcu : u32_of_int (dev.tx_q qid).count = (dev.tx_q qid).count.toNat :=
    u32_of_int_small _ hc0 (by omega)
  obtain ⟨s, bursts, h1, h2, h3⟩ := dpdk_queue_flush_loop_spec env qid (dev.tx_q qid) hc0 hc1
    henv fuel 0 (w.log (Event.flush qid)) (Nat.zero_le _) (by omega)
  refine ⟨s, bursts, ?_, by rw [batch_length]; exact h2, h3⟩
  unfold dpdk_queue_flush__
  simp only [h1, hcu]
  have hs : int_of_u32 s = (s : Int) := int_of_u32_small s (by omega)
  by_cases hsc : s = (dev.tx_q qid).count.toNat
  · rw [if_neg (by simpa using hsc), if_neg (by simpa using hsc)]
    have hd : (dev.tx_q qid).batch.drop s = [] := by
      apply List.drop_eq_nil_of_le
      rw [batch_length]
      omega
    have hz : (dev.tx_q qid).batch.length - s = 0 := by
      rw [batch_length]
      omega
    simp [flush_outcome, hd, hz, World.log]
  · rw [if_pos hsc, if_pos hsc, hs]
    have hk : ((dev.tx_q qid).count - (s : Int)).toNat = (dev.tx_q qid).count.toNat - s := by
      omega
    have hdrop : ((dev.tx_q qid).count.toNat + (U32 - s)) % U32
        = (dev.tx_q qid).batch.length - s := by
      rw [batch_length, hU]
      omega
    rw [hk, dpdk_queue_free_loop_spec, hdrop]
    have hsl : slots (dev.tx_q qid).burst_pkts s ((dev.tx_q qid).count.toNat - s)
        = (dev.tx_q qid).batch.drop s := by
      rw [dpdk_tx_queue.batch, slots_drop _ _ _ h2]
    rw [hsl]
    simp [flush_outcome, World.log]

end NetdevDpdk

namespace NetdevDpdk

theorem enqueued_of_append (qid : Int) (a b : List Event) :
    enqueued_of qid (a ++ b) = enqueued_of qid a ++ enqueued_of qid b := by
  induction a with
  | nil => rfl
  | cons e rest ih =>
      cases e with
      | queue_copy q slot pkts =>
          simp only [List.cons_append, enqueued_of]
          split
          · show pkts ++ enqueued_of qid (rest ++ b) = _
            rw [ih, List.append_assoc]
          · exact ih
      | _ => simpa [enqueued_of] using ih

theorem accepted_of_append (qid : Int) (a b : List Event) :
    accepted_of qid (a ++ b) = accepted_of qid a ++ accepted_of qid b := by
  induction a with
  | nil => rfl
  | cons e rest ih =>
      cases e with
      | tx_burst q offered ret =>
          simp only [List.cons_append, accepted_of]
          split
          · show offered.take ret ++ accepted_of qid (rest ++ b) = _
            rw [ih, List.append_assoc]
          · exact ih
      | _ => simpa [accepted_of] using ih

theorem freed_of_append (a b : List Event) :
    freed_of (a ++ b) = freed_of a ++ freed_of b := by
  induction a with
  | nil => rfl
  | cons e rest ih =>
      cases e <;> simp [freed_of, ih]

theorem flush_count_append (a b : List Event) :
    flush_count (a ++ b) = flush_count a + flush_count b := by
  induction a with
  | nil => simp [flush_count]
  | cons e rest ih =>
      cases e <;> simp [flush_count, ih]
      omega

theorem tx_burst_count_append (a b : List Event) :
    tx_burst_count (a ++ b) = tx_burst_count a + tx_burst_count b := by
  induction a with
  | nil => simp [tx_burst_count]
  | cons e rest ih =>
      cases e <;> simp [tx_burst_count, ih]
      omega

theorem enqueued_of_free_seg (qid : Int) (l : List Mbuf) :
    enqueued_of qid (l.map Event.free_seg) = [] := by
  induction l with
  | nil => rfl
  | cons p rest ih => simp [enqueued_of, ih]

theorem accepted_of_free_seg (qid : Int) (l : List Mbuf) :
    accepted_of qid (l.map Event.free_seg) = [] := by
  induction l with
  | nil => rfl
  | cons p rest ih => simp [accepted_of, ih]

theorem freed_of_free_seg (l : List Mbuf) : freed_of (l.map Event.free_seg) = l := by
  induction l with
  | nil => rfl
  | cons p rest ih => simp [freed_of, ih]

theorem flush_count_free_seg (l : List Mbuf) : flush_count (l.map Event.free_seg) = 0 := by
  induction l with
  | nil => rfl
  | cons p rest ih => simp [flush_count, ih]

theorem tx_burst_count_free_seg (l : List Mbuf) :
    tx_burst_count (l.map Event.free_seg) = 0 := by
  induction l with
  | nil => rfl
  | cons p rest ih => simp [tx_burst_count, ih]

theorem burst_run_bounds (qid : Int) (batch : List Mbuf) (nb : Nat) (evs : List Event)
    (s : Nat) (h : burst_run qid batch nb evs s) : nb ≤ s ∧ s ≤ batch.length := by
  induction h with
  | done => exact ⟨le_refl _, le_refl _⟩
  | stalled nb h1 => exact ⟨le_refl _, le_of_lt h1⟩
  | step nb ret evs s h1 h2 h3 _ ih => exact ⟨by omega, ih.2⟩

theorem burst_run_accepted (qid : Int) (batch : List Mbuf) (nb : Nat) (evs : List Event)
    (s : Nat) (h : burst_run qid batch nb evs s) :
    accepted_of qid evs = (batch.drop nb).take (s - nb) := by
  induction h with
  | done => simp [accepted_of]
  | stalled nb h1 => simp [accepted_of]
  | step nb ret evs s h1 h2 h3 hrun ih =>
      have hb := burst_run_bounds qid batch _ evs s hrun
      simp only [accepted_of, if_true, ih]
      have e : s - nb = ret + (s - (nb + ret)) := by omega
      rw [e, List.take_add, List.drop_drop]

theorem burst_run_enqueued (q qid : Int) (batch : List Mbuf) (nb : Nat) (evs : List Event)
    (s : Nat) (h : burst_run qid batch nb evs s) : enqueued_of q evs = [] := by
  induction h with
  | done => rfl
  | stalled nb h1 => rfl
  | step nb ret evs s h1 h2 h3 hrun ih => simp [enqueued_of, ih]

theorem burst_run_freed (qid : Int) (batch : List Mbuf) (nb : Nat) (evs : List Event)
    (s : Nat) (h : burst_run qid batch nb evs s) : freed_of evs = [] := by
  induction h with
  | done => rfl
  | stalled nb h1 => rfl
  | step nb ret evs s h1 h2 h3 hrun ih => simp [freed_of, ih]

theorem burst_run_flush_count (qid : Int) (batch : List Mbuf) (nb : Nat) (evs : List Event)
    (s : Nat) (h : burst_run qid batch nb evs s) : flush_count evs = 0 := by
  induction h with
  | done => rfl
  | stalled nb h1 => rfl
  | step nb ret evs s h1 h2 h3 hrun ih => simp [flush_count, ih]

theorem queue_run_trans (qid : Int) (p1 : List Mbuf) (e1 : List Event) (p2 : List Mbuf)
    (h1 : queue_run qid p1 e1 p2) :
    ∀ (e2 : List Event) (p3 : List Mbuf), queue_run qid p2 e2 p3 →
      queue_run qid p1 (e1 ++ e2) p3 := by
  induction h1 with
  | nil p => intro e2 p3 h2; exact h2
  | copy p chunk evs p' hfit _ ih =>
      intro e2 p3 h2
      rw [List.cons_append]
      exact queue_run.copy p chunk _ p3 hfit (ih e2 p3 h2)
  | flush p bursts s evs p' hb _ ih =>
      intro e2 p3 h2
      rw [List.append_assoc]
      exact queue_run.flush p bursts s _ p3 hb (ih e2 p3 h2)

theorem same_outside_queue_refl (qid : Int) (dev : netdev_dpdk) :
    same_outside_queue qid dev dev :=
  ⟨rfl, rfl, rfl, rfl, rfl, rfl, rfl, fun _ _ => rfl, rfl⟩

theorem same_outside_queue_trans (qid : Int) (d1 d2 d3 : netdev_dpdk)
    (h1 : same_outside_queue qid d1 d2) (h2 : same_outside_queue qid d2 d3) :
    same_outside_queue qid d1 d3 := by
  obtain ⟨a1, a2, a3, a4, a5, a6, a7, a8, a9⟩ := h1
  obtain ⟨b1, b2, b3, b4, b5, b6, b7, b8, b9⟩ := h2
  exact ⟨b1.trans a1, b2.trans a2, b3.trans a3, b4.trans a4, b5.trans a5, b6.trans a6,
    b7.trans a7, fun q hq => (b8 q hq).trans (a8 q hq), b9.trans a9⟩

theorem same_outside_trace_refl (w : World) : same_outside_trace w w :=
  ⟨rfl, rfl, rfl, rfl, rfl⟩

theorem same_outside_trace_trans (w1 w2 w3 : World)
    (h1 : same_outside_trace w1 w2) (h2 : same_outside_trace w2 w3) :
    same_outside_trace w1 w3 := by
  obtain ⟨a1, a2, a3, a4, a5⟩ := h1
  obtain ⟨b1, b2, b3, b4, b5⟩ := h2
  exact ⟨b1.trans a1, b2.trans a2, b3.trans a3, b4.trans a4, b5.trans a5⟩

theorem queue_step_trans (qid : Int) (d1 d2 d3 : netdev_dpdk) (w1 w2 w3 : World)
    (e1 e2 : List Event) (h1 : queue_step qid d1 w1 d2 w2 e1)
    (h2 : queue_step qid d2 w2 d3 w3 e2) : queue_step qid d1 w1 d3 w3 (e1 ++ e2) := by
  obtain ⟨a1, a2, a3, _, _, a6, a7⟩ := h1
  obtain ⟨b1, b2, b3, b4, b5, b6, b7⟩ := h2
  refine ⟨?_, queue_run_trans qid _ _ _ a2 _ _ b2, ?_, b4, b5,
    same_outside_queue_trans qid _ _ _ a6 b6, same_outside_trace_trans _ _ _ a7 b7⟩
  · rw [b1, a1, List.append_assoc]
  · rw [b3, a3, freed_of_append, List.length_append]
    push_cast
    ring

end NetdevDpdk

namespace NetdevDpdk

theorem slots_congr (f g : Nat → Mbuf) (start n : Nat)
    (h : ∀ j, j < n → f (start + j) = g (start + j)) : slots f start n = slots g start n := by
  unfold slots
  apply List.map_congr_left
  intro j hj
  exact h j (List.mem_range.mp hj)

theorem slots_memcpy (a : Nat → Mbuf) (c : Nat) (chunk : List Mbuf) :
    slots (memcpy_slots a c chunk) 0 (c + chunk.length) = slots a 0 c ++ chunk := by
  rw [slots_append]
  congr 1
  · apply slots_congr
    intro j hj
    unfold memcpy_slots
    rw [if_neg (by omega)]
  · apply List.ext_getElem
    · rw [slots_length]
    · intro j h1 h2
      unfold slots memcpy_slots
      rw [List.getElem_map, List.getElem_range, if_pos (by omega)]
      have e : 0 + c + j - c = j := by omega
      rw [e, List.getD_eq_getElem?_getD, List.getElem?_eq_getElem h2]
      rfl

theorem queue_step_refl (qid : Int) (dev : netdev_dpdk) (w w' : World)
    (hc0 : 0 ≤ (dev.tx_q qid).count) (hc1 : (dev.tx_q qid).count ≤ MAX_TX_QUEUE_LEN)
    (htrace : w'.trace = w.trace) (hsame : same_outside_trace w w') :
    queue_step qid dev w dev w' [] := by
  refine ⟨by rw [htrace, List.append_nil], queue_run.nil _, ?_, hc0, hc1,
    same_outside_queue_refl qid dev, hsame⟩
  simp [freed_of]

theorem flush_outcome_step (env : Env) (dev : netdev_dpdk) (qid : Int) (w : World)
    (bursts : List Event) (s : Nat)
    (hrun : burst_run qid (dev.tx_q qid).batch 0 bursts s) :
    queue_step qid dev w (flush_outcome env dev qid w bursts s).1
      (flush_outcome env dev qid w bursts s).2
      ([Event.flush qid] ++ bursts ++ ((dev.tx_q qid).batch.drop s).map Event.free_seg) ∧
    ((flush_outcome env dev qid w bursts s).1.tx_q qid).count = 0 ∧
    ((flush_outcome env dev qid w bursts s).1.tx_q qid).tsc
      = env.rte_get_timer_cycles w.timer_calls ∧
    (flush_outcome env dev qid w bursts s).2.timer_calls = w.timer_calls + 1 := by
  have hq : ((flush_outcome env dev qid w bursts s).1.tx_q qid)
      = { dev.tx_q qid with count := 0, tsc := env.rte_get_timer_cycles w.timer_calls } := by
    simp [flush_outcome]
  refine ⟨⟨by simp [flush_outcome], ?_, ?_, ?_, ?_, ?_, ?_⟩, ?_, ?_, rfl⟩
  · have hb : ((flush_outcome env dev qid w bursts s).1.tx_q qid).batch = [] := by
      rw [hq]
      simp [dpdk_tx_queue.batch, slots]
    rw [hb]
    have h := queue_run.flush (dev.tx_q qid).batch bursts s [] [] hrun (queue_run.nil [])
    rw [List.append_nil] at h
    exact h
  · have hf : freed_of ([Event.flush qid] ++ bursts
        ++ ((dev.tx_q qid).batch.drop s).map Event.free_seg)
        = (dev.tx_q qid).batch.drop s := by
      rw [freed_of_append, freed_of_append, freed_of_free_seg,
        burst_run_freed qid _ _ _ _ hrun]
      simp [freed_of]
    rw [hf, List.length_drop]
    rfl
  · rw [hq]
  · rw [hq]
    show (0 : Int) ≤ MAX_TX_QUEUE_LEN
    decide
  · refine ⟨rfl, rfl, rfl, rfl, rfl, rfl, rfl, ?_, ?_⟩
    · intro q hq2
      simp [flush_outcome, Function.update_noteq hq2]
    · rw [hq]
  · exact ⟨rfl, rfl, rfl, rfl, rfl⟩
  · rw [hq]
  · rw [hq]

theorem flush_outcome_trace_facts (qid : Int) (batch : List Mbuf) (bursts : List Event)
    (s : Nat) (hrun : burst_run qid batch 0 bursts s) :
    enqueued_of qid ([Event.flush qid] ++ bursts ++ (batch.drop s).map Event.free_seg) = [] ∧
    accepted_of qid ([Event.flush qid] ++ bursts ++ (batch.drop s).map Event.free_seg)
      = batch.take s ∧
    freed_of ([Event.flush qid] ++ bursts ++ (batch.drop s).map Event.free_seg)
      = batch.drop s ∧
    flush_count ([Event.flush qid] ++ bursts ++ (batch.drop s).map Event.free_seg) = 1 := by
  refine ⟨?_, ?_, ?_, ?_⟩
  · rw [enqueued_of_append, enqueued_of_append, enqueued_of_free_seg,
      burst_run_enqueued qid qid _ _ _ _ hrun]
    rfl
  · rw [accepted_of_append, accepted_of_append, accepted_of_free_seg,
      burst_run_accepted qid _ _ _ _ hrun]
    simp [accepted_of]
  · rw [freed_of_append, freed_of_append, freed_of_free_seg, burst_run_freed qid _ _ _ _ hrun]
    simp [freed_of]
  · rw [flush_count_append, flush_count_append, flush_count_free_seg,
      burst_run_flush_count qid _ _ _ _ hrun]
    rfl

end NetdevDpdk

namespace NetdevDpdk

theorem opt_flush_step (env : Env) (ffuel : Nat) (dev : netdev_dpdk) (qid : Int) (w : World)
    (b : Prop) (inst : Decidable b)
    (hc0 : 0 ≤ (dev.tx_q qid).count) (hc1 : (dev.tx_q qid).count ≤ MAX_TX_QUEUE_LEN)
    (henv : ∀ k n, env.rte_eth_tx_burst k n ≤ n) (hff : 385 ≤ ffuel) :
    ∃ (dev' : netdev_dpdk) (w' : World) (evs : List Event),
      (@ite _ b inst (dpdk_queue_flush__ env ffuel dev qid w) (some (dev, w)))
        = some (dev', w') ∧
      queue_step qid dev w dev' w' evs ∧ enqueued_of qid evs = [] ∧
      (b → (dev'.tx_q qid).count = 0) ∧
      (¬ b → (dev'.tx_q qid).count = (dev.tx_q qid).count) := by
  have hM : MAX_TX_QUEUE_LEN = 384 := rfl
  by_cases hb : b
  · obtain ⟨s, bursts, h1, _, h3⟩ := dpdk_queue_flush___spec env ffuel dev qid w hc0 hc1 henv
      (by omega)
    have hstep := flush_outcome_step env dev qid w bursts s h3
    have hfacts := flush_outcome_trace_facts qid (dev.tx_q qid).batch bursts s h3
    refine ⟨_, _, _, by rw [if_pos hb]; exact h1, hstep.1, hfacts.1, fun _ => hstep.2.1,
      fun hnb => absurd hb hnb⟩
  · refine ⟨dev, w, [], by rw [if_neg hb], ?_, rfl, fun h => absurd h hb, fun _ => rfl⟩
    exact queue_step_refl qid dev w w hc0 hc1 rfl (same_outside_trace_refl w)

theorem dpdk_queue_pkts_copy_spec (qid : Int) (pkts : List Mbuf) (i : Nat) (dev : netdev_dpdk)
    (w : World) (hi : i ≤ pkts.length) (hc0 : 0 ≤ (dev.tx_q qid).count)
    (hc1 : (dev.tx_q qid).count ≤ MAX_TX_QUEUE_LEN) :
    ∃ (k : Nat) (dev1 : netdev_dpdk) (w1 : World),
      dpdk_queue_pkts_copy qid pkts i dev w = some (i + k, dev1, w1) ∧
      (k : Int) = min (MAX_TX_QUEUE_LEN - (dev.tx_q qid).count)
        ((pkts.length : Int) - (i : Int)) ∧
      queue_step qid dev w dev1 w1
        [Event.queue_copy qid (dev.tx_q qid).count ((pkts.drop i).take k)] ∧
      (dev1.tx_q qid).count = (dev.tx_q qid).count + (k : Int) ∧
      (dev1.tx_q qid).tsc = (dev.tx_q qid).tsc ∧
      (dev1.tx_q qid).batch = (dev.tx_q qid).batch ++ (pkts.drop i).take k ∧
      w1.timer_calls = w.timer_calls ∧ w1.tx_burst_calls = w.tx_burst_calls := by
  have hM : MAX_TX_QUEUE_LEN = 384 := rfl
  have htc : ¬ (min (MAX_TX_QUEUE_LEN - (dev.tx_q qid).count)
      ((pkts.length : Int) - (i : Int)) < 0 ∨ (dev.tx_q qid).count < 0) := by
    omega
  obtain ⟨k, hk⟩ : ∃ k : Nat, (k : Int) = min (MAX_TX_QUEUE_LEN - (dev.tx_q qid).count)
      ((pkts.length : Int) - (i : Int)) :=
    ⟨(min (MAX_TX_QUEUE_LEN - (dev.tx_q qid).count) ((pkts.length : Int) - (i : Int))).toNat,
      by omega⟩
  have hchunk : ((pkts.drop i).take k).length = k := by
    rw [List.length_take, List.length_drop]
    omega
  have hcnt : ((dev.tx_q qid).count + (k : Int)).toNat
      = (dev.tx_q qid).count.toNat + ((pkts.drop i).take k).length := by
    rw [hchunk]
    omega
  have hbatch : slots (memcpy_slots (dev.tx_q qid).burst_pkts (dev.tx_q qid).count.toNat
        ((pkts.drop i).take k)) 0 ((dev.tx_q qid).count + (k : Int)).toNat
      = (dev.tx_q qid).batch ++ (pkts.drop i).take k := by
    rw [hcnt, slots_memcpy]
    rfl
  have hslot : (((dev.tx_q qid).batch.length : Nat) : Int) = (dev.tx_q qid).count := by
    rw [batch_length]
    omega
  refine ⟨k,
    { dev with
        tx_q := Function.update dev.tx_q qid
          { flush_tx := (dev.tx_q qid).flush_tx
            count := (dev.tx_q qid).count + (k : Int)
            tsc := (dev.tx_q qid).tsc
            burst_pkts := memcpy_slots (dev.tx_q qid).burst_pkts (dev.tx_q qid).count.toNat
              ((pkts.drop i).take k) } },
    w.log (Event.queue_copy qid (dev.tx_q qid).count ((pkts.drop i).take k)),
    ?_, hk, ?_, ?_, ?_, ?_, ?_, ?_⟩
  · unfold dpdk_queue_pkts_copy
    simp only [← hk, Int.toNat_ofNat]
    have htc2 : ¬ ((k : Int) < 0 ∨ (dev.tx_q qid).count < 0) := by omega
    rw [if_neg htc2]
  · refine ⟨rfl, ?_, ?_, ?_, ?_, ?_, ?_⟩
    · simp only [Function.update_same, dpdk_tx_queue.batch]
      rw [hbatch]
      have h := @queue_run.copy qid (dev.tx_q qid).batch ((pkts.drop i).take k) []
        ((dev.tx_q qid).batch ++ (pkts.drop i).take k)
        (by rw [batch_length, hchunk]; omega) (queue_run.nil _)
      rw [hslot] at h
      exact h
    · simp [freed_of]
    · simp only [Function.update_same]
      omega
    · simp only [Function.update_same]
      omega
    · refine ⟨rfl, rfl, rfl, rfl, rfl, rfl, rfl, ?_, ?_⟩
      · intro q hq
        simp [Function.update_noteq hq]
      · simp
    · exact ⟨rfl, rfl, rfl, rfl, rfl⟩
  · simp
  · simp
  · simp only [Function.update_same, dpdk_tx_queue.batch]
    exact hbatch
  · rfl
  · rfl

theorem dpdk_queue_pkts_drain_spec (env : Env) (ffuel : Nat) (dev : netdev_dpdk) (qid : Int)
    (w : World) (hc0 : 0 ≤ (dev.tx_q qid).count)
    (hc1 : (dev.tx_q qid).count ≤ MAX_TX_QUEUE_LEN)
    (henv : ∀ k n, env.rte_eth_tx_burst k n ≤ n) (hff : 385 ≤ ffuel) :
    ∃ (dev3 : netdev_dpdk) (w4 : World) (evs : List Event),
      dpdk_queue_pkts_drain env ffuel dev qid w = some (dev3, w4) ∧
      queue_step qid dev w dev3 w4 evs ∧ enqueued_of qid evs = [] ∧
      (dev3.tx_q qid).count < MAX_TX_QUEUE_LEN ∧
      ((dev3.tx_q qid).count = 0 ∨ (dev3.tx_q qid).count = (dev.tx_q qid).count) := by
  have hM : MAX_TX_QUEUE_LEN = 384 := rfl
  obtain ⟨dev2, w2, e1, h1, hs1, hen1, hb1, hnb1⟩ := opt_flush_step env ffuel dev qid w
    ((dev.tx_q qid).count = MAX_TX_QUEUE_LEN ∨ (dev.tx_q qid).flush_tx = true) inferInstance
    hc0 hc1 henv hff
  have hs1' := hs1
  obtain ⟨_, _, _, hc20, hc21, _, _⟩ := hs1'
  have htick : queue_step qid dev2 w2 dev2 { w2 with timer_calls := w2.timer_calls + 1 } [] :=
    queue_step_refl qid dev2 w2 _ hc20 hc21 rfl ⟨rfl, rfl, rfl, rfl, rfl⟩
  obtain ⟨dev3, w4, e2, h2, hs2, hen2, hb2, hnb2⟩ := opt_flush_step env ffuel dev2 qid
    { w2 with timer_calls := w2.timer_calls + 1 }
    (u64_sub (env.rte_get_timer_cycles w2.timer_calls) (dev2.tx_q qid).tsc ≥ DRAIN_TSC)
    inferInstance hc20 hc21 henv hff
  refine ⟨dev3, w4, e1 ++ ([] ++ e2), ?_, ?_, ?_, ?_, ?_⟩
  · unfold dpdk_queue_pkts_drain
    rw [h1]
    exact h2
  · exact queue_step_trans qid _ _ _ _ _ _ _ _ hs1 (queue_step_trans qid _ _ _ _ _ _ _ _ htick hs2)
  · rw [enqueued_of_append, enqueued_of_append, hen1, hen2]
    rfl
  · by_cases hd : u64_sub (env.rte_get_timer_cycles w2.timer_calls) (dev2.tx_q qid).tsc
        ≥ DRAIN_TSC
    · rw [hb2 hd]
      decide
    · rw [hnb2 hd]
      by_cases hf : (dev.tx_q qid).count = MAX_TX_QUEUE_LEN ∨ (dev.tx_q qid).flush_tx = true
      · rw [hb1 hf]
        decide
      · rw [hnb1 hf]
        have : (dev.tx_q qid).count ≠ MAX_TX_QUEUE_LEN := fun h => hf (Or.inl h)
        omega
  · by_cases hd : u64_sub (env.rte_get_timer_cycles w2.timer_calls) (dev2.tx_q qid).tsc
        ≥ DRAIN_TSC
    · exact Or.inl (hb2 hd)
    · rw [hnb2 hd]
      by_cases hf : (dev.tx_q qid).count = MAX_TX_QUEUE_LEN ∨ (dev.tx_q qid).flush_tx = true
      · exact Or.inl (hb1 hf)
      · exact Or.inr (hnb1 hf)

theorem dpdk_queue_pkts_loop_spec (env : Env) (ffuel : Nat) (qid : Int) (pkts : List Mbuf)
    (henv : ∀ k n, env.rte_eth_tx_burst k n ≤ n) (hff : 385 ≤ ffuel) :
    ∀ (fuel i : Nat) (dev : netdev_dpdk) (w : World), i ≤ pkts.length →
      0 ≤ (dev.tx_q qid).count → (dev.tx_q qid).count ≤ MAX_TX_QUEUE_LEN →
      (pkts.length - i) + (if (dev.tx_q qid).count = MAX_TX_QUEUE_LEN then 1 else 0) + 1 ≤ fuel →
      ∃ (dev' : netdev_dpdk) (w' : World) (evs : List Event),
        dpdk_queue_pkts_loop env ffuel qid pkts fuel i dev w = some (dev', w') ∧
        queue_step qid dev w dev' w' evs ∧ enqueued_of qid evs = pkts.drop i ∧
        (i < pkts.length → (dev'.tx_q qid).count < MAX_TX_QUEUE_LEN) ∧
        (i = pkts.length → dev' = dev ∧ w' = w) := by
  have hM : MAX_TX_QUEUE_LEN = 384 := rfl
  intro fuel
  induction fuel with
  | zero =>
      intro i dev w _ _ _ hfuel
      omega
  | succ fuel ih =>
      intro i dev w hi hc0 hc1 hfuel
      by_cases hlt : i < pkts.length
      · obtain ⟨k, dev1, w1, hcopy, hk, hstep1, hcount1, _, _, _, _⟩ :=
          dpdk_queue_pkts_copy_spec qid pkts i dev w hi hc0 hc1
        have hstep1' := hstep1
        obtain ⟨_, _, _, hc10, hc11, _, _⟩ := hstep1'
        obtain ⟨dev3, w4, e2, hdrain, hstep2, hen2, hc3lt, _⟩ :=
          dpdk_queue_pkts_drain_spec env ffuel dev1 qid w1 hc10 hc11 henv hff
        have hstep2' := hstep2
        obtain ⟨_, _, _, hc30, hc31, _, _⟩ := hstep2'
        have hfuel2 : (pkts.length - (i + k))
            + (if (dev3.tx_q qid).count = MAX_TX_QUEUE_LEN then 1 else 0) + 1 ≤ fuel := by
          rw [if_neg (by omega)]
          split at hfuel <;> omega
        obtain ⟨dev', w', e3, hloop, hstep3, hen3, hlt3, heq3⟩ :=
          ih (i + k) dev3 w4 (by omega) hc30 hc31 hfuel2
        refine ⟨dev', w', [Event.queue_copy qid (dev.tx_q qid).count ((pkts.drop i).take k)]
          ++ (e2 ++ e3), ?_, ?_, ?_, ?_, fun h => absurd h (by omega)⟩
        · rw [dpdk_queue_pkts_loop, if_pos hlt, hcopy]
          simp only []
          rw [hdrain]
          exact hloop
        · exact queue_step_trans qid _ _ _ _ _ _ _ _ hstep1
            (queue_step_trans qid _ _ _ _ _ _ _ _ hstep2 hstep3)
        · rw [enqueued_of_append, enqueued_of_append, hen2, hen3]
          simp only [enqueued_of, if_true, List.append_nil, List.nil_append]
          rw [← List.drop_drop, List.take_append_drop]
        · intro _
          by_cases hlast : i + k < pkts.length
          · exact hlt3 hlast
          · have := heq3 (by omega)
            rw [this.1]
            exact hc3lt
      · have hieq : i = pkts.length := by omega
        rw [dpdk_queue_pkts_loop, if_neg hlt]
        refine ⟨dev, w, [], rfl, ?_, ?_, fun h => absurd h hlt, fun _ => ⟨rfl, rfl⟩⟩
        · exact queue_step_refl qid dev w w hc0 hc1 rfl (same_outside_trace_refl w)
        · rw [hieq, List.drop_length]
          rfl

end NetdevDpdk

namespace NetdevDpdk

theorem burst_run_events (qid : Int) (batch : List Mbuf) (nb : Nat) (evs : List Event)
    (s : Nat) (h : burst_run qid batch nb evs s) :
    ∀ e, e ∈ evs → ∃ offered ret, e = Event.tx_burst qid offered ret := by
  induction h with
  | done =>
      intro e he
      simp at he
  | stalled nb h1 =>
      intro e he
      simp at he
      exact ⟨_, _, he⟩
  | step nb ret evs s h1 h2 h3 hrun ih =>
      intro e he
      rcases List.mem_cons.mp he with h | h
      · exact ⟨_, _, h⟩
      · exact ih e h

theorem queue_run_copies (qid : Int) (p : List Mbuf) (evs : List Event) (p' : List Mbuf)
    (h : queue_run qid p evs p') :
    ∀ (q slot : Int) (chunk : List Mbuf), Event.queue_copy q slot chunk ∈ evs →
      q = qid ∧ 0 ≤ slot ∧ slot + (chunk.length : Int) ≤ MAX_TX_QUEUE_LEN := by
  have hM : MAX_TX_QUEUE_LEN = 384 := rfl
  induction h with
  | nil p =>
      intro q slot chunk he
      simp at he
  | copy p chunk evs p' hfit _ ih =>
      intro q slot c he
      rcases List.mem_cons.mp he with h | h
      · injection h with h1 h2 h3
        subst h1 h2 h3
        refine ⟨rfl, by omega, by omega⟩
      · exact ih q slot c h
  | flush p bursts s evs p' hb _ ih =>
      intro q slot c he
      simp only [List.mem_append, List.mem_singleton, List.mem_map] at he
      rcases he with ((h | h) | h) | h
      · cases h
      · obtain ⟨_, _, h2⟩ := burst_run_events qid _ _ _ _ hb _ h
        cases h2
      · obtain ⟨_, _, h2⟩ := h
        cases h2
      · exact ih q slot c h

theorem queue_run_conservation (qid : Int) (p : List Mbuf) (evs : List Event)
    (p' : List Mbuf) (h : queue_run qid p evs p') :
    ∃ consumed : List Mbuf, p ++ enqueued_of qid evs = consumed ++ p' ∧
      (accepted_of qid evs).Sublist consumed ∧
      (accepted_of qid evs ++ freed_of evs).Perm consumed := by
  induction h with
  | nil p => exact ⟨[], by simp [enqueued_of], by simp [accepted_of], by simp [accepted_of, freed_of]⟩
  | copy p chunk evs p' hfit _ ih =>
      obtain ⟨consumed, h1, h2, h3⟩ := ih
      refine ⟨consumed, ?_, ?_, ?_⟩
      · simp only [enqueued_of, if_true]
        rw [← List.append_assoc]
        exact h1
      · simpa [accepted_of] using h2
      · simpa [accepted_of, freed_of] using h3
  | flush p bursts s evs p' hb _ ih =>
      obtain ⟨consumed, h1, h2, h3⟩ := ih
      have hf := flush_outcome_trace_facts qid p bursts s hb
      refine ⟨p ++ consumed, ?_, ?_, ?_⟩
      · rw [enqueued_of_append, hf.1, List.nil_append, List.append_assoc, ← h1, List.nil_append]
      · rw [accepted_of_append, hf.2.1]
        exact List.Sublist.append (List.take_sublist s p) h2
      · rw [accepted_of_append, freed_of_append, hf.2.1, hf.2.2.1]
        have hp : (p.take s ++ p.drop s).Perm p := by rw [List.take_append_drop]
        have h4 : (p.take s ++ accepted_of qid evs ++ (p.drop s ++ freed_of evs)).Perm
            ((p.take s ++ p.drop s) ++ (accepted_of qid evs ++ freed_of evs)) := by
          simp only [List.append_assoc]
          apply List.Perm.append_left
          rw [← List.append_assoc, ← List.append_assoc]
          exact List.Perm.append_right _ List.perm_append_comm
        exact h4.trans (List.Perm.append hp h3)

theorem offers_follow_accepts_free_seg (qid : Int) (enq acc : List Mbuf) (l : List Mbuf)
    (rest : List Event) :
    offers_follow_accepts qid enq acc (l.map Event.free_seg ++ rest)
      ↔ offers_follow_accepts qid enq acc rest := by
  induction l with
  | nil => simp
  | cons x xs ih => simpa [offers_follow_accepts] using ih

theorem burst_run_offers (qid : Int) (p : List Mbuf) (nb : Nat) (bursts : List Event)
    (s : Nat) (h : burst_run qid p nb bursts s) :
    ∀ (enq acc : List Mbuf) (rest : List Event), (acc ++ p.drop nb).Sublist enq →
      offers_follow_accepts qid enq (acc ++ (p.drop nb).take (s - nb)) rest →
      offers_follow_accepts qid enq acc (bursts ++ rest) := by
  induction h with
  | done =>
      intro enq acc rest _ h2
      simpa using h2
  | stalled nb h1 =>
      intro enq acc rest hsub h2
      simp only [List.singleton_append, offers_follow_accepts, if_true]
      refine ⟨hsub, Nat.zero_le _, ?_⟩
      simpa using h2
  | step nb ret evs s h1 h2 h3 hrun ih =>
      intro enq acc rest hsub hrest
      have hb := burst_run_bounds qid p _ evs s hrun
      simp only [List.cons_append, offers_follow_accepts, if_true]
      refine ⟨hsub, by rw [List.length_drop]; exact h3, ?_⟩
      apply ih
      · rw [List.append_assoc]
        have e : (p.drop nb).take ret ++ p.drop (nb + ret) = p.drop nb := by
          rw [← List.drop_drop, List.take_append_drop]
        rw [e]
        exact hsub
      · have e : (p.drop nb).take (s - nb)
            = (p.drop nb).take ret ++ (p.drop (nb + ret)).take (s - (nb + ret)) := by
          have e2 : s - nb = ret + (s - (nb + ret)) := by omega
          rw [e2, List.take_add, List.drop_drop]
        rw [List.append_assoc, ← e]
        exact hrest

theorem queue_run_offers (qid : Int) (p : List Mbuf) (evs : List Event) (p' : List Mbuf)
    (h : queue_run qid p evs p') :
    ∀ (done acc : List Mbuf), acc.Sublist done →
      offers_follow_accepts qid (done ++ p) acc evs := by
  induction h with
  | nil p =>
      intro done acc _
      simp [offers_follow_accepts]
  | copy p chunk evs p' hfit _ ih =>
      intro done acc hacc
      simp only [offers_follow_accepts, if_true]
      rw [List.append_assoc]
      exact ih done acc hacc
  | flush p bursts s evs p' hb _ ih =>
      intro done acc hacc
      rw [List.append_assoc, List.append_assoc, List.singleton_append]
      simp only [offers_follow_accepts]
      apply burst_run_offers qid p 0 bursts s hb
      · rw [List.drop_zero]
        exact List.Sublist.append hacc (List.Sublist.refl p)
      · rw [offers_follow_accepts_free_seg, List.drop_zero, Nat.sub_zero]
        have h2 := ih (done ++ p) (acc ++ p.take s)
          (List.Sublist.append hacc (List.take_sublist s p))
        rw [List.append_nil] at h2
        exact h2

end NetdevDpdk

namespace NetdevDpdk

/-- C7: for a batch holding `c` packets (`0 <= c <= 384`) and a transmit primitive whose
every result is at most the number of packets offered, `dpdk_queue_flush__` returns (with
any fuel above `c`) and leaves the fill count at 0.  Its bursts form a `burst_run` over the
batch: each call offers the packets not yet accepted, the run stops at the first zero
result or when all `c` are accepted, and `s` is the sum of the results.  The packets
accepted are exactly the first `s` of the batch, the packets released are exactly the
remaining `c - s`, each once and in order, and `tx_dropped` grows by exactly `c - s` while
the other counters keep their values.  `dpdk_queue_flush` does the same on a non-empty
batch and nothing on an empty one. -/
theorem dpdk_queue_flush_drains (env : Env) (fuel : Nat) (dev : netdev_dpdk) (qid : Int)
    (w : World) (hc0 : 0 ≤ (dev.tx_q qid).count)
    (hc1 : (dev.tx_q qid).count ≤ MAX_TX_QUEUE_LEN)
    (henv : ∀ k n, env.rte_eth_tx_burst k n ≤ n)
    (hfuel : (dev.tx_q qid).count.toNat + 1 ≤ fuel) :
    ∃ (dev' : netdev_dpdk) (w' : World) (s : Nat) (bursts : List Event),
      dpdk_queue_flush__ env fuel dev qid w = some (dev', w') ∧
      (dev'.tx_q qid).count = 0 ∧
      s ≤ (dev.tx_q qid).batch.length ∧
      burst_run qid (dev.tx_q qid).batch 0 bursts s ∧
      w'.trace = w.trace ++ ([Event.flush qid] ++ bursts
        ++ ((dev.tx_q qid).batch.drop s).map Event.free_seg) ∧
      accepted_of qid ([Event.flush qid] ++ bursts
        ++ ((dev.tx_q qid).batch.drop s).map Event.free_seg) = (dev.tx_q qid).batch.take s ∧
      freed_of ([Event.flush qid] ++ bursts
        ++ ((dev.tx_q qid).batch.drop s).map Event.free_seg) = (dev.tx_q qid).batch.drop s ∧
      dev'.stats.tx_dropped
        = dev.stats.tx_dropped + (((dev.tx_q qid).batch.length - s : Nat) : Int) ∧
      dev'.stats.tx_packets = dev.stats.tx_packets ∧
      dev'.stats.tx_bytes = dev.stats.tx_bytes ∧
      dpdk_queue_flush env fuel dev qid w
        = (if (dev.tx_q qid).count = 0 then some (dev, w) else some (dev', w')) := by
  obtain ⟨s, bursts, h1, h2, h3⟩ := dpdk_queue_flush___spec env fuel dev qid w hc0 hc1 henv hfuel
  have hstep := flush_outcome_step env dev qid w bursts s h3
  have hfacts := flush_outcome_trace_facts qid (dev.tx_q qid).batch bursts s h3
  obtain ⟨⟨ht, _, _, _, _, hq, _⟩, hcount, _, _⟩ := hstep
  refine ⟨(flush_outcome env dev qid w bursts s).1, (flush_outcome env dev qid w bursts s).2,
    s, bursts, h1, hcount, h2, h3, ht, hfacts.2.1, hfacts.2.2.1, rfl,
    hq.2.2.2.2.2.1, hq.2.2.2.2.2.2.1, ?_⟩
  unfold dpdk_queue_flush
  rw [h1]

/-- Witness for C7: a batch of three packets against a primitive that accepts at most two
per call. -/
theorem dpdk_queue_flush_drains_witness :
    0 ≤ (demo_dev.tx_q 0).count ∧ (demo_dev.tx_q 0).count ≤ MAX_TX_QUEUE_LEN ∧
    (∀ k n, demo_env.rte_eth_tx_burst k n ≤ n) ∧
    ∃ (dev' : netdev_dpdk) (w' : World) (s : Nat) (bursts : List Event),
      dpdk_queue_flush__ demo_env 10 demo_dev 0 demo_world = some (dev', w') ∧
      (dev'.tx_q 0).count = 0 ∧
      s ≤ (demo_dev.tx_q 0).batch.length ∧
      burst_run 0 (demo_dev.tx_q 0).batch 0 bursts s ∧
      w'.trace = demo_world.trace ++ ([Event.flush 0] ++ bursts
        ++ ((demo_dev.tx_q 0).batch.drop s).map Event.free_seg) ∧
      accepted_of 0 ([Event.flush 0] ++ bursts
        ++ ((demo_dev.tx_q 0).batch.drop s).map Event.free_seg)
        = (demo_dev.tx_q 0).batch.take s ∧
      freed_of ([Event.flush 0] ++ bursts
        ++ ((demo_dev.tx_q 0).batch.drop s).map Event.free_seg)
        = (demo_dev.tx_q 0).batch.drop s ∧
      dev'.stats.tx_dropped
        = demo_dev.stats.tx_dropped + (((demo_dev.tx_q 0).batch.length - s : Nat) : Int) ∧
      dev'.stats.tx_packets = demo_dev.stats.tx_packets ∧
      dev'.stats.tx_bytes = demo_dev.stats.tx_bytes ∧
      dpdk_queue_flush demo_env 10 demo_dev 0 demo_world
        = (if (demo_dev.tx_q 0).count = 0 then some (demo_dev, demo_world)
           else some (dev', w')) :=
  ⟨by decide, by decide, fun _ _ => Nat.min_le_left _ _,
   dpdk_queue_flush_drains demo_env 10 demo_dev 0 demo_world (by decide) (by decide)
     (fun _ _ => Nat.min_le_left _ _) (by decide)⟩

theorem dpdk_queue_pkts_spec (env : Env) (fuel : Nat) (dev : netdev_dpdk) (qid : Int)
    (pkts : List Mbuf) (w : World) (hc0 : 0 ≤ (dev.tx_q qid).count)
    (hc1 : (dev.tx_q qid).count ≤ MAX_TX_QUEUE_LEN)
    (henv : ∀ k n, env.rte_eth_tx_burst k n ≤ n) (hfuel : pkts.length + 385 ≤ fuel) :
    ∃ (dev' : netdev_dpdk) (w' : World) (evs : List Event),
      dpdk_queue_pkts env fuel dev qid pkts w = some (dev', w') ∧
      queue_step qid dev w dev' w' evs ∧ enqueued_of qid evs = pkts ∧
      (pkts ≠ [] → (dev'.tx_q qid).count < MAX_TX_QUEUE_LEN) ∧
      (pkts = [] → dev' = dev ∧ w' = w) := by
  have hfuel2 : (pkts.length - 0)
      + (if (dev.tx_q qid).count = MAX_TX_QUEUE_LEN then 1 else 0) + 1 ≤ fuel := by
    split <;> omega
  obtain ⟨dev', w', evs, h1, h2, h3, h4, h5⟩ := dpdk_queue_pkts_loop_spec env fuel qid pkts henv
    (by omega) fuel 0 dev w (Nat.zero_le _) hc0 hc1 hfuel2
  refine ⟨dev', w', evs, h1, h2, by rw [h3, List.drop_zero], ?_, ?_⟩
  · intro hne
    exact h4 (List.length_pos.mpr hne)
  · intro hnil
    exact h5 (by rw [hnil]; rfl)

/-- C6 (amended): for a queue whose fill count is within `0 .. 384`, any list of `cnt`
packets and a transmit primitive whose every result is at most the number offered (any
timer), `dpdk_queue_pkts` returns (with fuel `cnt + 385`); every copy into the batch starts
at a slot `>= 0` and ends at a slot `<= 384`, so the fill count never exceeds 384 at any
step; the chunks copied are, concatenated, exactly the `cnt` packets in order; and the fill
count on return is within `0 .. 384`, and below 384 whenever `cnt >= 1` or the fill count
was below 384 on entry.  A call with `cnt = 0` changes nothing. -/
theorem dpdk_queue_pkts_count_bounded (env : Env) (fuel : Nat) (dev : netdev_dpdk) (qid : Int)
    (pkts : List Mbuf) (w : World) (hc0 : 0 ≤ (dev.tx_q qid).count)
    (hc1 : (dev.tx_q qid).count ≤ MAX_TX_QUEUE_LEN)
    (henv : ∀ k n, env.rte_eth_tx_burst k n ≤ n) (hfuel : pkts.length + 385 ≤ fuel) :
    ∃ (dev' : netdev_dpdk) (w' : World) (evs : List Event),
      dpdk_queue_pkts env fuel dev qid pkts w = some (dev', w') ∧
      w'.trace = w.trace ++ evs ∧
      (∀ (q slot : Int) (chunk : List Mbuf), Event.queue_copy q slot chunk ∈ evs →
        q = qid ∧ 0 ≤ slot ∧ slot + (chunk.length : Int) ≤ MAX_TX_QUEUE_LEN) ∧
      enqueued_of qid evs = pkts ∧
      0 ≤ (dev'.tx_q qid).count ∧ (dev'.tx_q qid).count ≤ MAX_TX_QUEUE_LEN ∧
      (pkts ≠ [] ∨ (dev.tx_q qid).count < MAX_TX_QUEUE_LEN →
        (dev'.tx_q qid).count < MAX_TX_QUEUE_LEN) ∧
      (pkts = [] → dev' = dev ∧ w' = w) := by
  obtain ⟨dev', w', evs, h1, h2, h3, h4, h5⟩ :=
    dpdk_queue_pkts_spec env fuel dev qid pkts w hc0 hc1 henv hfuel
  obtain ⟨ht, hrun, _, hc0', hc1', _, _⟩ := h2
  refine ⟨dev', w', evs, h1, ht, queue_run_copies qid _ _ _ hrun, h3, hc0', hc1', ?_, h5⟩
  intro h
  by_cases hne : pkts = []
  · rcases h with h | h
    · exact absurd hne h
    · rw [(h5 hne).1]
      exact h
  · exact h4 hne

/-- Witness for C6: two packets queued behind the three of the demo queue. -/
theorem dpdk_queue_pkts_count_bounded_witness :
    0 ≤ (demo_dev.tx_q 0).count ∧ (demo_dev.tx_q 0).count ≤ MAX_TX_QUEUE_LEN ∧
    [21, 22].length + 385 ≤ 400 ∧
    ∃ (dev' : netdev_dpdk) (w' : World) (evs : List Event),
      dpdk_queue_pkts demo_env 400 demo_dev 0 [21, 22] demo_world = some (dev', w') ∧
      w'.trace = demo_world.trace ++ evs ∧
      (∀ (q slot : Int) (chunk : List Mbuf), Event.queue_copy q slot chunk ∈ evs →
        q = 0 ∧ 0 ≤ slot ∧ slot + (chunk.length : Int) ≤ MAX_TX_QUEUE_LEN) ∧
      enqueued_of 0 evs = [21, 22] ∧
      0 ≤ (dev'.tx_q 0).count ∧ (dev'.tx_q 0).count ≤ MAX_TX_QUEUE_LEN ∧
      ([21, 22] ≠ [] ∨ (demo_dev.tx_q 0).count < MAX_TX_QUEUE_LEN →
        (dev'.tx_q 0).count < MAX_TX_QUEUE_LEN) ∧
      ([21, 22] = [] → dev' = demo_dev ∧ w' = demo_world) :=
  ⟨by decide, by decide, by decide,
   dpdk_queue_pkts_count_bounded demo_env 400 demo_dev 0 [21, 22] demo_world (by decide)
     (by decide) (fun _ _ => Nat.min_le_left _ _) (by decide)⟩

/-- Against a primitive that reports two packets sent at every call, the burst loop on a
batch of one packet never ends: `nb_tx` stays even and never equals `1`. -/
theorem dpdk_queue_flush_loop_greedy (qid : Int) (txq : dpdk_tx_queue)
    (hc : txq.count = 1) :
    ∀ (fuel nb_tx : Nat) (w : World), nb_tx % 2 = 0 →
      dpdk_queue_flush_loop demo_env_greedy qid txq fuel nb_tx w = none := by
  intro fuel
  induction fuel with
  | zero =>
      intro nb_tx w _
      rfl
  | succ k ih =>
      intro nb_tx w heven
      have h1 : u32_of_int txq.count = 1 := by
        rw [hc]
        rfl
      have hne : nb_tx ≠ u32_of_int txq.count := by
        rw [h1]
        omega
      have hU : U32 = 4294967296 := rfl
      rw [dpdk_queue_flush_loop, if_pos hne]
      have hret : ∀ (k n : Nat), demo_env_greedy.rte_eth_tx_burst k n = 2 := fun _ _ => rfl
      simp only [hret]
      rw [if_neg (by decide)]
      apply ih
      rw [hU]
      omega

/-- Against that primitive a flush of a batch of one packet does not return. -/
theorem dpdk_queue_flush___greedy (fuel : Nat) (dev : netdev_dpdk) (qid : Int) (w : World)
    (hc : (dev.tx_q qid).count = 1) :
    dpdk_queue_flush__ demo_env_greedy fuel dev qid w = none := by
  unfold dpdk_queue_flush__
  simp only [dpdk_queue_flush_loop_greedy qid (dev.tx_q qid) hc fuel 0 _ rfl]

/-- Counterexample to C6 as stated.  On a queue whose fill count is 384, a call of
`dpdk_queue_pkts` with `cnt = 0` returns at once and the fill count is still 384, not
below 384.  And against a primitive that reports two packets sent when offered one, the
call that queues one packet on an empty queue with `flush_tx` set does not return,
whatever the fuel. -/
theorem dpdk_queue_pkts_count_bounded_counterexample :
    (0 ≤ (demo_full_dev.tx_q 0).count ∧ (demo_full_dev.tx_q 0).count ≤ MAX_TX_QUEUE_LEN ∧
      (dpdk_queue_pkts demo_env 400 demo_full_dev 0 [] demo_world).map
        (fun r => (r.1.tx_q 0).count) = some 384) ∧
    ((demo_eager_dev.tx_q 0).count = 0 ∧ demo_env_greedy.rte_eth_tx_burst 0 1 = 2 ∧
      ∀ fuel : Nat, dpdk_queue_pkts demo_env_greedy fuel demo_eager_dev 0 [21] demo_world
        = none) := by
  refine ⟨⟨by decide, by decide, rfl⟩, rfl, rfl, ?_⟩
  intro fuel
  cases fuel with
  | zero => rfl
  | succ k =>
      have hcopy : dpdk_queue_pkts_copy 0 [21] 0 demo_eager_dev demo_world
          = some (1,
              { demo_eager_dev with
                  tx_q := Function.update demo_eager_dev.tx_q 0
                    { demo_eager_dev.tx_q 0 with
                        burst_pkts := memcpy_slots (demo_eager_dev.tx_q 0).burst_pkts 0 [21]
                        count := 1 } },
              demo_world.log (Event.queue_copy 0 0 [21])) := rfl
      unfold dpdk_queue_pkts
      rw [dpdk_queue_pkts_loop, if_pos (by decide), hcopy]
      simp only []
      unfold dpdk_queue_pkts_drain
      rw [if_pos (Or.inr (by simp [demo_eager_dev])),
        dpdk_queue_flush___greedy (k + 1) _ 0 _ (by simp)]

end NetdevDpdk

namespace NetdevDpdk

theorem dpdk_queue_flush_spec (env : Env) (fuel : Nat) (dev : netdev_dpdk) (qid : Int)
    (w : World) (hc0 : 0 ≤ (dev.tx_q qid).count)
    (hc1 : (dev.tx_q qid).count ≤ MAX_TX_QUEUE_LEN)
    (henv : ∀ k n, env.rte_eth_tx_burst k n ≤ n) (hfuel : 385 ≤ fuel) :
    ∃ (dev' : netdev_dpdk) (w' : World) (evs : List Event),
      dpdk_queue_flush env fuel dev qid w = some (dev', w') ∧
      queue_step qid dev w dev' w' evs ∧ enqueued_of qid evs = [] ∧
      (dev'.tx_q qid).count = 0 := by
  obtain ⟨dev', w', evs, h1, h2, h3, h4, h5⟩ := opt_flush_step env fuel dev qid w
    (¬ (dev.tx_q qid).count = 0) inferInstance hc0 hc1 henv hfuel
  refine ⟨dev', w', evs, ?_, h2, h3, ?_⟩
  · unfold dpdk_queue_flush
    rw [← h1]
    by_cases hz : (dev.tx_q qid).count = 0
    · rw [if_pos hz, if_neg (not_not.mpr hz)]
    · rw [if_neg hz, if_pos hz]
  · by_cases hz : (dev.tx_q qid).count = 0
    · rw [h5 (not_not.mpr hz)]
      exact hz
    · exact h4 hz

theorem run_queue_calls_spec (env : Env) (fuel : Nat) (qid : Int)
    (henv : ∀ k n, env.rte_eth_tx_burst k n ≤ n) :
    ∀ (calls : List queue_call) (dev : netdev_dpdk) (w : World),
      0 ≤ (dev.tx_q qid).count → (dev.tx_q qid).count ≤ MAX_TX_QUEUE_LEN →
      (enqueued_by calls).length + 385 ≤ fuel →
      ∃ (dev' : netdev_dpdk) (w' : World) (evs : List Event),
        run_queue_calls env fuel qid calls dev w = some (dev', w') ∧
        queue_step qid dev w dev' w' evs ∧ enqueued_of qid evs = enqueued_by calls := by
  intro calls
  induction calls with
  | nil =>
      intro dev w hc0 hc1 _
      exact ⟨dev, w, [], rfl,
        queue_step_refl qid dev w w hc0 hc1 rfl (same_outside_trace_refl w), rfl⟩
  | cons c rest ih =>
      intro dev w hc0 hc1 hfuel
      cases c with
      | queue_pkts pkts =>
          have hlen : (enqueued_by (queue_call.queue_pkts pkts :: rest)).length
              = pkts.length + (enqueued_by rest).length := by
            simp [enqueued_by]
          obtain ⟨dev1, w1, e1, h1, hs1, hen1, _, _⟩ :=
            dpdk_queue_pkts_spec env fuel dev qid pkts w hc0 hc1 henv (by omega)
          have hs1' := hs1
          obtain ⟨_, _, _, hc10, hc11, _, _⟩ := hs1'
          obtain ⟨dev2, w2, e2, h2, hs2, hen2⟩ := ih dev1 w1 hc10 hc11 (by omega)
          refine ⟨dev2, w2, e1 ++ e2, ?_, queue_step_trans qid _ _ _ _ _ _ _ _ hs1 hs2, ?_⟩
          · rw [run_queue_calls, h1]
            exact h2
          · rw [enqueued_of_append, hen1, hen2]
            rfl
      | flush =>
          have hlen : (enqueued_by (queue_call.flush :: rest)).length
              = (enqueued_by rest).length := by
            simp [enqueued_by]
          obtain ⟨dev1, w1, e1, h1, hs1, hen1, _⟩ :=
            dpdk_queue_flush_spec env fuel dev qid w hc0 hc1 henv (by omega)
          have hs1' := hs1
          obtain ⟨_, _, _, hc10, hc11, _, _⟩ := hs1'
          obtain ⟨dev2, w2, e2, h2, hs2, hen2⟩ := ih dev1 w1 hc10 hc11 (by omega)
          refine ⟨dev2, w2, e1 ++ e2, ?_, queue_step_trans qid _ _ _ _ _ _ _ _ hs1 hs2, ?_⟩
          · rw [run_queue_calls, h1]
            exact h2
          · rw [enqueued_of_append, hen1, hen2]
            rfl

/-- C8: take any sequence of `dpdk_queue_pkts` and `dpdk_queue_flush` calls on one queue of
one device (fill count within `0 .. 384` at the start, the batch then held counting as
enqueued first), a transmit primitive whose every result is at most the number offered, and
any timer.  The calls return; the packets accepted by the primitive, concatenated, are a
subsequence of the packets enqueued, in enqueue order; at every burst the packets accepted
before it followed by the packets it offers are a subsequence of the packets enqueued so
far (`offers_follow_accepts`); and after a final `dpdk_queue_flush` the fill count is 0 and
the accepted packets together with the released ones are a permutation of the enqueued
ones, so each packet is accepted once or dropped once, never both, never twice. -/
theorem queue_calls_keep_order (env : Env) (fuel : Nat) (qid : Int) (calls : List queue_call)
    (dev : netdev_dpdk) (w : World) (hc0 : 0 ≤ (dev.tx_q qid).count)
    (hc1 : (dev.tx_q qid).count ≤ MAX_TX_QUEUE_LEN)
    (henv : ∀ k n, env.rte_eth_tx_burst k n ≤ n)
    (hfuel : (enqueued_by calls).length + 385 ≤ fuel) :
    ∃ (dev' : netdev_dpdk) (w' : World) (evs : List Event)
      (dev2 : netdev_dpdk) (w2 : World) (evs2 : List Event),
      run_queue_calls env fuel qid calls dev w = some (dev', w') ∧
      w'.trace = w.trace ++ evs ∧
      enqueued_of qid evs = enqueued_by calls ∧
      (accepted_of qid evs).Sublist ((dev.tx_q qid).batch ++ enqueued_by calls) ∧
      offers_follow_accepts qid (dev.tx_q qid).batch [] evs ∧
      dpdk_queue_flush env fuel dev' qid w' = some (dev2, w2) ∧
      w2.trace = w.trace ++ (evs ++ evs2) ∧
      enqueued_of qid (evs ++ evs2) = enqueued_by calls ∧
      (dev2.tx_q qid).count = 0 ∧
      (accepted_of qid (evs ++ evs2)).Sublist ((dev.tx_q qid).batch ++ enqueued_by calls) ∧
      offers_follow_accepts qid (dev.tx_q qid).batch [] (evs ++ evs2) ∧
      (accepted_of qid (evs ++ evs2) ++ freed_of (evs ++ evs2)).Perm
        ((dev.tx_q qid).batch ++ enqueued_by calls) := by
  obtain ⟨dev', w', evs, h1, hs1, hen1⟩ :=
    run_queue_calls_spec env fuel qid henv calls dev w hc0 hc1 hfuel
  have hs1' := hs1
  obtain ⟨ht1, hrun1, _, hc10, hc11, _, _⟩ := hs1'
  obtain ⟨dev2, w2, evs2, h2, hs2, hen2, hcount2⟩ :=
    dpdk_queue_flush_spec env fuel dev' qid w' hc10 hc11 henv (by omega)
  have hs12 := queue_step_trans qid _ _ _ _ _ _ _ _ hs1 hs2
  obtain ⟨ht12, hrun12, _, _, _, _, _⟩ := hs12
  have hb2 : (dev2.tx_q qid).batch = [] := by
    simp [dpdk_tx_queue.batch, hcount2, slots]
  rw [hb2] at hrun12
  obtain ⟨c1, hc1a, hc1b, _⟩ := queue_run_conservation qid _ _ _ hrun1
  obtain ⟨c2, hc2a, hc2b, hc2c⟩ := queue_run_conservation qid _ _ _ hrun12
  have hen12 : enqueued_of qid (evs ++ evs2) = enqueued_by calls := by
    rw [enqueued_of_append, hen1, hen2, List.append_nil]
  rw [hen1] at hc1a
  rw [hen12, List.append_nil] at hc2a
  have ho1 := queue_run_offers qid _ _ _ hrun1 [] [] (List.Sublist.refl _)
  have ho2 := queue_run_offers qid _ _ _ hrun12 [] [] (List.Sublist.refl _)
  rw [List.nil_append] at ho1 ho2
  refine ⟨dev', w', evs, dev2, w2, evs2, h1, ht1, hen1, ?_, ho1, h2, ht12, hen12, hcount2,
    ?_, ho2, ?_⟩
  · rw [hc1a]
    exact hc1b.trans (List.sublist_append_left _ _)
  · rw [hc2a]
    exact hc2b
  · rw [hc2a]
    exact hc2c

/-- Witness for C8: two packets queued behind the three of the demo queue, a flush, and
the final flush. -/
theorem queue_calls_keep_order_witness :
    0 ≤ (demo_dev.tx_q 0).count ∧ (demo_dev.tx_q 0).count ≤ MAX_TX_QUEUE_LEN ∧
    (enqueued_by [queue_call.queue_pkts [21, 22], queue_call.flush]).length + 385 ≤ 400 ∧
    ∃ (dev' : netdev_dpdk) (w' : World) (evs : List Event)
      (dev2 : netdev_dpdk) (w2 : World) (evs2 : List Event),
      run_queue_calls demo_env 400 0 [queue_call.queue_pkts [21, 22], queue_call.flush]
        demo_dev demo_world = some (dev', w') ∧
      w'.trace = demo_world.trace ++ evs ∧
      enqueued_of 0 evs = enqueued_by [queue_call.queue_pkts [21, 22], queue_call.flush] ∧
      (accepted_of 0 evs).Sublist ((demo_dev.tx_q 0).batch
        ++ enqueued_by [queue_call.queue_pkts [21, 22], queue_call.flush]) ∧
      offers_follow_accepts 0 (demo_dev.tx_q 0).batch [] evs ∧
      dpdk_queue_flush demo_env 400 dev' 0 w' = some (dev2, w2) ∧
      w2.trace = demo_world.trace ++ (evs ++ evs2) ∧
      enqueued_of 0 (evs ++ evs2)
        = enqueued_by [queue_call.queue_pkts [21, 22], queue_call.flush] ∧
      (dev2.tx_q 0).count = 0 ∧
      (accepted_of 0 (evs ++ evs2)).Sublist ((demo_dev.tx_q 0).batch
        ++ enqueued_by [queue_call.queue_pkts [21, 22], queue_call.flush]) ∧
      offers_follow_accepts 0 (demo_dev.tx_q 0).batch [] (evs ++ evs2) ∧
      (accepted_of 0 (evs ++ evs2) ++ freed_of (evs ++ evs2)).Perm
        ((demo_dev.tx_q 0).batch
          ++ enqueued_by [queue_call.queue_pkts [21, 22], queue_call.flush]) :=
  ⟨by decide, by decide, by decide,
   queue_calls_keep_order demo_env 400 0 [queue_call.queue_pkts [21, 22], queue_call.flush]
     demo_dev demo_world (by decide) (by decide) (fun _ _ => Nat.min_le_left _ _)
     (by decide)⟩

end NetdevDpdk

namespace NetdevDpdk

theorem run_queue_calls_append (env : Env) (fuel : Nat) (qid : Int) (a b : List queue_call) :
    ∀ (dev : netdev_dpdk) (w : World),
      run_queue_calls env fuel qid (a ++ b) dev w
        = match run_queue_calls env fuel qid a dev w with
          | none => none
          | some (dev1, w1) => run_queue_calls env fuel qid b dev1 w1 := by
  induction a with
  | nil =>
      intro dev w
      rfl
  | cons c rest ih =>
      intro dev w
      cases c with
      | queue_pkts pkts =>
          simp only [List.cons_append, run_queue_calls]
          cases dpdk_queue_pkts env fuel dev qid pkts w with
          | none => rfl
          | some r => exact ih r.1 r.2
      | flush =>
          simp only [List.cons_append, run_queue_calls]
          cases dpdk_queue_flush env fuel dev qid w with
          | none => rfl
          | some r => exact ih r.1 r.2

theorem dpdk_queue_pkts_drain_idle (env : Env) (ffuel : Nat) (dev : netdev_dpdk) (qid : Int)
    (w : World) (hne : (dev.tx_q qid).count ≠ MAX_TX_QUEUE_LEN)
    (hfl : (dev.tx_q qid).flush_tx = false)
    (ht : u64_sub (env.rte_get_timer_cycles w.timer_calls) (dev.tx_q qid).tsc < DRAIN_TSC) :
    dpdk_queue_pkts_drain env ffuel dev qid w
      = some (dev, { w with timer_calls := w.timer_calls + 1 }) := by
  unfold dpdk_queue_pkts_drain
  have h1 : ¬ ((dev.tx_q qid).count = MAX_TX_QUEUE_LEN ∨ (dev.tx_q qid).flush_tx = true) := by
    rw [hfl]
    simp [hne]
  rw [if_neg h1]
  simp only []
  rw [if_neg (by omega)]

theorem dpdk_queue_pkts_drain_full (env : Env) (ffuel : Nat) (dev : netdev_dpdk) (qid : Int)
    (w : World) (hfull : (dev.tx_q qid).count = MAX_TX_QUEUE_LEN)
    (henv : ∀ k n, env.rte_eth_tx_burst k n ≤ n) (hff : 385 ≤ ffuel)
    (ht : u64_sub (env.rte_get_timer_cycles (w.timer_calls + 1))
      (env.rte_get_timer_cycles w.timer_calls) < DRAIN_TSC) :
    ∃ (s : Nat) (bursts : List Event),
      dpdk_queue_pkts_drain env ffuel dev qid w
        = some ((flush_outcome env dev qid w bursts s).1,
                { (flush_outcome env dev qid w bursts s).2 with
                    timer_calls := w.timer_calls + 1 + 1 }) ∧
      burst_run qid (dev.tx_q qid).batch 0 bursts s := by
  have hM : MAX_TX_QUEUE_LEN = 384 := rfl
  obtain ⟨s, bursts, h1, _, h3⟩ := dpdk_queue_flush___spec env ffuel dev qid w (by omega)
    (by omega) henv (by omega)
  have hstep := flush_outcome_step env dev qid w bursts s h3
  refine ⟨s, bursts, ?_, h3⟩
  unfold dpdk_queue_pkts_drain
  rw [if_pos (Or.inl hfull), h1]
  simp only []
  rw [hstep.2.2.1, hstep.2.2.2, if_neg (by omega)]

theorem dpdk_queue_pkts_single_copy (qid : Int) (p : Mbuf) (dev : netdev_dpdk) (w : World)
    (hc0 : 0 ≤ (dev.tx_q qid).count) (hc1 : (dev.tx_q qid).count < MAX_TX_QUEUE_LEN) :
    ∃ (dev1 : netdev_dpdk) (w1 : World),
      dpdk_queue_pkts_copy qid [p] 0 dev w = some (1, dev1, w1) ∧
      (dev1.tx_q qid).count = (dev.tx_q qid).count + 1 ∧
      (dev1.tx_q qid).batch = (dev.tx_q qid).batch ++ [p] ∧
      (dev1.tx_q qid).tsc = (dev.tx_q qid).tsc ∧
      (dev1.tx_q qid).flush_tx = (dev.tx_q qid).flush_tx ∧
      w1.trace = w.trace ++ [Event.queue_copy qid (dev.tx_q qid).count [p]] ∧
      w1.timer_calls = w.timer_calls ∧ w1.tx_burst_calls = w.tx_burst_calls := by
  have hM : MAX_TX_QUEUE_LEN = 384 := rfl
  obtain ⟨k, dev1, w1, hcopy, hk, hstep, hcount, htsc, hbatch, htc, htb⟩ :=
    dpdk_queue_pkts_copy_spec qid [p] 0 dev w (Nat.zero_le _) hc0 (by omega)
  have hk1 : k = 1 := by
    simp only [List.length_singleton] at hk
    omega
  subst hk1
  obtain ⟨ht, _, _, _, _, hq, _⟩ := hstep
  refine ⟨dev1, w1, hcopy, by rw [hcount]; rfl, ?_, htsc, hq.2.2.2.2.2.2.2.2, ?_, htc, htb⟩
  · rw [hbatch]
    rfl
  · rw [ht]
    rfl

theorem dpdk_queue_pkts_single_idle (env : Env) (fuel : Nat) (dev : netdev_dpdk) (qid : Int)
    (p : Mbuf) (w : World) (hc0 : 0 ≤ (dev.tx_q qid).count)
    (hc1 : (dev.tx_q qid).count + 1 < MAX_TX_QUEUE_LEN)
    (hfl : (dev.tx_q qid).flush_tx = false)
    (ht : u64_sub (env.rte_get_timer_cycles w.timer_calls) (dev.tx_q qid).tsc < DRAIN_TSC)
    (hfuel : 2 ≤ fuel) :
    ∃ (dev1 : netdev_dpdk) (w1 : World),
      dpdk_queue_pkts env fuel dev qid [p] w = some (dev1, w1) ∧
      (dev1.tx_q qid).count = (dev.tx_q qid).count + 1 ∧
      (dev1.tx_q qid).batch = (dev.tx_q qid).batch ++ [p] ∧
      (dev1.tx_q qid).tsc = (dev.tx_q qid).tsc ∧
      (dev1.tx_q qid).flush_tx = false ∧
      w1.trace = w.trace ++ [Event.queue_copy qid (dev.tx_q qid).count [p]] ∧
      w1.timer_calls = w.timer_calls + 1 ∧ w1.tx_burst_calls = w.tx_burst_calls := by
  have hM : MAX_TX_QUEUE_LEN = 384 := rfl
  obtain ⟨dev1, w1, hcopy, hcount, hbatch, htsc, hflush, htrace, htc, htb⟩ :=
    dpdk_queue_pkts_single_copy qid p dev w hc0 (by omega)
  have hdrain := dpdk_queue_pkts_drain_idle env fuel dev1 qid w1 (by omega)
    (by rw [hflush, hfl]) (by rw [htc, htsc]; exact ht)
  obtain ⟨f, hf⟩ : ∃ f, fuel = f + 1 + 1 := ⟨fuel - 2, by omega⟩
  refine ⟨dev1, { w1 with timer_calls := w1.timer_calls + 1 }, ?_, hcount, hbatch, htsc,
    by rw [hflush, hfl], htrace, by simp [htc], htb⟩
  unfold dpdk_queue_pkts
  rw [hf, dpdk_queue_pkts_loop, if_pos (by simp), hcopy]
  simp only []
  rw [← hf, hdrain, hf]
  simp only []
  rw [dpdk_queue_pkts_loop, if_neg (by simp)]

theorem dpdk_queue_pkts_single_full (env : Env) (fuel : Nat) (dev : netdev_dpdk) (qid : Int)
    (p : Mbuf) (w : World) (hc : (dev.tx_q qid).count + 1 = MAX_TX_QUEUE_LEN)
    (henv : ∀ k n, env.rte_eth_tx_burst k n ≤ n)
    (ht : u64_sub (env.rte_get_timer_cycles (w.timer_calls + 1))
      (env.rte_get_timer_cycles w.timer_calls) < DRAIN_TSC)
    (hfuel : 385 ≤ fuel) :
    ∃ (dev' : netdev_dpdk) (w' : World) (s : Nat) (bursts : List Event),
      dpdk_queue_pkts env fuel dev qid [p] w = some (dev', w') ∧
      (dev'.tx_q qid).count = 0 ∧
      burst_run qid ((dev.tx_q qid).batch ++ [p]) 0 bursts s ∧
      w'.trace = w.trace ++ [Event.queue_copy qid (dev.tx_q qid).count [p]]
        ++ ([Event.flush qid] ++ bursts
          ++ (((dev.tx_q qid).batch ++ [p]).drop s).map Event.free_seg) ∧
      w'.timer_calls = w.timer_calls + 2 := by
  have hM : MAX_TX_QUEUE_LEN = 384 := rfl
  obtain ⟨dev1, w1, hcopy, hcount, hbatch, htsc, hflush, htrace, htc, htb⟩ :=
    dpdk_queue_pkts_single_copy qid p dev w (by omega) (by omega)
  obtain ⟨s, bursts, hdrain, hrun⟩ := dpdk_queue_pkts_drain_full env fuel dev1 qid w1
    (by omega) henv hfuel (by rw [htc]; exact ht)
  have hstep := flush_outcome_step env dev1 qid w1 bursts s hrun
  obtain ⟨f, hf⟩ : ∃ f, fuel = f + 1 + 1 := ⟨fuel - 2, by omega⟩
  rw [hbatch] at hrun
  refine ⟨(flush_outcome env dev1 qid w1 bursts s).1,
    { (flush_outcome env dev1 qid w1 bursts s).2 with timer_calls := w1.timer_calls + 1 + 1 },
    s, bursts, ?_, hstep.2.1, hrun, ?_, ?_⟩
  · unfold dpdk_queue_pkts
    rw [hf, dpdk_queue_pkts_loop, if_pos (by simp), hcopy]
    simp only []
    rw [← hf, hdrain, hf]
    simp only []
    rw [dpdk_queue_pkts_loop, if_neg (by simp)]
  · show (flush_outcome env dev1 qid w1 bursts s).2.trace = _
    rw [hstep.1.1, htrace, hbatch]
  · show w1.timer_calls + 1 + 1 = _
    rw [htc]

end NetdevDpdk

namespace NetdevDpdk

theorem take_succ_getD (pkts : List Mbuf) (n : Nat) (hn : n < pkts.length) :
    pkts.take (n + 1) = pkts.take n ++ [pkts.getD n 0] := by
  rw [List.take_succ, List.getD_eq_getElem?_getD, List.getElem?_eq_getElem hn]
  rfl

theorem single_copies_succ (qid : Int) (pkts : List Mbuf) (n : Nat) :
    single_copies qid pkts (n + 1)
      = single_copies qid pkts n ++ [Event.queue_copy qid (n : Int) [pkts.getD n 0]] := by
  simp [single_copies, List.range_succ]

theorem single_copies_counts (qid : Int) (pkts : List Mbuf) (n : Nat) :
    tx_burst_count (single_copies qid pkts n) = 0 ∧ flush_count (single_copies qid pkts n) = 0 := by
  induction n with
  | zero => exact ⟨rfl, rfl⟩
  | succ n ih =>
      rw [single_copies_succ, tx_burst_count_append, flush_count_append, ih.1, ih.2]
      exact ⟨rfl, rfl⟩

theorem burst_run_first (qid : Int) (batch : List Mbuf) (nb : Nat) (evs : List Event)
    (s : Nat) (h : burst_run qid batch nb evs s) (hnb : nb < batch.length) :
    ∃ ret rest, evs = Event.tx_burst qid (batch.drop nb) ret :: rest := by
  induction h with
  | done => omega
  | stalled nb h1 => exact ⟨0, [], rfl⟩
  | step nb ret evs s h1 h2 h3 hrun _ => exact ⟨ret, evs, rfl⟩

theorem single_calls_idle (env : Env) (fuel : Nat) (dev : netdev_dpdk) (qid : Int) (w : World)
    (pkts : List Mbuf) (hlen : pkts.length = 384)
    (hc : (dev.tx_q qid).count = 0) (hfl : (dev.tx_q qid).flush_tx = false)
    (ht1 : ∀ j, j < 383 →
      u64_sub (env.rte_get_timer_cycles (w.timer_calls + j)) (dev.tx_q qid).tsc < DRAIN_TSC)
    (hfuel : 2 ≤ fuel) :
    ∀ n, n ≤ 383 →
      ∃ (dev_n : netdev_dpdk) (w_n : World),
        run_queue_calls env fuel qid (single_calls (pkts.take n)) dev w = some (dev_n, w_n) ∧
        (dev_n.tx_q qid).count = (n : Int) ∧
        (dev_n.tx_q qid).batch = pkts.take n ∧
        (dev_n.tx_q qid).tsc = (dev.tx_q qid).tsc ∧
        (dev_n.tx_q qid).flush_tx = false ∧
        w_n.trace = w.trace ++ single_copies qid pkts n ∧
        w_n.timer_calls = w.timer_calls + n ∧
        w_n.tx_burst_calls = w.tx_burst_calls := by
  have hM : MAX_TX_QUEUE_LEN = 384 := rfl
  intro n
  induction n with
  | zero =>
      intro _
      refine ⟨dev, w, rfl, by rw [hc]; rfl, ?_, rfl, hfl, ?_, rfl, rfl⟩
      · simp [dpdk_tx_queue.batch, hc, slots]
      · simp [single_copies]
  | succ n ih =>
      intro hn
      obtain ⟨dev_n, w_n, hrun, hcount, hbatch, htsc, hflush, htrace, htc, htb⟩ := ih (by omega)
      obtain ⟨dev1, w1, h1, h1count, h1batch, h1tsc, h1flush, h1trace, h1tc, h1tb⟩ :=
        dpdk_queue_pkts_single_idle env fuel dev_n qid (pkts.getD n 0) w_n (by omega) (by omega)
          hflush (by rw [htc, htsc]; exact ht1 n (by omega)) hfuel
      refine ⟨dev1, w1, ?_, ?_, ?_, by rw [h1tsc, htsc], h1flush, ?_, ?_, by rw [h1tb, htb]⟩
      · rw [take_succ_getD pkts n (by omega), single_calls, List.map_append,
          run_queue_calls_append]
        have hrun2 : run_queue_calls env fuel qid
            (List.map (fun p => queue_call.queue_pkts [p]) (pkts.take n)) dev w
              = some (dev_n, w_n) := hrun
        rw [hrun2]
        simp only [List.map_cons, List.map_nil, run_queue_calls, h1]
      · rw [h1count, hcount]
        push_cast
        rfl
      · rw [h1batch, hbatch, take_succ_getD pkts n (by omega)]
      · rw [h1trace, htrace, single_copies_succ, hcount, List.append_assoc]
      · rw [h1tc, htc]
        omega

/-- C10: start from an empty queue whose `flush_tx` flag is false and enqueue 384 packets
with 384 calls of `dpdk_queue_pkts` of one packet each, against a transmit primitive whose
every result is at most the number offered and a timer whose every reading is less than
`DRAIN_TSC` cycles after the time stamp of the queue then in force (in the 64-bit
arithmetic of the code).  After each of the calls `1 .. 383` the fill count is the number
of packets enqueued so far, the batch holds them in order, and the trace shows only the
copies: no flush and no transmit call.  Call 384 enters `dpdk_queue_flush__` exactly once;
its first burst offers all 384 packets in enqueue order, and the fill count is left
at 0. -/
theorem queue_flushes_once_at_capacity (env : Env) (fuel : Nat) (dev : netdev_dpdk)
    (qid : Int) (w : World) (pkts : List Mbuf) (hlen : pkts.length = 384)
    (hc : (dev.tx_q qid).count = 0) (hfl : (dev.tx_q qid).flush_tx = false)
    (henv : ∀ k n, env.rte_eth_tx_burst k n ≤ n)
    (ht1 : ∀ j, j < 383 →
      u64_sub (env.rte_get_timer_cycles (w.timer_calls + j)) (dev.tx_q qid).tsc < DRAIN_TSC)
    (ht2 : u64_sub (env.rte_get_timer_cycles (w.timer_calls + 384))
      (env.rte_get_timer_cycles (w.timer_calls + 383)) < DRAIN_TSC)
    (hfuel : 385 ≤ fuel) :
    (∀ n, n ≤ 383 →
      ∃ (dev_n : netdev_dpdk) (w_n : World),
        run_queue_calls env fuel qid (single_calls (pkts.take n)) dev w = some (dev_n, w_n) ∧
        (dev_n.tx_q qid).count = (n : Int) ∧
        (dev_n.tx_q qid).batch = pkts.take n ∧
        w_n.trace = w.trace ++ single_copies qid pkts n ∧
        tx_burst_count (single_copies qid pkts n) = 0 ∧
        flush_count (single_copies qid pkts n) = 0 ∧
        w_n.tx_burst_calls = w.tx_burst_calls) ∧
    (∃ (dev' : netdev_dpdk) (w' : World) (s ret : Nat) (bursts : List Event),
      run_queue_calls env fuel qid (single_calls pkts) dev w = some (dev', w') ∧
      w'.trace = w.trace ++ single_copies qid pkts 384
        ++ ([Event.flush qid] ++ Event.tx_burst qid pkts ret :: bursts
          ++ (pkts.drop s).map Event.free_seg) ∧
      burst_run qid pkts 0 (Event.tx_burst qid pkts ret :: bursts) s ∧
      flush_count (single_copies qid pkts 384
        ++ ([Event.flush qid] ++ Event.tx_burst qid pkts ret :: bursts
          ++ (pkts.drop s).map Event.free_seg)) = 1 ∧
      (dev'.tx_q qid).count = 0) := by
  have hM : MAX_TX_QUEUE_LEN = 384 := rfl
  have hidle := single_calls_idle env fuel dev qid w pkts hlen hc hfl ht1 (by omega)
  constructor
  · intro n hn
    obtain ⟨dev_n, w_n, hrun, hcount, hbatch, _, _, htrace, _, htb⟩ := hidle n hn
    exact ⟨dev_n, w_n, hrun, hcount, hbatch, htrace, (single_copies_counts qid pkts n).1,
      (single_copies_counts qid pkts n).2, htb⟩
  · obtain ⟨dev_n, w_n, hrun, hcount, hbatch, htsc, hflush, htrace, htc, htb⟩ :=
      hidle 383 (le_refl _)
    have hpk : pkts = pkts.take 383 ++ [pkts.getD 383 0] := by
      rw [← take_succ_getD pkts 383 (by omega)]
      exact (List.take_of_length_le (by omega)).symm
    obtain ⟨dev', w', s, bursts, h1, h1count, h1run, h1trace, _⟩ :=
      dpdk_queue_pkts_single_full env fuel dev_n qid (pkts.getD 383 0) w_n
        (by rw [hcount, hM]; rfl) henv (by rw [htc]; exact ht2) hfuel
    rw [hbatch, ← hpk] at h1run h1trace
    have hfirst : ∃ ret rest, bursts = Event.tx_burst qid pkts ret :: rest := by
      have h := burst_run_first qid pkts 0 bursts s h1run (by omega)
      rw [List.drop_zero] at h
      exact h
    obtain ⟨ret, rest, hb⟩ := hfirst
    subst hb
    refine ⟨dev', w', s, ret, rest, ?_, ?_, h1run, ?_, h1count⟩
    · conv_lhs => rw [hpk, single_calls, List.map_append, run_queue_calls_append]
      have hrun2 : run_queue_calls env fuel qid
          (List.map (fun p => queue_call.queue_pkts [p]) (pkts.take 383)) dev w
            = some (dev_n, w_n) := hrun
      rw [hrun2]
      simp only [List.map_cons, List.map_nil, run_queue_calls, h1]
    · have h384 : single_copies qid pkts 384 = single_copies qid pkts 383
          ++ [Event.queue_copy qid ((383 : Nat) : Int) [pkts.getD 383 0]] :=
        single_copies_succ qid pkts 383
      rw [h1trace, htrace, h384, hcount]
      simp only [List.append_assoc]
    · rw [flush_count_append, (single_copies_counts qid pkts 384).2,
        (flush_outcome_trace_facts qid pkts _ s h1run).2.2.2]

/-- Witness for C10: the packets `0 .. 383` queued one by one on the empty demo device,
with the timer standing at the time stamp of the queue: after 5 calls the fill count is 5
and no transmit call was made; after 384 calls one flush has run and the count is 0. -/
theorem queue_flushes_once_at_capacity_witness :
    (List.range 384).length = 384 ∧
    (demo_empty_dev.tx_q 0).count = 0 ∧ (demo_empty_dev.tx_q 0).flush_tx = false ∧
    u64_sub 100 100 < DRAIN_TSC ∧
    (∃ (dev_n : netdev_dpdk) (w_n : World),
      run_queue_calls demo_env 400 0 (single_calls ((List.range 384).take 5)) demo_empty_dev
        demo_world = some (dev_n, w_n) ∧
      (dev_n.tx_q 0).count = ((5 : Nat) : Int) ∧
      (dev_n.tx_q 0).batch = (List.range 384).take 5 ∧
      w_n.trace = demo_world.trace ++ single_copies 0 (List.range 384) 5 ∧
      tx_burst_count (single_copies 0 (List.range 384) 5) = 0 ∧
      flush_count (single_copies 0 (List.range 384) 5) = 0 ∧
      w_n.tx_burst_calls = demo_world.tx_burst_calls) ∧
    ∃ (dev' : netdev_dpdk) (w' : World) (s ret : Nat) (bursts : List Event),
      run_queue_calls demo_env 400 0 (single_calls (List.range 384)) demo_empty_dev demo_world
        = some (dev', w') ∧
      w'.trace = demo_world.trace ++ single_copies 0 (List.range 384) 384
        ++ ([Event.flush 0] ++ Event.tx_burst 0 (List.range 384) ret :: bursts
          ++ ((List.range 384).drop s).map Event.free_seg) ∧
      burst_run 0 (List.range 384) 0 (Event.tx_burst 0 (List.range 384) ret :: bursts) s ∧
      flush_count (single_copies 0 (List.range 384) 384
        ++ ([Event.flush 0] ++ Event.tx_burst 0 (List.range 384) ret :: bursts
          ++ ((List.range 384).drop s).map Event.free_seg)) = 1 ∧
      (dev'.tx_q 0).count = 0 :=
  ⟨List.length_range 384, rfl, rfl, by decide,
   (queue_flushes_once_at_capacity demo_env 400 demo_empty_dev 0 demo_world (List.range 384)
      (List.length_range 384) rfl rfl (fun _ _ => Nat.min_le_left _ _)
      (fun _ _ => (by decide : u64_sub 100 100 < DRAIN_TSC))
      (by decide : u64_sub 100 100 < DRAIN_TSC) (by decide)).1 5 (by decide),
   (queue_flushes_once_at_capacity demo_env 400 demo_empty_dev 0 demo_world (List.range 384)
      (List.length_range 384) rfl rfl (fun _ _ => Nat.min_le_left _ _)
      (fun _ _ => (by decide : u64_sub 100 100 < DRAIN_TSC))
      (by decide : u64_sub 100 100 < DRAIN_TSC) (by decide)).2⟩

end NetdevDpdk

namespace NetdevDpdk

theorem deleted_of_append (a b : List Event) :
    deleted_of (a ++ b) = deleted_of a ++ deleted_of b := by
  induction a with
  | nil => rfl
  | cons e rest ih =>
      cases e <;> simp [deleted_of, ih]

theorem deleted_of_free_seg (l : List Mbuf) : deleted_of (l.map Event.free_seg) = [] := by
  induction l with
  | nil => rfl
  | cons p rest ih => simp [deleted_of, ih]

theorem burst_run_deleted (qid : Int) (batch : List Mbuf) (nb : Nat) (evs : List Event)
    (s : Nat) (h : burst_run qid batch nb evs s) : deleted_of evs = [] := by
  induction h with
  | done => rfl
  | stalled nb h1 => rfl
  | step nb ret evs s h1 h2 h3 hrun ih => simp [deleted_of, ih]

theorem queue_run_deleted (qid : Int) (p : List Mbuf) (evs : List Event) (p' : List Mbuf)
    (h : queue_run qid p evs p') : deleted_of evs = [] := by
  induction h with
  | nil p => rfl
  | copy p chunk evs p' hfit _ ih => simp [deleted_of, ih]
  | flush p bursts s evs p' hb _ ih =>
      rw [deleted_of_append, deleted_of_append, deleted_of_append, deleted_of_free_seg,
        burst_run_deleted qid _ _ _ _ hb, ih]
      rfl

theorem drop_eq_getD_cons (pkts : List Mbuf) (i : Nat) (hi : i < pkts.length) :
    pkts.drop i = pkts.getD i 0 :: pkts.drop (i + 1) := by
  rw [List.getD_eq_getElem?_getD, List.getElem?_eq_getElem hi]
  exact List.drop_eq_getElem_cons hi

theorem seg_succ (pkts : List Mbuf) (next i : Nat) (hn : next ≤ i) (hi : i < pkts.length) :
    (pkts.drop next).take (i + 1 - next)
      = (pkts.drop next).take (i - next) ++ [pkts.getD i 0] := by
  have e : i + 1 - next = (i - next) + 1 := by omega
  rw [e, take_succ_getD _ _ (by rw [List.length_drop]; omega)]
  congr 2
  rw [List.getD_eq_getElem?_getD, List.getD_eq_getElem?_getD, List.getElem?_drop]
  congr 2
  omega

theorem netdev_dpdk_send_loop_spec (env : Env) (fuel : Nat) (qid : Int) (pkts : List Mbuf)
    (sz : Mbuf → Int) (maxlen : Int)
    (henv : ∀ k n, env.rte_eth_tx_burst k n ≤ n) (hfuel : pkts.length + 385 ≤ fuel) :
    ∀ (k i next : Nat) (dropped : Int) (dev : netdev_dpdk) (w : World),
      i + k = pkts.length → next ≤ i → w.pkt_size = sz → dev.max_packet_len = maxlen →
      0 ≤ (dev.tx_q qid).count → (dev.tx_q qid).count ≤ MAX_TX_QUEUE_LEN →
      ∃ (next' : Nat) (dropped' : Int) (dev' : netdev_dpdk) (w' : World) (evs : List Event),
        netdev_dpdk_send_loop env fuel qid pkts k i next dropped dev w
          = some (next', dropped', dev', w') ∧
        next' ≤ pkts.length ∧
        w'.trace = w.trace ++ evs ∧
        enqueued_of qid evs ++ pkts.drop next'
          = (pkts.drop next).take (i - next)
            ++ (pkts.drop i).filter (fun p => decide (sz p ≤ maxlen)) ∧
        deleted_of evs = (pkts.drop i).filter (fun p => !decide (sz p ≤ maxlen)) ∧
        dropped' = dropped
          + (((pkts.drop i).filter (fun p => !decide (sz p ≤ maxlen))).length : Int) ∧
        dev'.stats.tx_dropped = dev.stats.tx_dropped + ((freed_of evs).length : Int) ∧
        0 ≤ (dev'.tx_q qid).count ∧ (dev'.tx_q qid).count ≤ MAX_TX_QUEUE_LEN ∧
        same_outside_queue qid dev dev' ∧ same_outside_trace w w' := by
  intro k
  induction k with
  | zero =>
      intro i next dropped dev w hik hn hsz hmax hc0 hc1
      have hi : i = pkts.length := by omega
      refine ⟨next, dropped, dev, w, [], rfl, by omega, by simp, ?_, ?_, ?_, ?_, hc0, hc1,
        same_outside_queue_refl qid dev, same_outside_trace_refl w⟩
      · rw [hi, List.drop_length]
        simp [enqueued_of]
      · rw [hi, List.drop_length]
        rfl
      · rw [hi, List.drop_length]
        simp
      · simp [freed_of]
  | succ k ih =>
      intro i next dropped dev w hik hn hsz hmax hc0 hc1
      have hi : i < pkts.length := by omega
      have hdrop := drop_eq_getD_cons pkts i hi
      rw [netdev_dpdk_send_loop]
      by_cases hbig : w.pkt_size (pkts.getD i 0) > dev.max_packet_len
      · rw [if_pos hbig]
        have hfit : decide (sz (pkts.getD i 0) ≤ maxlen) = false := by
          rw [← hsz, ← hmax]
          exact decide_eq_false (by omega)
        have hcall : ∃ (dev1 : netdev_dpdk) (w1 : World) (e1 : List Event),
            (if next ≠ i then
               dpdk_queue_pkts env fuel dev qid ((pkts.drop next).take (i - next)) w
             else some (dev, w)) = some (dev1, w1) ∧
            queue_step qid dev w dev1 w1 e1 ∧
            enqueued_of qid e1 = (pkts.drop next).take (i - next) := by
          by_cases hne : next ≠ i
          · rw [if_pos hne]
            obtain ⟨dev1, w1, e1, h1, h2, h3, _, _⟩ := dpdk_queue_pkts_spec env fuel dev qid
              ((pkts.drop next).take (i - next)) w hc0 hc1 henv
              (by rw [List.length_take, List.length_drop]; omega)
            exact ⟨dev1, w1, e1, h1, h2, h3⟩
          · rw [if_neg hne]
            have hni : next = i := not_not.mp hne
            refine ⟨dev, w, [], rfl,
              queue_step_refl qid dev w w hc0 hc1 rfl (same_outside_trace_refl w), ?_⟩
            rw [hni, Nat.sub_self, List.take_zero]
            rfl
        obtain ⟨dev1, w1, e1, h1, hs1, hen1⟩ := hcall
        obtain ⟨ht1, hrun1, hdr1, hc10, hc11, hq1, hw1⟩ := hs1
        rw [h1]
        simp only []
        obtain ⟨next', dropped', dev', w', e2, h2, hnext', ht2, hen2, hdel2, hdrp2, hdr2,
            hc20, hc21, hq2, hw2⟩ :=
          ih (i + 1) (i + 1) (dropped + 1) dev1 (w1.log (Event.packet_delete (pkts.getD i 0)))
            (by omega) (le_refl _) (by show w1.pkt_size = sz; rw [hw1.1, hsz])
            (by rw [hq1.1, hmax]) hc10 hc11
        have hw1log : same_outside_trace w1 (w1.log (Event.packet_delete (pkts.getD i 0))) :=
          ⟨rfl, rfl, rfl, rfl, rfl⟩
        refine ⟨next', dropped', dev', w', e1 ++ ([Event.packet_delete (pkts.getD i 0)] ++ e2),
          h2, hnext', ?_, ?_, ?_, ?_, ?_, hc20, hc21,
          same_outside_queue_trans qid _ _ _ hq1 hq2,
          same_outside_trace_trans _ _ _ hw1 (same_outside_trace_trans _ _ _ hw1log hw2)⟩
        · rw [ht2]
          show w1.trace ++ [Event.packet_delete (pkts.getD i 0)] ++ e2 = _
          rw [ht1]
          simp only [List.append_assoc]
        · rw [enqueued_of_append, enqueued_of_append, hen1, List.append_assoc,
            List.append_assoc, hen2, hdrop, List.filter_cons, hfit]
          simp [enqueued_of]
        · rw [deleted_of_append, deleted_of_append, queue_run_deleted qid _ _ _ hrun1, hdel2,
            hdrop, List.filter_cons, hfit]
          simp [deleted_of]
        · rw [hdrp2, hdrop, List.filter_cons, hfit]
          simp
          ring
        · rw [hdr2, hdr1, freed_of_append, freed_of_append]
          simp [freed_of]
          ring
      · rw [if_neg hbig]
        have hfit : decide (sz (pkts.getD i 0) ≤ maxlen) = true := by
          rw [← hsz, ← hmax]
          exact decide_eq_true (by omega)
        obtain ⟨next', dropped', dev', w', e2, h2, hnext', ht2, hen2, hdel2, hdrp2, hdr2,
            hc20, hc21, hq2, hw2⟩ :=
          ih (i + 1) next dropped dev w (by omega) (by omega) hsz hmax hc0 hc1
        refine ⟨next', dropped', dev', w', e2, h2, hnext', ht2, ?_, ?_, ?_, hdr2, hc20, hc21,
          hq2, hw2⟩
        · rw [hen2, seg_succ pkts next i hn hi, hdrop, List.filter_cons, hfit]
          simp
        · rw [hdel2, hdrop, List.filter_cons, hfit]
          simp
        · rw [hdrp2, hdrop, List.filter_cons, hfit]
          simp

end NetdevDpdk

namespace NetdevDpdk

theorem allocated_of_append (a b : List Event) :
    allocated_of (a ++ b) = allocated_of a ++ allocated_of b := by
  induction a with
  | nil => rfl
  | cons e rest ih =>
      cases e <;> simp [allocated_of, ih]

theorem allocated_of_free_seg (l : List Mbuf) : allocated_of (l.map Event.free_seg) = [] := by
  induction l with
  | nil => rfl
  | cons p rest ih => simp [allocated_of, ih]

theorem burst_run_allocated (qid : Int) (batch : List Mbuf) (nb : Nat) (evs : List Event)
    (s : Nat) (h : burst_run qid batch nb evs s) : allocated_of evs = [] := by
  induction h with
  | done => rfl
  | stalled nb h1 => rfl
  | step nb ret evs s h1 h2 h3 hrun ih => simp [allocated_of, ih]

theorem queue_run_allocated (qid : Int) (p : List Mbuf) (evs : List Event) (p' : List Mbuf)
    (h : queue_run qid p evs p') : allocated_of evs = [] := by
  induction h with
  | nil p => rfl
  | copy p chunk evs p' hfit _ ih => simp [allocated_of, ih]
  | flush p bursts s evs p' hb _ ih =>
      rw [allocated_of_append, allocated_of_append, allocated_of_append, allocated_of_free_seg,
        burst_run_allocated qid _ _ _ _ hb, ih]
      rfl

theorem alloc_events_facts (qid : Int) (l : List Mbuf) :
    enqueued_of qid (l.map Event.pktmbuf_alloc) = [] ∧
    freed_of (l.map Event.pktmbuf_alloc) = [] ∧
    allocated_of (l.map Event.pktmbuf_alloc) = l := by
  induction l with
  | nil => exact ⟨rfl, rfl, rfl⟩
  | cons p rest ih => simp [enqueued_of, freed_of, allocated_of, ih]

theorem range_succ_map_shift (f : Nat → Mbuf) (m : Nat) :
    (List.range (m + 1)).map f = f 0 :: (List.range m).map (fun j => f (j + 1)) := by
  rw [List.range_succ_eq_map, List.map_cons, List.map_map]
  rfl

theorem dpdk_do_tx_copy_loop_spec (env : Env) (maxlen : Int) (pkts : List Mbuf)
    (sz : Mbuf → Int)
    (halloc : ∀ k, env.rte_pktmbuf_alloc k ≠ 0 ∧ env.rte_pktmbuf_alloc k ∉ pkts) :
    ∀ (k i : Nat) (mbufs : List Mbuf) (dropped : Int) (w : World), i + k = pkts.length →
      (∀ p, p ∈ pkts → w.pkt_size p = sz p) →
      (dpdk_do_tx_copy_loop env maxlen pkts k i mbufs dropped w).1
        = mbufs ++ (List.range ((pkts.drop i).filter (fun p => decide (sz p ≤ maxlen))).length).map
            (fun j => env.rte_pktmbuf_alloc (w.alloc_calls + j)) ∧
      (dpdk_do_tx_copy_loop env maxlen pkts k i mbufs dropped w).2.1
        = dropped + (((pkts.drop i).filter (fun p => !decide (sz p ≤ maxlen))).length : Int) ∧
      (dpdk_do_tx_copy_loop env maxlen pkts k i mbufs dropped w).2.2.trace
        = w.trace
          ++ ((List.range ((pkts.drop i).filter (fun p => decide (sz p ≤ maxlen))).length).map
            (fun j => env.rte_pktmbuf_alloc (w.alloc_calls + j))).map Event.pktmbuf_alloc := by
  intro k
  induction k with
  | zero =>
      intro i mbufs dropped w hik _
      have hi : i = pkts.length := by omega
      rw [hi, List.drop_length]
      simp [dpdk_do_tx_copy_loop]
  | succ k ih =>
      intro i mbufs dropped w hik hsz
      have hi : i < pkts.length := by omega
      have hdrop := drop_eq_getD_cons pkts i hi
      have hmem : pkts.getD i 0 ∈ pkts := by
        rw [List.getD_eq_getElem?_getD, List.getElem?_eq_getElem hi]
        exact List.getElem_mem hi
      rw [dpdk_do_tx_copy_loop]
      simp only []
      by_cases hbig : w.pkt_size (pkts.getD i 0) > maxlen
      · rw [if_pos hbig]
        have hfit : decide (sz (pkts.getD i 0) ≤ maxlen) = false := by
          rw [← hsz _ hmem]
          exact decide_eq_false (by omega)
        obtain ⟨h1, h2, h3⟩ := ih (i + 1) mbufs (dropped + 1) w (by omega) hsz
        rw [h1, h2, h3, hdrop, List.filter_cons, List.filter_cons, hfit]
        simp
        ring
      · rw [if_neg hbig]
        have hfit : decide (sz (pkts.getD i 0) ≤ maxlen) = true := by
          rw [← hsz _ hmem]
          exact decide_eq_true (by omega)
        rw [if_neg (halloc w.alloc_calls).1]
        have hsz2 : ∀ p, p ∈ pkts →
            ({ ({ w with alloc_calls := w.alloc_calls + 1 }.log
                  (Event.pktmbuf_alloc (env.rte_pktmbuf_alloc w.alloc_calls))) with
                pkt_size := Function.update
                  ({ w with alloc_calls := w.alloc_calls + 1 }.log
                    (Event.pktmbuf_alloc (env.rte_pktmbuf_alloc w.alloc_calls))).pkt_size
                  (env.rte_pktmbuf_alloc w.alloc_calls)
                  (w.pkt_size (pkts.getD i 0)) } : World).pkt_size p = sz p := by
          intro p hp
          show Function.update w.pkt_size (env.rte_pktmbuf_alloc w.alloc_calls)
            (w.pkt_size (pkts.getD i 0)) p = sz p
          have hne : p ≠ env.rte_pktmbuf_alloc w.alloc_calls := by
            intro h
            exact (halloc w.alloc_calls).2 (h ▸ hp)
          rw [Function.update_noteq hne]
          exact hsz p hp
        obtain ⟨h1, h2, h3⟩ := ih (i + 1) (mbufs ++ [env.rte_pktmbuf_alloc w.alloc_calls]) dropped
          _ (by omega) hsz2
        rw [h1, h2, h3, hdrop, List.filter_cons, List.filter_cons, hfit]
        simp only [if_true, List.length_cons, range_succ_map_shift, Bool.not_true,
          Bool.false_eq_true, if_false, List.map_cons, List.append_assoc, List.singleton_append,
          World.log, Nat.add_zero]
        refine ⟨?_, trivial, ?_⟩
        · congr 2
          apply List.map_congr_left
          intro j _
          congr 1
          omega
        · congr 3
          apply List.map_congr_left
          intro j _
          congr 1
          omega

end NetdevDpdk

namespace NetdevDpdk

theorem dpdk_do_tx_copy_spec (env : Env) (fuel : Nat) (dev : netdev_dpdk) (qid : Int)
    (pkts : List Mbuf) (w : World) (htype : dev.type = dpdk_dev_type.DPDK_DEV_ETH)
    (hc0 : 0 ≤ (dev.tx_q qid).count) (hc1 : (dev.tx_q qid).count ≤ MAX_TX_QUEUE_LEN)
    (henv : ∀ k n, env.rte_eth_tx_burst k n ≤ n) (hfuel : pkts.length + 385 ≤ fuel)
    (halloc : ∀ k, env.rte_pktmbuf_alloc k ≠ 0 ∧ env.rte_pktmbuf_alloc k ∉ pkts) :
    ∃ (dev' : netdev_dpdk) (w' : World) (evs : List Event),
      dpdk_do_tx_copy env fuel dev qid pkts w = some (dev', w') ∧
      w'.trace = w.trace ++ evs ∧
      enqueued_of qid evs = allocated_of evs ∧
      allocated_of evs = (List.range (pkts.filter (fits w dev)).length).map
        (fun j => env.rte_pktmbuf_alloc (w.alloc_calls + j)) ∧
      dev'.stats.tx_dropped = dev.stats.tx_dropped
        + ((pkts.filter (fun p => !fits w dev p)).length : Int)
        + ((freed_of evs).length : Int) ∧
      (dev'.tx_q qid).count = 0 := by
  have hfits : (fun p => decide (w.pkt_size p ≤ dev.max_packet_len)) = fits w dev := rfl
  have hnfits : (fun p => !decide (w.pkt_size p ≤ dev.max_packet_len))
      = (fun p => !fits w dev p) := rfl
  obtain ⟨h1, h2, h3⟩ := dpdk_do_tx_copy_loop_spec env dev.max_packet_len pkts w.pkt_size halloc
    pkts.length 0 [] 0 w (by omega) (fun _ _ => rfl)
  rw [List.drop_zero, hfits] at h1 h3
  rw [List.drop_zero, hnfits] at h2
  rw [List.nil_append] at h1
  rw [Int.zero_add] at h2
  unfold dpdk_do_tx_copy
  simp only []
  generalize dpdk_do_tx_copy_loop env dev.max_packet_len pkts pkts.length 0 [] 0 w = res
    at h1 h2 h3 ⊢
  obtain ⟨mbufs, dropped, w1⟩ := res
  simp only at h1 h2 h3 ⊢
  have hlen : mbufs.length ≤ pkts.length := by
    rw [h1, List.length_map, List.length_range]
    exact List.length_filter_le _ _
  have hdev1 : ∃ dev1 : netdev_dpdk,
      (if dropped ≠ 0 then
        { dev with stats := { dev.stats with tx_dropped := dev.stats.tx_dropped + dropped } }
       else dev) = dev1 ∧ dev1.type = dev.type ∧ dev1.tx_q = dev.tx_q ∧
      dev1.stats.tx_dropped = dev.stats.tx_dropped + dropped := by
    by_cases hd : dropped ≠ 0
    · rw [if_pos hd]
      exact ⟨_, rfl, rfl, rfl, rfl⟩
    · rw [if_neg hd]
      have hd0 : dropped = 0 := not_not.mp hd
      exact ⟨dev, rfl, rfl, rfl, by rw [hd0, Int.add_zero]⟩
  obtain ⟨dev1, hd1, hty1, htx1, hdr1⟩ := hdev1
  rw [hd1]
  have hnv : ¬ dev1.type = dpdk_dev_type.DPDK_DEV_VHOST := by
    rw [hty1, htype]
    decide
  rw [if_neg hnv]
  obtain ⟨dev2, w2, e2, hq2, hs2, hen2, _, _⟩ := dpdk_queue_pkts_spec env fuel dev1 qid mbufs w1
    (by rw [htx1]; exact hc0) (by rw [htx1]; exact hc1) henv (by omega)
  obtain ⟨ht2, hrun2, hdr2, hc20, hc21, _, _⟩ := hs2
  obtain ⟨dev3, w3, e3, hq3, hs3, hen3, hcount3⟩ := dpdk_queue_flush_spec env fuel dev2 qid w2
    hc20 hc21 henv (by omega)
  obtain ⟨ht3, hrun3, hdr3, _, _, _, _⟩ := hs3
  rw [hq2]
  simp only []
  refine ⟨dev3, w3, mbufs.map Event.pktmbuf_alloc ++ (e2 ++ e3), hq3, ?_, ?_, ?_, ?_, hcount3⟩
  · rw [ht3, ht2, h3, ← h1]
    simp only [List.append_assoc]
  · rw [enqueued_of_append, enqueued_of_append, allocated_of_append, allocated_of_append,
      (alloc_events_facts qid mbufs).1, (alloc_events_facts qid mbufs).2.2, hen2, hen3,
      queue_run_allocated qid _ _ _ hrun2, queue_run_allocated qid _ _ _ hrun3]
    simp
  · rw [allocated_of_append, allocated_of_append, (alloc_events_facts qid mbufs).2.2,
      queue_run_allocated qid _ _ _ hrun2, queue_run_allocated qid _ _ _ hrun3, ← h1]
    simp
  · rw [hdr3, hdr2, hdr1, h2, freed_of_append, freed_of_append,
      (alloc_events_facts qid mbufs).2.1]
    simp only [List.nil_append, List.length_append]
    push_cast
    ring

theorem netdev_dpdk_send_single_oversized (env : Env) (fuel : Nat) (dev : netdev_dpdk)
    (qid : Int) (p0 : Mbuf) (w : World)
    (hdiv : dev.txq_needs_locking = true → dev.real_n_txq ≠ 0)
    (hsrc : env.source_is_dpdk p0 = true) (hbig : fits w dev p0 = false) :
    netdev_dpdk_send__ env fuel dev qid [p0] true w
      = some ({ dev with
                  stats := { dev.stats with tx_dropped := dev.stats.tx_dropped + 1 } },
              w.log (Event.packet_delete p0)) := by
  have h0 : ¬ (dev.txq_needs_locking = true ∧ dev.real_n_txq = 0) :=
    fun h => hdiv h.1 h.2
  have hgt : w.pkt_size p0 > dev.max_packet_len := by
    unfold fits at hbig
    have := of_decide_eq_false hbig
    omega
  unfold netdev_dpdk_send__
  rw [if_neg h0]
  simp [hsrc, netdev_dpdk_send_loop, hgt]

end NetdevDpdk

namespace NetdevDpdk

/-- C9 (amended): on a physical or ring-backed device whose queues hold between 0 and 384
packets, with a transmit primitive whose every result is at most the number offered.
`netdev_dpdk_send__` on stealable pool buffers passes to `dpdk_queue_pkts` exactly the
packets whose size is at most `max_packet_len`, in their original order; every oversized
packet is deleted without entering the batch and adds exactly one to `tx_dropped`, which
otherwise grows only by the packets that flushes release; a single oversized packet leaves
every queue as it was and adds exactly 1 to `tx_dropped`.  `dpdk_do_tx_copy` on foreign
buffers, as long as `rte_pktmbuf_alloc` returns a fresh buffer at every call, passes to
`dpdk_queue_pkts` exactly the buffers allocated, one for each packet whose size is at most
`max_packet_len`, in order; every oversized packet adds exactly one to `tx_dropped`; and
the call ends with a flush that leaves the fill count at 0. -/
theorem send_filters_oversized (env : Env) (fuel : Nat) (dev : netdev_dpdk) (qid : Int)
    (pkts : List Mbuf) (w : World) (htype : dev.type = dpdk_dev_type.DPDK_DEV_ETH)
    (hdiv : dev.txq_needs_locking = true → dev.real_n_txq ≠ 0)
    (hcount : ∀ q, 0 ≤ (dev.tx_q q).count ∧ (dev.tx_q q).count ≤ MAX_TX_QUEUE_LEN)
    (henv : ∀ k n, env.rte_eth_tx_burst k n ≤ n) (hfuel : pkts.length + 385 ≤ fuel) :
    (∀ (p0 : Mbuf) (rest : List Mbuf), pkts = p0 :: rest → env.source_is_dpdk p0 = true →
      ∃ (dev' : netdev_dpdk) (w' : World) (evs : List Event),
        netdev_dpdk_send__ env fuel dev qid pkts true w = some (dev', w') ∧
        w'.trace = w.trace ++ evs ∧
        enqueued_of (netdev_dpdk_send_qid dev qid) evs = pkts.filter (fits w dev) ∧
        deleted_of evs = pkts.filter (fun p => !fits w dev p) ∧
        dev'.stats.tx_dropped = dev.stats.tx_dropped
          + ((pkts.filter (fun p => !fits w dev p)).length : Int)
          + ((freed_of evs).length : Int) ∧
        (rest = [] → fits w dev p0 = false →
          evs = [Event.packet_delete p0] ∧ dev'.tx_q = dev.tx_q ∧
          dev'.stats.tx_dropped = dev.stats.tx_dropped + 1)) ∧
    ((∀ k, env.rte_pktmbuf_alloc k ≠ 0 ∧ env.rte_pktmbuf_alloc k ∉ pkts) →
      ∃ (dev' : netdev_dpdk) (w' : World) (evs : List Event),
        dpdk_do_tx_copy env fuel dev qid pkts w = some (dev', w') ∧
        w'.trace = w.trace ++ evs ∧
        enqueued_of qid evs = allocated_of evs ∧
        allocated_of evs = (List.range (pkts.filter (fits w dev)).length).map
          (fun j => env.rte_pktmbuf_alloc (w.alloc_calls + j)) ∧
        dev'.stats.tx_dropped = dev.stats.tx_dropped
          + ((pkts.filter (fun p => !fits w dev p)).length : Int)
          + ((freed_of evs).length : Int) ∧
        (dev'.tx_q qid).count = 0) := by
  constructor
  · intro p0 rest hpk hsrc
    have hfits : (fun p => decide (w.pkt_size p ≤ dev.max_packet_len)) = fits w dev := rfl
    have hnfits : (fun p => !decide (w.pkt_size p ≤ dev.max_packet_len))
        = (fun p => !fits w dev p) := rfl
    have h0 : ¬ (dev.txq_needs_locking = true ∧ dev.real_n_txq = 0) :=
      fun h => hdiv h.1 h.2
    obtain ⟨next', dropped', dev1, w1, e1, hl, hnext', ht1, hen1, hdel1, hdrp1, hdr1, hc10,
        hc11, hq1, hw1⟩ :=
      netdev_dpdk_send_loop_spec env fuel (netdev_dpdk_send_qid dev qid) pkts w.pkt_size
        dev.max_packet_len henv hfuel pkts.length 0 0 0 dev w (by omega) (le_refl _) rfl rfl
        (hcount _).1 (hcount _).2
    rw [List.drop_zero, Nat.sub_zero, List.take_zero, List.nil_append, hfits] at hen1
    rw [List.drop_zero, hnfits] at hdel1 hdrp1
    rw [Int.zero_add] at hdrp1
    have hfinal : ∃ (dev2 : netdev_dpdk) (w2 : World) (e2 : List Event),
        (if next' ≠ pkts.length then
           dpdk_queue_pkts env fuel dev1 (netdev_dpdk_send_qid dev qid) (pkts.drop next') w1
         else some (dev1, w1)) = some (dev2, w2) ∧
        queue_step (netdev_dpdk_send_qid dev qid) dev1 w1 dev2 w2 e2 ∧
        enqueued_of (netdev_dpdk_send_qid dev qid) e2 = pkts.drop next' := by
      by_cases hne : next' ≠ pkts.length
      · rw [if_pos hne]
        obtain ⟨dev2, w2, e2, h1, h2, h3, _, _⟩ := dpdk_queue_pkts_spec env fuel dev1
          (netdev_dpdk_send_qid dev qid) (pkts.drop next') w1 hc10 hc11 henv
          (by rw [List.length_drop]; omega)
        exact ⟨dev2, w2, e2, h1, h2, h3⟩
      · rw [if_neg hne]
        have hni : next' = pkts.length := not_not.mp hne
        refine ⟨dev1, w1, [], rfl,
          queue_step_refl _ dev1 w1 w1 hc10 hc11 rfl (same_outside_trace_refl w1), ?_⟩
        rw [hni, List.drop_length]
        rfl
    obtain ⟨dev2, w2, e2, hf, hs2, hen2⟩ := hfinal
    obtain ⟨ht2, hrun2, hdr2, _, _, hq2, _⟩ := hs2
    have hsend : netdev_dpdk_send__ env fuel dev qid pkts true w
        = some (if dropped' ≠ 0 then
                  { dev2 with
                      stats := { dev2.stats with
                        tx_dropped := dev2.stats.tx_dropped + dropped' } }
                else dev2, w2) := by
      unfold netdev_dpdk_send__
      rw [if_neg h0]
      simp only [Bool.true_eq_false, if_false]
      rw [hpk, List.head?_cons]
      simp only [hsrc, Bool.true_eq_false, if_false]
      rw [← hpk, hl]
      simp only []
      rw [hf]
    have hdropped : (if dropped' ≠ 0 then
                  { dev2 with
                      stats := { dev2.stats with
                        tx_dropped := dev2.stats.tx_dropped + dropped' } }
                else dev2).stats.tx_dropped = dev2.stats.tx_dropped + dropped' := by
      by_cases hd : dropped' ≠ 0
      · rw [if_pos hd]
      · rw [if_neg hd, not_not.mp hd, Int.add_zero]
    refine ⟨_, w2, e1 ++ e2, hsend, ?_, ?_, ?_, ?_, ?_⟩
    · rw [ht2, ht1, List.append_assoc]
    · rw [enqueued_of_append, hen2, hen1]
    · rw [deleted_of_append, hdel1, queue_run_deleted _ _ _ _ hrun2, List.append_nil]
    · rw [hdropped, hdr2, hdr1, hdrp1, freed_of_append, List.length_append]
      push_cast
      ring
    · intro hrest hbig
      have hsingle := netdev_dpdk_send_single_oversized env fuel dev qid p0 w hdiv hsrc hbig
      rw [hpk, hrest, hsingle] at hsend
      have hinj := Option.some.inj hsend
      have hdev := congrArg Prod.fst hinj
      have hw := congrArg Prod.snd hinj
      simp only at hdev hw
      refine ⟨?_, ?_, ?_⟩
      · have htr : w2.trace = w.trace ++ (e1 ++ e2) := by
          rw [ht2, ht1, List.append_assoc]
        rw [← hw] at htr
        exact (List.append_cancel_left htr).symm
      · rw [← hdev]
      · rw [← hdev]
  · intro halloc
    exact dpdk_do_tx_copy_spec env fuel dev qid pkts w htype (hcount qid).1 (hcount qid).2 henv
      hfuel halloc

/-- Witness for C9: the burst `[100, 2000, 300]` (sizes 100, 2000, 300 against
`max_packet_len = 1518`) sent through the demo device.  Stolen, `100` and `300` enter the
batch and `2000` is deleted; copied, two fresh buffers enter the batch and the call ends
with a fill count of 0. -/
theorem send_filters_oversized_witness :
    demo_dev.type = dpdk_dev_type.DPDK_DEV_ETH ∧
    (∀ q, 0 ≤ (demo_dev.tx_q q).count ∧ (demo_dev.tx_q q).count ≤ MAX_TX_QUEUE_LEN) ∧
    [100, 2000, 300].length + 385 ≤ 400 ∧
    [100, 2000, 300].filter (fits demo_world demo_dev) = [100, 300] ∧
    (∀ k, demo_env.rte_pktmbuf_alloc k ≠ 0 ∧
      demo_env.rte_pktmbuf_alloc k ∉ ([100, 2000, 300] : List Mbuf)) ∧
    (∃ (dev' : netdev_dpdk) (w' : World) (evs : List Event),
      netdev_dpdk_send__ demo_env 400 demo_dev 0 [100, 2000, 300] true demo_world
        = some (dev', w') ∧
      w'.trace = demo_world.trace ++ evs ∧
      enqueued_of (netdev_dpdk_send_qid demo_dev 0) evs
        = [100, 2000, 300].filter (fits demo_world demo_dev) ∧
      deleted_of evs = [100, 2000, 300].filter (fun p => !fits demo_world demo_dev p) ∧
      dev'.stats.tx_dropped = demo_dev.stats.tx_dropped
        + (([100, 2000, 300].filter (fun p => !fits demo_world demo_dev p)).length : Int)
        + ((freed_of evs).length : Int) ∧
      ([2000, 300] = [] → fits demo_world demo_dev 100 = false →
        evs = [Event.packet_delete 100] ∧ dev'.tx_q = demo_dev.tx_q ∧
        dev'.stats.tx_dropped = demo_dev.stats.tx_dropped + 1)) ∧
    (∃ (dev' : netdev_dpdk) (w' : World) (evs : List Event),
      dpdk_do_tx_copy demo_env 400 demo_dev 0 [100, 2000, 300] demo_world = some (dev', w') ∧
      w'.trace = demo_world.trace ++ evs ∧
      enqueued_of 0 evs = allocated_of evs ∧
      allocated_of evs
        = (List.range ([100, 2000, 300].filter (fits demo_world demo_dev)).length).map
          (fun j => demo_env.rte_pktmbuf_alloc (demo_world.alloc_calls + j)) ∧
      dev'.stats.tx_dropped = demo_dev.stats.tx_dropped
        + (([100, 2000, 300].filter (fun p => !fits demo_world demo_dev p)).length : Int)
        + ((freed_of evs).length : Int) ∧
      (dev'.tx_q 0).count = 0) :=
  ⟨rfl,
   fun _ => ⟨(by decide : (0 : Int) ≤ 3), (by decide : (3 : Int) ≤ MAX_TX_QUEUE_LEN)⟩,
   by decide, by decide,
   fun k => ⟨(by show 5000 + k ≠ 0; omega),
     (by show 5000 + k ∉ ([100, 2000, 300] : List Nat); simp; omega)⟩,
   (send_filters_oversized demo_env 400 demo_dev 0 [100, 2000, 300] demo_world rfl
      (fun h => absurd h (by decide))
      (fun _ => ⟨(by decide : (0 : Int) ≤ 3), (by decide : (3 : Int) ≤ MAX_TX_QUEUE_LEN)⟩)
      (fun _ _ => Nat.min_le_left _ _) (by decide)).1 100 [2000, 300] rfl rfl,
   (send_filters_oversized demo_env 400 demo_dev 0 [100, 2000, 300] demo_world rfl
      (fun h => absurd h (by decide))
      (fun _ => ⟨(by decide : (0 : Int) ≤ 3), (by decide : (3 : Int) ≤ MAX_TX_QUEUE_LEN)⟩)
      (fun _ _ => Nat.min_le_left _ _) (by decide)).2
      (fun k => ⟨(by show 5000 + k ≠ 0; omega),
        (by show 5000 + k ∉ ([100, 2000, 300] : List Nat); simp; omega)⟩)⟩

/-- Counterexample to C9 as stated, on the copy path.  With an allocator that fails, the
packet `100`, whose size is below `max_packet_len`, does not enter the batch and is counted
in `tx_dropped`.  And sending the single oversized packet `2000` without `may_steal`, on a
queue that holds 3 packets, ends with the flush of `dpdk_do_tx_copy`: the fill count goes
from 3 to 0 and, the primitive accepting nothing, `tx_dropped` grows by 4. -/
theorem send_filters_oversized_counterexample :
    (dpdk_do_tx_copy demo_env_starved 400 demo_empty_dev 0 [100] demo_world).map
      (fun r => (fits demo_world demo_empty_dev 100, enqueued_of 0 r.2.trace,
        r.1.stats.tx_dropped - demo_empty_dev.stats.tx_dropped))
      = some (true, [], 1) ∧
    (netdev_dpdk_send__ demo_env_starved 400 demo_dev 0 [2000] false demo_world).map
      (fun r => (fits demo_world demo_dev 2000, (demo_dev.tx_q 0).count, (r.1.tx_q 0).count,
        r.1.stats.tx_dropped - demo_dev.stats.tx_dropped))
      = some (false, 3, 0, 4) := by
  constructor
  · decide
  · decide

end NetdevDpdk

/-! ## Properties of the queue negotiation -/

namespace NetdevDpdk

theorem dpdk_eth_dev_txq_loop_spec (env : EthEnv) :
    ∀ (k i : Nat) (diag : Int) (w : EthWorld), diag = 0 →
      ((dpdk_eth_dev_txq_loop env k (i : Int) diag w).1 = ((i + k : Nat) : Int) ∧
        (dpdk_eth_dev_txq_loop env k (i : Int) diag w).2.1 = 0 ∧
        (dpdk_eth_dev_txq_loop env k (i : Int) diag w).2.2.trace
          = w.trace ++ (List.range' i k).map (fun (x : Nat) => EthEvent.tx_queue_setup (x : Int) 0) ∧
        (dpdk_eth_dev_txq_loop env k (i : Int) diag w).2.2.start_calls = w.start_calls) ∨
      (∃ (j : Nat) (d : Int), j < k ∧ d ≠ 0 ∧
        (dpdk_eth_dev_txq_loop env k (i : Int) diag w).1 = ((i + j : Nat) : Int) ∧
        (dpdk_eth_dev_txq_loop env k (i : Int) diag w).2.1 = d ∧
        (dpdk_eth_dev_txq_loop env k (i : Int) diag w).2.2.trace
          = w.trace ++ (List.range' i j).map (fun (x : Nat) => EthEvent.tx_queue_setup (x : Int) 0)
            ++ [EthEvent.tx_queue_setup ((i + j : Nat) : Int) d] ∧
        (dpdk_eth_dev_txq_loop env k (i : Int) diag w).2.2.start_calls = w.start_calls) := by
  intro k
  induction k with
  | zero =>
      intro i diag w hd
      left
      refine ⟨?_, hd, ?_, rfl⟩
      · simp [dpdk_eth_dev_txq_loop]
      · simp [dpdk_eth_dev_txq_loop]
  | succ k ih =>
      intro i diag w hd
      rw [dpdk_eth_dev_txq_loop]
      by_cases h : env.rte_eth_tx_queue_setup w.tx_setup_calls (i : Int) ≠ 0
      · right
        refine ⟨0, env.rte_eth_tx_queue_setup w.tx_setup_calls (i : Int), by omega, h, ?_⟩
        rw [if_pos h]
        refine ⟨?_, rfl, ?_, rfl⟩
        · simp
        · simp [EthWorld.log]
      · have h0 : env.rte_eth_tx_queue_setup w.tx_setup_calls (i : Int) = 0 := not_not.mp h
        simp only [if_neg h]
        have hcast : ((i : Nat) : Int) + 1 = ((i + 1 : Nat) : Int) := by push_cast; rfl
        rw [hcast]
        rcases ih (i + 1) _ ({ w with tx_setup_calls := w.tx_setup_calls + 1 }.log
            (EthEvent.tx_queue_setup (i : Int)
              (env.rte_eth_tx_queue_setup w.tx_setup_calls (i : Int)))) h0 with hok | hfail
        · left
          obtain ⟨h1, h2, h3, h4⟩ := hok
          refine ⟨?_, h2, ?_, ?_⟩
          · rw [h1]
            congr 1
            omega
          · rw [h3, List.range'_succ, List.map_cons, h0]
            simp [EthWorld.log]
          · rw [h4]
            rfl
        · right
          obtain ⟨j, d, hj, hd', h1, h2, h3, h4⟩ := hfail
          refine ⟨j + 1, d, by omega, hd', ?_, h2, ?_, ?_⟩
          · rw [h1]
            congr 1
            omega
          · rw [h3, List.range'_succ, List.map_cons, h0]
            have e : i + 1 + j = i + (j + 1) := by omega
            rw [e]
            simp [EthWorld.log]
          · rw [h4]
            rfl

theorem dpdk_eth_dev_rxq_loop_spec (env : EthEnv) :
    ∀ (k i : Nat) (diag : Int) (w : EthWorld), diag = 0 →
      ((dpdk_eth_dev_rxq_loop env k (i : Int) diag w).1 = ((i + k : Nat) : Int) ∧
        (dpdk_eth_dev_rxq_loop env k (i : Int) diag w).2.1 = 0 ∧
        (dpdk_eth_dev_rxq_loop env k (i : Int) diag w).2.2.trace
          = w.trace ++ (List.range' i k).map (fun (x : Nat) => EthEvent.rx_queue_setup (x : Int) 0) ∧
        (dpdk_eth_dev_rxq_loop env k (i : Int) diag w).2.2.start_calls = w.start_calls) ∨
      (∃ (j : Nat) (d : Int), j < k ∧ d ≠ 0 ∧
        (dpdk_eth_dev_rxq_loop env k (i : Int) diag w).1 = ((i + j : Nat) : Int) ∧
        (dpdk_eth_dev_rxq_loop env k (i : Int) diag w).2.1 = d ∧
        (dpdk_eth_dev_rxq_loop env k (i : Int) diag w).2.2.trace
          = w.trace ++ (List.range' i j).map (fun (x : Nat) => EthEvent.rx_queue_setup (x : Int) 0)
            ++ [EthEvent.rx_queue_setup ((i + j : Nat) : Int) d] ∧
        (dpdk_eth_dev_rxq_loop env k (i : Int) diag w).2.2.start_calls = w.start_calls) := by
  intro k
  induction k with
  | zero =>
      intro i diag w hd
      left
      refine ⟨?_, hd, ?_, rfl⟩
      · simp [dpdk_eth_dev_rxq_loop]
      · simp [dpdk_eth_dev_rxq_loop]
  | succ k ih =>
      intro i diag w hd
      rw [dpdk_eth_dev_rxq_loop]
      by_cases h : env.rte_eth_rx_queue_setup w.rx_setup_calls (i : Int) ≠ 0
      · right
        refine ⟨0, env.rte_eth_rx_queue_setup w.rx_setup_calls (i : Int), by omega, h, ?_⟩
        rw [if_pos h]
        refine ⟨?_, rfl, ?_, rfl⟩
        · simp
        · simp [EthWorld.log]
      · have h0 : env.rte_eth_rx_queue_setup w.rx_setup_calls (i : Int) = 0 := not_not.mp h
        simp only [if_neg h]
        have hcast : ((i : Nat) : Int) + 1 = ((i + 1 : Nat) : Int) := by push_cast; rfl
        rw [hcast]
        rcases ih (i + 1) _ ({ w with rx_setup_calls := w.rx_setup_calls + 1 }.log
            (EthEvent.rx_queue_setup (i : Int)
              (env.rte_eth_rx_queue_setup w.rx_setup_calls (i : Int)))) h0 with hok | hfail
        · left
          obtain ⟨h1, h2, h3, h4⟩ := hok
          refine ⟨?_, h2, ?_, ?_⟩
          · rw [h1]
            congr 1
            omega
          · rw [h3, List.range'_succ, List.map_cons, h0]
            simp [EthWorld.log]
          · rw [h4]
            rfl
        · right
          obtain ⟨j, d, hj, hd', h1, h2, h3, h4⟩ := hfail
          refine ⟨j + 1, d, by omega, hd', ?_, h2, ?_, ?_⟩
          · rw [h1]
            congr 1
            omega
          · rw [h3, List.range'_succ, List.map_cons, h0]
            have e : i + 1 + j = i + (j + 1) := by omega
            rw [e]
            simp [EthWorld.log]
          · rw [h4]
            rfl

theorem tx_setups_ok_eq (n : Nat) :
    (List.range' 0 n).map (fun (x : Nat) => EthEvent.tx_queue_setup (x : Int) 0)
      = tx_setups_ok n := by
  rw [tx_setups_ok, List.range_eq_range']

theorem rx_setups_ok_eq (n : Nat) :
    (List.range' 0 n).map (fun (x : Nat) => EthEvent.rx_queue_setup (x : Int) 0)
      = rx_setups_ok n := by
  rw [rx_setups_ok, List.range_eq_range']

theorem dpdk_eth_dev_queue_setup_loop_spec (env : EthEnv) :
    ∀ (fuel : Nat) (dev : netdev_dpdk) (r t : Nat) (d : Int) (w : EthWorld),
      r + t + 1 ≤ fuel →
      ∃ (out : Int) (stored : Option (Int × Int)) (evs : List EthEvent) (w' : EthWorld),
        dpdk_eth_dev_queue_setup_loop env fuel dev (r : Int) (t : Int) d w
          = some (out, store_counts dev stored, w') ∧
        w'.trace = w.trace ++ evs ∧
        queue_setup_run (r : Int) (t : Int) d evs out stored ∧
        w'.start_calls = w.start_calls := by
  intro fuel
  induction fuel with
  | zero =>
      intro dev r t d w h
      omega
  | succ fuel ih =>
      intro dev r t d w hfuel
      rw [dpdk_eth_dev_queue_setup_loop]
      by_cases hnz : (r : Int) ≠ 0 ∧ (t : Int) ≠ 0
      · rw [if_pos hnz]
        obtain ⟨hr, ht⟩ := hnz
        by_cases hcfg : env.rte_eth_dev_configure w.configure_calls (r : Int) (t : Int) ≠ 0
        · simp only [if_pos hcfg]
          exact ⟨_, none, [EthEvent.configure (r : Int) (t : Int) _], _, rfl, rfl,
            queue_setup_run.configure_fail _ _ d _ hr ht hcfg, rfl⟩
        · have hc0 : env.rte_eth_dev_configure w.configure_calls (r : Int) (t : Int) = 0 :=
            not_not.mp hcfg
          simp only [if_neg hcfg, Int.toNat_ofNat]
          have htx := dpdk_eth_dev_txq_loop_spec env t 0
            (env.rte_eth_dev_configure w.configure_calls (r : Int) (t : Int))
            ({ w with configure_calls := w.configure_calls + 1 }.log
              (EthEvent.configure (r : Int) (t : Int)
                (env.rte_eth_dev_configure w.configure_calls (r : Int) (t : Int)))) hc0
          simp only [Nat.cast_zero, Nat.zero_add, tx_setups_ok_eq] at htx
          generalize dpdk_eth_dev_txq_loop env t 0
            (env.rte_eth_dev_configure w.configure_calls (r : Int) (t : Int))
            ({ w with configure_calls := w.configure_calls + 1 }.log
              (EthEvent.configure (r : Int) (t : Int)
                (env.rte_eth_dev_configure w.configure_calls (r : Int) (t : Int)))) = tx
            at htx ⊢
          rcases htx with ⟨h1, h2, h3, h4⟩ | ⟨j, d', hj, hd', h1, h2, h3, h4⟩
          · rw [if_neg (not_not.mpr h1)]
            have hrx := dpdk_eth_dev_rxq_loop_spec env r 0 tx.2.1 tx.2.2 h2
            simp only [Nat.cast_zero, Nat.zero_add, rx_setups_ok_eq] at hrx
            generalize dpdk_eth_dev_rxq_loop env r 0 tx.2.1 tx.2.2 = rx at hrx ⊢
            rcases hrx with ⟨g1, g2, g3, g4⟩ | ⟨j, d', hj, hd', g1, g2, g3, g4⟩
            · rw [if_neg (not_not.mpr g1)]
              refine ⟨0, some ((r : Int), (t : Int)), full_attempt (r : Int) (t : Int), _, rfl,
                ?_, queue_setup_run.success _ _ d hr ht, ?_⟩
              · rw [g3, h3, hc0]
                simp [full_attempt, EthWorld.log]
              · rw [g4, h4]
                rfl
            · have hne : rx.1 ≠ (r : Int) := by
                rw [g1]
                omega
              rw [if_pos hne, g1, g2]
              obtain ⟨out, stored, evs, w', e1, e2, e3, e4⟩ := ih dev j t d' rx.2.2 (by omega)
              refine ⟨out, stored, _, w', e1, ?_, queue_setup_run.rx_fail (r : Int) (t : Int) d j
                d' evs out stored hr ht (by omega) hd' e3, ?_⟩
              · rw [e2, g3, h3, hc0]
                simp [EthWorld.log]
              · rw [e4, g4, h4]
                rfl
          · have hne : tx.1 ≠ (t : Int) := by
              rw [h1]
              omega
            rw [if_pos hne, h1, h2]
            obtain ⟨out, stored, evs, w', e1, e2, e3, e4⟩ := ih dev r j d' tx.2.2 (by omega)
            refine ⟨out, stored, _, w', e1, ?_, queue_setup_run.tx_fail (r : Int) (t : Int) d j
              d' evs out stored hr ht (by omega) hd' e3, ?_⟩
            · rw [e2, h3, hc0]
              simp [EthWorld.log]
            · rw [e4, h4]
              rfl
      · rw [if_neg hnz]
        refine ⟨d, none, [], w, rfl, by simp, queue_setup_run.stop _ _ d ?_, rfl⟩
        by_contra hcon
        exact hnz ⟨fun h => hcon (Or.inl h), fun h => hcon (Or.inr h)⟩

end NetdevDpdk

namespace NetdevDpdk

theorem configured_of_append (a b : List EthEvent) :
    configured_of (a ++ b) = configured_of a ++ configured_of b := by
  induction a with
  | nil => rfl
  | cons e rest ih =>
      cases e <;> simp [configured_of, ih]

theorem start_count_append (a b : List EthEvent) :
    start_count (a ++ b) = start_count a + start_count b := by
  induction a with
  | nil => simp [start_count]
  | cons e rest ih =>
      cases e <;> simp [start_count, ih]
      omega

theorem tx_setups_ok_facts (n : Nat) :
    configured_of (tx_setups_ok n) = [] ∧ start_count (tx_setups_ok n) = 0 := by
  unfold tx_setups_ok
  induction (List.range n) with
  | nil => exact ⟨rfl, rfl⟩
  | cons x rest ih => simpa [configured_of, start_count] using ih

theorem rx_setups_ok_facts (n : Nat) :
    configured_of (rx_setups_ok n) = [] ∧ start_count (rx_setups_ok n) = 0 := by
  unfold rx_setups_ok
  induction (List.range n) with
  | nil => exact ⟨rfl, rfl⟩
  | cons x rest ih => simpa [configured_of, start_count] using ih

theorem full_attempt_facts (r t : Int) :
    configured_of (full_attempt r t) = [(r, t)] ∧ start_count (full_attempt r t) = 0 := by
  unfold full_attempt
  simp [configured_of_append, start_count_append, configured_of, start_count,
    tx_setups_ok_facts, rx_setups_ok_facts]

theorem queue_setup_run_counts (r t d : Int) (evs : List EthEvent) (out : Int)
    (stored : Option (Int × Int)) (h : queue_setup_run r t d evs out stored) :
    0 ≤ r → 0 ≤ t →
      List.Chain' retry_step (configured_of evs) ∧
      (∀ p, p ∈ (configured_of evs).head? → p = (r, t)) ∧
      ((configured_of evs).length : Int) ≤ r + t ∧
      start_count evs = 0 := by
  induction h with
  | stop r t d h =>
      intro hr ht
      refine ⟨List.chain'_nil, ?_, ?_, rfl⟩
      · intro p hp
        simp [configured_of] at hp
      · simp [configured_of]
        omega
  | configure_fail r t d d' hr0 ht0 hd =>
      intro hr ht
      refine ⟨List.chain'_singleton _, ?_, ?_, rfl⟩
      · intro p hp
        simp [configured_of] at hp
        exact hp.symm
      · simp [configured_of]
        omega
  | tx_fail r t d i d' rest out stored hr0 ht0 hi hd hrun ih =>
      intro hr ht
      obtain ⟨h1, h2, h3, h4⟩ := ih hr (by omega)
      have hc : configured_of ([EthEvent.configure r t 0] ++ tx_setups_ok i
          ++ [EthEvent.tx_queue_setup (i : Int) d'] ++ rest) = (r, t) :: configured_of rest := by
        simp [configured_of_append, configured_of, tx_setups_ok_facts]
      have hs : start_count ([EthEvent.configure r t 0] ++ tx_setups_ok i
          ++ [EthEvent.tx_queue_setup (i : Int) d'] ++ rest) = 0 := by
        simp [start_count_append, start_count, tx_setups_ok_facts, h4]
      rw [hc, hs]
      refine ⟨?_, ?_, ?_, rfl⟩
      · rw [List.chain'_cons']
        refine ⟨?_, h1⟩
        intro y hy
        rw [h2 y hy]
        left
        exact ⟨rfl, by simp, by simpa using hi⟩
      · intro p hp
        simp at hp
        exact hp.symm
      · simp only [List.length_cons]
        push_cast
        omega
  | rx_fail r t d j d' rest out stored hr0 ht0 hj hd hrun ih =>
      intro hr ht
      obtain ⟨h1, h2, h3, h4⟩ := ih (by omega) ht
      have hc : configured_of ([EthEvent.configure r t 0] ++ tx_setups_ok t.toNat
          ++ rx_setups_ok j ++ [EthEvent.rx_queue_setup (j : Int) d'] ++ rest)
          = (r, t) :: configured_of rest := by
        simp [configured_of_append, configured_of, tx_setups_ok_facts, rx_setups_ok_facts]
      have hs : start_count ([EthEvent.configure r t 0] ++ tx_setups_ok t.toNat
          ++ rx_setups_ok j ++ [EthEvent.rx_queue_setup (j : Int) d'] ++ rest) = 0 := by
        simp [start_count_append, start_count, tx_setups_ok_facts, rx_setups_ok_facts, h4]
      rw [hc, hs]
      refine ⟨?_, ?_, ?_, rfl⟩
      · rw [List.chain'_cons']
        refine ⟨?_, h1⟩
        intro y hy
        rw [h2 y hy]
        right
        exact ⟨rfl, by simp, by simpa using hj⟩
      · intro p hp
        simp at hp
        exact hp.symm
      · simp only [List.length_cons]
        push_cast
        omega
  | success r t d hr0 ht0 =>
      intro hr ht
      rw [(full_attempt_facts r t).1, (full_attempt_facts r t).2]
      refine ⟨List.chain'_singleton _, ?_, ?_, rfl⟩
      · intro p hp
        simp at hp
        exact hp.symm
      · simp
        omega

theorem queue_setup_run_stored (r t d : Int) (evs : List EthEvent) (out : Int)
    (stored : Option (Int × Int)) (h : queue_setup_run r t d evs out stored) :
    0 ≤ r → 0 ≤ t →
      (∀ r' t', stored = some (r', t') →
        out = 0 ∧ 1 ≤ r' ∧ r' ≤ r ∧ 1 ≤ t' ∧ t' ≤ t ∧
        ∃ pre, evs = pre ++ full_attempt r' t') ∧
      (stored = none → (d ≠ 0 ∨ (r ≠ 0 ∧ t ≠ 0)) → out ≠ 0) ∧
      (stored = none → (r = 0 ∨ t = 0) → out = d ∧ evs = []) := by
  induction h with
  | stop r t d h =>
      intro hr ht
      refine ⟨?_, ?_, ?_⟩
      · intro r' t' hs
        cases hs
      · intro _ hor
        rcases hor with hd | ⟨h1, h2⟩
        · exact hd
        · rcases h with h | h
          · exact absurd h h1
          · exact absurd h h2
      · intro _ _
        exact ⟨rfl, rfl⟩
  | configure_fail r t d d' hr0 ht0 hd =>
      intro hr ht
      refine ⟨?_, ?_, ?_⟩
      · intro r' t' hs
        cases hs
      · intro _ _
        exact hd
      · intro _ hor
        rcases hor with h | h
        · exact absurd h hr0
        · exact absurd h ht0
  | tx_fail r t d i d' rest out stored hr0 ht0 hi hd hrun ih =>
      intro hr ht
      obtain ⟨h1, h2, h3⟩ := ih hr (by omega)
      refine ⟨?_, ?_, ?_⟩
      · intro r' t' hs
        obtain ⟨g1, g2, g3, g4, g5, pre, g6⟩ := h1 r' t' hs
        refine ⟨g1, g2, g3, g4, by omega, [EthEvent.configure r t 0] ++ tx_setups_ok i
          ++ [EthEvent.tx_queue_setup (i : Int) d'] ++ pre, ?_⟩
        rw [g6]
        simp only [List.append_assoc]
      · intro hs _
        exact h2 hs (Or.inl hd)
      · intro _ hor
        rcases hor with h | h
        · exact absurd h hr0
        · exact absurd h ht0
  | rx_fail r t d j d' rest out stored hr0 ht0 hj hd hrun ih =>
      intro hr ht
      obtain ⟨h1, h2, h3⟩ := ih (by omega) ht
      refine ⟨?_, ?_, ?_⟩
      · intro r' t' hs
        obtain ⟨g1, g2, g3, g4, g5, pre, g6⟩ := h1 r' t' hs
        refine ⟨g1, g2, by omega, g4, g5, [EthEvent.configure r t 0] ++ tx_setups_ok t.toNat
          ++ rx_setups_ok j ++ [EthEvent.rx_queue_setup (j : Int) d'] ++ pre, ?_⟩
        rw [g6]
        simp only [List.append_assoc]
      · intro hs _
        exact h2 hs (Or.inl hd)
      · intro _ hor
        rcases hor with h | h
        · exact absurd h hr0
        · exact absurd h ht0
  | success r t d hr0 ht0 =>
      intro hr ht
      refine ⟨?_, ?_, ?_⟩
      · intro r' t' hs
        cases hs
        exact ⟨rfl, by omega, le_refl _, by omega, le_refl _, [], rfl⟩
      · intro hs
        cases hs
      · intro hs
        cases hs

end NetdevDpdk

namespace NetdevDpdk

theorem full_attempt_diag (r t : Int) : ∀ e, e ∈ full_attempt r t → e.diag = 0 := by
  intro e he
  simp only [full_attempt, tx_setups_ok, rx_setups_ok, List.mem_append, List.mem_singleton,
    List.mem_map, List.mem_range] at he
  rcases he with (he | ⟨i, _, he⟩) | ⟨i, _, he⟩
  · rw [he]
    rfl
  · rw [← he]
    rfl
  · rw [← he]
    rfl

theorem full_attempt_ne_nil (r t : Int) : full_attempt r t ≠ [] := by
  simp [full_attempt]

theorem queue_setup_run_last (r t d : Int) (evs : List EthEvent) (out : Int)
    (stored : Option (Int × Int)) (h : queue_setup_run r t d evs out stored) :
    stored = none → ∀ e, evs.getLast? = some e → e.diag ≠ 0 := by
  induction h with
  | stop r t d h =>
      intro _ e he
      simp at he
  | configure_fail r t d d' hr0 ht0 hd =>
      intro _ e he
      simp at he
      rw [← he]
      exact hd
  | tx_fail r t d i d' rest out stored hr0 ht0 hi hd hrun ih =>
      intro hs e he
      by_cases hrest : rest = []
      · subst hrest
        rw [List.append_nil, List.getLast?_append_of_ne_nil _ (by simp)] at he
        simp at he
        rw [← he]
        exact hd
      · rw [List.getLast?_append_of_ne_nil _ hrest] at he
        exact ih hs e he
  | rx_fail r t d j d' rest out stored hr0 ht0 hj hd hrun ih =>
      intro hs e he
      by_cases hrest : rest = []
      · subst hrest
        rw [List.append_nil, List.getLast?_append_of_ne_nil _ (by simp)] at he
        simp at he
        rw [← he]
        exact hd
      · rw [List.getLast?_append_of_ne_nil _ hrest] at he
        exact ih hs e he
  | success r t d hr0 ht0 =>
      intro hs
      cases hs

theorem queue_setup_run_no_full (r t d : Int) (evs : List EthEvent) (out : Int)
    (h : queue_setup_run r t d evs out none) (pre : List EthEvent) (r' t' : Int) :
    evs ≠ pre ++ full_attempt r' t' := by
  intro heq
  have hne := full_attempt_ne_nil r' t'
  obtain ⟨e, he⟩ : ∃ e, (full_attempt r' t').getLast? = some e := by
    cases hl : (full_attempt r' t').getLast? with
    | none => exact absurd (List.getLast?_eq_none_iff.mp hl) hne
    | some e => exact ⟨e, rfl⟩
  have h1 : evs.getLast? = some e := by
    rw [heq, List.getLast?_append_of_ne_nil _ hne, he]
  have h2 := queue_setup_run_last r t d evs out none h rfl e h1
  exact h2 (full_attempt_diag r' t' e (List.mem_of_getLast?_eq_some he))

end NetdevDpdk

namespace NetdevDpdk

theorem dpdk_eth_dev_queue_setup_spec (env : EthEnv) (fuel : Nat) (dev : netdev_dpdk)
    (n_rxq n_txq : Int) (w : EthWorld) (hr : 0 ≤ n_rxq) (ht : 0 ≤ n_txq)
    (hfuel : n_rxq.toNat + n_txq.toNat + 1 ≤ fuel) :
    ∃ (out : Int) (stored : Option (Int × Int)) (evs : List EthEvent) (w' : EthWorld),
      dpdk_eth_dev_queue_setup env fuel dev n_rxq n_txq w
        = some (out, store_counts dev stored, w') ∧
      w'.trace = w.trace ++ evs ∧
      queue_setup_run n_rxq n_txq 0 evs out stored ∧
      w'.start_calls = w.start_calls := by
  have h := dpdk_eth_dev_queue_setup_loop_spec env fuel dev n_rxq.toNat n_txq.toNat 0 w hfuel
  rw [Int.toNat_of_nonneg hr, Int.toNat_of_nonneg ht] at h
  exact h

/-- C12: in `dpdk_eth_dev_queue_setup`, started with the counts `n_rxq >= 0` and
`n_txq >= 0`, whatever the hardware calls return.  The call returns (with fuel
`n_rxq + n_txq + 1`); its events form a `queue_setup_run`: every retry follows an attempt
in which tx queue `i` (or, all tx queues being set up, rx queue `j`) was the first to fail,
and goes on with that count lowered to `i` (to `j`) and the other count kept.  So between
two successive configure calls one count is kept and the other strictly lowered
(`retry_step`), the sums `n_rxq + n_txq` of the pairs passed to `rte_eth_dev_configure`
strictly decrease, the first pair is the starting pair, and there are at most
`n_rxq + n_txq` configure calls. -/
theorem dpdk_eth_dev_queue_setup_retries_decrease (env : EthEnv) (fuel : Nat)
    (dev : netdev_dpdk) (n_rxq n_txq : Int) (w : EthWorld) (hr : 0 ≤ n_rxq) (ht : 0 ≤ n_txq)
    (hfuel : n_rxq.toNat + n_txq.toNat + 1 ≤ fuel) :
    ∃ (out : Int) (stored : Option (Int × Int)) (evs : List EthEvent) (w' : EthWorld),
      dpdk_eth_dev_queue_setup env fuel dev n_rxq n_txq w
        = some (out, store_counts dev stored, w') ∧
      w'.trace = w.trace ++ evs ∧
      queue_setup_run n_rxq n_txq 0 evs out stored ∧
      List.Chain' retry_step (configured_of evs) ∧
      List.Chain' (fun a b => b.1 + b.2 < a.1 + a.2) (configured_of evs) ∧
      (∀ p, p ∈ (configured_of evs).head? → p = (n_rxq, n_txq)) ∧
      ((configured_of evs).length : Int) ≤ n_rxq + n_txq := by
  obtain ⟨out, stored, evs, w', h1, h2, h3, _⟩ :=
    dpdk_eth_dev_queue_setup_spec env fuel dev n_rxq n_txq w hr ht hfuel
  obtain ⟨g1, g2, g3, _⟩ := queue_setup_run_counts n_rxq n_txq 0 evs out stored h3 hr ht
  refine ⟨out, stored, evs, w', h1, h2, h3, g1, ?_, g2, g3⟩
  apply List.Chain'.imp _ g1
  intro a b hab
  rcases hab with ⟨e1, _, e3⟩ | ⟨e1, _, e3⟩
  · rw [e1]
    omega
  · rw [e1]
    omega

/-- Witness for C12: 8 rx and 8 tx queues requested from a port on which the set-up of tx
queue 2 and of rx queue 3 fails: three configure calls, with the pairs `(8, 8)`, `(8, 2)`
and `(3, 2)`. -/
theorem dpdk_eth_dev_queue_setup_retries_decrease_witness :
    (dpdk_eth_dev_queue_setup demo_eth_env_reserved 17 demo_eth_dev 8 8 demo_eth_world).map
      (fun r => (r.1, configured_of r.2.2.trace)) = some (0, [(8, 8), (8, 2), (3, 2)]) ∧
    ∃ (out : Int) (stored : Option (Int × Int)) (evs : List EthEvent) (w' : EthWorld),
      dpdk_eth_dev_queue_setup demo_eth_env_reserved 17 demo_eth_dev 8 8 demo_eth_world
        = some (out, store_counts demo_eth_dev stored, w') ∧
      w'.trace = demo_eth_world.trace ++ evs ∧
      queue_setup_run 8 8 0 evs out stored ∧
      List.Chain' retry_step (configured_of evs) ∧
      List.Chain' (fun a b => b.1 + b.2 < a.1 + a.2) (configured_of evs) ∧
      (∀ p, p ∈ (configured_of evs).head? → p = (8, 8)) ∧
      ((configured_of evs).length : Int) ≤ 8 + 8 :=
  ⟨by decide,
   dpdk_eth_dev_queue_setup_retries_decrease demo_eth_env_reserved 17 demo_eth_dev 8 8
     demo_eth_world (by decide) (by decide) (by decide)⟩

end NetdevDpdk

namespace NetdevDpdk

theorem dpdk_eth_dev_init_setup_failed (env : EthEnv) (fuel : Nat) (dev dev1 : netdev_dpdk)
    (w w1 : EthWorld) (out : Int)
    (hport : ¬ (dev.port_id < 0 ∨ dev.port_id ≥ env.rte_eth_dev_count))
    (h : dpdk_eth_dev_queue_setup env fuel dev
      (min ((env.rte_eth_dev_info_get w.info_calls).1 : Int) dev.up.n_rxq)
      (min ((env.rte_eth_dev_info_get w.info_calls).2 : Int) dev.up.n_txq)
      { w with info_calls := w.info_calls + 1 } = some (out, dev1, w1))
    (hout : out ≠ 0) :
    dpdk_eth_dev_init env fuel dev w = some (-out, dev1, w1) := by
  unfold dpdk_eth_dev_init
  rw [if_neg hport]
  simp only [h, if_pos hout]

theorem dpdk_eth_dev_init_setup_ok (env : EthEnv) (fuel : Nat) (dev dev1 : netdev_dpdk)
    (w w1 : EthWorld)
    (hport : ¬ (dev.port_id < 0 ∨ dev.port_id ≥ env.rte_eth_dev_count))
    (h : dpdk_eth_dev_queue_setup env fuel dev
      (min ((env.rte_eth_dev_info_get w.info_calls).1 : Int) dev.up.n_rxq)
      (min ((env.rte_eth_dev_info_get w.info_calls).2 : Int) dev.up.n_txq)
      { w with info_calls := w.info_calls + 1 } = some (0, dev1, w1)) :
    dpdk_eth_dev_init env fuel dev w
      = some (-(env.rte_eth_dev_start w1.start_calls), dev1,
          { w1 with start_calls := w1.start_calls + 1 }.log
            (EthEvent.dev_start (env.rte_eth_dev_start w1.start_calls))) := by
  unfold dpdk_eth_dev_init
  rw [if_neg hport]
  simp only [h]
  rw [if_neg (by simp)]
  by_cases hs : env.rte_eth_dev_start w1.start_calls ≠ 0
  · rw [if_pos hs]
  · rw [if_neg hs]
    have h0 : env.rte_eth_dev_start w1.start_calls = 0 := not_not.mp hs
    rw [h0]
    rfl

/-- C13 (amended): `dpdk_eth_dev_queue_setup` started with counts `n_rxq >= 1` and
`n_txq >= 1`, whatever the hardware calls return.  It returns 0 exactly when its calls end
with a configure attempt, with counts `r >= 1` and `t >= 1`, whose configure call, `t` tx
queue set-ups and `r` rx queue set-ups all succeeded; it has then stored
`dev->up.n_rxq = r` and `dev->real_n_txq = t` (with `r <= n_rxq`, `t <= n_txq`).  In every
other case it returns a non-zero value and leaves the device as it was; it never calls
`rte_eth_dev_start`; and `dpdk_eth_dev_init`, when these are the counts it computed on a
valid port, then returns the non-zero value `-diag` with no start call made. -/
theorem dpdk_eth_dev_queue_setup_success_iff (env : EthEnv) (fuel : Nat) (dev : netdev_dpdk)
    (n_rxq n_txq : Int) (w : EthWorld) (hr : 1 ≤ n_rxq) (ht : 1 ≤ n_txq)
    (hfuel : n_rxq.toNat + n_txq.toNat + 1 ≤ fuel) :
    ∃ (out : Int) (dev' : netdev_dpdk) (evs : List EthEvent) (w' : EthWorld),
      dpdk_eth_dev_queue_setup env fuel dev n_rxq n_txq
        { w with info_calls := w.info_calls + 1 } = some (out, dev', w') ∧
      w'.trace = w.trace ++ evs ∧
      (out = 0 → ∃ (r t : Int) (pre : List EthEvent),
        1 ≤ r ∧ r ≤ n_rxq ∧ 1 ≤ t ∧ t ≤ n_txq ∧ evs = pre ++ full_attempt r t ∧
        dev'.up.n_rxq = r ∧ dev'.real_n_txq = t ∧ dev' = store_counts dev (some (r, t))) ∧
      ((∃ (r t : Int) (pre : List EthEvent), evs = pre ++ full_attempt r t) → out = 0) ∧
      (out ≠ 0 → dev' = dev) ∧
      start_count evs = 0 ∧ w'.start_calls = w.start_calls ∧
      (¬ (dev.port_id < 0 ∨ dev.port_id ≥ env.rte_eth_dev_count) →
        n_rxq = min ((env.rte_eth_dev_info_get w.info_calls).1 : Int) dev.up.n_rxq →
        n_txq = min ((env.rte_eth_dev_info_get w.info_calls).2 : Int) dev.up.n_txq →
        out ≠ 0 →
        dpdk_eth_dev_init env fuel dev w = some (-out, dev', w') ∧ -out ≠ 0) := by
  obtain ⟨out, stored, evs, w', h1, h2, h3, h4⟩ :=
    dpdk_eth_dev_queue_setup_spec env fuel dev n_rxq n_txq
      { w with info_calls := w.info_calls + 1 } (by omega) (by omega) hfuel
  obtain ⟨g1, g2, _⟩ := queue_setup_run_stored n_rxq n_txq 0 evs out stored h3
    (by omega) (by omega)
  obtain ⟨_, _, _, c4⟩ := queue_setup_run_counts n_rxq n_txq 0 evs out stored h3
    (by omega) (by omega)
  have hzero : out = 0 → ∃ r t, stored = some (r, t) := by
    intro h0
    cases hst : stored with
    | none =>
        exact absurd h0 (g2 hst (Or.inr ⟨by omega, by omega⟩))
    | some p => exact ⟨p.1, p.2, rfl⟩
  refine ⟨out, store_counts dev stored, evs, w', h1, h2, ?_, ?_, ?_, c4, h4, ?_⟩
  · intro h0
    obtain ⟨r, t, hst⟩ := hzero h0
    obtain ⟨_, e2, e3, e4, e5, pre, e6⟩ := g1 r t hst
    refine ⟨r, t, pre, e2, e3, e4, e5, e6, ?_, ?_, ?_⟩
    · rw [hst]
      rfl
    · rw [hst]
      rfl
    · rw [hst]
  · rintro ⟨r, t, pre, hev⟩
    cases hst : stored with
    | none =>
        rw [hst] at h3
        exact absurd hev (queue_setup_run_no_full n_rxq n_txq 0 evs out h3 pre r t)
    | some p =>
        exact (g1 p.1 p.2 hst).1
  · intro hne
    cases hst : stored with
    | none => rfl
    | some p => exact absurd (g1 p.1 p.2 hst).1 hne
  · intro hport er et hne
    subst er et
    exact ⟨dpdk_eth_dev_init_setup_failed env fuel dev _ w w' out hport h1 hne,
      by omega⟩

/-- Witness for C13: on the port where tx queue 2 and rx queue 3 cannot be set up, a
request of 8 and 8 queues ends with a successful attempt for 3 rx and 2 tx queues. -/
theorem dpdk_eth_dev_queue_setup_success_iff_witness :
    (dpdk_eth_dev_queue_setup demo_eth_env_reserved 17 demo_eth_dev 8 8
      { demo_eth_world with info_calls := demo_eth_world.info_calls + 1 }).map
      (fun r => (r.1, r.2.1.up.n_rxq, r.2.1.real_n_txq)) = some (0, 3, 2) ∧
    ∃ (out : Int) (dev' : netdev_dpdk) (evs : List EthEvent) (w' : EthWorld),
      dpdk_eth_dev_queue_setup demo_eth_env_reserved 17 demo_eth_dev 8 8
        { demo_eth_world with info_calls := demo_eth_world.info_calls + 1 }
        = some (out, dev', w') ∧
      w'.trace = demo_eth_world.trace ++ evs ∧
      (out = 0 → ∃ (r t : Int) (pre : List EthEvent),
        1 ≤ r ∧ r ≤ 8 ∧ 1 ≤ t ∧ t ≤ 8 ∧ evs = pre ++ full_attempt r t ∧
        dev'.up.n_rxq = r ∧ dev'.real_n_txq = t ∧
        dev' = store_counts demo_eth_dev (some (r, t))) ∧
      ((∃ (r t : Int) (pre : List EthEvent), evs = pre ++ full_attempt r t) → out = 0) ∧
      (out ≠ 0 → dev' = demo_eth_dev) ∧
      start_count evs = 0 ∧ w'.start_calls = demo_eth_world.start_calls ∧
      (¬ (demo_eth_dev.port_id < 0 ∨
          demo_eth_dev.port_id ≥ demo_eth_env_reserved.rte_eth_dev_count) →
        (8 : Int) = min ((demo_eth_env_reserved.rte_eth_dev_info_get
          demo_eth_world.info_calls).1 : Int) demo_eth_dev.up.n_rxq →
        (8 : Int) = min ((demo_eth_env_reserved.rte_eth_dev_info_get
          demo_eth_world.info_calls).2 : Int) demo_eth_dev.up.n_txq →
        out ≠ 0 →
        dpdk_eth_dev_init demo_eth_env_reserved 17 demo_eth_dev demo_eth_world
          = some (-out, dev', w') ∧ -out ≠ 0) :=
  ⟨by decide,
   dpdk_eth_dev_queue_setup_success_iff demo_eth_env_reserved 17 demo_eth_dev 8 8
     demo_eth_world (by decide) (by decide) (by decide)⟩

/-- Counterexample to C13 as stated: with a starting rx count of 0 (and 8 tx queues
requested) `dpdk_eth_dev_queue_setup` makes no configure attempt, stores nothing and
returns 0; and `dpdk_eth_dev_init`, on a port that reports no rx queue, then starts the
device and returns 0. -/
theorem dpdk_eth_dev_queue_setup_success_iff_counterexample :
    (dpdk_eth_dev_queue_setup demo_eth_env 17 demo_eth_dev 0 8 demo_eth_world).map
      (fun r => (r.1, r.2.2.trace)) = some (0, []) ∧
    (dpdk_eth_dev_init demo_eth_env_no_rx 17 demo_eth_dev demo_eth_world).map
      (fun r => (r.1, r.2.2.trace)) = some (0, [EthEvent.dev_start 0]) := by
  constructor
  · decide
  · decide

end NetdevDpdk

namespace NetdevDpdk

/-- C11 (amended): on a device that requests at least one rx and one tx queue, and a port
that reports maxima `max_rx_queues >= 1` and `max_tx_queues >= 1`, whatever the configure,
queue set-up and start calls return.  `dpdk_eth_dev_init` returns, and whenever it returns 0
the negotiated count `dev->real_n_txq` is at least 1, at most the requested `dev->up.n_txq`
and at most `max_tx_queues`, and the stored rx count `dev->up.n_rxq` is at least 1, at most
the requested rx count and at most `max_rx_queues`; the requested tx count is unchanged. -/
theorem dpdk_eth_dev_init_counts_bounded (env : EthEnv) (fuel : Nat) (dev : netdev_dpdk)
    (w : EthWorld) (hrx : 1 ≤ dev.up.n_rxq) (htx : 1 ≤ dev.up.n_txq)
    (hmr : 1 ≤ (env.rte_eth_dev_info_get w.info_calls).1)
    (hmt : 1 ≤ (env.rte_eth_dev_info_get w.info_calls).2)
    (hfuel : (env.rte_eth_dev_info_get w.info_calls).1
      + (env.rte_eth_dev_info_get w.info_calls).2 + 1 ≤ fuel) :
    ∃ (err : Int) (dev' : netdev_dpdk) (w' : EthWorld),
      dpdk_eth_dev_init env fuel dev w = some (err, dev', w') ∧
      (err = 0 →
        1 ≤ dev'.real_n_txq ∧ dev'.real_n_txq ≤ dev.up.n_txq ∧
        dev'.real_n_txq ≤ ((env.rte_eth_dev_info_get w.info_calls).2 : Int) ∧
        1 ≤ dev'.up.n_rxq ∧ dev'.up.n_rxq ≤ dev.up.n_rxq ∧
        dev'.up.n_rxq ≤ ((env.rte_eth_dev_info_get w.info_calls).1 : Int) ∧
        dev'.up.n_txq = dev.up.n_txq) := by
  by_cases hport : dev.port_id < 0 ∨ dev.port_id ≥ env.rte_eth_dev_count
  · refine ⟨ENODEV, dev, w, ?_, ?_⟩
    · unfold dpdk_eth_dev_init
      rw [if_pos hport]
    · intro h
      exact absurd h (by decide)
  · have hr : (1 : Int) ≤ min ((env.rte_eth_dev_info_get w.info_calls).1 : Int) dev.up.n_rxq := by
      apply le_min _ hrx
      exact_mod_cast hmr
    have ht : (1 : Int) ≤ min ((env.rte_eth_dev_info_get w.info_calls).2 : Int) dev.up.n_txq := by
      apply le_min _ htx
      exact_mod_cast hmt
    have hr' : min ((env.rte_eth_dev_info_get w.info_calls).1 : Int) dev.up.n_rxq
        ≤ ((env.rte_eth_dev_info_get w.info_calls).1 : Int) := min_le_left _ _
    have ht' : min ((env.rte_eth_dev_info_get w.info_calls).2 : Int) dev.up.n_txq
        ≤ ((env.rte_eth_dev_info_get w.info_calls).2 : Int) := min_le_left _ _
    have hr'' : min ((env.rte_eth_dev_info_get w.info_calls).1 : Int) dev.up.n_rxq
        ≤ dev.up.n_rxq := min_le_right _ _
    have ht'' : min ((env.rte_eth_dev_info_get w.info_calls).2 : Int) dev.up.n_txq
        ≤ dev.up.n_txq := min_le_right _ _
    obtain ⟨out, stored, evs, w1, h1, _, h3, _⟩ :=
      dpdk_eth_dev_queue_setup_spec env fuel dev
        (min ((env.rte_eth_dev_info_get w.info_calls).1 : Int) dev.up.n_rxq)
        (min ((env.rte_eth_dev_info_get w.info_calls).2 : Int) dev.up.n_txq)
        { w with info_calls := w.info_calls + 1 } (by omega) (by omega) (by omega)
    obtain ⟨g1, g2, _⟩ := queue_setup_run_stored _ _ 0 evs out stored h3 (by omega) (by omega)
    by_cases hout : out ≠ 0
    · refine ⟨-out, store_counts dev stored, w1,
        dpdk_eth_dev_init_setup_failed env fuel dev _ w w1 out hport h1 hout, ?_⟩
      intro h
      omega
    · have h0 : out = 0 := not_not.mp hout
      rw [h0] at h1
      refine ⟨_, store_counts dev stored, _,
        dpdk_eth_dev_init_setup_ok env fuel dev _ w w1 hport h1, ?_⟩
      intro _
      cases hst : stored with
      | none => exact absurd h0 (g2 hst (Or.inr ⟨by omega, by omega⟩))
      | some p =>
          obtain ⟨_, e2, e3, e4, e5, _⟩ := g1 p.1 p.2 hst
          show 1 ≤ p.2 ∧ p.2 ≤ dev.up.n_txq ∧ p.2 ≤ _ ∧ 1 ≤ p.1 ∧ p.1 ≤ dev.up.n_rxq ∧ p.1 ≤ _
            ∧ dev.up.n_txq = dev.up.n_txq
          exact ⟨e4, by omega, by omega, e2, by omega, by omega, rfl⟩

/-- Witness for C11: a request of 8 rx and 8 tx queues on a port that reports 4 and 4: the
negotiated tx count is at most 4. -/
theorem dpdk_eth_dev_init_counts_bounded_witness :
    (dpdk_eth_dev_init demo_eth_env 17 demo_eth_dev demo_eth_world).map
      (fun r => (r.1, r.2.1.up.n_rxq, r.2.1.real_n_txq)) = some (0, 4, 4) ∧
    ∃ (err : Int) (dev' : netdev_dpdk) (w' : EthWorld),
      dpdk_eth_dev_init demo_eth_env 17 demo_eth_dev demo_eth_world = some (err, dev', w') ∧
      (err = 0 →
        1 ≤ dev'.real_n_txq ∧ dev'.real_n_txq ≤ demo_eth_dev.up.n_txq ∧
        dev'.real_n_txq
          ≤ ((demo_eth_env.rte_eth_dev_info_get demo_eth_world.info_calls).2 : Int) ∧
        1 ≤ dev'.up.n_rxq ∧ dev'.up.n_rxq ≤ demo_eth_dev.up.n_rxq ∧
        dev'.up.n_rxq
          ≤ ((demo_eth_env.rte_eth_dev_info_get demo_eth_world.info_calls).1 : Int) ∧
        dev'.up.n_txq = demo_eth_dev.up.n_txq) :=
  ⟨by decide,
   dpdk_eth_dev_init_counts_bounded demo_eth_env 17 demo_eth_dev demo_eth_world (by decide)
     (by decide) (by decide) (by decide) (by decide)⟩

/-- Counterexample to C11 as stated: the device requests 8 rx and 8 tx queues and holds 8
as its negotiated tx count; the port reports `max_rx_queues = 0` and `max_tx_queues = 4`.
`dpdk_eth_dev_init` returns 0 and `real_n_txq` is still 8, above the hardware maximum
4. -/
theorem dpdk_eth_dev_init_counts_bounded_counterexample :
    demo_eth_env_no_rx.rte_eth_dev_info_get demo_eth_world.info_calls = (0, 4) ∧
    demo_eth_dev.up.n_txq = 8 ∧
    (dpdk_eth_dev_init demo_eth_env_no_rx 17 demo_eth_dev demo_eth_world).map
      (fun r => (r.1, r.2.1.real_n_txq)) = some (0, 8) := by
  refine ⟨rfl, rfl, ?_⟩
  decide

end NetdevDpdk

namespace NetdevDpdk

theorem dpdk_eth_dev_queue_setup_loop_mono (env : EthEnv) :
    ∀ (fuel : Nat) (dev : netdev_dpdk) (r t d : Int) (w : EthWorld)
      (res : Int × netdev_dpdk × EthWorld),
      dpdk_eth_dev_queue_setup_loop env fuel dev r t d w = some res →
      dpdk_eth_dev_queue_setup_loop env (fuel + 1) dev r t d w = some res := by
  intro fuel
  induction fuel with
  | zero =>
      intro dev r t d w res h
      simp [dpdk_eth_dev_queue_setup_loop] at h
  | succ fuel ih =>
      intro dev r t d w res h
      rw [dpdk_eth_dev_queue_setup_loop] at h ⊢
      simp only [] at h ⊢
      split_ifs at h ⊢ with c1 c2 c3 c4
      · exact h
      · exact ih _ _ _ _ _ _ h
      · exact ih _ _ _ _ _ _ h
      · exact h
      · exact h

theorem dpdk_eth_dev_queue_setup_loop_mono_le (env : EthEnv) (fuel fuel' : Nat)
    (hle : fuel ≤ fuel') (dev : netdev_dpdk) (r t d : Int) (w : EthWorld)
    (res : Int × netdev_dpdk × EthWorld)
    (h : dpdk_eth_dev_queue_setup_loop env fuel dev r t d w = some res) :
    dpdk_eth_dev_queue_setup_loop env fuel' dev r t d w = some res := by
  induction fuel' with
  | zero =>
      have : fuel = 0 := by omega
      rw [this] at h
      exact h
  | succ n ih =>
      by_cases hn : fuel ≤ n
      · exact dpdk_eth_dev_queue_setup_loop_mono env n dev r t d w res (ih hn)
      · have : fuel = n + 1 := by omega
        rw [this] at h
        exact h

theorem dpdk_eth_dev_queue_setup_partial (env : EthEnv) (fuel : Nat) (dev : netdev_dpdk)
    (n_rxq n_txq : Int) (w : EthWorld) (out : Int) (dev' : netdev_dpdk) (w' : EthWorld)
    (hr : 0 ≤ n_rxq) (ht : 0 ≤ n_txq)
    (h : dpdk_eth_dev_queue_setup env fuel dev n_rxq n_txq w = some (out, dev', w')) :
    ∃ (stored : Option (Int × Int)) (evs : List EthEvent),
      dev' = store_counts dev stored ∧ w'.trace = w.trace ++ evs ∧
      queue_setup_run n_rxq n_txq 0 evs out stored ∧ w'.start_calls = w.start_calls := by
  have hbig := dpdk_eth_dev_queue_setup_loop_mono_le env fuel
    (max fuel (n_rxq.toNat + n_txq.toNat + 1)) (le_max_left _ _) dev n_rxq n_txq 0 w _ h
  obtain ⟨out2, stored, evs, w2, h1, h2, h3, h4⟩ :=
    dpdk_eth_dev_queue_setup_spec env (max fuel (n_rxq.toNat + n_txq.toNat + 1)) dev n_rxq
      n_txq w hr ht (le_max_right _ _)
  unfold dpdk_eth_dev_queue_setup at h1
  rw [hbig] at h1
  injection h1 with h1
  injection h1 with e1 h1
  injection h1 with e2 e3
  subst e1 e2 e3
  exact ⟨stored, evs, rfl, h2, h3, h4⟩

/-- What a returning call of `dpdk_eth_dev_init` leaves on the device, for non-negative
requested counts: either the device as it was, or the device with the counts of a
successful attempt. -/
theorem dpdk_eth_dev_init_partial (env : EthEnv) (fuel : Nat) (dev : netdev_dpdk)
    (w : EthWorld) (err : Int) (dev' : netdev_dpdk) (w' : EthWorld)
    (hr : 0 ≤ dev.up.n_rxq) (ht : 0 ≤ dev.up.n_txq)
    (h : dpdk_eth_dev_init env fuel dev w = some (err, dev', w')) :
    ∃ (stored : Option (Int × Int)),
      dev' = store_counts dev stored ∧
      (∀ r t, stored = some (r, t) →
        1 ≤ r ∧ r ≤ dev.up.n_rxq ∧ r ≤ ((env.rte_eth_dev_info_get w.info_calls).1 : Int) ∧
        1 ≤ t ∧ t ≤ dev.up.n_txq ∧ t ≤ ((env.rte_eth_dev_info_get w.info_calls).2 : Int) ∧
        err = -(env.rte_eth_dev_start (w'.start_calls - 1))) ∧
      (stored = none → err = 0 →
        ¬ (dev.port_id < 0 ∨ dev.port_id ≥ env.rte_eth_dev_count) ∧
        (min ((env.rte_eth_dev_info_get w.info_calls).1 : Int) dev.up.n_rxq = 0 ∨
          min ((env.rte_eth_dev_info_get w.info_calls).2 : Int) dev.up.n_txq = 0)) := by
  by_cases hport : dev.port_id < 0 ∨ dev.port_id ≥ env.rte_eth_dev_count
  · unfold dpdk_eth_dev_init at h
    rw [if_pos hport] at h
    injection h with h
    injection h with e1 h
    injection h with e2 e3
    refine ⟨none, e2.symm, ?_, ?_⟩
    · intro r t hs
      cases hs
    · intro _ h0
      rw [← e1] at h0
      exact absurd h0 (by decide)
  · have hr0 : (0 : Int) ≤ min ((env.rte_eth_dev_info_get w.info_calls).1 : Int) dev.up.n_rxq :=
      le_min (by omega) hr
    have ht0 : (0 : Int) ≤ min ((env.rte_eth_dev_info_get w.info_calls).2 : Int) dev.up.n_txq :=
      le_min (by omega) ht
    have hr' : min ((env.rte_eth_dev_info_get w.info_calls).1 : Int) dev.up.n_rxq
        ≤ ((env.rte_eth_dev_info_get w.info_calls).1 : Int) := min_le_left _ _
    have ht' : min ((env.rte_eth_dev_info_get w.info_calls).2 : Int) dev.up.n_txq
        ≤ ((env.rte_eth_dev_info_get w.info_calls).2 : Int) := min_le_left _ _
    have hr'' : min ((env.rte_eth_dev_info_get w.info_calls).1 : Int) dev.up.n_rxq
        ≤ dev.up.n_rxq := min_le_right _ _
    have ht'' : min ((env.rte_eth_dev_info_get w.info_calls).2 : Int) dev.up.n_txq
        ≤ dev.up.n_txq := min_le_right _ _
    cases hq : dpdk_eth_dev_queue_setup env fuel dev
        (min ((env.rte_eth_dev_info_get w.info_calls).1 : Int) dev.up.n_rxq)
        (min ((env.rte_eth_dev_info_get w.info_calls).2 : Int) dev.up.n_txq)
        { w with info_calls := w.info_calls + 1 } with
    | none =>
        unfold dpdk_eth_dev_init at h
        rw [if_neg hport] at h
        simp only [hq] at h
        cases h
    | some res =>
        obtain ⟨out, dev1, w1⟩ := res
        obtain ⟨stored, evs, e1, _, e3, e4⟩ :=
          dpdk_eth_dev_queue_setup_partial env fuel dev _ _ _ out dev1 w1 hr0 ht0 hq
        obtain ⟨g1, g2, g3⟩ := queue_setup_run_stored _ _ 0 evs out stored e3 hr0 ht0
        by_cases hout : out ≠ 0
        · rw [dpdk_eth_dev_init_setup_failed env fuel dev dev1 w w1 out hport hq hout] at h
          injection h with h
          injection h with a1 h
          injection h with a2 a3
          refine ⟨stored, by rw [← a2, e1], ?_, ?_⟩
          · intro r t hs
            exact absurd (g1 r t hs).1 hout
          · intro _ h0
            omega
        · have h0 : out = 0 := not_not.mp hout
          rw [h0] at hq
          rw [dpdk_eth_dev_init_setup_ok env fuel dev dev1 w w1 hport hq] at h
          injection h with h
          injection h with a1 h
          injection h with a2 a3
          refine ⟨stored, by rw [← a2, e1], ?_, ?_⟩
          · intro r t hs
            obtain ⟨_, b2, b3, b4, b5, _⟩ := g1 r t hs
            refine ⟨b2, by omega, by omega, b4, by omega, by omega, ?_⟩
            rw [← a1, ← a3]
            simp [EthWorld.log]
          · intro hs _
            refine ⟨hport, ?_⟩
            by_contra hcon
            have hcon' := not_or.mp hcon
            exact g2 hs (Or.inr ⟨hcon'.1, hcon'.2⟩) h0

end NetdevDpdk

namespace NetdevDpdk

theorem netdev_dpdk_init_eth_counts (env : EthEnv) (fuel : Nat) (NR_QUEUE : Int)
    (hNR : 0 ≤ NR_QUEUE) (netdev : netdev_dpdk) (port_no : Nat) (type : dpdk_dev_type)
    (dpdk_list : List netdev_dpdk) (dpdk_mp_list : List dpdk_mp) (w : EthWorld)
    (dev1 : netdev_dpdk) (list1 : List netdev_dpdk) (mpl1 : List dpdk_mp) (w1 : EthWorld)
    (h : netdev_dpdk_init env fuel NR_QUEUE netdev port_no type dpdk_list dpdk_mp_list w
      = some (0, dev1, list1, mpl1, w1)) :
    dev1.txq_needs_locking = netdev.txq_needs_locking ∧ dev1.up.n_txq = NR_QUEUE ∧
    dev1.type = type ∧
    (dev1.real_n_txq = NR_QUEUE ∨ (1 ≤ dev1.real_n_txq ∧ dev1.real_n_txq ≤ NR_QUEUE)) := by
  unfold netdev_dpdk_init at h
  simp only [] at h
  split at h
  · cases h
  · injection h with h
    injection h with e _
    exact absurd e (by decide)
  · rename_i i mpl w0 hget
    by_cases hty : type = dpdk_dev_type.DPDK_DEV_ETH
    · rw [if_pos hty] at h
      split at h
      · cases h
      · rename_i err netdev4 w2 hinit
        split_ifs at h with herr
        · injection h with h
          injection h with e _
          exact absurd e herr
        · injection h with h
          injection h with _ h
          injection h with e _
          subst e
          obtain ⟨stored, hst, hs1, _⟩ := dpdk_eth_dev_init_partial env fuel _ _ err netdev4 w2
            (by exact hNR) (by exact hNR) hinit
          cases hstored : stored with
          | none =>
              rw [hstored] at hst
              rw [hst]
              exact ⟨rfl, rfl, rfl, Or.inl rfl⟩
          | some p =>
              rw [hstored] at hst
              obtain ⟨_, _, _, b4, b5, _⟩ := hs1 p.1 p.2 hstored
              rw [hst]
              exact ⟨rfl, rfl, rfl, Or.inr ⟨b4, b5⟩⟩
    · rw [if_neg hty] at h
      injection h with h
      injection h with _ h
      injection h with e _
      subst e
      exact ⟨rfl, rfl, rfl, Or.inl rfl⟩

end NetdevDpdk

namespace NetdevDpdk

end NetdevDpdk

namespace NetdevDpdk

theorem netdev_dpdk_alloc_txq_counts (env : EthEnv) (netdev : netdev_dpdk) (n : Nat) :
    (netdev_dpdk_alloc_txq env netdev n).real_n_txq = netdev.real_n_txq ∧
    (netdev_dpdk_alloc_txq env netdev n).up = netdev.up ∧
    (netdev_dpdk_alloc_txq env netdev n).txq_needs_locking = netdev.txq_needs_locking :=
  ⟨rfl, rfl, rfl⟩

theorem netdev_dpdk_set_multiq_le (env : EthEnv) (fuel : Nat) (dev : netdev_dpdk)
    (n_txq n_rxq : Nat) (w : EthWorld) (err : Int) (dev' : netdev_dpdk) (w' : EthWorld)
    (hinfo : ∀ k, 1 ≤ (env.rte_eth_dev_info_get k).1 ∧ 1 ≤ (env.rte_eth_dev_info_get k).2)
    (hstart : ∀ k, env.rte_eth_dev_start k = 0)
    (hadm : (multiq_call.set_multiq n_txq n_rxq).admissible)
    (hdev : dev.real_n_txq ≤ dev.up.n_txq)
    (h : netdev_dpdk_set_multiq env fuel dev n_txq n_rxq w = some (err, dev', w')) :
    dev'.real_n_txq ≤ dev'.up.n_txq := by
  obtain ⟨a1, a2, a3, a4⟩ := hadm
  unfold netdev_dpdk_set_multiq at h
  split_ifs at h with c
  · injection h with h
    injection h with _ h
    injection h with e _
    rw [← e]
    exact hdev
  · simp only [] at h
    split at h
    · cases h
    · rename_i err2 netdev2 w1 hinit
      injection h with h
      injection h with e0 h
      injection h with e _
      subst e0
      have htx : int_of_u32 n_txq = (n_txq : Int) := int_of_u32_small n_txq a2
      have hrx : int_of_u32 n_rxq = (n_rxq : Int) := int_of_u32_small n_rxq a4
      obtain ⟨stored, hst, hs1, hs2⟩ := dpdk_eth_dev_init_partial env fuel _ _ err2 netdev2 w1
        (by show 0 ≤ int_of_u32 n_rxq; rw [hrx]; omega)
        (by show 0 ≤ int_of_u32 n_txq; rw [htx]; omega) hinit
      have hi := hinfo (w.log EthEvent.dev_stop).info_calls
      rw [← e]
      cases hstored : stored with
      | none =>
          rw [hstored] at hst
          by_cases herr : err2 ≠ 0
          · rw [if_pos herr, hst]
            exact hdev
          · exfalso
            obtain ⟨_, hz⟩ := hs2 hstored (not_not.mp herr)
            have hz' : min (((env.rte_eth_dev_info_get (w.log EthEvent.dev_stop).info_calls).1
                  : Nat) : Int) (n_rxq : Int) = 0 ∨
                min (((env.rte_eth_dev_info_get (w.log EthEvent.dev_stop).info_calls).2
                  : Nat) : Int) (n_txq : Int) = 0 := by
              rw [← hrx, ← htx]
              exact hz
            clear hz
            rename' hz' => hz
            rcases hz with hz | hz
            · have := min_eq_iff.mp hz
              omega
            · have := min_eq_iff.mp hz
              omega
      | some p =>
          rw [hstored] at hst
          obtain ⟨_, _, _, b4, b5, _, b7⟩ := hs1 p.1 p.2 hstored
          have herr : ¬ err2 ≠ 0 := by
            rw [b7, hstart]
            simp
          rw [if_neg herr, hst]
          exact b5

theorem netdev_dpdk_vhost_set_multiq_le (dev : netdev_dpdk) (n_txq n_rxq : Nat)
    (hadm : (multiq_call.vhost_set_multiq n_txq n_rxq).admissible)
    (hdev : dev.real_n_txq ≤ dev.up.n_txq) :
    (netdev_dpdk_vhost_set_multiq dev n_txq n_rxq).2.real_n_txq
      ≤ (netdev_dpdk_vhost_set_multiq dev n_txq n_rxq).2.up.n_txq := by
  obtain ⟨a1, a2⟩ := hadm
  unfold netdev_dpdk_vhost_set_multiq
  split_ifs with c
  · exact hdev
  · show (1 : Int) ≤ int_of_u32 n_txq
    rw [int_of_u32_small n_txq a2]
    omega

theorem run_multiq_calls_le (env : EthEnv) (fuel : Nat)
    (hinfo : ∀ k, 1 ≤ (env.rte_eth_dev_info_get k).1 ∧ 1 ≤ (env.rte_eth_dev_info_get k).2)
    (hstart : ∀ k, env.rte_eth_dev_start k = 0) :
    ∀ (calls : List multiq_call) (dev : netdev_dpdk) (w : EthWorld),
      (∀ c, c ∈ calls → c.admissible) → dev.real_n_txq ≤ dev.up.n_txq →
      ∀ (devk : netdev_dpdk) (wk : EthWorld),
        run_multiq_calls env fuel calls dev w = some (devk, wk) →
        devk.real_n_txq ≤ devk.up.n_txq := by
  intro calls
  induction calls with
  | nil =>
      intro dev w _ hdev devk wk hrun
      simp only [run_multiq_calls] at hrun
      injection hrun with hrun
      injection hrun with e _
      rw [← e]
      exact hdev
  | cons c rest ih =>
      intro dev w hadm hdev devk wk hrun
      have hc := hadm c (List.mem_cons_self _ _)
      have hrest : ∀ c', c' ∈ rest → c'.admissible :=
        fun c' hc' => hadm c' (List.mem_cons_of_mem _ hc')
      cases c with
      | set_multiq n_txq n_rxq =>
          simp only [run_multiq_calls] at hrun
          split at hrun
          · cases hrun
          · rename_i err dev2 w2 hset
            exact ih dev2 w2 hrest
              (netdev_dpdk_set_multiq_le env fuel dev n_txq n_rxq w err dev2 w2 hinfo hstart hc
                hdev hset) devk wk hrun
      | vhost_set_multiq n_txq n_rxq =>
          simp only [run_multiq_calls] at hrun
          exact ih _ w hrest (netdev_dpdk_vhost_set_multiq_le dev n_txq n_rxq hc hdev) devk wk
            hrun

/-- C15 (amended): `NR_QUEUE` is a parameter, a queue count (`>= 0`).  Take a device whose
construction `netdev_dpdk_init` returned 0, on ports that report at least one rx and one tx
queue and whose `rte_eth_dev_start` calls succeed, and any sequence of
`netdev_dpdk_set_multiq` and `netdev_dpdk_vhost_set_multiq` calls whose requested counts
lie within `1 .. 2^31 - 1`, the configure and queue set-up calls succeeding or failing at
will.  In every state reached, `real_n_txq <= up.n_txq`. -/
theorem real_n_txq_le_requested (env : EthEnv) (fuel : Nat) (NR_QUEUE : Int)
    (hNR : 0 ≤ NR_QUEUE) (netdev : netdev_dpdk) (port_no : Nat) (type : dpdk_dev_type)
    (dpdk_list : List netdev_dpdk) (dpdk_mp_list : List dpdk_mp) (w : EthWorld)
    (dev1 : netdev_dpdk) (list1 : List netdev_dpdk) (mpl1 : List dpdk_mp) (w1 : EthWorld)
    (hinit : netdev_dpdk_init env fuel NR_QUEUE netdev port_no type dpdk_list dpdk_mp_list w
      = some (0, dev1, list1, mpl1, w1))
    (hinfo : ∀ k, 1 ≤ (env.rte_eth_dev_info_get k).1 ∧ 1 ≤ (env.rte_eth_dev_info_get k).2)
    (hstart : ∀ k, env.rte_eth_dev_start k = 0)
    (calls : List multiq_call) (hadm : ∀ c, c ∈ calls → c.admissible)
    (devk : netdev_dpdk) (wk : EthWorld)
    (hrun : run_multiq_calls env fuel calls dev1 w1 = some (devk, wk)) :
    dev1.real_n_txq ≤ dev1.up.n_txq ∧ devk.real_n_txq ≤ devk.up.n_txq := by
  obtain ⟨_, h2, _, h4⟩ := netdev_dpdk_init_eth_counts env fuel NR_QUEUE hNR netdev port_no
    type dpdk_list dpdk_mp_list w dev1 list1 mpl1 w1 hinit
  have hbase : dev1.real_n_txq ≤ dev1.up.n_txq := by
    rw [h2]
    rcases h4 with h4 | ⟨_, b⟩
    · rw [h4]
    · exact b
  exact ⟨hbase, run_multiq_calls_le env fuel hinfo hstart calls dev1 w1 hadm hbase devk wk hrun⟩

/-- Witness for C15: a physical device constructed on a port of 4 rx and 4 tx queues, then
asked for 8 and 8 queues and then for 2 and 2. -/
theorem real_n_txq_le_requested_witness :
    ∃ (dev1 : netdev_dpdk) (list1 : List netdev_dpdk) (mpl1 : List dpdk_mp) (w1 : EthWorld)
      (devk : netdev_dpdk) (wk : EthWorld),
      netdev_dpdk_init demo_eth_env 20 1 netdev_dpdk_alloc 0 dpdk_dev_type.DPDK_DEV_ETH [] []
        demo_eth_world = some (0, dev1, list1, mpl1, w1) ∧
      run_multiq_calls demo_eth_env 20
        [multiq_call.set_multiq 8 8, multiq_call.set_multiq 2 2] dev1 w1 = some (devk, wk) ∧
      dev1.real_n_txq ≤ dev1.up.n_txq ∧ devk.real_n_txq ≤ devk.up.n_txq :=
  ⟨_, _, _, _, _, _, rfl, rfl,
    real_n_txq_le_requested demo_eth_env 20 1 (by decide) netdev_dpdk_alloc 0
      dpdk_dev_type.DPDK_DEV_ETH [] [] demo_eth_world _ _ _ _ rfl
      (fun _ => ⟨(by decide : 1 ≤ 4), (by decide : 1 ≤ 4)⟩) (fun _ => rfl)
      [multiq_call.set_multiq 8 8, multiq_call.set_multiq 2 2]
      (by
        intro c hc
        simp only [List.mem_cons, List.mem_singleton, List.not_mem_nil, or_false] at hc
        rcases hc with hc | hc
        · rw [hc]
          exact ⟨by decide, by decide, by decide, by decide⟩
        · rw [hc]
          exact ⟨by decide, by decide, by decide, by decide⟩)
      _ _ rfl⟩

/-- Counterexample to C15 as stated.  A vhost device, constructed with `NR_QUEUE = 1`, is
asked for 0 tx queues by `netdev_dpdk_vhost_set_multiq`: `up.n_txq` becomes 0 and
`real_n_txq` is set to 1.  And a physical device, constructed on a port of 8 and 8 queues,
is asked for 8 and 8 queues by `netdev_dpdk_set_multiq`; the queues are set up (8 tx
queues are stored), then `rte_eth_dev_start` fails, so the call fails and restores the
requested counts: `up.n_txq` is 1 again and `real_n_txq` is 8.  And a physical device that
has negotiated 4 tx queues is asked for 2 and 2 queues on a port that now reports no rx
queue: no queue is set up, the call returns 0, `up.n_txq` is 2 and `real_n_txq` is still
4. -/
theorem real_n_txq_le_requested_counterexample :
    ((netdev_dpdk_init demo_eth_env 20 1 netdev_dpdk_alloc 4294967295
        dpdk_dev_type.DPDK_DEV_VHOST [] [] demo_eth_world).bind
      (fun r => run_multiq_calls demo_eth_env 20 [multiq_call.vhost_set_multiq 0 1] r.2.1
        r.2.2.2.2)).map (fun r => (r.1.real_n_txq, r.1.up.n_txq)) = some (1, 0) ∧
    ((netdev_dpdk_init demo_eth_env_restart_fails 20 1 netdev_dpdk_alloc 0
        dpdk_dev_type.DPDK_DEV_ETH [] [] demo_eth_world).bind
      (fun r => (netdev_dpdk_set_multiq demo_eth_env_restart_fails 20 r.2.1 8 8
        r.2.2.2.2).map (fun s => (r.1, s.1, s.2.1.real_n_txq, s.2.1.up.n_txq))))
      = some (0, 5, 8, 1) ∧
    ((netdev_dpdk_init demo_eth_env_shrinking 20 1 netdev_dpdk_alloc 0
        dpdk_dev_type.DPDK_DEV_ETH [] [] demo_eth_world).bind
      (fun r => run_multiq_calls demo_eth_env_shrinking 20
        [multiq_call.set_multiq 4 4, multiq_call.set_multiq 2 2] r.2.1 r.2.2.2.2)).map
      (fun r => (r.1.real_n_txq, r.1.up.n_txq)) = some (4, 2) := by
  refine ⟨?_, ?_, ?_⟩
  · decide
  · decide
  · decide

end NetdevDpdk

/-! ## Properties of the vhost transmit path -/

namespace NetdevDpdk

theorem is_vhost_running_false_iff (w : World) (virtio_dev : Nat) :
    is_vhost_running w virtio_dev = false ↔
      (virtio_dev = 0 ∨ w.virtio_flags virtio_dev &&& VIRTIO_DEV_RUNNING = 0) := by
  unfold is_vhost_running
  simp only [Bool.and_eq_false_iff, bne_eq_false_iff_eq]

theorem vhost_enqueue_count_append (a b : List Event) :
    vhost_enqueue_count (a ++ b) = vhost_enqueue_count a + vhost_enqueue_count b := by
  induction a with
  | nil => simp [vhost_enqueue_count]
  | cons e rest ih =>
      cases e <;> simp [vhost_enqueue_count, ih]
      omega

theorem vhost_send_down (env : Env) (fuel : Nat) (vhost_dev : netdev_dpdk)
    (pkts : List Mbuf) (may_steal : Bool) (w : World)
    (hdown : vhost_dev.virtio_dev = 0 ∨
      w.virtio_flags vhost_dev.virtio_dev &&& VIRTIO_DEV_RUNNING = 0) :
    __netdev_dpdk_vhost_send env fuel vhost_dev pkts may_steal w
      = some ({ vhost_dev with
                  stats := { vhost_dev.stats with
                    tx_dropped := vhost_dev.stats.tx_dropped + (pkts.length : Int) } },
              if may_steal = true ∧ u32_of_int (pkts.length : Int) ≠ 0 then
                w.log (Event.bulk_free (pkts.take (u32_of_int (pkts.length : Int))))
              else w) := by
  have hrun := (is_vhost_running_false_iff w vhost_dev.virtio_dev).mpr hdown
  unfold __netdev_dpdk_vhost_send
  simp only [hrun, if_true]

/-- C16: for every burst of `cnt >= 0` packets, when the session pointer of the device is
`NULL` or the `VIRTIO_DEV_RUNNING` flag of the session is clear at call time,
`__netdev_dpdk_vhost_send` returns without calling `rte_vhost_enqueue_burst` (the call
counter is unchanged and the only event it may append is the `rte_pktmbuf_bulk_free` of a
stolen burst), adds exactly `cnt` to `tx_dropped` and leaves `tx_packets` and `tx_bytes`
unchanged. -/
theorem vhost_send_not_running (env : Env) (fuel : Nat) (vhost_dev : netdev_dpdk)
    (pkts : List Mbuf) (may_steal : Bool) (w : World)
    (hdown : vhost_dev.virtio_dev = 0 ∨
      w.virtio_flags vhost_dev.virtio_dev &&& VIRTIO_DEV_RUNNING = 0) :
    ∃ (dev' : netdev_dpdk) (w' : World) (evs : List Event),
      __netdev_dpdk_vhost_send env fuel vhost_dev pkts may_steal w = some (dev', w') ∧
      w'.trace = w.trace ++ evs ∧
      (evs = [] ∨ ∃ freed, evs = [Event.bulk_free freed]) ∧
      vhost_enqueue_count evs = 0 ∧
      w'.enqueue_calls = w.enqueue_calls ∧
      dev'.stats.tx_dropped = vhost_dev.stats.tx_dropped + (pkts.length : Int) ∧
      dev'.stats.tx_packets = vhost_dev.stats.tx_packets ∧
      dev'.stats.tx_bytes = vhost_dev.stats.tx_bytes := by
  rw [vhost_send_down env fuel vhost_dev pkts may_steal w hdown]
  by_cases hs : may_steal = true ∧ u32_of_int (pkts.length : Int) ≠ 0
  · rw [if_pos hs]
    exact ⟨_, _, [Event.bulk_free _], rfl, rfl, Or.inr ⟨_, rfl⟩, rfl, rfl, rfl, rfl, rfl⟩
  · rw [if_neg hs]
    exact ⟨_, _, [], rfl, by simp, Or.inl rfl, rfl, rfl, rfl, rfl, rfl⟩

/-- Witness for C16: five packets sent to the demo device, which has no session. -/
theorem vhost_send_not_running_witness :
    (demo_dev.virtio_dev = 0 ∨
      demo_world.virtio_flags demo_dev.virtio_dev &&& VIRTIO_DEV_RUNNING = 0) ∧
    ∃ (dev' : netdev_dpdk) (w' : World) (evs : List Event),
      __netdev_dpdk_vhost_send demo_env 10 demo_dev [1, 2, 3, 4, 5] true demo_world
        = some (dev', w') ∧
      w'.trace = demo_world.trace ++ evs ∧
      (evs = [] ∨ ∃ freed, evs = [Event.bulk_free freed]) ∧
      vhost_enqueue_count evs = 0 ∧
      w'.enqueue_calls = demo_world.enqueue_calls ∧
      dev'.stats.tx_dropped
        = demo_dev.stats.tx_dropped + (([1, 2, 3, 4, 5] : List Mbuf).length : Int) ∧
      dev'.stats.tx_packets = demo_dev.stats.tx_packets ∧
      dev'.stats.tx_bytes = demo_dev.stats.tx_bytes :=
  ⟨Or.inl rfl,
   vhost_send_not_running demo_env 10 demo_dev [1, 2, 3, 4, 5] true demo_world (Or.inl rfl)⟩

end NetdevDpdk

namespace NetdevDpdk

theorem vhost_wait_loop_frame (env : Env) (start : Nat) :
    ∀ (fuel : Nat) (w : World) (expired : Bool) (w1 : World),
      vhost_wait_loop env start fuel w = some (expired, w1) →
      w1.trace = w.trace ∧ w1.pkt_size = w.pkt_size ∧ w1.enqueue_calls = w.enqueue_calls := by
  intro fuel
  induction fuel with
  | zero =>
      intro w expired w1 h
      simp [vhost_wait_loop] at h
  | succ fuel ih =>
      intro w expired w1 h
      rw [vhost_wait_loop] at h
      simp only [] at h
      split_ifs at h with c1 c2
      · injection h with h
        injection h with _ e
        rw [← e]
        exact ⟨rfl, rfl, rfl⟩
      · obtain ⟨a, b, c⟩ := ih _ expired w1 h
        exact ⟨a, b, c⟩
      · injection h with h
        injection h with _ e
        rw [← e]
        exact ⟨rfl, rfl, rfl⟩

theorem vhost_cnt_sub (c tx : Nat) (hc : c < 2147483648) (htx : tx ≤ c) :
    int_of_u32 ((u32_of_int (c : Int) + (U32 - tx % U32)) % U32) = ((c - tx : Nat) : Int) := by
  have hU : U32 = 4294967296 := rfl
  have h1 : u32_of_int (c : Int) = c := by
    rw [u32_of_int_small (c : Int) (by omega) (by omega)]
    simp
  have h2 : tx % U32 = tx := Nat.mod_eq_of_lt (by rw [hU]; omega)
  have h3 : (c + (U32 - tx)) % U32 = c - tx := by
    rw [hU]
    omega
  rw [h1, h2, h3]
  exact int_of_u32_small _ (by omega)

theorem vhost_send_loop_spec (env : Env) (wfuel : Nat) (vd : Nat) (pkts : List Mbuf)
    (hint : pkts.length < 2147483648)
    (henv : ∀ k n, env.rte_vhost_enqueue_burst k n ≤ n) :
    ∀ (fuel cur c start : Nat) (w : World) (cnt1 : Int) (w1 : World),
      cur + c = pkts.length →
      vhost_send_loop env wfuel vd pkts fuel cur (c : Int) start w = some (cnt1, w1) →
      ∃ (evs : List Event) (s : Nat),
        w1.trace = w.trace ++ evs ∧ vhost_run vd pkts cur evs s ∧ cur ≤ s ∧
        s ≤ pkts.length ∧ cnt1 = (pkts.length : Int) - (s : Int) ∧
        w1.pkt_size = w.pkt_size := by
  intro fuel
  induction fuel with
  | zero =>
      intro cur c start w cnt1 w1 _ h
      simp [vhost_send_loop] at h
  | succ fuel ih =>
      intro cur c start w cnt1 w1 hsum h
      have hn : u32_of_int (c : Int) % 65536 = (pkts.length - cur) % 65536 := by
        rw [u32_of_int_small (c : Int) (by omega) (by omega)]
        simp only [Int.toNat_ofNat]
        congr 1
        omega
      rw [vhost_send_loop] at h
      simp only [hn] at h
      have hle := henv w.enqueue_calls ((pkts.length - cur) % 65536)
      have hmod : (pkts.length - cur) % 65536 ≤ pkts.length - cur := Nat.mod_le _ _
      by_cases htx : env.rte_vhost_enqueue_burst w.enqueue_calls
          ((pkts.length - cur) % 65536) ≠ 0
      · rw [if_pos htx] at h
        have hsub := vhost_cnt_sub c (env.rte_vhost_enqueue_burst w.enqueue_calls
          ((pkts.length - cur) % 65536)) (by omega) (by omega)
        rw [hsub] at h
        split_ifs at h with hc
        · obtain ⟨evs, s, e1, e2, e3, e4, e5, e6⟩ := ih _ _ _ _ cnt1 w1 (by omega) h
          refine ⟨_ :: evs, s, ?_, vhost_run.step cur _ evs s hle e2, by omega, e4, e5, ?_⟩
          · rw [e1]
            simp [World.log]
          · rw [e6]
            rfl
        · injection h with h
          injection h with a1 a2
          refine ⟨[_], cur + env.rte_vhost_enqueue_burst w.enqueue_calls
            ((pkts.length - cur) % 65536), ?_, vhost_run.step cur _ [] _ hle (vhost_run.done _),
            by omega, by omega, ?_, ?_⟩
          · rw [← a2]
            rfl
          · rw [← a1]
            have h0 : ((c - env.rte_vhost_enqueue_burst w.enqueue_calls
                ((pkts.length - cur) % 65536) : Nat) : Int) = 0 := not_not.mp hc
            omega
          · rw [← a2]
            rfl
      · rw [if_neg htx] at h
        have h0 : env.rte_vhost_enqueue_burst w.enqueue_calls
            ((pkts.length - cur) % 65536) = 0 := not_not.mp htx
        split at h
        · cases h
        · rename_i expired w3 hwait
          obtain ⟨f1, f2, _⟩ := vhost_wait_loop_frame env _ wfuel _ expired w3 hwait
          have hstep : vhost_run vd pkts cur
              [Event.vhost_enqueue vd ((pkts.drop cur).take ((pkts.length - cur) % 65536))
                (env.rte_vhost_enqueue_burst w.enqueue_calls
                  ((pkts.length - cur) % 65536))] cur := by
            have h' := @vhost_run.step vd pkts cur
              (env.rte_vhost_enqueue_burst w.enqueue_calls ((pkts.length - cur) % 65536)) []
              (cur + env.rte_vhost_enqueue_burst w.enqueue_calls
                ((pkts.length - cur) % 65536)) hle (vhost_run.done _)
            rw [h0] at h' ⊢
            exact h'
          have ht3 : w3.trace = w.trace ++ [Event.vhost_enqueue vd
              ((pkts.drop cur).take ((pkts.length - cur) % 65536))
              (env.rte_vhost_enqueue_burst w.enqueue_calls
                ((pkts.length - cur) % 65536))] := by
            rw [f1]
            split_ifs <;> rfl
          have hp3 : w3.pkt_size = w.pkt_size := by
            rw [f2]
            split_ifs <;> rfl
          by_cases hexp : expired = true
          · rw [if_pos hexp] at h
            injection h with h
            injection h with a1 a2
            refine ⟨_, cur, ?_, hstep, le_refl _, by omega, ?_, ?_⟩
            · rw [← a2]
              exact ht3
            · rw [← a1]
              omega
            · rw [← a2]
              exact hp3
          · rw [if_neg hexp] at h
            by_cases hc : (c : Int) ≠ 0
            · rw [if_pos hc] at h
              obtain ⟨evs, s, e1, e2, e3, e4, e5, e6⟩ := ih _ _ _ _ cnt1 w1 hsum h
              have hcons := @vhost_run.step vd pkts cur
                (env.rte_vhost_enqueue_burst w.enqueue_calls ((pkts.length - cur) % 65536))
                evs s hle (by rw [h0]; exact e2)
              refine ⟨_ :: evs, s, ?_, hcons, e3, e4, e5, ?_⟩
              · rw [e1, ht3]
                simp
              · rw [e6]
                exact hp3
            · rw [if_neg hc] at h
              injection h with h
              injection h with a1 a2
              refine ⟨_, cur, ?_, hstep, le_refl _, by omega, ?_, ?_⟩
              · rw [← a2]
                exact ht3
              · rw [← a1]
                omega
              · rw [← a2]
                exact hp3

theorem vhost_run_mono (vd : Nat) (pkts : List Mbuf) (cur : Nat) (evs : List Event) (s : Nat)
    (h : vhost_run vd pkts cur evs s) : cur ≤ s := by
  induction h with
  | done cur => exact le_refl _
  | step cur ret rest s hret h ih => omega

theorem vhost_run_accepted (vd : Nat) (pkts : List Mbuf) (cur : Nat) (evs : List Event)
    (s : Nat) (h : vhost_run vd pkts cur evs s) :
    vhost_accepted_of evs = (pkts.drop cur).take (s - cur) ∧
    vhost_enqueue_count evs = evs.length := by
  induction h with
  | done cur => simp [vhost_accepted_of, vhost_enqueue_count]
  | step cur ret rest s hret h ih =>
      have hm := vhost_run_mono vd pkts _ rest s h
      constructor
      · show ((pkts.drop cur).take ((pkts.length - cur) % 65536)).take ret
            ++ vhost_accepted_of rest = _
        rw [ih.1, List.take_take, Nat.min_eq_left hret]
        have e : s - cur = ret + (s - (cur + ret)) := by omega
        rw [e, List.take_add, List.drop_drop]
      · show vhost_enqueue_count rest + 1 = rest.length + 1
        rw [ih.2]

/-- C17: a running session, a burst of `cnt >= 1` packets (`cnt` an `int`), enqueue results
that are each at most the number of packets offered, and any availability and timer
readings; take a call of `__netdev_dpdk_vhost_send` that returns.  Its enqueue calls form a
`vhost_run` from cursor 0: each offers the packets from the cursor on, in burst order, and
the cursor advances by the result.  With `s` the final cursor, the total accepted: the
packets accepted are the first `s` of the burst, the `cnt - s` others are the last ones;
`tx_packets` has grown by `s`, `tx_dropped` by `cnt - s`, and `tx_bytes` by the sizes of
the first `s` packets. -/
theorem vhost_send_counts (env : Env) (fuel : Nat) (vhost_dev : netdev_dpdk)
    (pkts : List Mbuf) (may_steal : Bool) (w : World) (dev' : netdev_dpdk) (w' : World)
    (hrun : is_vhost_running w vhost_dev.virtio_dev = true) (hcnt : 1 ≤ pkts.length)
    (hint : pkts.length < 2147483648)
    (henv : ∀ k n, env.rte_vhost_enqueue_burst k n ≤ n)
    (hret : __netdev_dpdk_vhost_send env fuel vhost_dev pkts may_steal w = some (dev', w')) :
    ∃ (evs : List Event) (s : Nat),
      s ≤ pkts.length ∧
      w'.trace = w.trace ++ evs ++ (if may_steal = true then [Event.bulk_free pkts] else []) ∧
      vhost_run vhost_dev.virtio_dev pkts 0 evs s ∧
      vhost_accepted_of evs = pkts.take s ∧
      pkts = vhost_accepted_of evs ++ pkts.drop s ∧
      dev'.stats.tx_packets = vhost_dev.stats.tx_packets + (s : Int) ∧
      dev'.stats.tx_dropped = vhost_dev.stats.tx_dropped + ((pkts.length : Int) - (s : Int)) ∧
      dev'.stats.tx_bytes = vhost_dev.stats.tx_bytes + ((pkts.take s).map w.pkt_size).sum := by
  have hU : u32_of_int (pkts.length : Int) = pkts.length := by
    rw [u32_of_int_small _ (by omega) (by omega)]
    simp
  have hI : int_of_u32 pkts.length = (pkts.length : Int) := int_of_u32_small _ hint
  unfold __netdev_dpdk_vhost_send at hret
  simp only [hrun, hU, hI] at hret
  rw [if_neg (by simp)] at hret
  split at hret
  · cases hret
  · rename_i cnt1 w1 hloop
    obtain ⟨evs, s, e1, e2, e3, e4, e5, e6⟩ := vhost_send_loop_spec env fuel
      vhost_dev.virtio_dev pkts hint henv fuel 0 pkts.length 0 w cnt1 w1 (by omega) hloop
    have hacc := (vhost_run_accepted vhost_dev.virtio_dev pkts 0 evs s e2).1
    rw [List.drop_zero, Nat.sub_zero] at hacc
    injection hret with hret
    injection hret with a1 a2
    refine ⟨evs, s, e4, ?_, e2, hacc, ?_, ?_, ?_, ?_⟩
    · rw [← a2]
      by_cases hs : may_steal = true
      · have hne : pkts.length ≠ 0 := by omega
        simp [hs, hne, World.log, e1, List.take_length]
      · simp [hs, e1]
    · rw [hacc, List.take_append_drop]
    · rw [← a1, e5]
      show vhost_dev.stats.tx_packets + ((pkts.length : Int) - ((pkts.length : Int) - (s : Int)))
        = _
      omega
    · rw [← a1, e5]
      rfl
    · rw [← a1, e5, ← e6]
      show vhost_dev.stats.tx_bytes
          + ((pkts.take ((pkts.length : Int) - ((pkts.length : Int) - (s : Int))).toNat).map
              w1.pkt_size).sum = _
      have e : ((pkts.length : Int) - ((pkts.length : Int) - (s : Int))).toNat = s := by omega
      rw [e]

/-- Witness for C17: five packets sent to a running session that accepts two packets at
the first call and nothing afterwards, with no free ring entry; the call returns after the
timeout with `s = 2`. -/
theorem vhost_send_counts_witness :
    ∃ (dev' : netdev_dpdk) (w' : World) (evs : List Event) (s : Nat),
      __netdev_dpdk_vhost_send demo_env_stalled 50 demo_vhost_dev [1, 2, 3, 4, 5] true
        demo_vhost_world = some (dev', w') ∧
      dev'.stats.tx_packets = 2 ∧ dev'.stats.tx_dropped = 3 ∧ dev'.stats.tx_bytes = 3 ∧
      s ≤ ([1, 2, 3, 4, 5] : List Mbuf).length ∧
      w'.trace = demo_vhost_world.trace ++ evs
        ++ (if true = true then [Event.bulk_free [1, 2, 3, 4, 5]] else []) ∧
      vhost_run demo_vhost_dev.virtio_dev [1, 2, 3, 4, 5] 0 evs s ∧
      vhost_accepted_of evs = ([1, 2, 3, 4, 5] : List Mbuf).take s ∧
      ([1, 2, 3, 4, 5] : List Mbuf) = vhost_accepted_of evs ++ [1, 2, 3, 4, 5].drop s ∧
      dev'.stats.tx_packets = demo_vhost_dev.stats.tx_packets + (s : Int) ∧
      dev'.stats.tx_dropped = demo_vhost_dev.stats.tx_dropped
        + ((([1, 2, 3, 4, 5] : List Mbuf).length : Int) - (s : Int)) ∧
      dev'.stats.tx_bytes = demo_vhost_dev.stats.tx_bytes
        + ((([1, 2, 3, 4, 5] : List Mbuf).take s).map demo_vhost_world.pkt_size).sum :=
  have h := vhost_send_counts demo_env_stalled 50 demo_vhost_dev [1, 2, 3, 4, 5] true
    demo_vhost_world _ _ (by decide) (by decide) (by decide)
    (fun k n => by
      show (if k = 0 then min n 2 else 0) ≤ n
      split
      · exact Nat.min_le_left _ _
      · exact Nat.zero_le _) rfl
  ⟨_, _, h.choose, h.choose_spec.choose, rfl, rfl, rfl, rfl, h.choose_spec.choose_spec⟩

end NetdevDpdk

/-! ## Properties of session attach and detach -/

namespace NetdevDpdk

theorem running_flag_set (f : Nat) :
    (f ||| VIRTIO_DEV_RUNNING) &&& VIRTIO_DEV_RUNNING = VIRTIO_DEV_RUNNING := by
  show (f ||| 1) &&& 1 = 1
  rw [Nat.and_one_is_mod]
  exact Nat.or_mod_two_eq_one.mpr (Or.inr rfl)

theorem running_flag_clear (f : Nat) :
    (f &&& (U32 - 1 - VIRTIO_DEV_RUNNING)) &&& VIRTIO_DEV_RUNNING = 0 := by
  show (f &&& 4294967294) &&& 1 = 0
  rw [Nat.and_assoc]
  simp

theorem strncmp_eq_zero_iff : ∀ (s1 s2 : List Nat) (n : Nat),
    strncmp s1 s2 n = 0 ↔ s1.take n = s2.take n := by
  intro s1
  induction s1 with
  | nil =>
      intro s2 n
      cases n with
      | zero => simp [strncmp]
      | succ n =>
          cases s2 with
          | nil => simp [strncmp]
          | cons b s2 => simp [strncmp]
  | cons a s1 ih =>
      intro s2 n
      cases n with
      | zero => simp [strncmp]
      | succ n =>
          cases s2 with
          | nil => simp [strncmp]
          | cons b s2 =>
              rw [strncmp]
              by_cases hab : a = b
              · rw [if_pos hab, ih s2 n, hab]
                simp
              · rw [if_neg hab]
                have hne : (if a < b then (-1 : Int) else 1) ≠ 0 := by
                  split <;> decide
                simp [hne, hab]

theorem new_device_loop_none (IF_NAME_SZ : Nat) (ifname : List Nat) (dev : Nat) :
    ∀ (l : List netdev_dpdk),
      new_device_loop IF_NAME_SZ ifname dev l = none ↔
        ∀ d, d ∈ l → strncmp ifname d.vhost_id IF_NAME_SZ ≠ 0 := by
  intro l
  induction l with
  | nil => simp [new_device_loop]
  | cons d rest ih =>
      rw [new_device_loop]
      by_cases h : strncmp ifname d.vhost_id IF_NAME_SZ = 0
      · rw [if_pos h]
        constructor
        · intro h'
          cases h'
        · intro hall
          exact absurd h (hall d (List.mem_cons_self _ _))
      · rw [if_neg h]
        constructor
        · intro hn d' hd'
          have hrest : new_device_loop IF_NAME_SZ ifname dev rest = none := by
            cases hr : new_device_loop IF_NAME_SZ ifname dev rest with
            | none => rfl
            | some r =>
                rw [hr] at hn
                cases hn
          rcases List.mem_cons.mp hd' with e | e
          · rw [e]
            exact h
          · exact (ih.mp hrest) d' e
        · intro hall
          have hrest := ih.mpr (fun d' hd' => hall d' (List.mem_cons_of_mem _ hd'))
          rw [hrest]

theorem new_device_loop_first (IF_NAME_SZ : Nat) (ifname : List Nat) (dev : Nat) :
    ∀ (pre : List netdev_dpdk) (d : netdev_dpdk) (post : List netdev_dpdk),
      (∀ x, x ∈ pre → strncmp ifname x.vhost_id IF_NAME_SZ ≠ 0) →
      strncmp ifname d.vhost_id IF_NAME_SZ = 0 →
      new_device_loop IF_NAME_SZ ifname dev (pre ++ d :: post)
        = some (pre ++ { d with virtio_dev := dev } :: post) := by
  intro pre
  induction pre with
  | nil =>
      intro d post _ hd
      simp only [List.nil_append]
      rw [new_device_loop, if_pos hd]
  | cons x pre ih =>
      intro d post hpre hd
      simp only [List.cons_append]
      rw [new_device_loop, if_neg (hpre x (List.mem_cons_self _ _)),
        ih d post (fun y hy => hpre y (List.mem_cons_of_mem _ hy)) hd]

theorem first_match_split (IF_NAME_SZ : Nat) (ifname : List Nat) :
    ∀ (l : List netdev_dpdk),
      (∃ d, d ∈ l ∧ strncmp ifname d.vhost_id IF_NAME_SZ = 0) →
      ∃ (pre : List netdev_dpdk) (d : netdev_dpdk) (post : List netdev_dpdk),
        l = pre ++ d :: post ∧
        (∀ x, x ∈ pre → strncmp ifname x.vhost_id IF_NAME_SZ ≠ 0) ∧
        strncmp ifname d.vhost_id IF_NAME_SZ = 0 := by
  intro l
  induction l with
  | nil =>
      rintro ⟨d, hd, _⟩
      cases hd
  | cons x rest ih =>
      rintro ⟨d, hd, hm⟩
      by_cases hx : strncmp ifname x.vhost_id IF_NAME_SZ = 0
      · exact ⟨[], x, rest, rfl, ⟨fun y hy => absurd hy (List.not_mem_nil y), hx⟩⟩
      · have hin : d ∈ rest := by
          rcases List.mem_cons.mp hd with e | e
          · rw [e] at hm
            exact absurd hm hx
          · exact e
        obtain ⟨pre, d', post, e1, e2, e3⟩ := ih ⟨d, hin, hm⟩
        refine ⟨x :: pre, d', post, by rw [e1]; rfl, ?_, e3⟩
        intro y hy
        rcases List.mem_cons.mp hy with e | e
        · rw [e]
          exact hx
        · exact e2 y e

/-- C18: `IF_NAME_SZ` is a parameter.  For every device list and every session `dev`,
`new_device` returns 0 exactly when some device of the list has a `vhost_id` that
`strncmp` finds equal to the `ifname` of the session over `IF_NAME_SZ` characters (the two
strings agree on their first `IF_NAME_SZ` characters).  In that case, with `d` the first
such device in list order, the list afterwards is the list with the session pointer of `d`
set to `dev` and every other device as it was, and the `VIRTIO_DEV_RUNNING` flag of the
session is set (the flags of every other session are unchanged).  Otherwise `new_device`
returns -1 and neither the list nor the world (so no flag) changes. -/
theorem new_device_attaches_first_match (IF_NAME_SZ : Nat) (dev : Nat)
    (dpdk_list : List netdev_dpdk) (w : World) :
    ((new_device IF_NAME_SZ dev dpdk_list w).1 = 0 ↔
      ∃ d, d ∈ dpdk_list ∧ strncmp (w.virtio_ifname dev) d.vhost_id IF_NAME_SZ = 0) ∧
    (∀ (d : netdev_dpdk), strncmp (w.virtio_ifname dev) d.vhost_id IF_NAME_SZ = 0 ↔
      (w.virtio_ifname dev).take IF_NAME_SZ = d.vhost_id.take IF_NAME_SZ) ∧
    (∀ (pre : List netdev_dpdk) (d : netdev_dpdk) (post : List netdev_dpdk),
      dpdk_list = pre ++ d :: post →
      (∀ x, x ∈ pre → strncmp (w.virtio_ifname dev) x.vhost_id IF_NAME_SZ ≠ 0) →
      strncmp (w.virtio_ifname dev) d.vhost_id IF_NAME_SZ = 0 →
      (new_device IF_NAME_SZ dev dpdk_list w).1 = 0 ∧
      (new_device IF_NAME_SZ dev dpdk_list w).2.1
        = pre ++ { d with virtio_dev := dev } :: post ∧
      (new_device IF_NAME_SZ dev dpdk_list w).2.2.virtio_flags dev &&& VIRTIO_DEV_RUNNING
        = VIRTIO_DEV_RUNNING ∧
      (∀ other, other ≠ dev →
        (new_device IF_NAME_SZ dev dpdk_list w).2.2.virtio_flags other
          = w.virtio_flags other)) ∧
    ((∀ d, d ∈ dpdk_list → strncmp (w.virtio_ifname dev) d.vhost_id IF_NAME_SZ ≠ 0) →
      new_device IF_NAME_SZ dev dpdk_list w = (-1, dpdk_list, w)) := by
  have hnone : (∀ d, d ∈ dpdk_list → strncmp (w.virtio_ifname dev) d.vhost_id IF_NAME_SZ ≠ 0) →
      new_device IF_NAME_SZ dev dpdk_list w = (-1, dpdk_list, w) := by
    intro hall
    unfold new_device
    rw [(new_device_loop_none IF_NAME_SZ (w.virtio_ifname dev) dev dpdk_list).mpr hall]
  have hsome : ∀ (pre : List netdev_dpdk) (d : netdev_dpdk) (post : List netdev_dpdk),
      dpdk_list = pre ++ d :: post →
      (∀ x, x ∈ pre → strncmp (w.virtio_ifname dev) x.vhost_id IF_NAME_SZ ≠ 0) →
      strncmp (w.virtio_ifname dev) d.vhost_id IF_NAME_SZ = 0 →
      new_device IF_NAME_SZ dev dpdk_list w
        = (0, pre ++ { d with virtio_dev := dev } :: post,
           { w with
               virtio_flags :=
                 Function.update w.virtio_flags dev
                   (w.virtio_flags dev ||| VIRTIO_DEV_RUNNING) }) := by
    intro pre d post hl hpre hd
    unfold new_device
    rw [hl, new_device_loop_first IF_NAME_SZ (w.virtio_ifname dev) dev pre d post hpre hd]
  refine ⟨?_, fun d => strncmp_eq_zero_iff _ _ _, ?_, hnone⟩
  · constructor
    · intro h0
      by_contra hcon
      have hall : ∀ d, d ∈ dpdk_list →
          strncmp (w.virtio_ifname dev) d.vhost_id IF_NAME_SZ ≠ 0 :=
        fun d hd hz => hcon ⟨d, hd, hz⟩
      rw [hnone hall] at h0
      exact absurd h0 (show ¬ ((-1 : Int) = 0) by decide)
    · intro hex
      obtain ⟨pre, d, post, e1, e2, e3⟩ :=
        first_match_split IF_NAME_SZ (w.virtio_ifname dev) dpdk_list hex
      rw [hsome pre d post e1 e2 e3]
  · intro pre d post hl hpre hd
    rw [hsome pre d post hl hpre hd]
    refine ⟨rfl, rfl, ?_, ?_⟩
    · show Function.update w.virtio_flags dev (w.virtio_flags dev ||| VIRTIO_DEV_RUNNING) dev
        &&& VIRTIO_DEV_RUNNING = VIRTIO_DEV_RUNNING
      rw [Function.update_same]
      exact running_flag_set _
    · intro other hne
      show Function.update w.virtio_flags dev (w.virtio_flags dev ||| VIRTIO_DEV_RUNNING) other
        = w.virtio_flags other
      rw [Function.update_noteq hne]

/-- Witness for C18: the session at address 7, named `[118, 49]`, attached to a list whose
second and third device carry that name: the second one receives the session. -/
theorem new_device_attaches_first_match_witness :
    (new_device 16 7 [demo_dev, { demo_vhost_dev with virtio_dev := 0 }, demo_vhost_dev]
        { demo_vhost_world with virtio_flags := fun _ => 0 }).1 = 0 ∧
    (new_device 16 7 [demo_dev, { demo_vhost_dev with virtio_dev := 0 }, demo_vhost_dev]
        { demo_vhost_world with virtio_flags := fun _ => 0 }).2.1
      = [demo_dev] ++ { ({ demo_vhost_dev with virtio_dev := 0 } : netdev_dpdk) with
            virtio_dev := 7 } :: [demo_vhost_dev] ∧
    (new_device 16 7 [demo_dev, { demo_vhost_dev with virtio_dev := 0 }, demo_vhost_dev]
        { demo_vhost_world with virtio_flags := fun _ => 0 }).2.2.virtio_flags 7
      &&& VIRTIO_DEV_RUNNING = VIRTIO_DEV_RUNNING ∧
    new_device 16 7 [demo_dev] demo_vhost_world = (-1, [demo_dev], demo_vhost_world) :=
  have h := (new_device_attaches_first_match 16 7
    [demo_dev, { demo_vhost_dev with virtio_dev := 0 }, demo_vhost_dev]
    { demo_vhost_world with virtio_flags := fun _ => 0 }).2.2.1 [demo_dev]
    { demo_vhost_dev with virtio_dev := 0 } [demo_vhost_dev] rfl
    (by
      intro x hx
      rw [List.mem_singleton.mp hx]
      decide)
    (by decide)
  ⟨h.1, h.2.1, h.2.2.1,
   (new_device_attaches_first_match 16 7 [demo_dev] demo_vhost_world).2.2.2
     (by
       intro d hd
       rw [List.mem_singleton.mp hd]
       decide)⟩

end NetdevDpdk

namespace NetdevDpdk

theorem destroy_device_loop_spec (dev : Nat) :
    ∀ (l : List netdev_dpdk) (w : World),
      (destroy_device_loop dev l w).1
        = l.map (fun d => if d.virtio_dev = dev then { d with virtio_dev := 0 } else d) ∧
      (∀ other, other ≠ dev →
        (destroy_device_loop dev l w).2.virtio_flags other = w.virtio_flags other) ∧
      ((∀ d, d ∈ l → d.virtio_dev ≠ dev) → (destroy_device_loop dev l w).2 = w) ∧
      (w.virtio_flags dev &&& VIRTIO_DEV_RUNNING = 0 →
        (destroy_device_loop dev l w).2.virtio_flags dev &&& VIRTIO_DEV_RUNNING = 0) ∧
      ((∃ d, d ∈ l ∧ d.virtio_dev = dev) →
        (destroy_device_loop dev l w).2.virtio_flags dev &&& VIRTIO_DEV_RUNNING = 0) := by
  intro l
  induction l with
  | nil =>
      intro w
      refine ⟨rfl, fun _ _ => rfl, fun _ => rfl, fun h => h, ?_⟩
      rintro ⟨d, hd, _⟩
      cases hd
  | cons x rest ih =>
      intro w
      rw [destroy_device_loop]
      by_cases hx : x.virtio_dev = dev
      · simp only [if_pos hx]
        obtain ⟨h1, h2, _, h4, _⟩ := ih
          { w with
              virtio_flags :=
                Function.update w.virtio_flags dev
                  (w.virtio_flags dev &&& (U32 - 1 - VIRTIO_DEV_RUNNING)) }
        have hclear : (destroy_device_loop dev rest
            { w with
                virtio_flags :=
                  Function.update w.virtio_flags dev
                    (w.virtio_flags dev &&& (U32 - 1 - VIRTIO_DEV_RUNNING)) }).2.virtio_flags dev
            &&& VIRTIO_DEV_RUNNING = 0 := by
          apply h4
          show Function.update w.virtio_flags dev _ dev &&& VIRTIO_DEV_RUNNING = 0
          rw [Function.update_same]
          exact running_flag_clear _
        refine ⟨?_, ?_, ?_, fun _ => hclear, fun _ => hclear⟩
        · rw [List.map_cons, if_pos hx, h1]
        · intro other hne
          rw [h2 other hne]
          show Function.update w.virtio_flags dev _ other = w.virtio_flags other
          rw [Function.update_noteq hne]
        · intro hall
          exact absurd hx (hall x (List.mem_cons_self _ _))
      · simp only [if_neg hx]
        obtain ⟨h1, h2, h3, h4, h5⟩ := ih w
        refine ⟨?_, h2, ?_, h4, ?_⟩
        · rw [List.map_cons, if_neg hx, h1]
        · intro hall
          exact h3 (fun d hd => hall d (List.mem_cons_of_mem _ hd))
        · rintro ⟨d, hd, hb⟩
          rcases List.mem_cons.mp hd with e | e
          · rw [e] at hb
            exact absurd hb hx
          · exact h5 ⟨d, e, hb⟩

/-- C19 (amended): for every device list and every session `dev` (a non-`NULL` pointer),
once `destroy_device(dev)` has returned: every device that was bound to `dev` has a `NULL`
session pointer, every other device is as it was, and no device's session pointer equals
`dev`; when some device of the list was bound to `dev`, the `VIRTIO_DEV_RUNNING` flag of
`dev` is clear (when none was, the world is unchanged); the flags of the other sessions are
unchanged.  And on a device whose session pointer is `NULL`, as those devices are until a
new attach, every `__netdev_dpdk_vhost_send` of `cnt` packets calls no enqueue, counts all
`cnt` as dropped and none as sent, and `netdev_dpdk_vhost_rxq_recv` returns `EAGAIN` with no
dequeue call, device and world unchanged. -/
theorem destroy_device_detaches (dev : Nat) (hdev : dev ≠ 0) (dpdk_list : List netdev_dpdk)
    (w : World) :
    (destroy_device dev dpdk_list w).1
      = dpdk_list.map (fun d => if d.virtio_dev = dev then { d with virtio_dev := 0 } else d) ∧
    (∀ d, d ∈ (destroy_device dev dpdk_list w).1 → d.virtio_dev ≠ dev) ∧
    ((∃ d, d ∈ dpdk_list ∧ d.virtio_dev = dev) →
      (destroy_device dev dpdk_list w).2.virtio_flags dev &&& VIRTIO_DEV_RUNNING = 0 ∧
      is_vhost_running (destroy_device dev dpdk_list w).2 dev = false) ∧
    ((∀ d, d ∈ dpdk_list → d.virtio_dev ≠ dev) → (destroy_device dev dpdk_list w).2 = w) ∧
    (∀ other, other ≠ dev →
      (destroy_device dev dpdk_list w).2.virtio_flags other = w.virtio_flags other) ∧
    (∀ (d0 : netdev_dpdk), d0.virtio_dev = 0 →
      ∀ (env : Env) (fuel : Nat) (pkts : List Mbuf) (may_steal : Bool) (w2 : World),
        ∃ (dev' : netdev_dpdk) (w' : World) (evs : List Event),
          __netdev_dpdk_vhost_send env fuel d0 pkts may_steal w2 = some (dev', w') ∧
          w'.trace = w2.trace ++ evs ∧ vhost_enqueue_count evs = 0 ∧
          w'.enqueue_calls = w2.enqueue_calls ∧
          dev'.stats.tx_dropped = d0.stats.tx_dropped + (pkts.length : Int) ∧
          dev'.stats.tx_packets = d0.stats.tx_packets ∧
          dev'.stats.tx_bytes = d0.stats.tx_bytes ∧
          dev'.virtio_dev = 0) ∧
    (∀ (d0 : netdev_dpdk), d0.virtio_dev = 0 →
      ∀ (env : Env) (after_dequeue : netdev_dpdk → Nat → World → Int × netdev_dpdk × World)
        (w2 : World),
        netdev_dpdk_vhost_rxq_recv env after_dequeue d0 w2 = (EAGAIN, d0, w2)) := by
  obtain ⟨h1, h2, h3, _, h5⟩ := destroy_device_loop_spec dev dpdk_list w
  refine ⟨h1, ?_, ?_, h3, h2, ?_, ?_⟩
  · intro d hd
    have hd' : d ∈ dpdk_list.map
        (fun d => if d.virtio_dev = dev then { d with virtio_dev := 0 } else d) := by
      rw [← h1]
      exact hd
    obtain ⟨x, _, hx⟩ := List.mem_map.mp hd'
    by_cases hb : x.virtio_dev = dev
    · rw [if_pos hb] at hx
      rw [← hx]
      exact fun h => hdev h.symm
    · rw [if_neg hb] at hx
      rw [← hx]
      exact hb
  · intro hex
    have hc := h5 hex
    exact ⟨hc, (is_vhost_running_false_iff _ dev).mpr (Or.inr hc)⟩
  · intro d0 hd0 env fuel pkts may_steal w2
    rw [vhost_send_down env fuel d0 pkts may_steal w2 (Or.inl hd0)]
    by_cases hs : may_steal = true ∧ u32_of_int (pkts.length : Int) ≠ 0
    · rw [if_pos hs]
      exact ⟨_, _, [Event.bulk_free _], rfl, rfl, rfl, rfl, rfl, rfl, rfl, hd0⟩
    · rw [if_neg hs]
      exact ⟨_, _, [], rfl, by simp, rfl, rfl, rfl, rfl, rfl, hd0⟩
  · intro d0 hd0 env after_dequeue w2
    unfold netdev_dpdk_vhost_rxq_recv
    have hrun := (is_vhost_running_false_iff w2 d0.virtio_dev).mpr (Or.inl hd0)
    simp only [hrun, if_true]

/-- Witness for C19: the session at address 7 detached from a list in which two devices
are bound to it. -/
theorem destroy_device_detaches_witness :
    (7 : Nat) ≠ 0 ∧
    ((destroy_device 7 [demo_dev, demo_vhost_dev, demo_vhost_dev] demo_vhost_world).1.map
      (fun d => d.virtio_dev)) = [0, 0, 0] ∧
    (∃ d, d ∈ [demo_dev, demo_vhost_dev, demo_vhost_dev] ∧ d.virtio_dev = 7) ∧
    (destroy_device 7 [demo_dev, demo_vhost_dev, demo_vhost_dev]
        demo_vhost_world).2.virtio_flags 7 &&& VIRTIO_DEV_RUNNING = 0 ∧
    is_vhost_running
      (destroy_device 7 [demo_dev, demo_vhost_dev, demo_vhost_dev] demo_vhost_world).2 7
      = false :=
  ⟨by decide, by decide, ⟨demo_vhost_dev, by simp, rfl⟩,
   ((destroy_device_detaches 7 (by decide) [demo_dev, demo_vhost_dev, demo_vhost_dev]
      demo_vhost_world).2.2.1 ⟨demo_vhost_dev, by simp, rfl⟩).1,
   ((destroy_device_detaches 7 (by decide) [demo_dev, demo_vhost_dev, demo_vhost_dev]
      demo_vhost_world).2.2.1 ⟨demo_vhost_dev, by simp, rfl⟩).2⟩

/-- Counterexample to C19 as stated: the session at address 7 has its
`VIRTIO_DEV_RUNNING` flag set and no device of the list is bound to it; after
`destroy_device(7)` the flag is still set. -/
theorem destroy_device_detaches_counterexample :
    demo_dev.virtio_dev = 0 ∧
    demo_vhost_world.virtio_flags 7 &&& VIRTIO_DEV_RUNNING = 1 ∧
    (destroy_device 7 [demo_dev] demo_vhost_world).2.virtio_flags 7 &&& VIRTIO_DEV_RUNNING
      = 1 := by
  refine ⟨rfl, ?_, ?_⟩
  · decide
  · decide

end NetdevDpdk

/-! ## Properties of the pool registry -/

namespace NetdevDpdk

theorem dpdk_mp_list_lookup_none (socket_id mtu : Int) :
    ∀ (l : List dpdk_mp),
      (∀ d, d ∈ l → ¬ (d.socket_id = socket_id ∧ d.mtu = mtu)) →
      dpdk_mp_list_lookup socket_id mtu l = none := by
  intro l
  induction l with
  | nil =>
      intro _
      rfl
  | cons d rest ih =>
      intro hall
      rw [dpdk_mp_list_lookup, if_neg (hall d (List.mem_cons_self _ _)),
        ih (fun d' hd' => hall d' (List.mem_cons_of_mem _ hd'))]

theorem dpdk_mp_list_lookup_first (socket_id mtu : Int) :
    ∀ (pre : List dpdk_mp) (e : dpdk_mp) (post : List dpdk_mp),
      (∀ d, d ∈ pre → ¬ (d.socket_id = socket_id ∧ d.mtu = mtu)) →
      e.socket_id = socket_id → e.mtu = mtu →
      dpdk_mp_list_lookup socket_id mtu (pre ++ e :: post)
        = some (pre.length, pre ++ { e with refcount := e.refcount + 1 } :: post) := by
  intro pre
  induction pre with
  | nil =>
      intro e post _ h1 h2
      simp only [List.nil_append, List.length_nil]
      rw [dpdk_mp_list_lookup, if_pos ⟨h1, h2⟩]
  | cons x pre ih =>
      intro e post hpre h1 h2
      simp only [List.cons_append, List.length_cons]
      rw [dpdk_mp_list_lookup, if_neg (hpre x (List.mem_cons_self _ _)),
        ih e post (fun y hy => hpre y (List.mem_cons_of_mem _ hy)) h1 h2]

theorem dpdk_mp_key_split (socket_id mtu : Int) :
    ∀ (l : List dpdk_mp),
      (∃ d, d ∈ l ∧ d.socket_id = socket_id ∧ d.mtu = mtu) →
      ∃ (pre : List dpdk_mp) (e : dpdk_mp) (post : List dpdk_mp),
        l = pre ++ e :: post ∧
        (∀ d, d ∈ pre → ¬ (d.socket_id = socket_id ∧ d.mtu = mtu)) ∧
        e.socket_id = socket_id ∧ e.mtu = mtu := by
  intro l
  induction l with
  | nil =>
      rintro ⟨d, hd, _⟩
      cases hd
  | cons x rest ih =>
      rintro ⟨d, hd, hk⟩
      by_cases hx : x.socket_id = socket_id ∧ x.mtu = mtu
      · exact ⟨[], x, rest, rfl, ⟨fun y hy => absurd hy (List.not_mem_nil y), hx⟩⟩
      · have hin : d ∈ rest := by
          rcases List.mem_cons.mp hd with e | e
          · rw [e] at hk
            exact absurd hk hx
          · exact e
        obtain ⟨pre, e, post, e1, e2, e3⟩ := ih ⟨d, hin, hk⟩
        refine ⟨x :: pre, e, post, by rw [e1]; rfl, ?_, e3⟩
        intro y hy
        rcases List.mem_cons.mp hy with h | h
        · rw [h]
          exact hx
        · exact e2 y h

theorem dpdk_mp_create_loop_total (env : EthEnv) :
    ∀ (k fuel mp_size : Nat) (w : EthWorld),
      k + 1 ≤ fuel → mp_size < MIN_NB_MBUF * 2 ^ (k + 1) →
      ∃ (mp : Nat) (w1 : EthWorld) (evs : List EthEvent),
        dpdk_mp_create_loop env fuel mp_size w = some (mp, w1) ∧
        w1.trace = w.trace ++ evs ∧ start_count evs = 0 ∧
        (created_of evs).length ≤ k + 1 := by
  intro k
  induction k with
  | zero =>
      intro fuel mp_size w hfuel hsize
      obtain ⟨f, rfl⟩ : ∃ f, fuel = f + 1 := ⟨fuel - 1, by omega⟩
      rw [dpdk_mp_create_loop]
      by_cases hs : env.snprintf w.snprintf_calls < 0
      · rw [if_pos hs]
        exact ⟨0, _, [], rfl, by simp, rfl, by simp [created_of]⟩
      · rw [if_neg hs]
        have hM : MIN_NB_MBUF = 16384 := rfl
        have hstop : ¬ (env.rte_mempool_create
              ({ w with snprintf_calls := w.snprintf_calls + 1 } : EthWorld).create_calls
              mp_size = 0 ∧
            env.rte_errno
              ({ w with snprintf_calls := w.snprintf_calls + 1 } : EthWorld).create_calls
              = ENOMEM ∧ mp_size / 2 ≥ MIN_NB_MBUF) := by
          rintro ⟨_, _, h3⟩
          rw [hM] at h3 hsize
          omega
        simp only [if_neg hstop]
        exact ⟨_, _, [EthEvent.mempool_create mp_size
          (env.rte_mempool_create w.create_calls mp_size)], rfl, rfl, rfl,
          by simp [created_of]⟩
  | succ k ih =>
      intro fuel mp_size w hfuel hsize
      obtain ⟨f, rfl⟩ : ∃ f, fuel = f + 1 := ⟨fuel - 1, by omega⟩
      rw [dpdk_mp_create_loop]
      by_cases hs : env.snprintf w.snprintf_calls < 0
      · rw [if_pos hs]
        exact ⟨0, _, [], rfl, by simp, rfl, by simp [created_of]⟩
      · rw [if_neg hs]
        by_cases hgo : env.rte_mempool_create
              ({ w with snprintf_calls := w.snprintf_calls + 1 } : EthWorld).create_calls
              mp_size = 0 ∧
            env.rte_errno
              ({ w with snprintf_calls := w.snprintf_calls + 1 } : EthWorld).create_calls
              = ENOMEM ∧ mp_size / 2 ≥ MIN_NB_MBUF
        · simp only [if_pos hgo]
          have hM : MIN_NB_MBUF = 16384 := rfl
          have hhalf : mp_size / 2 < MIN_NB_MBUF * 2 ^ (k + 1) := by
            rw [hM] at hsize ⊢
            have : 16384 * 2 ^ (k + 1 + 1) = 2 * (16384 * 2 ^ (k + 1)) := by ring
            omega
          obtain ⟨mp, w1, evs, e1, e2, e3, e4⟩ := ih f (mp_size / 2) _ (by omega) hhalf
          refine ⟨mp, w1, EthEvent.mempool_create mp_size
            (env.rte_mempool_create w.create_calls mp_size) :: evs, e1, ?_, ?_, ?_⟩
          · rw [e2]
            simp [EthWorld.log]
          · simpa [start_count] using e3
          · simp only [created_of, List.length_cons]
            omega
        · simp only [if_neg hgo]
          exact ⟨_, _, [EthEvent.mempool_create mp_size
          (env.rte_mempool_create w.create_calls mp_size)], rfl, rfl, rfl,
            by simp [created_of]⟩

/-- C20: for every registry `dpdk_mp_list` and every key `(socket_id, mtu)`.  If the
registry holds an entry with that key, `dpdk_mp_get` returns the first such entry (its
position in the list) with its `refcount` increased by exactly 1, every other entry and
the order of the list as they were, and the world unchanged: no `rte_mempool_create` call,
whatever the fuel.  If no entry has the key, the creation loop runs (it returns within 5
attempts) and, when it yields a pool `mp` that is not `NULL`, `dpdk_mp_get` appends exactly
one entry, with that key, that pool and `refcount = 1`, and returns it (its position is the
old length of the list); when the creation fails it returns `NULL` and the registry is
unchanged. -/
theorem dpdk_mp_get_reuses_or_appends (env : EthEnv) (fuel : Nat) (socket_id mtu : Int)
    (dpdk_mp_list : List dpdk_mp) (w : EthWorld) :
    (∀ (pre : List dpdk_mp) (e : dpdk_mp) (post : List dpdk_mp),
      dpdk_mp_list = pre ++ e :: post →
      (∀ d, d ∈ pre → ¬ (d.socket_id = socket_id ∧ d.mtu = mtu)) →
      e.socket_id = socket_id → e.mtu = mtu →
      dpdk_mp_get env fuel socket_id mtu dpdk_mp_list w
        = some (some pre.length, pre ++ { e with refcount := e.refcount + 1 } :: post, w)) ∧
    ((∃ d, d ∈ dpdk_mp_list ∧ d.socket_id = socket_id ∧ d.mtu = mtu) →
      ∃ (i : Nat) (list1 : List dpdk_mp),
        dpdk_mp_get env fuel socket_id mtu dpdk_mp_list w = some (some i, list1, w) ∧
        list1.length = dpdk_mp_list.length ∧
        (∃ e, dpdk_mp_list[i]? = some e ∧ e.socket_id = socket_id ∧ e.mtu = mtu ∧
          list1[i]? = some { e with refcount := e.refcount + 1 }) ∧
        (∀ j, j ≠ i → list1[j]? = dpdk_mp_list[j]?)) ∧
    ((∀ d, d ∈ dpdk_mp_list → ¬ (d.socket_id = socket_id ∧ d.mtu = mtu)) → 5 ≤ fuel →
      ∃ (mp : Nat) (w1 : EthWorld) (evs : List EthEvent),
        dpdk_mp_create_loop env fuel MAX_NB_MBUF w = some (mp, w1) ∧
        w1.trace = w.trace ++ evs ∧ (created_of evs).length ≤ 5 ∧
        (mp ≠ 0 →
          dpdk_mp_get env fuel socket_id mtu dpdk_mp_list w
            = some (some dpdk_mp_list.length,
                dpdk_mp_list ++ [{ mp := mp, mtu := mtu, socket_id := socket_id,
                                   refcount := 1 }], w1)) ∧
        (mp = 0 →
          dpdk_mp_get env fuel socket_id mtu dpdk_mp_list w = some (none, dpdk_mp_list, w1))) := by
  have hfirst : ∀ (pre : List dpdk_mp) (e : dpdk_mp) (post : List dpdk_mp),
      dpdk_mp_list = pre ++ e :: post →
      (∀ d, d ∈ pre → ¬ (d.socket_id = socket_id ∧ d.mtu = mtu)) →
      e.socket_id = socket_id → e.mtu = mtu →
      dpdk_mp_get env fuel socket_id mtu dpdk_mp_list w
        = some (some pre.length, pre ++ { e with refcount := e.refcount + 1 } :: post, w) := by
    intro pre e post hl hpre h1 h2
    unfold dpdk_mp_get
    rw [hl, dpdk_mp_list_lookup_first socket_id mtu pre e post hpre h1 h2]
  refine ⟨hfirst, ?_, ?_⟩
  · intro hex
    obtain ⟨pre, e, post, hl, hpre, h1, h2⟩ := dpdk_mp_key_split socket_id mtu dpdk_mp_list hex
    refine ⟨pre.length, _, hfirst pre e post hl hpre h1 h2, ?_, ⟨e, ?_, h1, h2, ?_⟩, ?_⟩
    · rw [hl]
      simp
    · rw [hl, List.getElem?_append_right (Nat.le_refl _), Nat.sub_self]
      exact List.getElem?_cons_zero
    · rw [List.getElem?_append_right (Nat.le_refl _), Nat.sub_self]
      exact List.getElem?_cons_zero
    · intro j hj
      rw [hl]
      rcases Nat.lt_or_gt_of_ne hj with hlt | hgt
      · rw [List.getElem?_append_left hlt, List.getElem?_append_left hlt]
      · rw [List.getElem?_append_right (by omega), List.getElem?_append_right (by omega)]
        obtain ⟨m, hm⟩ : ∃ m, j - pre.length = m + 1 := ⟨j - pre.length - 1, by omega⟩
        rw [hm, List.getElem?_cons_succ, List.getElem?_cons_succ]
  · intro hall hfuel
    obtain ⟨mp, w1, evs, e1, e2, _, e4⟩ := dpdk_mp_create_loop_total env 4 fuel MAX_NB_MBUF w
      (by omega) (by decide)
    refine ⟨mp, w1, evs, e1, e2, e4, ?_, ?_⟩
    · intro hne
      unfold dpdk_mp_get
      rw [dpdk_mp_list_lookup_none socket_id mtu dpdk_mp_list hall]
      simp only [e1, if_neg hne]
    · intro h0
      unfold dpdk_mp_get
      rw [dpdk_mp_list_lookup_none socket_id mtu dpdk_mp_list hall]
      simp only [e1, if_pos h0]

/-- Witness for C20: an empty registry creates the pool for socket 0 and MTU 1500 at the
first attempt; a second request with the same key reuses that entry, refcount 2, with no
further creation call. -/
theorem dpdk_mp_get_reuses_or_appends_witness :
    dpdk_mp_get demo_eth_env 5 0 1500 [] demo_eth_world
      = some (some 0, [{ mp := 77, mtu := 1500, socket_id := 0, refcount := 1 }],
          ({ demo_eth_world with snprintf_calls := 1, create_calls := 1 } : EthWorld).log
            (EthEvent.mempool_create 262144 77)) ∧
    dpdk_mp_get demo_eth_env 0 0 1500
        ([] ++ ({ mp := 77, mtu := 1500, socket_id := 0, refcount := 1 } : dpdk_mp) :: [])
        demo_eth_world
      = some (some ([] : List dpdk_mp).length,
          [] ++ { ({ mp := 77, mtu := 1500, socket_id := 0, refcount := 1 } : dpdk_mp) with
                    refcount := 1 + 1 } :: [],
          demo_eth_world) :=
  ⟨rfl,
   (dpdk_mp_get_reuses_or_appends demo_eth_env 0 0 1500
      ([] ++ ({ mp := 77, mtu := 1500, socket_id := 0, refcount := 1 } : dpdk_mp) :: [])
      demo_eth_world).1 [] { mp := 77, mtu := 1500, socket_id := 0, refcount := 1 } [] rfl
      (fun d hd => absurd hd (List.not_mem_nil d)) rfl rfl⟩

end NetdevDpdk

namespace NetdevDpdk

theorem dpdk_mp_create_loop_run (env : EthEnv) :
    ∀ (fuel mp_size : Nat) (w : EthWorld) (mp : Nat) (w1 : EthWorld),
      dpdk_mp_create_loop env fuel mp_size w = some (mp, w1) →
      ∃ (evs : List EthEvent),
        w1.trace = w.trace ++ evs ∧
        pool_create_run env mp_size w.snprintf_calls w.create_calls evs mp := by
  intro fuel
  induction fuel with
  | zero =>
      intro mp_size w mp w1 h
      rw [dpdk_mp_create_loop] at h
      cases h
  | succ f ih =>
      intro mp_size w mp w1 h
      rw [dpdk_mp_create_loop] at h
      by_cases hs : env.snprintf w.snprintf_calls < 0
      · rw [if_pos hs] at h
        injection h with h
        injection h with h1 h2
        refine ⟨[], ?_, ?_⟩
        · rw [← h2]
          simp
        · rw [← h1]
          exact pool_create_run.name_failed mp_size _ _ hs
      · rw [if_neg hs] at h
        by_cases hgo : env.rte_mempool_create w.create_calls mp_size = 0 ∧
            env.rte_errno w.create_calls = ENOMEM ∧ mp_size / 2 ≥ MIN_NB_MBUF
        · simp only [if_pos hgo] at h
          obtain ⟨evs, e1, e2⟩ := ih _ _ _ _ h
          refine ⟨EthEvent.mempool_create mp_size 0 :: evs, ?_, ?_⟩
          · rw [e1]
            simp [EthWorld.log, hgo.1]
          · exact pool_create_run.retry mp_size _ _ evs mp hs hgo.1 hgo.2.1 hgo.2.2 e2
        · simp only [if_neg hgo] at h
          injection h with h
          injection h with h1 h2
          refine ⟨[EthEvent.mempool_create mp_size
            (env.rte_mempool_create w.create_calls mp_size)], ?_, ?_⟩
          · rw [← h2]
            rfl
          · rw [← h1]
            exact pool_create_run.last mp_size _ _ hs hgo

theorem pool_create_run_sizes (env : EthEnv) (mp_size sc cc : Nat) (evs : List EthEvent)
    (mp : Nat) (h : pool_create_run env mp_size sc cc evs mp) :
    ∀ (k : Nat), MIN_NB_MBUF ≤ mp_size → mp_size < MIN_NB_MBUF * 2 ^ k →
      created_of evs <+: halving_sizes k mp_size := by
  induction h with
  | name_failed mp_size sc cc hname =>
      intro k _ _
      exact List.nil_prefix
  | last mp_size sc cc hname hstop =>
      intro k h1 h2
      cases k with
      | zero =>
          rw [pow_zero, Nat.mul_one] at h2
          omega
      | succ k =>
          rw [halving_sizes]
          simp only [created_of]
          exact (List.prefix_cons_inj mp_size).mpr List.nil_prefix
  | retry mp_size sc cc rest mp hname hnull herrno hmin hrest ih =>
      intro k h1 h2
      cases k with
      | zero =>
          rw [pow_zero, Nat.mul_one] at h2
          omega
      | succ k =>
          rw [halving_sizes, if_pos hmin]
          simp only [created_of]
          apply (List.prefix_cons_inj mp_size).mpr
          apply ih k hmin
          have : MIN_NB_MBUF * 2 ^ (k + 1) = 2 * (MIN_NB_MBUF * 2 ^ k) := by ring
          omega

theorem pool_create_run_attempts (env : EthEnv) (mp_size sc cc : Nat) (evs : List EthEvent)
    (mp : Nat) (h : pool_create_run env mp_size sc cc evs mp) :
    (∀ j, j < evs.length →
      evs[j]? = some (EthEvent.mempool_create (mp_size / 2 ^ j)
        (env.rte_mempool_create (cc + j) (mp_size / 2 ^ j)))) ∧
    (∀ j, j + 1 < evs.length →
      env.rte_mempool_create (cc + j) (mp_size / 2 ^ j) = 0 ∧
      env.rte_errno (cc + j) = ENOMEM) ∧
    (mp ≠ 0 → pools_of evs = List.replicate (evs.length - 1) 0 ++ [mp]) ∧
    (mp = 0 → ∀ r, r ∈ pools_of evs → r = 0) := by
  induction h with
  | name_failed mp_size sc cc hname =>
      refine ⟨?_, ?_, ?_, ?_⟩
      · intro j hj
        cases hj
      · intro j hj
        cases hj
      · intro h
        exact absurd rfl h
      · intro _ r hr
        cases hr
  | last mp_size sc cc hname hstop =>
      refine ⟨?_, ?_, ?_, ?_⟩
      · intro j hj
        have hj0 : j = 0 := by
          simp only [List.length_singleton] at hj
          omega
        rw [hj0]
        simp
      · intro j hj
        simp only [List.length_singleton] at hj
        omega
      · intro _
        rfl
      · intro h0 r hr
        simp only [pools_of, List.mem_singleton] at hr
        rw [hr, h0]
  | retry mp_size sc cc rest mp hname hnull herrno hmin hrest ih =>
      obtain ⟨i1, i2, i3, i4⟩ := ih
      have hdiv : ∀ j, mp_size / 2 / 2 ^ j = mp_size / 2 ^ (j + 1) := by
        intro j
        rw [Nat.div_div_eq_div_mul, pow_succ, Nat.mul_comm]
      refine ⟨?_, ?_, ?_, ?_⟩
      · intro j hj
        cases j with
        | zero =>
            simp [hnull]
        | succ j =>
            simp only [List.length_cons] at hj
            have := i1 j (by omega)
            rw [hdiv, Nat.add_assoc, Nat.add_comm 1 j] at this
            rw [List.getElem?_cons_succ]
            exact this
      · intro j hj
        cases j with
        | zero =>
            simp [hnull, herrno]
        | succ j =>
            simp only [List.length_cons] at hj
            have := i2 j (by omega)
            rw [hdiv, Nat.add_assoc, Nat.add_comm 1 j] at this
            exact this
      · intro hne
        have hpos : 0 < rest.length := by
          cases hr : rest with
          | nil =>
              rw [hr] at hrest
              cases hrest
              exact absurd rfl hne
          | cons e es => simp
        simp only [pools_of, List.length_cons, Nat.add_sub_cancel]
        rw [i3 hne]
        obtain ⟨m, hm⟩ : ∃ m, rest.length = m + 1 := ⟨rest.length - 1, by omega⟩
        rw [hm]
        simp [List.replicate_succ]
      · intro h0 r hr
        simp only [pools_of, List.mem_cons] at hr
        rcases hr with hr | hr
        · exact hr
        · exact i4 h0 r hr

/-- C21: when `dpdk_mp_get` has to create a pool (no entry of the registry has the key),
whatever `rte_mempool_create` returns and whatever `rte_errno` it leaves.  The creation loop
returns (fuel 5 is enough) and the element counts it requests form a prefix of 262144,
131072, 65536, 32768, 16384: the first request (made unless the `snprintf` of the pool name
fails) is for `MAX_NB_MBUF`, request `j` is for `MAX_NB_MBUF / 2^j`, every request that is
followed by another one returned `NULL` with `rte_errno == ENOMEM`, no request is below
`MIN_NB_MBUF`, and a request that returns a pool is the last one.  If no request returns a
pool, `dpdk_mp_get` returns `NULL` and the registry is unchanged. -/
theorem dpdk_mp_get_halves_on_enomem (env : EthEnv) (fuel : Nat) (socket_id mtu : Int)
    (dpdk_mp_list : List dpdk_mp) (w : EthWorld)
    (hnew : ∀ d, d ∈ dpdk_mp_list → ¬ (d.socket_id = socket_id ∧ d.mtu = mtu))
    (hfuel : 5 ≤ fuel) :
    ∃ (mp : Nat) (w1 : EthWorld) (evs : List EthEvent),
      dpdk_mp_create_loop env fuel MAX_NB_MBUF w = some (mp, w1) ∧
      w1.trace = w.trace ++ evs ∧
      pool_create_run env MAX_NB_MBUF w.snprintf_calls w.create_calls evs mp ∧
      created_of evs <+: [262144, 131072, 65536, 32768, 16384] ∧
      (¬ env.snprintf w.snprintf_calls < 0 → (created_of evs).head? = some MAX_NB_MBUF) ∧
      (∀ j, j < evs.length →
        evs[j]? = some (EthEvent.mempool_create (MAX_NB_MBUF / 2 ^ j)
          (env.rte_mempool_create (w.create_calls + j) (MAX_NB_MBUF / 2 ^ j)))) ∧
      (∀ j, j + 1 < evs.length →
        env.rte_mempool_create (w.create_calls + j) (MAX_NB_MBUF / 2 ^ j) = 0 ∧
        env.rte_errno (w.create_calls + j) = ENOMEM) ∧
      (∀ s, s ∈ created_of evs → MIN_NB_MBUF ≤ s) ∧
      (mp ≠ 0 → pools_of evs = List.replicate (evs.length - 1) 0 ++ [mp]) ∧
      ((∀ r, r ∈ pools_of evs → r = 0) →
        dpdk_mp_get env fuel socket_id mtu dpdk_mp_list w = some (none, dpdk_mp_list, w1)) := by
  obtain ⟨mp, w1, _, e1, _, _, _⟩ := dpdk_mp_create_loop_total env 4 fuel MAX_NB_MBUF w
    (by omega) (by decide)
  obtain ⟨evs, e2, e3⟩ := dpdk_mp_create_loop_run env fuel MAX_NB_MBUF w mp w1 e1
  obtain ⟨a1, a2, a3, _⟩ := pool_create_run_attempts env _ _ _ evs mp e3
  have hpre : created_of evs <+: [262144, 131072, 65536, 32768, 16384] :=
    pool_create_run_sizes env _ _ _ evs mp e3 5 (by decide) (by decide)
  refine ⟨mp, w1, evs, e1, e2, e3, hpre, ?_, a1, a2, ?_, a3, ?_⟩
  · intro hname
    cases e3 with
    | name_failed _ _ _ h => exact absurd h hname
    | last _ _ _ _ _ => rfl
    | retry _ _ _ _ _ _ _ _ _ _ => rfl
  · intro s hs
    have hmem := hpre.subset hs
    have hM : MIN_NB_MBUF = 16384 := rfl
    simp only [List.mem_cons, List.mem_singleton, List.not_mem_nil, or_false] at hmem
    omega
  · intro hall
    have h0 : mp = 0 := by
      by_contra hne
      have hp := a3 hne
      have hin : mp ∈ pools_of evs := by
        rw [hp]
        simp
      exact hne (hall mp hin)
    unfold dpdk_mp_get
    rw [dpdk_mp_list_lookup_none socket_id mtu dpdk_mp_list hnew]
    simp only [e1, if_pos h0]

/-- Witness for C21: with an empty registry and a library whose first two creation calls
fail for lack of memory, the sizes requested are 262144, 131072 and 65536, and the third
call returns the pool. -/
theorem dpdk_mp_get_halves_on_enomem_witness :
    (dpdk_mp_create_loop demo_eth_env_low_memory 5 MAX_NB_MBUF demo_eth_world).map
      (fun r => (r.1, created_of r.2.trace)) = some (77, [262144, 131072, 65536]) ∧
    ∃ (mp : Nat) (w1 : EthWorld) (evs : List EthEvent),
      dpdk_mp_create_loop demo_eth_env_low_memory 5 MAX_NB_MBUF demo_eth_world
        = some (mp, w1) ∧
      w1.trace = demo_eth_world.trace ++ evs ∧
      pool_create_run demo_eth_env_low_memory MAX_NB_MBUF demo_eth_world.snprintf_calls
        demo_eth_world.create_calls evs mp ∧
      created_of evs <+: [262144, 131072, 65536, 32768, 16384] ∧
      (¬ demo_eth_env_low_memory.snprintf demo_eth_world.snprintf_calls < 0 →
        (created_of evs).head? = some MAX_NB_MBUF) ∧
      (∀ j, j < evs.length →
        evs[j]? = some (EthEvent.mempool_create (MAX_NB_MBUF / 2 ^ j)
          (demo_eth_env_low_memory.rte_mempool_create (demo_eth_world.create_calls + j)
            (MAX_NB_MBUF / 2 ^ j)))) ∧
      (∀ j, j + 1 < evs.length →
        demo_eth_env_low_memory.rte_mempool_create (demo_eth_world.create_calls + j)
          (MAX_NB_MBUF / 2 ^ j) = 0 ∧
        demo_eth_env_low_memory.rte_errno (demo_eth_world.create_calls + j) = ENOMEM) ∧
      (∀ s, s ∈ created_of evs → MIN_NB_MBUF ≤ s) ∧
      (mp ≠ 0 → pools_of evs = List.replicate (evs.length - 1) 0 ++ [mp]) ∧
      ((∀ r, r ∈ pools_of evs → r = 0) →
        dpdk_mp_get demo_eth_env_low_memory 5 0 1500 [] demo_eth_world
          = some (none, [], w1)) :=
  ⟨by decide,
   dpdk_mp_get_halves_on_enomem demo_eth_env_low_memory 5 0 1500 [] demo_eth_world
     (fun d hd => absurd hd (List.not_mem_nil d)) (by decide)⟩

end NetdevDpdk

namespace NetdevDpdk

theorem dpdk_mp_list_lookup_keys (socket_id mtu : Int) :
    ∀ (l : List dpdk_mp) (i : Nat) (l1 : List dpdk_mp),
      dpdk_mp_list_lookup socket_id mtu l = some (i, l1) →
      l1.map dpdk_mp.key = l.map dpdk_mp.key := by
  intro l
  induction l with
  | nil =>
      intro i l1 h
      cases h
  | cons d rest ih =>
      intro i l1 h
      rw [dpdk_mp_list_lookup] at h
      by_cases hk : d.socket_id = socket_id ∧ d.mtu = mtu
      · rw [if_pos hk] at h
        injection h with h
        injection h with _ h2
        rw [← h2]
        rfl
      · rw [if_neg hk] at h
        cases hr : dpdk_mp_list_lookup socket_id mtu rest with
        | none =>
            rw [hr] at h
            cases h
        | some p =>
            rw [hr] at h
            injection h with h
            injection h with _ h2
            rw [← h2, List.map_cons, List.map_cons, ih p.1 p.2 hr]

theorem dpdk_mp_list_lookup_none_iff (socket_id mtu : Int) :
    ∀ (l : List dpdk_mp),
      dpdk_mp_list_lookup socket_id mtu l = none →
      ∀ d, d ∈ l → ¬ (d.socket_id = socket_id ∧ d.mtu = mtu) := by
  intro l
  induction l with
  | nil =>
      intro _ d hd
      cases hd
  | cons x rest ih =>
      intro h d hd
      rw [dpdk_mp_list_lookup] at h
      by_cases hk : x.socket_id = socket_id ∧ x.mtu = mtu
      · rw [if_pos hk] at h
        cases h
      · rw [if_neg hk] at h
        cases hr : dpdk_mp_list_lookup socket_id mtu rest with
        | none =>
            rcases List.mem_cons.mp hd with e | e
            · rw [e]
              exact hk
            · exact ih hr d e
        | some p =>
            rw [hr] at h
            cases h

theorem dpdk_mp_get_keys (env : EthEnv) (fuel : Nat) (socket_id mtu : Int)
    (l : List dpdk_mp) (w : EthWorld) (r : Option Nat) (l1 : List dpdk_mp) (w1 : EthWorld)
    (hnodup : (l.map dpdk_mp.key).Nodup)
    (h : dpdk_mp_get env fuel socket_id mtu l w = some (r, l1, w1)) :
    (l1.map dpdk_mp.key).Nodup := by
  unfold dpdk_mp_get at h
  cases hl : dpdk_mp_list_lookup socket_id mtu l with
  | some p =>
      rw [hl] at h
      injection h with h
      injection h with _ h
      injection h with h2 _
      rw [← h2, dpdk_mp_list_lookup_keys socket_id mtu l p.1 p.2 hl]
      exact hnodup
  | none =>
      rw [hl] at h
      have hnew := dpdk_mp_list_lookup_none_iff socket_id mtu l hl
      cases hc : dpdk_mp_create_loop env fuel MAX_NB_MBUF w with
      | none =>
          rw [hc] at h
          cases h
      | some q =>
          rw [hc] at h
          by_cases h0 : q.1 = 0
          · simp only [if_pos h0] at h
            injection h with h
            injection h with _ h
            injection h with h2 _
            rw [← h2]
            exact hnodup
          · simp only [if_neg h0] at h
            injection h with h
            injection h with _ h
            injection h with h2 _
            rw [← h2, List.map_append, List.map_singleton]
            apply List.Nodup.append hnodup (List.nodup_singleton _)
            rw [List.disjoint_singleton]
            intro hin
            obtain ⟨d, hd, hkey⟩ := List.mem_map.mp hin
            apply hnew d hd
            have e1 : d.socket_id = socket_id := congrArg Prod.fst hkey
            have e2 : d.mtu = mtu := congrArg Prod.snd hkey
            exact ⟨e1, e2⟩

theorem dpdk_mp_put_keys (dmp : Option Nat) (l l1 : List dpdk_mp) (ok : Bool)
    (h : dpdk_mp_put dmp l = some (l1, ok)) :
    l1.map dpdk_mp.key = l.map dpdk_mp.key := by
  unfold dpdk_mp_put at h
  cases dmp with
  | none =>
      injection h with h
      injection h with h1 _
      rw [h1]
  | some i =>
      cases he : l[i]? with
      | none =>
          simp only [he] at h
          cases h
      | some e =>
          simp only [he] at h
          injection h with h
          injection h with h1 _
          rw [← h1, List.map_set]
          apply List.ext_getElem?
          intro j
          by_cases hj : i = j
          · rw [← hj]
            have hlt : i < l.length := (List.getElem?_eq_some_iff.mp he).1
            rw [List.getElem?_set_self (by rw [List.length_map]; exact hlt),
              List.getElem?_map, he]
            rfl
          · rw [List.getElem?_set_ne hj]

theorem run_mp_calls_keys (env : EthEnv) (fuel : Nat) :
    ∀ (calls : List mp_call) (l : List dpdk_mp) (w : EthWorld) (l1 : List dpdk_mp)
      (w1 : EthWorld),
      (l.map dpdk_mp.key).Nodup →
      run_mp_calls env fuel calls l w = some (l1, w1) →
      (l1.map dpdk_mp.key).Nodup := by
  intro calls
  induction calls with
  | nil =>
      intro l w l1 w1 hn h
      rw [run_mp_calls] at h
      injection h with h
      injection h with h1 _
      rw [← h1]
      exact hn
  | cons c rest ih =>
      intro l w l1 w1 hn h
      cases c with
      | get socket_id mtu =>
          rw [run_mp_calls] at h
          cases hg : dpdk_mp_get env fuel socket_id mtu l w with
          | none =>
              rw [hg] at h
              cases h
          | some p =>
              rw [hg] at h
              exact ih p.2.1 p.2.2 l1 w1
                (dpdk_mp_get_keys env fuel socket_id mtu l w p.1 p.2.1 p.2.2 hn hg) h
      | put dmp =>
          rw [run_mp_calls] at h
          cases hp : dpdk_mp_put dmp l with
          | none =>
              rw [hp] at h
              cases h
          | some p =>
              obtain ⟨l2, ok⟩ := p
              rw [hp] at h
              cases ok with
              | false => cases h
              | true =>
                  apply ih l2 w l1 w1 _ h
                  rw [dpdk_mp_put_keys dmp l l2 true hp]
                  exact hn

/-- C22: starting from an empty registry, after every sequence of `dpdk_mp_get` and
`dpdk_mp_put` calls, with any keys, any pointers and any outcome of the creation calls, no
two entries of `dpdk_mp_list` have the same `(socket_id, mtu)` pair: the keys of the list
are pairwise distinct.  The same holds for the list that one more `dpdk_mp_put` leaves,
also when its assertion fails. -/
theorem dpdk_mp_list_keys_distinct (env : EthEnv) (fuel : Nat) (calls : List mp_call)
    (w : EthWorld) (dpdk_mp_list : List dpdk_mp) (w1 : EthWorld)
    (hrun : run_mp_calls env fuel calls [] w = some (dpdk_mp_list, w1)) :
    (dpdk_mp_list.map dpdk_mp.key).Nodup ∧
    (∀ (i j : Nat) (a b : dpdk_mp), i ≠ j →
      dpdk_mp_list[i]? = some a → dpdk_mp_list[j]? = some b →
      ¬ (a.socket_id = b.socket_id ∧ a.mtu = b.mtu)) ∧
    (∀ (dmp : Option Nat) (list1 : List dpdk_mp) (ok : Bool),
      dpdk_mp_put dmp dpdk_mp_list = some (list1, ok) →
      (list1.map dpdk_mp.key).Nodup) := by
  have hn : (dpdk_mp_list.map dpdk_mp.key).Nodup :=
    run_mp_calls_keys env fuel calls [] w dpdk_mp_list w1 List.nodup_nil hrun
  refine ⟨hn, ?_, ?_⟩
  · intro i j a b hij ha hb hkey
    have hi : i < dpdk_mp_list.length := (List.getElem?_eq_some_iff.mp ha).1
    have hj : j < dpdk_mp_list.length := (List.getElem?_eq_some_iff.mp hb).1
    have ha' : (dpdk_mp_list.map dpdk_mp.key)[i]? = some a.key := by
      rw [List.getElem?_map, ha]
      rfl
    have hb' : (dpdk_mp_list.map dpdk_mp.key)[j]? = some a.key := by
      rw [List.getElem?_map, hb]
      show some b.key = some a.key
      unfold dpdk_mp.key
      rw [hkey.1, hkey.2]
    apply hij
    have hi' : i < (dpdk_mp_list.map dpdk_mp.key).length := by
      rw [List.length_map]
      exact hi
    exact List.getElem?_inj hi' hn (ha'.trans hb'.symm)
  · intro dmp list1 ok hp
    rw [dpdk_mp_put_keys dmp dpdk_mp_list list1 ok hp]
    exact hn

/-- Witness for C22: two pools acquired for different keys, the first released and
acquired again: the registry holds the two keys once each. -/
theorem dpdk_mp_list_keys_distinct_witness :
    ∃ (dpdk_mp_list : List dpdk_mp) (w1 : EthWorld),
      run_mp_calls demo_eth_env 5
        [mp_call.get 0 1500, mp_call.get 0 9000, mp_call.put (some 0), mp_call.get 0 1500]
        [] demo_eth_world = some (dpdk_mp_list, w1) ∧
      dpdk_mp_list.map dpdk_mp.key = [(0, 1500), (0, 9000)] ∧
      (dpdk_mp_list.map dpdk_mp.key).Nodup :=
  ⟨_, _, rfl, rfl,
    (dpdk_mp_list_keys_distinct demo_eth_env 5
      [mp_call.get 0 1500, mp_call.get 0 9000, mp_call.put (some 0), mp_call.get 0 1500]
      demo_eth_world _ _ rfl).1⟩

end NetdevDpdk

namespace NetdevDpdk

theorem dpdk_mp_list_lookup_at (socket_id mtu : Int) :
    ∀ (l : List dpdk_mp) (i : Nat) (e : dpdk_mp),
      l[i]? = some e → e.socket_id = socket_id → e.mtu = mtu →
      (∀ (j : Nat) (x : dpdk_mp), j < i → l[j]? = some x →
        ¬ (x.socket_id = socket_id ∧ x.mtu = mtu)) →
      dpdk_mp_list_lookup socket_id mtu l
        = some (i, l.set i { e with refcount := e.refcount + 1 }) := by
  intro l
  induction l with
  | nil =>
      intro i e h
      cases h
  | cons x rest ih =>
      intro i e h h1 h2 hfirst
      cases i with
      | zero =>
          rw [List.getElem?_cons_zero] at h
          injection h with h
          rw [dpdk_mp_list_lookup, h, if_pos ⟨h1, h2⟩]
          rfl
      | succ i =>
          rw [List.getElem?_cons_succ] at h
          have hx := hfirst 0 x (by omega) List.getElem?_cons_zero
          rw [dpdk_mp_list_lookup, if_neg hx,
            ih i e h h1 h2 (fun j y hj hy => hfirst (j + 1) y (by omega)
              (by rw [List.getElem?_cons_succ]; exact hy))]
          rfl

/-- C23: for every registry `dpdk_mp_list`.  `dpdk_mp_put(NULL)` changes nothing.  For every
entry `e` of the registry (at position `i`), `dpdk_mp_put` leaves the list with the
`refcount` of that entry lowered by exactly 1 and nothing else changed: the same length,
every other entry as it was, and entry `i` with the key and the pool it had, also when the
count reaches 0 (the condition of the assertion, `refcount >= 0` afterwards, holds exactly
when the count was at least 1).  A later `dpdk_mp_get` with the key of `e` creates no pool,
whatever the fuel: the world is unchanged and an entry of the list is returned.  That entry
is `e` itself, with its count raised again, when no earlier entry has the same key, and so
in every registry that a sequence of `dpdk_mp_get` and `dpdk_mp_put` calls builds from the
empty one. -/
theorem dpdk_mp_put_only_decrements (dpdk_mp_list : List dpdk_mp) :
    dpdk_mp_put none dpdk_mp_list = some (dpdk_mp_list, true) ∧
    ∀ (i : Nat) (e : dpdk_mp), dpdk_mp_list[i]? = some e →
      ∃ (list1 : List dpdk_mp),
        dpdk_mp_put (some i) dpdk_mp_list = some (list1, decide (1 ≤ e.refcount)) ∧
        list1.length = dpdk_mp_list.length ∧
        list1[i]? = some { e with refcount := e.refcount - 1 } ∧
        (∀ j, j ≠ i → list1[j]? = dpdk_mp_list[j]?) ∧
        (∀ (env : EthEnv) (fuel : Nat) (w : EthWorld),
          ∃ (k : Nat) (list2 : List dpdk_mp),
            dpdk_mp_get env fuel e.socket_id e.mtu list1 w = some (some k, list2, w) ∧
            k ≤ i ∧ list2.length = dpdk_mp_list.length) ∧
        ((∀ (j : Nat) (x : dpdk_mp), j < i → dpdk_mp_list[j]? = some x →
            ¬ (x.socket_id = e.socket_id ∧ x.mtu = e.mtu)) →
          ∀ (env : EthEnv) (fuel : Nat) (w : EthWorld),
            dpdk_mp_get env fuel e.socket_id e.mtu list1 w
              = some (some i, dpdk_mp_list, w)) ∧
        ((∃ (env0 : EthEnv) (fuel0 : Nat) (calls : List mp_call) (w0 w1 : EthWorld),
            run_mp_calls env0 fuel0 calls [] w0 = some (dpdk_mp_list, w1)) →
          ∀ (env : EthEnv) (fuel : Nat) (w : EthWorld),
            dpdk_mp_get env fuel e.socket_id e.mtu list1 w
              = some (some i, dpdk_mp_list, w)) := by
  refine ⟨rfl, ?_⟩
  intro i e he
  have hlt : i < dpdk_mp_list.length := (List.getElem?_eq_some_iff.mp he).1
  have hput : dpdk_mp_put (some i) dpdk_mp_list
      = some (dpdk_mp_list.set i { e with refcount := e.refcount - 1 },
          decide (1 ≤ e.refcount)) := by
    unfold dpdk_mp_put
    simp only [he]
    congr 2
    apply decide_eq_decide.mpr
    show e.refcount - 1 ≥ 0 ↔ 1 ≤ e.refcount
    omega
  have hat : (dpdk_mp_list.set i { e with refcount := e.refcount - 1 })[i]?
      = some { e with refcount := e.refcount - 1 } := List.getElem?_set_self hlt
  have hother : ∀ j, j ≠ i →
      (dpdk_mp_list.set i { e with refcount := e.refcount - 1 })[j]? = dpdk_mp_list[j]? := by
    intro j hj
    exact List.getElem?_set_ne (fun h => hj h.symm)
  have hown : (∀ (j : Nat) (x : dpdk_mp), j < i → dpdk_mp_list[j]? = some x →
      ¬ (x.socket_id = e.socket_id ∧ x.mtu = e.mtu)) →
      ∀ (env : EthEnv) (fuel : Nat) (w : EthWorld),
        dpdk_mp_get env fuel e.socket_id e.mtu
            (dpdk_mp_list.set i { e with refcount := e.refcount - 1 }) w
          = some (some i, dpdk_mp_list, w) := by
    intro hfirst env fuel w
    unfold dpdk_mp_get
    rw [dpdk_mp_list_lookup_at e.socket_id e.mtu _ i _ hat rfl rfl]
    · have hback : (dpdk_mp_list.set i { e with refcount := e.refcount - 1 }).set i
          { ({ e with refcount := e.refcount - 1 } : dpdk_mp) with
              refcount := ({ e with refcount := e.refcount - 1 } : dpdk_mp).refcount + 1 }
          = dpdk_mp_list := by
        rw [List.set_set]
        have hsame : ({ ({ e with refcount := e.refcount - 1 } : dpdk_mp) with
            refcount := ({ e with refcount := e.refcount - 1 } : dpdk_mp).refcount + 1 }
            : dpdk_mp) = e := by
          show ({ e with refcount := e.refcount - 1 + 1 } : dpdk_mp) = e
          rw [Int.sub_add_cancel]
        rw [hsame]
        apply List.ext_getElem?
        intro j
        by_cases hj : i = j
        · rw [← hj, List.getElem?_set_self hlt, he]
        · rw [List.getElem?_set_ne hj]
      simp only [hback]
    · intro j x hj hx
      rw [hother j (by omega)] at hx
      exact hfirst j x hj hx
  refine ⟨_, hput, List.length_set _ _ _, hat, hother, ?_, hown, ?_⟩
  · intro env fuel w
    have hex : ∃ d, d ∈ dpdk_mp_list.set i { e with refcount := e.refcount - 1 } ∧
        d.socket_id = e.socket_id ∧ d.mtu = e.mtu :=
      ⟨_, List.getElem?_mem hat, rfl, rfl⟩
    obtain ⟨pre, x, post, hl, hpre, h1, h2⟩ := dpdk_mp_key_split e.socket_id e.mtu _ hex
    refine ⟨pre.length, pre ++ { x with refcount := x.refcount + 1 } :: post, ?_, ?_, ?_⟩
    · unfold dpdk_mp_get
      rw [hl, dpdk_mp_list_lookup_first e.socket_id e.mtu pre x post hpre h1 h2]
    · by_contra hgt
      have hi : i < pre.length := by omega
      have h3 : (pre ++ x :: post)[i]? = pre[i]? := List.getElem?_append_left hi
      rw [← hl, hat] at h3
      exact hpre _ (List.getElem?_mem h3.symm) ⟨rfl, rfl⟩
    · have hlen : (pre ++ x :: post).length = dpdk_mp_list.length := by
        rw [← hl]
        exact List.length_set _ _ _
      simpa using hlen
  · rintro ⟨env0, fuel0, calls, w0, w1, hrun⟩
    apply hown
    intro j x hj hx hkey
    have hn : (dpdk_mp_list.map dpdk_mp.key).Nodup :=
      run_mp_calls_keys env0 fuel0 calls [] w0 dpdk_mp_list w1 List.nodup_nil hrun
    have hj' : j < (dpdk_mp_list.map dpdk_mp.key).length := by
      rw [List.length_map]
      omega
    have e1 : (dpdk_mp_list.map dpdk_mp.key)[j]? = some e.key := by
      rw [List.getElem?_map, hx]
      show some x.key = some e.key
      unfold dpdk_mp.key
      rw [hkey.1, hkey.2]
    have e2 : (dpdk_mp_list.map dpdk_mp.key)[i]? = some e.key := by
      rw [List.getElem?_map, he]
      rfl
    have := List.getElem?_inj hj' hn (e1.trans e2.symm)
    omega

/-- Witness for C23: a registry built by two requests for the same key holds one entry with
count 2; a release lowers the count to 1, the entry stays, and the next request for its key
returns it with no creation call.  Released once more, the count reaches 0 and the entry
still stays. -/
theorem dpdk_mp_put_only_decrements_witness :
    run_mp_calls demo_eth_env 5 [mp_call.get 0 1500, mp_call.get 0 1500] [] demo_eth_world
      = some ([{ mp := 77, mtu := 1500, socket_id := 0, refcount := 2 }],
          ({ demo_eth_world with snprintf_calls := 1, create_calls := 1 } : EthWorld).log
            (EthEvent.mempool_create 262144 77)) ∧
    dpdk_mp_put (some 0) [{ mp := 77, mtu := 1500, socket_id := 0, refcount := 1 }]
      = some ([{ mp := 77, mtu := 1500, socket_id := 0, refcount := 0 }], true) ∧
    ∃ (list1 : List dpdk_mp),
      dpdk_mp_put (some 0) [{ mp := 77, mtu := 1500, socket_id := 0, refcount := 2 }]
        = some (list1, decide ((1 : Int) ≤ 2)) ∧
      list1[0]? = some { mp := 77, mtu := 1500, socket_id := 0, refcount := 2 - 1 } ∧
      dpdk_mp_get demo_eth_env 0 0 1500 list1 demo_eth_world
        = some (some 0, [{ mp := 77, mtu := 1500, socket_id := 0, refcount := 2 }],
            demo_eth_world) :=
  have h := (dpdk_mp_put_only_decrements
    [{ mp := 77, mtu := 1500, socket_id := 0, refcount := 2 }]).2 0
    { mp := 77, mtu := 1500, socket_id := 0, refcount := 2 } rfl
  ⟨rfl, rfl, h.choose, h.choose_spec.1, h.choose_spec.2.2.1,
    h.choose_spec.2.2.2.2.2.2
      ⟨demo_eth_env, 5, [mp_call.get 0 1500, mp_call.get 0 1500], demo_eth_world, _, rfl⟩
      demo_eth_env 0 demo_eth_world⟩

end NetdevDpdk

/-! ## Properties of the link watchdog and the statistics -/

namespace NetdevDpdk

/-- C24: for every device state and every link state `link` reported by
`rte_eth_link_get_nowait` (and whatever `netdev_change_seq_changed` does to the member
`up`).  When the reported `link_status` differs from the stored one, `check_link_status`
increases `link_reset_cnt` by exactly 1 and replaces the stored link state with the
reported one; otherwise it leaves the device, so `link_reset_cnt` and the stored link
state, unchanged.  A second check against the same reported state changes nothing, so two
consecutive checks increase the counter at most once. -/
theorem check_link_status_counts_flaps (netdev_change_seq_changed : netdev → netdev)
    (link : rte_eth_link) (dev : netdev_dpdk) :
    (dev.link.link_status ≠ link.link_status →
      (check_link_status netdev_change_seq_changed link dev).link_reset_cnt
        = dev.link_reset_cnt + 1 ∧
      (check_link_status netdev_change_seq_changed link dev).link = link) ∧
    (dev.link.link_status = link.link_status →
      check_link_status netdev_change_seq_changed link dev = dev) ∧
    check_link_status netdev_change_seq_changed link
        (check_link_status netdev_change_seq_changed link dev)
      = check_link_status netdev_change_seq_changed link dev ∧
    (check_link_status netdev_change_seq_changed link
        (check_link_status netdev_change_seq_changed link dev)).link_reset_cnt
      ≤ dev.link_reset_cnt + 1 ∧
    dev.link_reset_cnt
      ≤ (check_link_status netdev_change_seq_changed link
          (check_link_status netdev_change_seq_changed link dev)).link_reset_cnt := by
  have hsame : dev.link.link_status = link.link_status →
      check_link_status netdev_change_seq_changed link dev = dev := by
    intro h
    unfold check_link_status
    rw [if_neg (not_not.mpr h)]
  have hdiff : dev.link.link_status ≠ link.link_status →
      (check_link_status netdev_change_seq_changed link dev).link_reset_cnt
        = dev.link_reset_cnt + 1 ∧
      (check_link_status netdev_change_seq_changed link dev).link = link := by
    intro h
    unfold check_link_status
    rw [if_pos h]
    exact ⟨rfl, rfl⟩
  have hstatus : (check_link_status netdev_change_seq_changed link dev).link.link_status
      = link.link_status := by
    by_cases h : dev.link.link_status = link.link_status
    · rw [hsame h]
      exact h
    · rw [(hdiff h).2]
  have htwice : check_link_status netdev_change_seq_changed link
        (check_link_status netdev_change_seq_changed link dev)
      = check_link_status netdev_change_seq_changed link dev := by
    generalize check_link_status netdev_change_seq_changed link dev = dev1 at hstatus ⊢
    unfold check_link_status
    rw [if_neg (not_not.mpr hstatus)]
  refine ⟨hdiff, hsame, htwice, ?_, ?_⟩
  · rw [htwice]
    by_cases h : dev.link.link_status = link.link_status
    · rw [hsame h]
      omega
    · rw [(hdiff h).1]
  · rw [htwice]
    by_cases h : dev.link.link_status = link.link_status
    · rw [hsame h]
    · rw [(hdiff h).1]
      omega

/-- Witness for C24: the demo device has its link down; a report of link up is one flap,
and a second check against the same report is none. -/
theorem check_link_status_counts_flaps_witness :
    demo_dev.link.link_status ≠ demo_link_up.link_status ∧
    (check_link_status id demo_link_up demo_dev).link_reset_cnt = demo_dev.link_reset_cnt + 1 ∧
    (check_link_status id demo_link_up demo_dev).link = demo_link_up ∧
    (check_link_status id demo_link_up (check_link_status id demo_link_up demo_dev)).link_reset_cnt
      = 1 :=
  ⟨by decide,
   ((check_link_status_counts_flaps id demo_link_up demo_dev).1 (by decide)).1,
   ((check_link_status_counts_flaps id demo_link_up demo_dev).1 (by decide)).2,
   rfl⟩

end NetdevDpdk

namespace NetdevDpdk

/-- C25 (amended): for every device state and every response of the hardware queries.
`netdev_dpdk_vhost_get_stats` returns 0 and leaves the device unchanged.
`netdev_dpdk_get_stats` returns 0 and leaves the device as `check_link_status` leaves it on
the reported link state: every field other than the stored link state, `link_reset_cnt`
and the member `up` is unchanged, among them all the counters; when the reported
`link_status` equals the stored one the whole device is unchanged; when it differs the
stored link state is replaced by the reported one and `link_reset_cnt` grows by 1. -/
theorem netdev_dpdk_get_stats_frame (netdev_change_seq_changed : netdev → netdev) (link : rte_eth_link)
    (rte_stats : rte_eth_stats) (dev : netdev_dpdk) :
    (netdev_dpdk_vhost_get_stats dev).1 = 0 ∧
    (netdev_dpdk_vhost_get_stats dev).2.1 = dev ∧
    (netdev_dpdk_get_stats netdev_change_seq_changed link rte_stats dev).1 = 0 ∧
    (netdev_dpdk_get_stats netdev_change_seq_changed link rte_stats dev).2.1
      = check_link_status netdev_change_seq_changed link dev ∧
    (∃ (up1 : netdev) (link1 : rte_eth_link) (cnt1 : Int),
      (netdev_dpdk_get_stats netdev_change_seq_changed link rte_stats dev).2.1
        = { dev with up := up1, link := link1, link_reset_cnt := cnt1 }) ∧
    (netdev_dpdk_get_stats netdev_change_seq_changed link rte_stats dev).2.1.stats
      = dev.stats ∧
    (dev.link.link_status = link.link_status →
      (netdev_dpdk_get_stats netdev_change_seq_changed link rte_stats dev).2.1 = dev) ∧
    (dev.link.link_status ≠ link.link_status →
      (netdev_dpdk_get_stats netdev_change_seq_changed link rte_stats dev).2.1.link = link ∧
      (netdev_dpdk_get_stats netdev_change_seq_changed link rte_stats dev).2.1.link_reset_cnt
        = dev.link_reset_cnt + 1) := by
  have hdev : (netdev_dpdk_get_stats netdev_change_seq_changed link rte_stats dev).2.1
      = check_link_status netdev_change_seq_changed link dev := rfl
  have hparts : ∃ (up1 : netdev) (link1 : rte_eth_link) (cnt1 : Int),
      check_link_status netdev_change_seq_changed link dev
        = { dev with up := up1, link := link1, link_reset_cnt := cnt1 } := by
    unfold check_link_status
    by_cases h : dev.link.link_status ≠ link.link_status
    · rw [if_pos h]
      exact ⟨_, _, _, rfl⟩
    · rw [if_neg h]
      exact ⟨dev.up, dev.link, dev.link_reset_cnt, rfl⟩
  refine ⟨rfl, rfl, rfl, hdev, ?_, ?_, ?_, ?_⟩
  · rw [hdev]
    exact hparts
  · rw [hdev]
    obtain ⟨u, l, c, h⟩ := hparts
    rw [h]
  · intro h
    rw [hdev]
    unfold check_link_status
    rw [if_neg (not_not.mpr h)]
  · intro h
    rw [hdev]
    unfold check_link_status
    rw [if_pos h]
    exact ⟨rfl, rfl⟩

/-- Witness for C25: statistics read from the demo device while the hardware reports the
stored link state (link down) leave it unchanged. -/
theorem netdev_dpdk_get_stats_frame_witness :
    demo_dev.link.link_status = (demo_dev.link).link_status ∧
    (netdev_dpdk_get_stats id demo_dev.link demo_rte_stats demo_dev).2.1 = demo_dev ∧
    (netdev_dpdk_get_stats id demo_dev.link demo_rte_stats demo_dev).2.2.rx_packets = 32 :=
  ⟨rfl, (netdev_dpdk_get_stats_frame id demo_dev.link demo_rte_stats demo_dev).2.2.2.2.2.2.1 rfl, rfl⟩

/-- Counterexample to C25 as stated: the demo device has its link down and no flap counted;
`netdev_dpdk_get_stats`, called while the hardware reports the link up, leaves the device
with the reported link state stored and `link_reset_cnt = 1`. -/
theorem netdev_dpdk_get_stats_frame_counterexample :
    demo_dev.link_reset_cnt = 0 ∧ demo_dev.link.link_status = 0 ∧
    (netdev_dpdk_get_stats id demo_link_up demo_rte_stats demo_dev).2.1.link_reset_cnt = 1 ∧
    (netdev_dpdk_get_stats id demo_link_up demo_rte_stats demo_dev).2.1.link = demo_link_up :=
  ⟨rfl, rfl, rfl, rfl⟩

end NetdevDpdk

namespace NetdevDpdk

/-- C26, the code at the failing input: `netdev_dpdk_alloc_txq(netdev, 2)` on a device on
NUMA node 0 whose queues are not shared, with core 0 on node 0 and core 1 on node 1.  The
assignment `flush_tx = netdev->socket_id == numa_id` sets the flag of queue 0, whose core is
local to the device, and leaves the flag of queue 1 clear, whose core is not. -/
theorem netdev_dpdk_alloc_txq_flush_tx_local :
    ({ netdev_dpdk_alloc with socket_id := 0 } : netdev_dpdk).txq_needs_locking = false ∧
    demo_eth_env_two_nodes.ovs_numa_get_numa_id 0 = 0 ∧
    demo_eth_env_two_nodes.ovs_numa_get_numa_id 1 = 1 ∧
    ((netdev_dpdk_alloc_txq demo_eth_env_two_nodes
        { netdev_dpdk_alloc with socket_id := 0 } 2).tx_q 0).flush_tx = true ∧
    ((netdev_dpdk_alloc_txq demo_eth_env_two_nodes
        { netdev_dpdk_alloc with socket_id := 0 } 2).tx_q 1).flush_tx = false := by
  refine ⟨rfl, rfl, rfl, ?_, ?_⟩
  · decide
  · decide

end NetdevDpdk

/-! ## Properties of the receive path -/

namespace NetdevDpdk

end NetdevDpdk

namespace NetdevDpdk

end NetdevDpdk

/-! ## Properties of the backend dispatch -/

namespace Mempool

theorem rte_mempool_ext_put_bulk_ring {R : Type} (api : rte_ring_api R) (mp : rte_mempool R)
    (r : R) (obj_table : Table) (n : Nat) (hpool : mp.rt_pool = .common_ring r) :
    (mp.put_idx = RTE_MEMPOOL_COMMON_RING_SPPUT →
      rte_mempool_ext_put_bulk api mp obj_table n
        = some ((api.rte_ring_sp_enqueue_bulk r obj_table n).1,
            { mp with rt_pool := .common_ring (api.rte_ring_sp_enqueue_bulk r obj_table n).2 })) ∧
    (mp.put_idx = RTE_MEMPOOL_COMMON_RING_MPPUT →
      rte_mempool_ext_put_bulk api mp obj_table n
        = some ((api.rte_ring_mp_enqueue_bulk r obj_table n).1,
            { mp with
                rt_pool := .common_ring (api.rte_ring_mp_enqueue_bulk r obj_table n).2 })) := by
  constructor
  · intro hidx
    simp [rte_mempool_ext_put_bulk, mempool_jump_table, hidx, hpool, common_ring_sp_put,
      RTE_MEMPOOL_COMMON_RING_MPPUT, RTE_MEMPOOL_COMMON_RING_SPPUT]
  · intro hidx
    simp [rte_mempool_ext_put_bulk, mempool_jump_table, hidx, hpool, common_ring_mp_put,
      RTE_MEMPOOL_COMMON_RING_MPPUT]

theorem rte_mempool_ext_get_bulk_ring {R : Type} (api : rte_ring_api R) (mp : rte_mempool R)
    (r : R) (obj_table : Table) (n : Nat) (hpool : mp.rt_pool = .common_ring r) :
    (mp.get_idx = RTE_MEMPOOL_COMMON_RING_SCGET →
      rte_mempool_ext_get_bulk api mp obj_table n
        = some ((api.rte_ring_sc_dequeue_bulk r obj_table n).1,
            { mp with
                rt_pool := .common_ring (api.rte_ring_sc_dequeue_bulk r obj_table n).2.1 },
            (api.rte_ring_sc_dequeue_bulk r obj_table n).2.2)) ∧
    (mp.get_idx = RTE_MEMPOOL_COMMON_RING_MCGET →
      rte_mempool_ext_get_bulk api mp obj_table n
        = some ((api.rte_ring_mc_dequeue_bulk r obj_table n).1,
            { mp with
                rt_pool := .common_ring (api.rte_ring_mc_dequeue_bulk r obj_table n).2.1 },
            (api.rte_ring_mc_dequeue_bulk r obj_table n).2.2)) := by
  constructor
  · intro hidx
    simp [rte_mempool_ext_get_bulk, mempool_jump_table, hidx, hpool, common_ring_sc_get,
      RTE_MEMPOOL_COMMON_RING_MCGET, RTE_MEMPOOL_COMMON_RING_SCGET]
  · intro hidx
    simp [rte_mempool_ext_get_bulk, mempool_jump_table, hidx, hpool, common_ring_mc_get,
      RTE_MEMPOOL_COMMON_RING_MCGET]

theorem rte_mempool_ext_get_count_dispatch {R : Type} (api : rte_ring_api R)
    (mp : rte_mempool R) :
    (∀ r, mp.rt_pool = .common_ring r →
      mp.get_count_idx = RTE_MEMPOOL_COMMON_RING_GETCOUNT →
      rte_mempool_ext_get_count api mp = some (int_of_unsigned (api.rte_ring_count r))) ∧
    (∀ s, mp.rt_pool = .common_stack s →
      mp.get_count_idx = RTE_MEMPOOL_COMMON_STACK_GETCOUNT →
      rte_mempool_ext_get_count api mp = some (int_of_unsigned (common_stack_get_count s))) := by
  constructor
  · intro r hpool hidx
    simp [rte_mempool_ext_get_count, mempool_jump_table, hidx, hpool, common_ring_get_count,
      RTE_MEMPOOL_COMMON_RING_GETCOUNT]
  · intro s hpool hidx
    simp [rte_mempool_ext_get_count, mempool_jump_table, hidx, hpool,
      common_stack_get_count_handler, RTE_MEMPOOL_COMMON_RING_GETCOUNT,
      RTE_MEMPOOL_COMMON_STACK_GETCOUNT]

end Mempool

namespace Mempool

/-- C28: the backend operations are resolved through the indices stored at pool creation.
After a `rte_mempool_common_stack_alloc` that returns a stack, `put_idx`, `get_idx` and
`get_count_idx` are the indices of the stack put, stack get and stack count entries.  After
a `rte_mempool_common_ring_alloc` that returns a ring, `put_idx` is the index of the
single-producer put exactly when `flags & MEMPOOL_F_SP_PUT` is non-zero and of the
multi-producer put otherwise, `get_idx` is the index of the single-consumer get exactly when
`flags & MEMPOOL_F_SC_GET` is non-zero and of the multi-consumer get otherwise, and
`get_count_idx` is the index of the ring count.  In both cases every stored index is below
the count of valid entries of its array (`num_put`, `num_get`, `num_get_count`) and below
`RTE_MEMPOOL_MAX_JUMP_IDX`, the slot it selects is populated, and
`rte_mempool_ext_put_bulk`, `rte_mempool_ext_get_bulk` and `rte_mempool_ext_get_count` run
the operation of the pool's own backend on `mp->rt_pool`. -/
theorem mempool_indices_select_backend {R : Type} (api : rte_ring_api R)
    (lib : rte_ring_create_env R) (mp : rte_mempool R) (n flags : Nat) (zmalloc_ok : Bool) :
    (∀ (s : rte_mempool_common_stack) (mp1 : rte_mempool R),
      rte_mempool_common_stack_alloc mp n zmalloc_ok = (some s, mp1) →
      mp1.rt_pool = .common_stack s ∧
      mp1.put_idx = RTE_MEMPOOL_COMMON_STACK_PUT ∧
      mp1.get_idx = RTE_MEMPOOL_COMMON_STACK_GET ∧
      mp1.get_count_idx = RTE_MEMPOOL_COMMON_STACK_GETCOUNT ∧
      (∀ obj_table k, rte_mempool_ext_put_bulk api mp1 obj_table k
        = some ((common_stack_put s obj_table k).1,
            { mp1 with rt_pool := .common_stack (common_stack_put s obj_table k).2 })) ∧
      (∀ obj_table k, rte_mempool_ext_get_bulk api mp1 obj_table k
        = some ((common_stack_get s obj_table k).1,
            { mp1 with rt_pool := .common_stack (common_stack_get s obj_table k).2.1 },
            (common_stack_get s obj_table k).2.2)) ∧
      rte_mempool_ext_get_count api mp1
        = some (int_of_unsigned (common_stack_get_count s))) ∧
    (∀ (r : R) (mp1 : rte_mempool R),
      rte_mempool_common_ring_alloc lib mp n flags = (some r, mp1) →
      mp1.rt_pool = .common_ring r ∧
      (mp1.put_idx = RTE_MEMPOOL_COMMON_RING_SPPUT ↔ flags &&& lib.MEMPOOL_F_SP_PUT ≠ 0) ∧
      (mp1.put_idx = RTE_MEMPOOL_COMMON_RING_MPPUT ↔ flags &&& lib.MEMPOOL_F_SP_PUT = 0) ∧
      (mp1.get_idx = RTE_MEMPOOL_COMMON_RING_SCGET ↔ flags &&& lib.MEMPOOL_F_SC_GET ≠ 0) ∧
      (mp1.get_idx = RTE_MEMPOOL_COMMON_RING_MCGET ↔ flags &&& lib.MEMPOOL_F_SC_GET = 0) ∧
      mp1.get_count_idx = RTE_MEMPOOL_COMMON_RING_GETCOUNT ∧
      (∀ obj_table k, rte_mempool_ext_put_bulk api mp1 obj_table k
        = if flags &&& lib.MEMPOOL_F_SP_PUT ≠ 0 then
            some ((api.rte_ring_sp_enqueue_bulk r obj_table k).1,
              { mp1 with
                  rt_pool := .common_ring (api.rte_ring_sp_enqueue_bulk r obj_table k).2 })
          else
            some ((api.rte_ring_mp_enqueue_bulk r obj_table k).1,
              { mp1 with
                  rt_pool := .common_ring (api.rte_ring_mp_enqueue_bulk r obj_table k).2 })) ∧
      (∀ obj_table k, rte_mempool_ext_get_bulk api mp1 obj_table k
        = if flags &&& lib.MEMPOOL_F_SC_GET ≠ 0 then
            some ((api.rte_ring_sc_dequeue_bulk r obj_table k).1,
              { mp1 with
                  rt_pool := .common_ring (api.rte_ring_sc_dequeue_bulk r obj_table k).2.1 },
              (api.rte_ring_sc_dequeue_bulk r obj_table k).2.2)
          else
            some ((api.rte_ring_mc_dequeue_bulk r obj_table k).1,
              { mp1 with
                  rt_pool := .common_ring (api.rte_ring_mc_dequeue_bulk r obj_table k).2.1 },
              (api.rte_ring_mc_dequeue_bulk r obj_table k).2.2)) ∧
      rte_mempool_ext_get_count api mp1 = some (int_of_unsigned (api.rte_ring_count r))) ∧
    (∀ (p : Option R) (s : Option rte_mempool_common_stack) (mp1 : rte_mempool R),
      (rte_mempool_common_ring_alloc lib mp n flags = (p, mp1) ∧ p ≠ none) ∨
      (rte_mempool_common_stack_alloc mp n zmalloc_ok = (s, mp1) ∧ s ≠ none) →
      mp1.put_idx < (mempool_jump_table api).num_put ∧
      mp1.get_idx < (mempool_jump_table api).num_get ∧
      mp1.get_count_idx < (mempool_jump_table api).num_get_count ∧
      mp1.put_idx < RTE_MEMPOOL_MAX_JUMP_IDX ∧ mp1.get_idx < RTE_MEMPOOL_MAX_JUMP_IDX ∧
      mp1.get_count_idx < RTE_MEMPOOL_MAX_JUMP_IDX ∧
      ((mempool_jump_table api).put mp1.put_idx).isSome = true ∧
      ((mempool_jump_table api).get mp1.get_idx).isSome = true ∧
      ((mempool_jump_table api).get_count mp1.get_count_idx).isSome = true) := by
  have hstack : ∀ (s : rte_mempool_common_stack) (mp1 : rte_mempool R),
      rte_mempool_common_stack_alloc mp n zmalloc_ok = (some s, mp1) →
      mp1.rt_pool = .common_stack s ∧
      mp1.put_idx = RTE_MEMPOOL_COMMON_STACK_PUT ∧
      mp1.get_idx = RTE_MEMPOOL_COMMON_STACK_GET ∧
      mp1.get_count_idx = RTE_MEMPOOL_COMMON_STACK_GETCOUNT := by
    intro s mp1 h
    unfold rte_mempool_common_stack_alloc at h
    cases zmalloc_ok with
    | false => simp at h
    | true =>
        simp only [Bool.not_true, Bool.false_eq_true, if_false] at h
        injection h with h1 h2
        injection h1 with h1
        rw [← h2, ← h1]
        exact ⟨rfl, rfl, rfl, rfl⟩
  have hring : ∀ (r : R) (mp1 : rte_mempool R),
      rte_mempool_common_ring_alloc lib mp n flags = (some r, mp1) →
      mp1.rt_pool = .common_ring r ∧
      mp1.put_idx = (if flags &&& lib.MEMPOOL_F_SP_PUT ≠ 0 then RTE_MEMPOOL_COMMON_RING_SPPUT
        else RTE_MEMPOOL_COMMON_RING_MPPUT) ∧
      mp1.get_idx = (if flags &&& lib.MEMPOOL_F_SC_GET ≠ 0 then RTE_MEMPOOL_COMMON_RING_SCGET
        else RTE_MEMPOOL_COMMON_RING_MCGET) ∧
      mp1.get_count_idx = RTE_MEMPOOL_COMMON_RING_GETCOUNT := by
    intro r mp1 h
    unfold rte_mempool_common_ring_alloc at h
    cases hz : lib.rte_zmalloc_ok with
    | false => simp [hz] at h
    | true =>
        simp only [hz, Bool.not_true, Bool.false_eq_true, if_false] at h
        split at h
        · simp at h
        · rename_i r1 _
          injection h with h1 h2
          injection h1 with h1
          rw [← h2, ← h1]
          exact ⟨rfl, rfl, rfl, rfl⟩
  refine ⟨?_, ?_, ?_⟩
  · intro s mp1 h
    obtain ⟨h1, h2, h3, h4⟩ := hstack s mp1 h
    exact ⟨h1, h2, h3, h4,
      fun obj_table k => rte_mempool_ext_put_bulk_stack api mp1 s obj_table k h1 h2,
      fun obj_table k => rte_mempool_ext_get_bulk_stack api mp1 s obj_table k h1 h3,
      (rte_mempool_ext_get_count_dispatch api mp1).2 s h1 h4⟩
  · intro r mp1 h
    obtain ⟨h1, h2, h3, h4⟩ := hring r mp1 h
    refine ⟨h1, ?_, ?_, ?_, ?_, h4, ?_, ?_,
      (rte_mempool_ext_get_count_dispatch api mp1).1 r h1 h4⟩
    · rw [h2]
      by_cases hf : flags &&& lib.MEMPOOL_F_SP_PUT ≠ 0
      · simp [hf]
      · simp [hf, RTE_MEMPOOL_COMMON_RING_SPPUT, RTE_MEMPOOL_COMMON_RING_MPPUT]
    · rw [h2]
      by_cases hf : flags &&& lib.MEMPOOL_F_SP_PUT ≠ 0
      · simp [hf, RTE_MEMPOOL_COMMON_RING_SPPUT, RTE_MEMPOOL_COMMON_RING_MPPUT]
      · simp [not_not.mp hf]
    · rw [h3]
      by_cases hf : flags &&& lib.MEMPOOL_F_SC_GET ≠ 0
      · simp [hf]
      · simp [hf, RTE_MEMPOOL_COMMON_RING_SCGET, RTE_MEMPOOL_COMMON_RING_MCGET]
    · rw [h3]
      by_cases hf : flags &&& lib.MEMPOOL_F_SC_GET ≠ 0
      · simp [hf, RTE_MEMPOOL_COMMON_RING_SCGET, RTE_MEMPOOL_COMMON_RING_MCGET]
      · simp [not_not.mp hf]
    · intro obj_table k
      by_cases hf : flags &&& lib.MEMPOOL_F_SP_PUT ≠ 0
      · rw [if_pos hf] at h2
        rw [if_pos hf]
        exact (rte_mempool_ext_put_bulk_ring api mp1 r obj_table k h1).1 h2
      · rw [if_neg hf] at h2
        rw [if_neg hf]
        exact (rte_mempool_ext_put_bulk_ring api mp1 r obj_table k h1).2 h2
    · intro obj_table k
      by_cases hf : flags &&& lib.MEMPOOL_F_SC_GET ≠ 0
      · rw [if_pos hf] at h3
        rw [if_pos hf]
        exact (rte_mempool_ext_get_bulk_ring api mp1 r obj_table k h1).1 h3
      · rw [if_neg hf] at h3
        rw [if_neg hf]
        exact (rte_mempool_ext_get_bulk_ring api mp1 r obj_table k h1).2 h3
  · intro p s mp1 h
    have hidx : (mp1.put_idx = 0 ∨ mp1.put_idx = 1 ∨ mp1.put_idx = 2) ∧
        (mp1.get_idx = 0 ∨ mp1.get_idx = 1 ∨ mp1.get_idx = 2) ∧
        (mp1.get_count_idx = 0 ∨ mp1.get_count_idx = 1) := by
      rcases h with ⟨h, hp⟩ | ⟨h, hs⟩
      · cases p with
        | none => exact absurd rfl hp
        | some r =>
            obtain ⟨_, h2, h3, h4⟩ := hring r mp1 h
            rw [h2, h3, h4]
            refine ⟨?_, ?_, Or.inl rfl⟩
            · by_cases hf : flags &&& lib.MEMPOOL_F_SP_PUT ≠ 0
              · rw [if_pos hf]
                exact Or.inr (Or.inl rfl)
              · rw [if_neg hf]
                exact Or.inl rfl
            · by_cases hf : flags &&& lib.MEMPOOL_F_SC_GET ≠ 0
              · rw [if_pos hf]
                exact Or.inr (Or.inl rfl)
              · rw [if_neg hf]
                exact Or.inl rfl
      · cases s with
        | none => exact absurd rfl hs
        | some s1 =>
            obtain ⟨_, h2, h3, h4⟩ := hstack s1 mp1 h
            rw [h2, h3, h4]
            exact ⟨Or.inr (Or.inr rfl), Or.inr (Or.inr rfl), Or.inr rfl⟩
    obtain ⟨hp, hg, hc⟩ := hidx
    have e1 : (mempool_jump_table api).num_put = 3 := rfl
    have e2 : (mempool_jump_table api).num_get = 3 := rfl
    have e3 : (mempool_jump_table api).num_get_count = 2 := rfl
    have e4 : RTE_MEMPOOL_MAX_JUMP_IDX = 8 := rfl
    rw [e1, e2, e3, e4]
    refine ⟨by omega, by omega, by omega, by omega, by omega, by omega, ?_, ?_, ?_⟩
    · rcases hp with hp | hp | hp
      · rw [hp]
        rfl
      · rw [hp]
        rfl
      · rw [hp]
        rfl
    · rcases hg with hg | hg | hg
      · rw [hg]
        rfl
      · rw [hg]
        rfl
      · rw [hg]
        rfl
    · rcases hc with hc | hc
      · rw [hc]
        rfl
      · rw [hc]
        rfl

/-- Witness for C28: a stack of capacity 4 allocated behind the demo mempool, and a ring
allocated with `MEMPOOL_F_SP_PUT` set (flags 4). -/
theorem mempool_indices_select_backend_witness :
    (∃ (s : rte_mempool_common_stack) (mp1 : rte_mempool Unit),
      rte_mempool_common_stack_alloc demo_pool 4 true = (some s, mp1) ∧
      mp1.put_idx = RTE_MEMPOOL_COMMON_STACK_PUT ∧
      rte_mempool_ext_get_count demo_ring_api mp1
        = some (int_of_unsigned (common_stack_get_count s))) ∧
    (∃ (r : Unit) (mp1 : rte_mempool Unit),
      rte_mempool_common_ring_alloc demo_ring_create_env demo_pool 4 4 = (some r, mp1) ∧
      (mp1.put_idx = RTE_MEMPOOL_COMMON_RING_SPPUT ↔
        4 &&& demo_ring_create_env.MEMPOOL_F_SP_PUT ≠ 0) ∧
      mp1.put_idx = 1 ∧ mp1.get_idx = 0 ∧ mp1.get_count_idx = 0) :=
  ⟨⟨_, _, rfl,
     ((mempool_indices_select_backend demo_ring_api demo_ring_create_env demo_pool 4 4
        true).1 _ _ rfl).2.1,
     ((mempool_indices_select_backend demo_ring_api demo_ring_create_env demo_pool 4 4
        true).1 _ _ rfl).2.2.2.2.2.2⟩,
   ⟨_, _, rfl,
     ((mempool_indices_select_backend demo_ring_api demo_ring_create_env demo_pool 4 4
        true).2.1 _ _ rfl).2.1,
     rfl, rfl, rfl⟩⟩

end Mempool

/-! ## Properties of the MTU change and of the reference counts -/

namespace NetdevDpdk

/-- C29, the code at the failing input: a physical device constructed on port 0 (MTU 1500,
socket 0, bound to the registry entry 0, whose key is `(0, 1500)`) is asked for the MTU
9000, every hardware call succeeding.  `netdev_dpdk_set_mtu` returns 0 with `mtu = 9000` and
`max_packet_len = 9018`, but `dpdk_mp_get(dev->socket_id, dev->mtu)` is called before
`dev->mtu` is assigned: the device stays bound to entry 0, the pool for the MTU 1500, and
the registry holds no entry for `(0, 9000)`.  And a request for the MTU the device has
returns 0 and changes nothing. -/
theorem netdev_dpdk_set_mtu_keeps_old_pool :
    ((netdev_dpdk_init demo_eth_env 20 1 netdev_dpdk_alloc 0 dpdk_dev_type.DPDK_DEV_ETH [] []
        demo_eth_world).bind
      (fun r => (netdev_dpdk_set_mtu id demo_eth_env 20 r.2.1 9000 r.2.2.2.1 r.2.2.2.2).map
        (fun s => (r.1, r.2.1.mtu, r.2.1.socket_id, r.2.1.dpdk_mp, s.1, s.2.1.mtu,
          s.2.1.max_packet_len, s.2.1.dpdk_mp, s.2.2.1))))
      = some (0, 1500, 0, some 0, 0, 9000, 9018, some 0,
          [{ mp := 77, mtu := 1500, socket_id := 0, refcount := 1 }]) ∧
    ((netdev_dpdk_init demo_eth_env 20 1 netdev_dpdk_alloc 0 dpdk_dev_type.DPDK_DEV_ETH [] []
        demo_eth_world).bind
      (fun r => (netdev_dpdk_set_mtu id demo_eth_env 20 r.2.1 1500 r.2.2.2.1 r.2.2.2.2).map
        (fun s => (s.1, s.2.1.mtu, s.2.1.max_packet_len, s.2.1.dpdk_mp, s.2.2.1,
          decide (s.2.2.2.trace = r.2.2.2.2.trace)))))
      = some (0, 1500, 1518, some 0,
          [{ mp := 77, mtu := 1500, socket_id := 0, refcount := 1 }], true) := by
  constructor
  · rfl
  · rfl

/-- C30, the code at the failing input: with an empty registry and an empty device list,
`netdev_dpdk_init` is called for the physical port 5 while `rte_eth_dev_count()` is 2.
`dpdk_mp_get` creates the pool entry with `refcount = 1`, `dpdk_eth_dev_init` then fails
with `ENODEV`, and the function returns without `dpdk_mp_put` and without adding the device
to `dpdk_list`: the entry has `refcount = 1` and no device of the list uses it.  After a
successful construction on port 0 and its `netdev_dpdk_destruct`, the list is empty again
and the count is still 1. -/
theorem netdev_dpdk_init_failure_keeps_reference :
    (netdev_dpdk_init demo_eth_env 20 1 netdev_dpdk_alloc 5 dpdk_dev_type.DPDK_DEV_ETH [] []
        demo_eth_world).map
      (fun r => (r.1, r.2.2.1.length, r.2.2.2.1, pool_users r.2.2.1 0))
      = some (ENODEV, 0, [{ mp := 77, mtu := 1500, socket_id := 0, refcount := 1 }], 0) ∧
    (((netdev_dpdk_init demo_eth_env 20 1 netdev_dpdk_alloc 5 dpdk_dev_type.DPDK_DEV_ETH [] []
        demo_eth_world).bind
      (fun r => netdev_dpdk_init demo_eth_env 20 1 netdev_dpdk_alloc 0
        dpdk_dev_type.DPDK_DEV_ETH r.2.2.1 r.2.2.2.1 r.2.2.2.2)).map
      (fun r => (r.1, r.2.2.1.length, r.2.2.2.1, pool_users r.2.2.1 0)))
      = some (0, 1, [{ mp := 77, mtu := 1500, socket_id := 0, refcount := 2 }], 1) ∧
    ((((netdev_dpdk_init demo_eth_env 20 1 netdev_dpdk_alloc 5 dpdk_dev_type.DPDK_DEV_ETH [] []
        demo_eth_world).bind
      (fun r => netdev_dpdk_init demo_eth_env 20 1 netdev_dpdk_alloc 0
        dpdk_dev_type.DPDK_DEV_ETH r.2.2.1 r.2.2.2.1 r.2.2.2.2)).bind
      (fun r => netdev_dpdk_destruct 0 r.2.2.1 r.2.2.2.1 r.2.2.2.2)).map
      (fun r => (r.1.length, r.2.1, pool_users r.1 0)))
      = some (0, [{ mp := 77, mtu := 1500, socket_id := 0, refcount := 1 }], 0) := by
  refine ⟨?_, ?_, ?_⟩
  · decide
  · decide
  · decide

end NetdevDpdk
